import Mathlib

/-!
# Verification development for the OSRM multi-level Dijkstra core

Shallow embedding of `CellCustomizer` (include/customizer/cell_customizer.hpp),
of the level-mask computation of `Partitioner::Run` (src/partition/partitioner.cpp)
and of `annotatePath` (include/engine/routing_algorithms/routing_base.hpp).

Conventions.
* `NodeID`, `CellID`, `LevelID` are natural numbers.
* `EdgeWeight` and `EdgeDuration` are signed 32-bit integers in the program
  (`annotatePath` clamps negative values with `std::max (..., 0)`).  Signed overflow
  is undefined behaviour in C++, so signed sums are taken in `Int`; they agree with
  the program whenever no sum leaves the 32-bit range.  Unsigned arithmetic
  (`std::size_t`, the 32-bit bisection ids) wraps and is written with explicit `%`.
* The query heap, the cell storage, the multi-level partition and the graph type are
  used by the code but declared elsewhere; they are modelled from the specification.
-/

namespace osrm

/-! ## Constants -/

/-- Modelled from the spec: the sentinel `INVALID` of `EdgeWeight` (`u32::MAX`), declared in
the missing `util/typedefs.hpp`.  The claims proved hold for any value of it. -/
def INVALID_EDGE_WEIGHT : Int := 4294967295

/-- Modelled from the spec: the sentinel `MAX_DURATION` written for unreached destinations,
declared in the missing `util/typedefs.hpp`.  The claims proved hold for any value of it. -/
def MAXIMAL_EDGE_DURATION : Int := 4294967295

/-! ## Query heap -/

/-- The payload `CellCustomizer::HeapData`. -/
structure HeapData where
  from_clique : Bool
  duration : Int
deriving DecidableEq, Repr

/-- Modelled from the spec: the query heap of `util/query_heap.hpp` (section 4.1), a min-heap
with a side index from node id to key and payload.  `inserted_nodes` lists every node inserted
since the last `Clear`, `heap` lists the nodes still queued. -/
structure Heap where
  inserted_nodes : List Nat
  heap : List Nat
  key : Nat → Int
  data : Nat → HeapData

namespace Heap

/-- Modelled from the spec: the heap operation `Clear` (section 4.1): forget every inserted
node. -/
def Clear (_h : Heap) : Heap :=
  ⟨[], [], fun _ => 0, fun _ => ⟨false, 0⟩⟩

/-- Modelled from the spec: the heap operation `insert(node, key, data)` (section 4.1). -/
def Insert (h : Heap) (node : Nat) (weight : Int) (data : HeapData) : Heap :=
  ⟨h.inserted_nodes ++ [node], h.heap ++ [node],
   fun n => if n = node then weight else h.key n,
   fun n => if n = node then data else h.data n⟩

/-- Modelled from the spec: the heap operation `was_inserted(node)` (section 4.1). -/
def WasInserted (h : Heap) (node : Nat) : Bool :=
  decide (node ∈ h.inserted_nodes)

/-- Modelled from the spec: the heap operation `get_key(node)` (section 4.1). -/
def GetKey (h : Heap) (node : Nat) : Int := h.key node

/-- Modelled from the spec: the heap operation `get_data(node)` (section 4.1). -/
def GetData (h : Heap) (node : Nat) : HeapData := h.data node

/-- Modelled from the spec: assignment through the reference that the heap operation
`get_data(node)` returns (section 4.1). -/
def SetData (h : Heap) (node : Nat) (data : HeapData) : Heap :=
  ⟨h.inserted_nodes, h.heap, h.key, fun n => if n = node then data else h.data n⟩

/-- Modelled from the spec: the heap operation `decrease_key(node, key)` (section 4.1). -/
def DecreaseKey (h : Heap) (node : Nat) (weight : Int) : Heap :=
  ⟨h.inserted_nodes, h.heap, fun n => if n = node then weight else h.key n, h.data⟩

/-- Modelled from the spec: the heap operation `empty()` (section 4.1). -/
def Empty (h : Heap) : Bool := h.heap.isEmpty

/-- Modelled from the spec: the queued node that is least for the order on `(key, node)` the
heap is keyed on (section 4.1). -/
def minNode (key : Nat → Int) : List Nat → Option Nat
  | [] => none
  | n :: rest =>
    match minNode key rest with
    | none => some n
    | some m => if key n < key m ∨ (key n = key m ∧ n ≤ m) then some n else some m

/-- Modelled from the spec: the heap operation `delete_min() → node` (section 4.1): the least
queued node leaves the queue; its key and payload stay readable.  On an empty queue (never
called there) nothing changes. -/
def DeleteMin (h : Heap) : Nat × Heap :=
  match minNode h.key h.heap with
  | none => (0, h)
  | some n => (n, ⟨h.inserted_nodes, h.heap.erase n, h.key, h.data⟩)

end Heap

/-! ## Graph, partition and cell storage -/

/-- Modelled from the spec: an edge of the edge-based graph with its `EdgeData` (section 3). -/
structure Edge where
  target : Nat
  weight : Int
  duration : Int
  forward : Bool
  backward : Bool
deriving DecidableEq, Repr

/-- Modelled from the spec: the forward-star graph (section 3), one edge list per node. -/
structure Graph where
  adj : List (List Edge)

/-- Modelled from the spec: `MultiLevelPartition` (section 3), the cell id of a node at each
level, with the number of levels and of cells per level. -/
structure MultiLevelPartition where
  cell : Nat → Nat → Nat
  number_of_levels : Nat
  number_of_cells : Nat → Nat

namespace MultiLevelPartition

/-- Modelled from the spec: the partition accessor `GetCell(level, node)`. -/
def GetCell (p : MultiLevelPartition) (level node : Nat) : Nat := p.cell level node

/-- Modelled from the spec: the partition accessor `GetNumberOfLevels()`. -/
def GetNumberOfLevels (p : MultiLevelPartition) : Nat := p.number_of_levels

/-- Modelled from the spec: the partition accessor `GetNumberOfCells(level)`. -/
def GetNumberOfCells (p : MultiLevelPartition) (level : Nat) : Nat := p.number_of_cells level

end MultiLevelPartition

namespace Graph

/-- Modelled from the spec: the graph accessor `num_nodes` (section 9). -/
def GetNumberOfNodes (g : Graph) : Nat := g.adj.length

/-- Modelled from the spec: the graph accessor `edge_range(node)` (section 9). -/
def GetAdjacentEdgeRange (g : Graph) (node : Nat) : List Edge := g.adj.getD node []

/-- Modelled from the spec: `internal_edge_range(level, node)` (section 9), the edges of `node`
that stay inside the cell of `node` at `level`. -/
def GetInternalEdgeRange (g : Graph) (p : MultiLevelPartition) (level node : Nat) : List Edge :=
  (g.GetAdjacentEdgeRange node).filter
    (fun e => p.GetCell level e.target == p.GetCell level node)

end Graph

/-- Modelled from the spec: one cell of the cell storage (section 3): the boundary node lists
and the clique tables `out_weight[s][d]`, `out_duration[s][d]`, addressed by the row of the
source and the column of the destination. -/
structure CellData where
  source_boundary : List Nat
  destination_boundary : List Nat
  weights : Nat → Nat → Int
  durations : Nat → Nat → Int

namespace CellData

/-- Modelled from the spec: the cell accessor `GetSourceNodes()`, the source boundary list. -/
def GetSourceNodes (c : CellData) : List Nat := c.source_boundary

/-- Modelled from the spec: the cell accessor `GetDestinationNodes()`, the destination
boundary list. -/
def GetDestinationNodes (c : CellData) : List Nat := c.destination_boundary

/-- Modelled from the spec: the cell accessor `GetOutWeight(node)`: the clique row of the first
occurrence of `node` among the source boundary nodes, empty when `node` is no source boundary
node. -/
def GetOutWeight (c : CellData) (node : Nat) : List Int :=
  if c.source_boundary.indexOf node < c.source_boundary.length then
    (List.range c.destination_boundary.length).map (c.weights (c.source_boundary.indexOf node))
  else []

/-- Modelled from the spec: the cell accessor `GetOutDuration(node)`, as `GetOutWeight`. -/
def GetOutDuration (c : CellData) (node : Nat) : List Int :=
  if c.source_boundary.indexOf node < c.source_boundary.length then
    (List.range c.destination_boundary.length).map (c.durations (c.source_boundary.indexOf node))
  else []

/-- Modelled from the spec: writing `values` through the range `GetOutWeight(source)`, front
to back. -/
def SetOutWeight (c : CellData) (source : Nat) (values : List Int) : CellData :=
  if c.source_boundary.indexOf source < c.source_boundary.length then
    ⟨c.source_boundary, c.destination_boundary,
     fun r k => if r = c.source_boundary.indexOf source ∧ k < values.length
                then values.getD k 0 else c.weights r k,
     c.durations⟩
  else c

/-- Modelled from the spec: writing `values` through the range `GetOutDuration(source)`, front
to back. -/
def SetOutDuration (c : CellData) (source : Nat) (values : List Int) : CellData :=
  if c.source_boundary.indexOf source < c.source_boundary.length then
    ⟨c.source_boundary, c.destination_boundary, c.weights,
     fun r k => if r = c.source_boundary.indexOf source ∧ k < values.length
                then values.getD k 0 else c.durations r k⟩
  else c

end CellData

/-- Modelled from the spec: `CellStorage` (section 4.3), the cell of every `(level, cell id)`. -/
structure CellStorage where
  cells : Nat → Nat → CellData

namespace CellStorage

/-- Modelled from the spec: the storage accessor `GetCell(level, id)`. -/
def GetCell (cs : CellStorage) (level id : Nat) : CellData := cs.cells level id

/-- Modelled from the spec: the storage after the cell `(level, id)` was modified through its
view. -/
def SetCell (cs : CellStorage) (level id : Nat) (c : CellData) : CellStorage :=
  ⟨fun l i => if l = level ∧ i = id then c else cs.cells l i⟩

end CellStorage

/-! ## Cell customizer -/

namespace CellCustomizer

/-- The insert-or-decrease block that `RelaxNode` runs for a clique entry and for an edge:
insert `to_node` if it was never inserted, else decrease its key and replace its payload when the
new weight is smaller. -/
def relax (heap : Heap) (to_node : Nat) (to_weight : Int) (data : HeapData) : Heap :=
  if !heap.WasInserted to_node then
    heap.Insert to_node to_weight data
  else if to_weight < heap.GetKey to_node then
    (heap.DecreaseKey to_node to_weight).SetData to_node data
  else heap

/-- The method `RelaxNode<first_level>`. -/
def RelaxNode (first_level : Bool) (graph : Graph) (partition : MultiLevelPartition)
    (cells : CellStorage) (heap : Heap) (level node : Nat) (weight duration : Int) : Heap :=
  let heap1 :=
    if !first_level then
      if !(heap.GetData node).from_clique then
        let subcell_id := partition.GetCell (level - 1) node
        let subcell := cells.GetCell (level - 1) subcell_id
        (List.zip (subcell.GetOutWeight node)
            (List.zip subcell.GetDestinationNodes (subcell.GetOutDuration node))).foldl
          (fun heap entry =>
            if entry.1 ≠ INVALID_EDGE_WEIGHT then
              relax heap entry.2.1 (weight + entry.1) ⟨true, duration + entry.2.2⟩
            else heap)
          heap
      else heap
    else heap
  (graph.GetInternalEdgeRange partition level node).foldl
    (fun heap edge =>
      if edge.forward &&
          (first_level ||
            partition.GetCell (level - 1) node != partition.GetCell (level - 1) edge.target) then
        relax heap edge.target (weight + edge.weight) ⟨false, duration + edge.duration⟩
      else heap)
    heap1

/-- The search loop of `Customize`, `while (!heap.Empty() && !destinations_set.empty())`,
run for at most `fuel` iterations; returns the heap and the destinations not yet settled. -/
def searchLoop (graph : Graph) (partition : MultiLevelPartition) (cells : CellStorage)
    (level : Nat) : Nat → Heap → List Nat → Heap × List Nat
  | 0, heap, destinations_set => (heap, destinations_set)
  | fuel + 1, heap, destinations_set =>
    if !heap.Empty && !destinations_set.isEmpty then
      let node := heap.DeleteMin.1
      let heap1 := heap.DeleteMin.2
      let weight := heap1.GetKey node
      let duration := (heap1.GetData node).duration
      let heap2 :=
        if level == 1 then RelaxNode true graph partition cells heap1 level node weight duration
        else RelaxNode false graph partition cells heap1 level node weight duration
      searchLoop graph partition cells level fuel heap2
        (destinations_set.filter (fun d => d != node))
    else (heap, destinations_set)

/-- Every node a search from `source` can insert: the source, the targets of the graph's
edges, and the destination boundary nodes of the sub-cells of those. -/
def searchUniverse (graph : Graph) (partition : MultiLevelPartition) (cells : CellStorage)
    (level source : Nat) : List Nat :=
  let base := source :: (graph.adj.flatten.map Edge.target)
  base ++ base.flatMap (fun n =>
    (cells.GetCell (level - 1) (partition.GetCell (level - 1) n)).GetDestinationNodes)

/-- A number of iterations the search loop never exceeds (each iteration settles another
node of `searchUniverse`); `searchLoop_exit` proves the loop ends by its own condition. -/
def searchFuel (graph : Graph) (partition : MultiLevelPartition) (cells : CellStorage)
    (level source : Nat) : Nat :=
  (searchUniverse graph partition cells level source).length + 1

/-- The search of `Customize` for one source: clear the heap, insert the source with key 0
and run the loop. -/
def search (graph : Graph) (partition : MultiLevelPartition) (heap : Heap)
    (cells : CellStorage) (level source : Nat) (destinations : List Nat) : Heap :=
  (searchLoop graph partition cells level (searchFuel graph partition cells level source)
    (heap.Clear.Insert source 0 ⟨false, 0⟩) destinations).1

/-- The method `Customize(graph, heap, cells, level, id)`: for each source boundary node of
the cell run the search and write the clique row of the source. -/
def Customize (graph : Graph) (partition : MultiLevelPartition) (heap : Heap)
    (cells : CellStorage) (level id : Nat) : CellStorage :=
  let cell := cells.GetCell level id
  let destinations := cell.GetDestinationNodes
  cell.GetSourceNodes.foldl
    (fun cells source =>
      let heap1 := search graph partition heap cells level source destinations
      let weights := destinations.map
        (fun destination =>
          if heap1.WasInserted destination then heap1.GetKey destination
          else INVALID_EDGE_WEIGHT)
      let durations := destinations.map
        (fun destination =>
          if heap1.WasInserted destination then (heap1.GetData destination).duration
          else MAXIMAL_EDGE_DURATION)
      cells.SetCell level id
        (((cells.GetCell level id).SetOutWeight source weights).SetOutDuration source durations))
    cells

/-- The method `Customize(graph, cells)`: every level from 1 upwards, every cell of the level.
The cells of one level are independent of each other and are taken in order of their id. -/
def CustomizeCells (graph : Graph) (partition : MultiLevelPartition)
    (cells : CellStorage) : CellStorage :=
  (List.range' 1 (partition.GetNumberOfLevels - 1)).foldl
    (fun cells level =>
      (List.range (partition.GetNumberOfCells level)).foldl
        (fun cells id => Customize graph partition ⟨[], [], fun _ => 0, fun _ => ⟨false, 0⟩⟩
          cells level id)
        cells)
    cells

/-! ### The variant of the search that relaxes the sub-cell clique at every node -/

/-- The variant of `RelaxNode<false>` described by the rationale for the `from_clique` flag:
the sub-cell clique is relaxed at every dequeued node, whatever its flag. -/
def RelaxNodeEveryNode (graph : Graph) (partition : MultiLevelPartition)
    (cells : CellStorage) (heap : Heap) (level node : Nat) (weight duration : Int) : Heap :=
  let heap1 :=
    let subcell_id := partition.GetCell (level - 1) node
    let subcell := cells.GetCell (level - 1) subcell_id
    (List.zip (subcell.GetOutWeight node)
        (List.zip subcell.GetDestinationNodes (subcell.GetOutDuration node))).foldl
      (fun heap entry =>
        if entry.1 ≠ INVALID_EDGE_WEIGHT then
          relax heap entry.2.1 (weight + entry.1) ⟨true, duration + entry.2.2⟩
        else heap)
      heap
  (graph.GetInternalEdgeRange partition level node).foldl
    (fun heap edge =>
      if edge.forward &&
          partition.GetCell (level - 1) node != partition.GetCell (level - 1) edge.target then
        relax heap edge.target (weight + edge.weight) ⟨false, duration + edge.duration⟩
      else heap)
    heap1

/-- The search loop of the variant. -/
def searchLoopEveryNode (graph : Graph) (partition : MultiLevelPartition) (cells : CellStorage)
    (level : Nat) : Nat → Heap → List Nat → Heap × List Nat
  | 0, heap, destinations_set => (heap, destinations_set)
  | fuel + 1, heap, destinations_set =>
    if !heap.Empty && !destinations_set.isEmpty then
      let node := heap.DeleteMin.1
      let heap1 := heap.DeleteMin.2
      let weight := heap1.GetKey node
      let duration := (heap1.GetData node).duration
      let heap2 :=
        if level == 1 then RelaxNode true graph partition cells heap1 level node weight duration
        else RelaxNodeEveryNode graph partition cells heap1 level node weight duration
      searchLoopEveryNode graph partition cells level fuel heap2
        (destinations_set.filter (fun d => d != node))
    else (heap, destinations_set)

/-- The variant of `Customize(graph, heap, cells, level, id)` built on `RelaxNodeEveryNode`. -/
def CustomizeEveryNode (graph : Graph) (partition : MultiLevelPartition) (heap : Heap)
    (cells : CellStorage) (level id : Nat) : CellStorage :=
  let cell := cells.GetCell level id
  let destinations := cell.GetDestinationNodes
  cell.GetSourceNodes.foldl
    (fun cells source =>
      let heap1 := (searchLoopEveryNode graph partition cells level
        (searchFuel graph partition cells level source)
        (heap.Clear.Insert source 0 ⟨false, 0⟩) destinations).1
      let weights := destinations.map
        (fun destination =>
          if heap1.WasInserted destination then heap1.GetKey destination
          else INVALID_EDGE_WEIGHT)
      let durations := destinations.map
        (fun destination =>
          if heap1.WasInserted destination then (heap1.GetData destination).duration
          else MAXIMAL_EDGE_DURATION)
      cells.SetCell level id
        (((cells.GetCell level id).SetOutWeight source weights).SetOutDuration source durations))
    cells

/-! ### Observations of a search -/

/-- The keys of the nodes returned by the successive `DeleteMin` calls of the search loop. -/
def deleteMinKeys (graph : Graph) (partition : MultiLevelPartition) (cells : CellStorage)
    (level : Nat) : Nat → Heap → List Nat → List Int
  | 0, _, _ => []
  | fuel + 1, heap, destinations_set =>
    if !heap.Empty && !destinations_set.isEmpty then
      let node := heap.DeleteMin.1
      let heap1 := heap.DeleteMin.2
      let weight := heap1.GetKey node
      let duration := (heap1.GetData node).duration
      let heap2 :=
        if level == 1 then RelaxNode true graph partition cells heap1 level node weight duration
        else RelaxNode false graph partition cells heap1 level node weight duration
      weight :: deleteMinKeys graph partition cells level fuel heap2
        (destinations_set.filter (fun d => d != node))
    else []

/-- One thing `RelaxNode` relaxes: the node reached, the weight and duration added, and the
`from_clique` flag stored with the node. -/
structure Arc where
  to_node : Nat
  weight : Int
  duration : Int
  from_clique : Bool
deriving DecidableEq, Repr

/-- The clique entries `RelaxNode<false>` relaxes at `node`: the valid entries of the row of
`node` in the table of its sub-cell, each with its destination boundary node. -/
def cliqueArcs (partition : MultiLevelPartition) (cells : CellStorage) (level node : Nat) :
    List Arc :=
  let subcell := cells.GetCell (level - 1) (partition.GetCell (level - 1) node)
  ((List.zip (subcell.GetOutWeight node)
      (List.zip subcell.GetDestinationNodes (subcell.GetOutDuration node))).filter
    (fun entry => decide (entry.1 ≠ INVALID_EDGE_WEIGHT))).map
    (fun entry => ⟨entry.2.1, entry.1, entry.2.2, true⟩)

/-- The edges `RelaxNode<first_level>` relaxes at `node`. -/
def edgeArcs (first_level : Bool) (graph : Graph) (partition : MultiLevelPartition)
    (level node : Nat) : List Arc :=
  ((graph.GetInternalEdgeRange partition level node).filter
    (fun edge => edge.forward &&
      (first_level ||
        partition.GetCell (level - 1) node != partition.GetCell (level - 1) edge.target))).map
    (fun edge => ⟨edge.target, edge.weight, edge.duration, false⟩)

/-- Relaxing a list of arcs from a node dequeued with key `weight` and duration `duration`. -/
def relaxArcs (weight duration : Int) (arcs : List Arc) (heap : Heap) : Heap :=
  arcs.foldl
    (fun heap a => relax heap a.to_node (weight + a.weight) ⟨a.from_clique, duration + a.duration⟩)
    heap

/-- One iteration of a search over clique arcs `C` and edge arcs `E`: dequeue the least node,
relax its clique arcs unless it carries the `from_clique` flag, then its edge arcs. -/
def genStep (C E : Nat → List Arc) (heap : Heap) : Heap :=
  relaxArcs (heap.DeleteMin.2.GetKey heap.DeleteMin.1)
    (heap.DeleteMin.2.GetData heap.DeleteMin.1).duration
    ((if (heap.DeleteMin.2.GetData heap.DeleteMin.1).from_clique then []
      else C heap.DeleteMin.1) ++ E heap.DeleteMin.1)
    heap.DeleteMin.2

/-- The clique arcs of the search at `level`: none at level 1. -/
def levelCliqueArcs (partition : MultiLevelPartition) (cells : CellStorage) (level : Nat) :
    Nat → List Arc :=
  fun node => if level == 1 then [] else cliqueArcs partition cells level node

/-- The edge arcs of the search at `level`. -/
def levelEdgeArcs (graph : Graph) (partition : MultiLevelPartition) (level : Nat) :
    Nat → List Arc :=
  fun node => edgeArcs (level == 1) graph partition level node

/-- The arcs of the overlay the search at `level` runs on: clique entries of the sub-cells
and edges between sub-cells (at level 1: the forward internal edges). -/
def overlayArcs (graph : Graph) (partition : MultiLevelPartition) (cells : CellStorage)
    (level : Nat) : Nat → List Arc :=
  fun node => levelCliqueArcs partition cells level node ++ levelEdgeArcs graph partition level node

/-- A path over `arcs` from `s`, with the sum of its weights and of its durations. -/
inductive Path (arcs : Nat → List Arc) (s : Nat) : Nat → Int → Int → Prop
  | nil : Path arcs s s 0 0
  | snoc {x : Nat} {W D : Int} (a : Arc) : Path arcs s x W D → a ∈ arcs x →
      Path arcs s a.to_node (W + a.weight) (D + a.duration)

/-- A path from `s` that uses only forward-flagged edges of the internal edge range of
`level`, with the sum of the edge weights and of the edge durations. -/
inductive InternalPath (graph : Graph) (partition : MultiLevelPartition) (level s : Nat) :
    Nat → Int → Int → Prop
  | nil : InternalPath graph partition level s s 0 0
  | snoc {x : Nat} {W D : Int} (e : Edge) : InternalPath graph partition level s x W D →
      e ∈ graph.GetInternalEdgeRange partition level x → e.forward = true →
      InternalPath graph partition level s e.target (W + e.weight) (D + e.duration)

/-- The slot `out_weight[s][t]` read through `GetOutWeight(s)` at the column `k` of `t`. -/
def outWeight (cells : CellStorage) (level id s k : Nat) : Option Int :=
  ((cells.GetCell level id).GetOutWeight s)[k]?

/-- The slot `out_duration[s][t]` read through `GetOutDuration(s)` at the column `k` of `t`. -/
def outDuration (cells : CellStorage) (level id s k : Nat) : Option Int :=
  ((cells.GetCell level id).GetOutDuration s)[k]?

/-! ### Invariants of a search -/

/-- The node was dequeued: it was inserted and is no longer queued. -/
def Settled (h : Heap) (n : Nat) : Prop := n ∈ h.inserted_nodes ∧ n ∉ h.heap

/-- Well-formedness of the heap: no node is listed twice and queued nodes were inserted. -/
structure HeapOK (h : Heap) : Prop where
  nodup_inserted : h.inserted_nodes.Nodup
  nodup_heap : h.heap.Nodup
  heap_sub : ∀ n ∈ h.heap, n ∈ h.inserted_nodes

/-- The clique arcs carry the flag, the edge arcs do not. -/
structure ArcFlags (C E : Nat → List Arc) : Prop where
  clique : ∀ x, ∀ a ∈ C x, a.from_clique = true
  edge : ∀ x, ∀ a ∈ E x, a.from_clique = false

/-- All arc weights are non-negative. -/
def ArcsNonneg (C E : Nat → List Arc) : Prop :=
  ∀ x, ∀ a ∈ C x ++ E x, 0 ≤ a.weight

/-- The triangle inequality of the clique arcs: two consecutive clique arcs are dominated by a
single one. -/
def CliqueTriangle (C : Nat → List Arc) : Prop :=
  ∀ p, ∀ a1 ∈ C p, ∀ a2 ∈ C a1.to_node,
    ∃ a3 ∈ C p, a3.to_node = a2.to_node ∧ a3.weight ≤ a1.weight + a2.weight

/-- Invariant of every search from `s`: the heap is well formed, keys and durations of the
inserted nodes are realised by paths of the overlay, and the inserted nodes stay inside the
universe `U1`, those without the flag inside `U0`. -/
structure BaseInv (C E : Nat → List Arc) (U0 U1 : List Nat) (s : Nat) (h : Heap) : Prop where
  ok : HeapOK h
  source : s ∈ h.inserted_nodes
  path : ∀ n ∈ h.inserted_nodes, Path (fun x => C x ++ E x) s n (h.key n) (h.data n).duration
  inU1 : ∀ n ∈ h.inserted_nodes, n ∈ U1
  inU0 : ∀ n ∈ h.inserted_nodes, (h.data n).from_clique = false → n ∈ U0

/-- The universes `U0 ⊆ U1` contain the source and every node an arc can reach. -/
structure Universe (C E : Nat → List Arc) (U0 U1 : List Nat) (s : Nat) : Prop where
  source : s ∈ U0
  sub : ∀ n ∈ U0, n ∈ U1
  edge : ∀ x, ∀ a ∈ E x, a.to_node ∈ U0
  clique : ∀ x ∈ U0, ∀ a ∈ C x, a.to_node ∈ U1

/-- Invariant of a search with non-negative weights: keys are non-negative, the source keeps
key 0 and no settled node has a larger key than a queued one. -/
structure MonoInv (s : Nat) (h : Heap) : Prop where
  source_key : h.key s = 0
  keys_nonneg : ∀ n ∈ h.inserted_nodes, 0 ≤ h.key n
  mono : ∀ r, Settled h r → ∀ m ∈ h.heap, h.key r ≤ h.key m

/-- Invariant of a search whose clique arcs satisfy the triangle inequality: a node carrying
the flag was reached from a node all of whose clique arcs are satisfied, and the targets of
all arcs of a settled node were inserted. -/
structure TriInv (C E : Nat → List Arc) (h : Heap) : Prop where
  witness : ∀ n ∈ h.inserted_nodes, (h.data n).from_clique = true →
    ∃ p K, ∃ a1 ∈ C p, a1.to_node = n ∧ h.key n = K + a1.weight ∧
      ∀ a ∈ C p, a.to_node ∈ h.inserted_nodes ∧ h.key a.to_node ≤ K + a.weight
  closed : ∀ r, Settled h r → ∀ a ∈ C r ++ E r, a.to_node ∈ h.inserted_nodes

/-- Every arc of a settled node is satisfied. -/
def RelaxedInv (C E : Nat → List Arc) (h : Heap) : Prop :=
  ∀ r, Settled h r → ∀ a ∈ C r ++ E r,
    a.to_node ∈ h.inserted_nodes ∧ h.key a.to_node ≤ h.key r + a.weight

/-- One iteration of the search loop on the heap. -/
def stepHeap (graph : Graph) (partition : MultiLevelPartition) (cells : CellStorage)
    (level : Nat) (heap : Heap) : Heap :=
  if level == 1 then
    RelaxNode true graph partition cells heap.DeleteMin.2 level heap.DeleteMin.1
      (heap.DeleteMin.2.GetKey heap.DeleteMin.1)
      (heap.DeleteMin.2.GetData heap.DeleteMin.1).duration
  else
    RelaxNode false graph partition cells heap.DeleteMin.2 level heap.DeleteMin.1
      (heap.DeleteMin.2.GetKey heap.DeleteMin.1)
      (heap.DeleteMin.2.GetData heap.DeleteMin.1).duration

/-- The source and the targets of the graph's edges: the nodes a search from `source` can
reach through an edge. -/
def searchBase (graph : Graph) (source : Nat) : List Nat :=
  source :: (graph.adj.flatten.map Edge.target)

/-- The weights `Customize` writes into the clique row of `source`. -/
def searchWeights (graph : Graph) (partition : MultiLevelPartition) (heap : Heap)
    (cells : CellStorage) (level source : Nat) (destinations : List Nat) : List Int :=
  destinations.map
    (fun destination =>
      if (search graph partition heap cells level source destinations).WasInserted destination
      then (search graph partition heap cells level source destinations).GetKey destination
      else INVALID_EDGE_WEIGHT)

/-- The durations `Customize` writes into the clique row of `source`. -/
def searchDurations (graph : Graph) (partition : MultiLevelPartition) (heap : Heap)
    (cells : CellStorage) (level source : Nat) (destinations : List Nat) : List Int :=
  destinations.map
    (fun destination =>
      if (search graph partition heap cells level source destinations).WasInserted destination
      then ((search graph partition heap cells level source destinations).GetData
        destination).duration
      else MAXIMAL_EDGE_DURATION)

/-- The body of the loop over the sources in `Customize`. -/
def customizeSource (graph : Graph) (partition : MultiLevelPartition) (heap : Heap)
    (level id : Nat) (destinations : List Nat) (cells : CellStorage) (source : Nat) :
    CellStorage :=
  cells.SetCell level id
    (((cells.GetCell level id).SetOutWeight source
        (searchWeights graph partition heap cells level source destinations)).SetOutDuration
      source (searchDurations graph partition heap cells level source destinations))

/-! ### Example data -/

/-- A heap before its first use. -/
def emptyHeap : Heap := ⟨[], [], fun _ => 0, fun _ => ⟨false, 0⟩⟩

/-- The graph with the single edge `0 → 1` of weight 5 and duration 7. -/
def lineGraph : Graph := ⟨[[⟨1, 5, 7, true, false⟩], []]⟩

/-- The partition with a single cell `0` at every level. -/
def oneCellPartition : MultiLevelPartition := ⟨fun _ _ => 0, 2, fun _ => 1⟩

/-- A storage whose cells all have the source boundary node 0 and the destination boundary
node 1, with tables not yet customized. -/
def lineCells : CellStorage := ⟨fun _ _ => ⟨[0], [1], fun _ _ => 0, fun _ _ => 0⟩⟩

/-- A storage whose cells all have the source boundary node 0 and the destination boundary
nodes 1 and 0, with tables not yet customized. -/
def loopCells : CellStorage := ⟨fun _ _ => ⟨[0], [1, 0], fun _ _ => 0, fun _ _ => 0⟩⟩

/-! ### Exact tables and complete boundary lists -/

/-- Every table of level `lvl` holds, for each of its (source, destination) pairs, the exact
shortest-path weight inside the cell, and `INVALID` where no path exists. -/
def TablesExact (graph : Graph) (partition : MultiLevelPartition) (cells : CellStorage)
    (lvl : Nat) : Prop :=
  ∀ i src k t, src ∈ (cells.GetCell lvl i).source_boundary →
    (cells.GetCell lvl i).destination_boundary[k]? = some t →
    ((¬ ∃ W D, InternalPath graph partition lvl src t W D) ∧
        outWeight cells lvl i src k = some INVALID_EDGE_WEIGHT) ∨
      ∃ m, outWeight cells lvl i src k = some m ∧ m ≠ INVALID_EDGE_WEIGHT ∧
        (∃ D, InternalPath graph partition lvl src t m D) ∧
        ∀ W D, InternalPath graph partition lvl src t W D → m ≤ W

/-- A forward edge inside the sub-cell of `x` leaves `x`. -/
def HasInnerOut (graph : Graph) (partition : MultiLevelPartition) (level x : Nat) : Prop :=
  ∃ e ∈ graph.GetInternalEdgeRange partition (level - 1) x, e.forward = true

/-- A forward edge inside the sub-cell of `x` enters `x`. -/
def HasInnerIn (graph : Graph) (partition : MultiLevelPartition) (level x : Nat) : Prop :=
  ∃ y, ∃ e ∈ graph.GetInternalEdgeRange partition (level - 1) y,
    e.forward = true ∧ e.target = x

/-- A path inside the cell `c` can enter a sub-cell at `x`: `x` is a source boundary node of
`c` or the head of a forward edge of the level between two sub-cells. -/
def EntersSubcell (graph : Graph) (partition : MultiLevelPartition) (cells : CellStorage)
    (level c x : Nat) : Prop :=
  x ∈ (cells.GetCell level c).source_boundary ∨
    ∃ y, ∃ e ∈ graph.GetInternalEdgeRange partition level y, e.forward = true ∧ e.target = x ∧
      partition.GetCell (level - 1) y ≠ partition.GetCell (level - 1) x

/-- A path inside the cell `c` can leave a sub-cell at `x`: `x` is a destination boundary node
of `c` or the tail of a forward edge of the level between two sub-cells. -/
def LeavesSubcell (graph : Graph) (partition : MultiLevelPartition) (cells : CellStorage)
    (level c x : Nat) : Prop :=
  x ∈ (cells.GetCell level c).destination_boundary ∨
    ∃ e ∈ graph.GetInternalEdgeRange partition level x, e.forward = true ∧
      partition.GetCell (level - 1) x ≠ partition.GetCell (level - 1) e.target

/-- The boundary lists of the sub-cells are complete for the cell `c`: a node where a path can
enter its sub-cell and continue inside it is a source boundary node of the sub-cell, and a
node where a path running inside its sub-cell can leave it is a destination boundary node of
the sub-cell. -/
structure BoundaryComplete (graph : Graph) (partition : MultiLevelPartition)
    (cells : CellStorage) (level c : Nat) : Prop where
  source : ∀ x, EntersSubcell graph partition cells level c x →
    HasInnerOut graph partition level x →
    x ∈ (cells.GetCell (level - 1) (partition.GetCell (level - 1) x)).source_boundary
  destination : ∀ x, LeavesSubcell graph partition cells level c x →
    HasInnerIn graph partition level x →
    x ∈ (cells.GetCell (level - 1) (partition.GetCell (level - 1) x)).destination_boundary

/-- The stretch of a path inside one sub-cell, from the node `e` where the path entered the
sub-cell to `v`: empty, or a path over forward edges inside the sub-cell. -/
def InnerStretch (graph : Graph) (partition : MultiLevelPartition) (level e v : Nat)
    (W : Int) : Prop :=
  (e = v ∧ W = 0) ∨
    (HasInnerOut graph partition level e ∧ HasInnerIn graph partition level v ∧
      ∃ D, InternalPath graph partition (level - 1) e v W D)

/-- The graph with the edges `0 → 1`, `1 → 2`, `0 → 3` and `3 → 2`, each of weight 1. -/
def crossGraph : Graph :=
  ⟨[[⟨1, 1, 10, true, false⟩, ⟨3, 1, 1, true, false⟩], [⟨2, 1, 10, true, false⟩], [],
    [⟨2, 1, 1, true, false⟩]]⟩

/-- The nested partition of the nodes of `crossGraph`: at level 1 the cells `{0, 1}`, `{2}`,
`{3}`, at level 2 the cells `{0, 1, 2}` and `{3}`. -/
def crossPartition : MultiLevelPartition :=
  ⟨fun l n =>
      if l = 0 then n
      else if l = 1 then (if n ≤ 1 then 0 else n - 1)
      else if l = 2 then (if n ≤ 2 then 0 else 1)
      else 0,
    3, fun l => if l = 1 then 3 else 2⟩

/-- The cell storage of `crossGraph` under `crossPartition`, with the boundary nodes of
section 4.3 (source boundary: an edge leaves the cell; destination boundary: an edge enters
the cell from outside) and all table entries 0. -/
def crossCells : CellStorage :=
  ⟨fun l i =>
      if l = 1 then
        (if i = 0 then ⟨[0, 1], [], fun _ _ => 0, fun _ _ => 0⟩
         else if i = 1 then ⟨[], [2], fun _ _ => 0, fun _ _ => 0⟩
         else if i = 2 then ⟨[3], [3], fun _ _ => 0, fun _ _ => 0⟩
         else ⟨[], [], fun _ _ => 0, fun _ _ => 0⟩)
      else if l = 2 then
        (if i = 0 then ⟨[0], [2], fun _ _ => 0, fun _ _ => 0⟩
         else if i = 1 then ⟨[3], [3], fun _ _ => 0, fun _ _ => 0⟩
         else ⟨[], [], fun _ _ => 0, fun _ _ => 0⟩)
      else ⟨[], [], fun _ _ => 0, fun _ _ => 0⟩⟩

/-- A storage under `oneCellPartition` whose level-1 cell 0 has the source boundary nodes 0, 1
and the destination boundary nodes 1, 2 with the clique weights `d(0,1) = 1`, `d(0,2) = 2`,
`d(1,1) = 0`, `d(1,2) = 1`, and whose cells 0 of the other levels have the source boundary
node 0 and the destination boundary nodes 1, 2. -/
def cliqueCells : CellStorage :=
  ⟨fun l i =>
      if i = 0 then
        (if l = 1 then
          ⟨[0, 1], [1, 2],
            fun r k => if r = 0 then (if k = 0 then 1 else 2) else (if k = 0 then 0 else 1),
            fun r k => if r = 0 then (if k = 0 then 3 else 6) else (if k = 0 then 0 else 3)⟩
         else ⟨[0], [1, 2], fun _ _ => 0, fun _ _ => 0⟩)
      else ⟨[], [], fun _ _ => 0, fun _ _ => 0⟩⟩

/-- A storage for `lineGraph` under `oneCellPartition`: the cell 0 of every level has the
source boundary node 0 and the destination boundary node 1, with the exact weight 5 and
duration 7 in its table. -/
def lineCellsExact : CellStorage :=
  ⟨fun _ i =>
      if i = 0 then ⟨[0], [1], fun _ _ => 5, fun _ _ => 7⟩
      else ⟨[], [], fun _ _ => 0, fun _ _ => 0⟩⟩

/-- The clique rows of the cell `(level, id)` hold what the searches on the storage itself
produce. -/
def RowsDone (graph : Graph) (partition : MultiLevelPartition) (cs : CellStorage)
    (level id : Nat) : Prop :=
  ∀ s ∈ (cs.GetCell level id).source_boundary,
    ∀ k, k < (cs.GetCell level id).destination_boundary.length →
      (cs.GetCell level id).weights ((cs.GetCell level id).source_boundary.indexOf s) k =
          (searchWeights graph partition emptyHeap cs level s
            (cs.GetCell level id).destination_boundary).getD k 0 ∧
        (cs.GetCell level id).durations ((cs.GetCell level id).source_boundary.indexOf s) k =
          (searchDurations graph partition emptyHeap cs level s
            (cs.GetCell level id).destination_boundary).getD k 0

end CellCustomizer

/-! ## Partitioner: level masks and cell ids -/

namespace Partitioner

/-- Left shift of a 32-bit unsigned value, `x << n`, truncated to 32 bits.  (A shift by the
full width is undefined in C++; the truncated product is taken here.) -/
def shl32 (x n : Nat) : Nat := (x * 2 ^ n) % 2 ^ 32

/-- Subtraction of 32-bit unsigned values, `x - y`. -/
def sub32 (x y : Nat) : Nat := (x + 2 ^ 32 - y % 2 ^ 32) % 2 ^ 32

/-- The number of trailing zero bits, `__builtin_ctz(id)`, of a non-zero 32-bit value. -/
def ctzAux : Nat → Nat → Nat
  | 0, _ => 0
  | fuel + 1, id => if id % 2 = 1 then 0 else 1 + ctzAux fuel (id / 2)

/-- The builtin `__builtin_ctz` on 32-bit values. -/
def ctz (id : Nat) : Nat := ctzAux 32 id

/-- The loop "find bit size of bisection ids" of `Partitioner::Run`. -/
def firstNonzeroPosition (edge_based_partition_ids : List Nat) : Nat :=
  edge_based_partition_ids.foldl
    (fun first_nonzero_position id =>
      if id = 0 then first_nonzero_position else min first_nonzero_position (ctz id))
    32

/-- The mask pushed for the lowest kept bit `bit`:
`((1u << (sizeof(BisectionID) * CHAR_BIT - bit)) - 1) << bit`. -/
def levelMask (bit : Nat) : Nat := shl32 (sub32 (shl32 1 (32 - bit)) 1) bit

/-- The loop that splits the bisection id bits into groups, run for at most `fuel`
iterations: `for (mask_to = 32; mask_to > first_nonzero_position; mask_to = mask_from,
mask_from -= 3)`. -/
def levelMasksLoop (first_nonzero_position : Nat) : Nat → Int → Int → List Nat
  | 0, _, _ => []
  | fuel + 1, mask_to, mask_from =>
    if mask_to > (first_nonzero_position : Int) then
      levelMask (max (first_nonzero_position : Int) mask_from).toNat ::
        levelMasksLoop first_nonzero_position fuel mask_from (mask_from - 3)
    else []

/-- The vector `level_masks` of `Partitioner::Run`, with `mask_from` starting at
`32 - SCCDepth()`.  After its first iteration the loop variable `mask_to` decreases by 3 per
iteration from at most 32 and the loop stops once it is at most `first_nonzero_position`, so
33 iterations are never exceeded (`levelMasks_fuel`). -/
def levelMasks (first_nonzero_position scc_depth : Nat) : List Nat :=
  levelMasksLoop first_nonzero_position 33 32 (32 - (scc_depth : Int))

/-- The table `partitions[level][index]` of `Partitioner::Run`:
`bisection_id & level_masks[level_masks.size() - 1 - level]`. -/
def partitions (edge_based_partition_ids : List Nat) (scc_depth : Nat) : List (List Nat) :=
  let level_masks := levelMasks (firstNonzeroPosition edge_based_partition_ids) scc_depth
  (List.range level_masks.length).map
    (fun level =>
      edge_based_partition_ids.map
        (fun bisection_id => bisection_id &&& level_masks.getD (level_masks.length - 1 - level) 0))

/-- The cell id `partitions[level][node]`. -/
def cellId (edge_based_partition_ids : List Nat) (scc_depth level node : Nat) : Option Nat :=
  match (partitions edge_based_partition_ids scc_depth)[level]? with
  | none => none
  | some row => row[node]?

/-- The number of levels, `level_masks.size()`. -/
def numberOfLevels (edge_based_partition_ids : List Nat) (scc_depth : Nat) : Nat :=
  (levelMasks (firstNonzeroPosition edge_based_partition_ids) scc_depth).length

end Partitioner

/-! ## Query engine: annotation of an unpacked path -/

namespace engine

/-- Modelled from the spec: the instruction `TurnInstruction::NO_TURN()`, declared in the
missing `extractor/guidance/turn_instruction.hpp`; turn instructions are kept as numbers. -/
def NO_TURN : Nat := 0

/-- Modelled from the spec: the constant `EMPTY_ENTRY_CLASS`, declared in the missing
`util/guidance/entry_class.hpp`; entry classes are kept as numbers. -/
def EMPTY_ENTRY_CLASS : Nat := 0

/-- Modelled from the spec: the constant `INVALID_LANEID`, declared in the missing
`util/typedefs.hpp`. -/
def INVALID_LANEID : Nat := 255

/-- Modelled from the spec: the constant `INVALID_LANE_DESCRIPTIONID`, declared in the missing
`util/typedefs.hpp`. -/
def INVALID_LANE_DESCRIPTIONID : Nat := 65535

/-- Modelled from the spec: the lane data `util::guidance::LaneTupleIdPair`, a lane tuple and a
description id, declared in the missing `util/guidance/turn_lanes.hpp`. -/
structure LaneTupleIdPair where
  lanes_in_turn : Nat
  first_lane_from_the_right : Nat
  lane_description_id : Nat
deriving DecidableEq, Repr

/-- The step `PathData` of internal_route_result.hpp. -/
structure PathData where
  turn_via_node : Nat
  name_id : Nat
  weight_until_turn : Int
  duration_until_turn : Int
  turn_instruction : Nat
  lane_data : LaneTupleIdPair
  travel_mode : Nat
  entry_class : Nat
  datasource_id : Nat
  pre_turn_bearing : Nat
  post_turn_bearing : Nat
deriving DecidableEq, Repr

/-- Modelled from the spec: the fields of a phantom node (glossary) that `annotatePath` and the
route plugin read; the segment ids are the `id` members of `forward_segment_id` and
`reverse_segment_id`, and `component_id` is the member `component.id`, the id of the strongly
connected component of the node. -/
structure PhantomNode where
  forward_segment_id : Nat
  reverse_segment_id : Nat
  forward_weight : Int
  reverse_weight : Int
  forward_duration : Int
  reverse_duration : Int
  fwd_segment_position : Nat
  component_id : Nat
deriving DecidableEq, Repr

/-- Modelled from the spec: the pair `PhantomNodes` of source and target phantom, declared in
the missing `engine/phantom_node.hpp`. -/
structure PhantomNodes where
  source_phantom : PhantomNode
  target_phantom : PhantomNode
deriving DecidableEq, Repr

/-- Modelled from the spec: the geometry index of a node, the id of its geometry row and the
direction flag (section 3, geometry table). -/
structure GeometryID where
  id : Nat
  forward : Bool
deriving DecidableEq, Repr

/-- Modelled from the spec: the data facade (the template parameter `FacadeT`), the read-only
tables `annotatePath` looks up: edge data, names, travel modes, the geometry table with its
forward and reverse rows, and the turn tables indexed by `turn_id`. -/
structure Facade where
  GetEdgeDataTurnId : Nat → Nat
  GetNameIndex : Nat → Nat
  GetTurnInstructionForEdgeID : Nat → Nat
  GetTravelMode : Nat → Nat
  GetGeometryIndex : Nat → GeometryID
  GetUncompressedForwardGeometry : Nat → List Nat
  GetUncompressedForwardWeights : Nat → List Int
  GetUncompressedForwardDurations : Nat → List Int
  GetUncompressedForwardDatasources : Nat → List Nat
  GetUncompressedReverseGeometry : Nat → List Nat
  GetUncompressedReverseWeights : Nat → List Int
  GetUncompressedReverseDurations : Nat → List Int
  GetUncompressedReverseDatasources : Nat → List Nat
  HasLaneData : Nat → Bool
  GetLaneData : Nat → LaneTupleIdPair
  GetEntryClass : Nat → Nat
  GetDurationPenaltyForEdgeID : Nat → Int
  GetWeightPenaltyForEdgeID : Nat → Int
  PreTurnBearing : Nat → Nat
  PostTurnBearing : Nat → Nat

/-- Subtraction of `std::size_t` values, wrapping at `2 ^ 64`. -/
def subSize (x y : Nat) : Nat := (x + 2 ^ 64 - y % 2 ^ 64) % 2 ^ 64

/-- The step pushed for the geometry segment `segment_idx`, with the via node taken at
`via_idx`; the travel mode is stored in a 4-bit field.  Reading a vector out of range is
undefined in the program and yields 0 here. -/
def segmentStep (id_vector : List Nat) (weight_vector duration_vector : List Int)
    (datasource_vector : List Nat) (name_index travel_mode : Nat) (via_idx segment_idx : Nat) :
    PathData :=
  ⟨id_vector.getD via_idx 0, name_index, weight_vector.getD segment_idx 0,
    duration_vector.getD segment_idx 0, NO_TURN, ⟨0, INVALID_LANEID, INVALID_LANE_DESCRIPTIONID⟩,
    travel_mode % 16, EMPTY_ENTRY_CLASS, datasource_vector.getD segment_idx 0, 0, 0⟩

/-- The assignments to `unpacked_path.back()` after the segments of an edge: lane data if
present, entry class, turn instruction, penalties and bearings of the turn.  (On an empty path,
excluded by an assertion in the program, nothing is done.) -/
def setTurnOnBack (facade : Facade) (turn_id : Nat) (unpacked_path : List PathData) :
    List PathData :=
  match unpacked_path.getLast? with
  | none => unpacked_path
  | some back =>
    unpacked_path.dropLast ++
      [⟨back.turn_via_node, back.name_id,
        back.weight_until_turn + facade.GetWeightPenaltyForEdgeID turn_id,
        back.duration_until_turn + facade.GetDurationPenaltyForEdgeID turn_id,
        facade.GetTurnInstructionForEdgeID turn_id,
        if facade.HasLaneData turn_id then facade.GetLaneData turn_id else back.lane_data,
        back.travel_mode, facade.GetEntryClass turn_id, back.datasource_id,
        facade.PreTurnBearing turn_id, facade.PostTurnBearing turn_id⟩]

/-- The body of the loop over the edges of the unpacked path: the steps of the geometry
segments of the source node of the edge, the last one carrying the turn. -/
def annotateEdge (facade : Facade) (phantom_node_pair : PhantomNodes)
    (start_traversed_in_reverse : Bool) (unpacked_path : List PathData)
    (node_edge : Nat × Nat) : List PathData :=
  let turn_id := facade.GetEdgeDataTurnId node_edge.2
  let node_id := node_edge.1
  let name_index := facade.GetNameIndex node_id
  let travel_mode := facade.GetTravelMode node_id
  let geometry_index := facade.GetGeometryIndex node_id
  let id_vector :=
    if geometry_index.forward then facade.GetUncompressedForwardGeometry geometry_index.id
    else facade.GetUncompressedReverseGeometry geometry_index.id
  let weight_vector :=
    if geometry_index.forward then facade.GetUncompressedForwardWeights geometry_index.id
    else facade.GetUncompressedReverseWeights geometry_index.id
  let duration_vector :=
    if geometry_index.forward then facade.GetUncompressedForwardDurations geometry_index.id
    else facade.GetUncompressedReverseDurations geometry_index.id
  let datasource_vector :=
    if geometry_index.forward then facade.GetUncompressedForwardDatasources geometry_index.id
    else facade.GetUncompressedReverseDatasources geometry_index.id
  let is_first_segment := unpacked_path.isEmpty
  let start_index :=
    if is_first_segment then
      (if start_traversed_in_reverse then
        subSize (subSize weight_vector.length
          phantom_node_pair.source_phantom.fwd_segment_position) 1
      else phantom_node_pair.source_phantom.fwd_segment_position % 2 ^ 64)
    else 0
  let end_index := weight_vector.length
  let pushed := unpacked_path ++
    (List.range' start_index (end_index - start_index)).map
      (fun segment_idx =>
        segmentStep id_vector weight_vector duration_vector datasource_vector name_index
          travel_mode (segment_idx + 1) segment_idx)
  setTurnOnBack facade turn_id pushed

/-- The steps pushed after the loop over the edges, on the geometry of the target node, from
`start_index` to `end_index`, counting upwards or downwards. -/
def targetSteps (facade : Facade) (phantom_node_pair : PhantomNodes)
    (source_node_id target_node_id : Nat) (target_traversed_in_reverse : Bool)
    (path_empty : Bool) : List PathData :=
  let source_geometry_id := (facade.GetGeometryIndex source_node_id).id
  let target_geometry_id := (facade.GetGeometryIndex target_node_id).id
  let is_local_path := decide (source_geometry_id = target_geometry_id) && path_empty
  let id_vector :=
    if target_traversed_in_reverse then facade.GetUncompressedReverseGeometry target_geometry_id
    else facade.GetUncompressedForwardGeometry target_geometry_id
  let weight_vector :=
    if target_traversed_in_reverse then facade.GetUncompressedReverseWeights target_geometry_id
    else facade.GetUncompressedForwardWeights target_geometry_id
  let duration_vector :=
    if target_traversed_in_reverse then facade.GetUncompressedReverseDurations target_geometry_id
    else facade.GetUncompressedForwardDurations target_geometry_id
  let datasource_vector :=
    if target_traversed_in_reverse then
      facade.GetUncompressedReverseDatasources target_geometry_id
    else facade.GetUncompressedForwardDatasources target_geometry_id
  let start_index :=
    if is_local_path then
      (if target_traversed_in_reverse then
        subSize (subSize weight_vector.length
          phantom_node_pair.source_phantom.fwd_segment_position) 1
      else phantom_node_pair.source_phantom.fwd_segment_position % 2 ^ 64)
    else 0
  let end_index :=
    if target_traversed_in_reverse then
      subSize (subSize weight_vector.length
        phantom_node_pair.target_phantom.fwd_segment_position) 1
    else phantom_node_pair.target_phantom.fwd_segment_position % 2 ^ 64
  if start_index < end_index then
    (List.range' start_index (end_index - start_index)).map
      (fun segment_idx =>
        segmentStep id_vector weight_vector duration_vector datasource_vector
          (facade.GetNameIndex target_node_id) (facade.GetTravelMode target_node_id)
          (segment_idx + 1) segment_idx)
  else
    (List.range (start_index - end_index)).map
      (fun i =>
        segmentStep id_vector weight_vector duration_vector datasource_vector
          (facade.GetNameIndex target_node_id) (facade.GetTravelMode target_node_id)
          (start_index - i - 1) (start_index - i))

/-- The path before the first step is adjusted: the loop over the edges of the unpacked path
(the nodes but the last, each with its edge) followed by the steps on the target geometry.
`unpacked_nodes.front()` and `back()` read 0 on an empty vector, which the program excludes by
an assertion. -/
def annotatePathSteps (facade : Facade) (phantom_node_pair : PhantomNodes)
    (unpacked_nodes unpacked_edges : List Nat) (unpacked_path : List PathData) :
    List PathData :=
  let source_node_id := unpacked_nodes.headD 0
  let target_node_id := unpacked_nodes.getLastD 0
  let start_traversed_in_reverse :=
    decide (phantom_node_pair.source_phantom.forward_segment_id ≠ source_node_id)
  let target_traversed_in_reverse :=
    decide (phantom_node_pair.target_phantom.forward_segment_id ≠ target_node_id)
  let path1 := (List.zip unpacked_nodes.dropLast unpacked_edges).foldl
    (annotateEdge facade phantom_node_pair start_traversed_in_reverse) unpacked_path
  path1 ++ targetSteps facade phantom_node_pair source_node_id target_node_id
    target_traversed_in_reverse path1.isEmpty

/-- The weight of the source segment already traversed. -/
def sourceWeight (phantom_node_pair : PhantomNodes) (unpacked_nodes : List Nat) : Int :=
  if phantom_node_pair.source_phantom.forward_segment_id ≠ unpacked_nodes.headD 0 then
    phantom_node_pair.source_phantom.reverse_weight
  else phantom_node_pair.source_phantom.forward_weight

/-- The duration of the source segment already traversed. -/
def sourceDuration (phantom_node_pair : PhantomNodes) (unpacked_nodes : List Nat) : Int :=
  if phantom_node_pair.source_phantom.forward_segment_id ≠ unpacked_nodes.headD 0 then
    phantom_node_pair.source_phantom.reverse_duration
  else phantom_node_pair.source_phantom.forward_duration

/-- The adjustment of `unpacked_path.front()`: subtract the traversed part of the source
segment and clamp at 0. -/
def adjustFront (source_weight source_duration : Int) : List PathData → List PathData
  | [] => []
  | front :: rest =>
    ⟨front.turn_via_node, front.name_id, max (front.weight_until_turn - source_weight) 0,
      max (front.duration_until_turn - source_duration) 0, front.turn_instruction,
      front.lane_data, front.travel_mode, front.entry_class, front.datasource_id,
      front.pre_turn_bearing, front.post_turn_bearing⟩ :: rest

/-- The final `pop_back`: with more than one step, the last step is removed when it has the
via node of the step before it. -/
def popDuplicateBack (unpacked_path : List PathData) : List PathData :=
  match unpacked_path.reverse with
  | last :: second_to_last :: _ =>
    if last.turn_via_node = second_to_last.turn_via_node then unpacked_path.dropLast
    else unpacked_path
  | _ => unpacked_path

/-- The function `annotatePath`; the result is the final value of `unpacked_path`. -/
def annotatePath (facade : Facade) (phantom_node_pair : PhantomNodes)
    (unpacked_nodes unpacked_edges : List Nat) (unpacked_path : List PathData) :
    List PathData :=
  popDuplicateBack
    (adjustFront (sourceWeight phantom_node_pair unpacked_nodes)
      (sourceDuration phantom_node_pair unpacked_nodes)
      (annotatePathSteps facade phantom_node_pair unpacked_nodes unpacked_edges unpacked_path))

/-- A facade with a single geometry row of three segments, the same in both directions. -/
def rowFacade : Facade where
  GetEdgeDataTurnId := fun _ => 0
  GetNameIndex := fun _ => 0
  GetTurnInstructionForEdgeID := fun _ => 0
  GetTravelMode := fun _ => 1
  GetGeometryIndex := fun _ => ⟨0, true⟩
  GetUncompressedForwardGeometry := fun _ => [10, 11, 12, 13]
  GetUncompressedForwardWeights := fun _ => [4, 5, 6]
  GetUncompressedForwardDurations := fun _ => [1, 2, 3]
  GetUncompressedForwardDatasources := fun _ => [0, 0, 0]
  GetUncompressedReverseGeometry := fun _ => [13, 12, 11, 10]
  GetUncompressedReverseWeights := fun _ => [6, 5, 4]
  GetUncompressedReverseDurations := fun _ => [3, 2, 1]
  GetUncompressedReverseDatasources := fun _ => [0, 0, 0]
  HasLaneData := fun _ => false
  GetLaneData := fun _ => ⟨0, 0, 0⟩
  GetEntryClass := fun _ => 0
  GetDurationPenaltyForEdgeID := fun _ => 0
  GetWeightPenaltyForEdgeID := fun _ => 0
  PreTurnBearing := fun _ => 0
  PostTurnBearing := fun _ => 0

/-- A source phantom at the start of the first segment and a target phantom on the third
segment of the node 7; a tenth of the first segment's weight is already traversed. -/
def rowPhantoms : PhantomNodes :=
  ⟨⟨7, 8, 1, 3, 1, 2, 0, 0⟩, ⟨7, 8, 2, 2, 1, 1, 2, 0⟩⟩

end engine

namespace CellCustomizer

/-! ### The search with a record of what set each key -/

/-- What last set the key of a node during a search: the initial insertion of the source, the
relaxation of a sub-cell clique entry, or the relaxation of an edge of the graph. -/
inductive KeyOrigin where
  | source
  | clique
  | edge
deriving DecidableEq, Repr

/-- The block `relax` together with a record, kept beside the heap, of what last set the key of
each node: the record of `to_node` is written exactly where the block inserts the node or
decreases its key. -/
def relaxTraced (heap : Heap) (origin : Nat → KeyOrigin) (to_node : Nat) (to_weight : Int)
    (data : HeapData) (o : KeyOrigin) : Heap × (Nat → KeyOrigin) :=
  if !heap.WasInserted to_node then
    (heap.Insert to_node to_weight data, fun n => if n = to_node then o else origin n)
  else if to_weight < heap.GetKey to_node then
    ((heap.DecreaseKey to_node to_weight).SetData to_node data,
      fun n => if n = to_node then o else origin n)
  else (heap, origin)

/-- The method `RelaxNode<first_level>` with the record of `relaxTraced`: the block run in the
loop over the clique entries records `KeyOrigin.clique`, the block run in the loop over the
edges records `KeyOrigin.edge`. -/
def RelaxNodeTraced (first_level : Bool) (graph : Graph) (partition : MultiLevelPartition)
    (cells : CellStorage) (state : Heap × (Nat → KeyOrigin)) (level node : Nat)
    (weight duration : Int) : Heap × (Nat → KeyOrigin) :=
  let state1 :=
    if !first_level then
      if !(state.1.GetData node).from_clique then
        let subcell_id := partition.GetCell (level - 1) node
        let subcell := cells.GetCell (level - 1) subcell_id
        (List.zip (subcell.GetOutWeight node)
            (List.zip subcell.GetDestinationNodes (subcell.GetOutDuration node))).foldl
          (fun state entry =>
            if entry.1 ≠ INVALID_EDGE_WEIGHT then
              relaxTraced state.1 state.2 entry.2.1 (weight + entry.1)
                ⟨true, duration + entry.2.2⟩ KeyOrigin.clique
            else state)
          state
      else state
    else state
  (graph.GetInternalEdgeRange partition level node).foldl
    (fun state edge =>
      if edge.forward &&
          (first_level ||
            partition.GetCell (level - 1) node != partition.GetCell (level - 1) edge.target) then
        relaxTraced state.1 state.2 edge.target (weight + edge.weight)
          ⟨false, duration + edge.duration⟩ KeyOrigin.edge
      else state)
    state1

/-- The search loop of `Customize` with the record of `relaxTraced`. -/
def searchLoopTraced (graph : Graph) (partition : MultiLevelPartition) (cells : CellStorage)
    (level : Nat) :
    Nat → Heap × (Nat → KeyOrigin) → List Nat → (Heap × (Nat → KeyOrigin)) × List Nat
  | 0, state, destinations_set => (state, destinations_set)
  | fuel + 1, state, destinations_set =>
    if !state.1.Empty && !destinations_set.isEmpty then
      let node := state.1.DeleteMin.1
      let heap1 := state.1.DeleteMin.2
      let weight := heap1.GetKey node
      let duration := (heap1.GetData node).duration
      let state2 :=
        if level == 1 then
          RelaxNodeTraced true graph partition cells (heap1, state.2) level node weight duration
        else
          RelaxNodeTraced false graph partition cells (heap1, state.2) level node weight duration
      searchLoopTraced graph partition cells level fuel state2
        (destinations_set.filter (fun d => d != node))
    else (state, destinations_set)

/-- The graph `crossGraph` with the further edge `2 → 1`: the edges `0 → 1`, `1 → 2`, `0 → 3`,
`3 → 2` and `2 → 1`, each of weight 1. -/
def bridgeGraph : Graph :=
  ⟨[[⟨1, 1, 10, true, false⟩, ⟨3, 1, 1, true, false⟩], [⟨2, 1, 10, true, false⟩],
    [⟨1, 1, 10, true, false⟩], [⟨2, 1, 1, true, false⟩]]⟩

/-- The cell storage of `bridgeGraph` under `crossPartition`, with the boundary nodes of
section 4.3 and the exact tables at level 1: the cell `{0, 1}` has the source boundary nodes
0, 1 (the edges `0 → 3`, `1 → 2` leave it) and the destination boundary node 1 (the edge
`2 → 1` enters it), with `d(0,1) = 1` (duration 10) and `d(1,1) = 0`; the cells `{2}` and `{3}`
have their node on both lists; at level 2 the cell `{0, 1, 2}` has the source boundary node 0
and the destination boundary node 2, the cell `{3}` its node on both lists. -/
def bridgeCells : CellStorage :=
  ⟨fun l i =>
      if l = 1 then
        (if i = 0 then
          ⟨[0, 1], [1], fun r _ => if r = 0 then 1 else 0, fun r _ => if r = 0 then 10 else 0⟩
         else if i = 1 then ⟨[2], [2], fun _ _ => 0, fun _ _ => 0⟩
         else if i = 2 then ⟨[3], [3], fun _ _ => 0, fun _ _ => 0⟩
         else ⟨[], [], fun _ _ => 0, fun _ _ => 0⟩)
      else if l = 2 then
        (if i = 0 then ⟨[0], [2], fun _ _ => 0, fun _ _ => 0⟩
         else if i = 1 then ⟨[3], [3], fun _ _ => 0, fun _ _ => 0⟩
         else ⟨[], [], fun _ _ => 0, fun _ _ => 0⟩)
      else ⟨[], [], fun _ _ => 0, fun _ _ => 0⟩⟩

end CellCustomizer

namespace CellCustomizer

/-- The flag agrees with the record: every inserted node carries `from_clique` exactly when
its key was last set by a clique entry, and only the source `s` can have a key never set by a
relaxation. -/
def FlagRecord (s : Nat) (state : Heap × (Nat → KeyOrigin)) : Prop :=
  ∀ n ∈ state.1.inserted_nodes,
    ((state.1.data n).from_clique = true ↔ state.2 n = KeyOrigin.clique) ∧
      (state.2 n = KeyOrigin.source → n = s)

end CellCustomizer

namespace engine

/-- The vector `id_vector` of the loop body of `annotatePath` for the node `node_id`: the
forward geometry row when the geometry index of the node has `forward` set, the reverse row
otherwise. -/
def edgeIdVector (facade : Facade) (node_id : Nat) : List Nat :=
  let geometry_index := facade.GetGeometryIndex node_id
  if geometry_index.forward then facade.GetUncompressedForwardGeometry geometry_index.id
  else facade.GetUncompressedReverseGeometry geometry_index.id

/-- The vector `weight_vector` of the loop body of `annotatePath` for the node `node_id`. -/
def edgeWeightVector (facade : Facade) (node_id : Nat) : List Int :=
  let geometry_index := facade.GetGeometryIndex node_id
  if geometry_index.forward then facade.GetUncompressedForwardWeights geometry_index.id
  else facade.GetUncompressedReverseWeights geometry_index.id

/-- The vector `duration_vector` of the loop body of `annotatePath` for the node `node_id`. -/
def edgeDurationVector (facade : Facade) (node_id : Nat) : List Int :=
  let geometry_index := facade.GetGeometryIndex node_id
  if geometry_index.forward then facade.GetUncompressedForwardDurations geometry_index.id
  else facade.GetUncompressedReverseDurations geometry_index.id

/-- The vector `datasource_vector` of the loop body of `annotatePath` for the node `node_id`. -/
def edgeDatasourceVector (facade : Facade) (node_id : Nat) : List Nat :=
  let geometry_index := facade.GetGeometryIndex node_id
  if geometry_index.forward then facade.GetUncompressedForwardDatasources geometry_index.id
  else facade.GetUncompressedReverseDatasources geometry_index.id

/-- The value of `unpacked_path` after the first `count` iterations of the loop of
`annotatePath` over the edges of the unpacked path, started on an empty path. -/
def pathAfterEdges (facade : Facade) (phantom_node_pair : PhantomNodes)
    (unpacked_nodes unpacked_edges : List Nat) (count : Nat) : List PathData :=
  ((List.zip unpacked_nodes.dropLast unpacked_edges).take count).foldl
    (annotateEdge facade phantom_node_pair
      (decide (phantom_node_pair.source_phantom.forward_segment_id ≠ unpacked_nodes.headD 0)))
    []

end engine

namespace engine

/-- The struct `InternalRouteResult` of internal_route_result.hpp; a default-constructed
result carries the weight `INVALID_EDGE_WEIGHT`. -/
structure InternalRouteResult where
  unpacked_path_segments : List (List PathData)
  segment_end_coordinates : List PhantomNodes
  source_traversed_in_reverse : List Bool
  target_traversed_in_reverse : List Bool
  shortest_path_weight : Int := INVALID_EDGE_WEIGHT

/-- The method `InternalRouteResult::is_valid`. -/
def InternalRouteResult.is_valid (r : InternalRouteResult) : Bool :=
  INVALID_EDGE_WEIGHT != r.shortest_path_weight

/-- The method `InternalRouteResult::is_via_leg`; the subtraction is one of `std::size_t`. -/
def InternalRouteResult.is_via_leg (r : InternalRouteResult) (leg : Nat) : Bool :=
  leg != subSize r.unpacked_path_segments.length 1

/-- The struct `InternalManyRoutesResult` of internal_route_result.hpp. -/
structure InternalManyRoutesResult where
  routes : List InternalRouteResult

namespace plugins

/-- Modelled from the spec: the enumeration `Status` of the missing `engine/status.hpp`, the
two outcomes of a request (section 7: a response or an error with code and message). -/
inductive Status where
  | Ok
  | Error
deriving DecidableEq, Repr

/-- Modelled from the spec: the interface `RoutingAlgorithmsInterface` of the missing
`engine/routing_algorithms.hpp`: which searches the chosen algorithm provides, and the
searches `HandleRequest` calls. -/
structure RoutingAlgorithmsInterface where
  HasAlternativePathSearch : Bool
  HasShortestPathSearch : Bool
  HasDirectShortestPathSearch : Bool
  AlternativePathSearch : PhantomNodes → InternalManyRoutesResult
  ShortestPathSearch : List PhantomNodes → Option Bool → InternalManyRoutesResult
  DirectShortestPathSearch : PhantomNodes → InternalManyRoutesResult

/-- Modelled from the spec: a coordinate of the request (missing `util/coordinate.hpp`). -/
structure Coordinate where
  lon : Int
  lat : Int
deriving DecidableEq, Repr

/-- Modelled from the spec: the members of `api::RouteParameters` (missing
`engine/api/route_parameters.hpp`) that `HandleRequest` reads. -/
structure RouteParameters where
  coordinates : List Coordinate
  alternatives : Bool
  continue_straight : Option Bool

/-- Modelled from the spec: the members `code` and `message` of the JSON object a request
answers with (section 7; missing `util/json_container.hpp`). -/
structure JsonResult where
  code : String
  message : String
deriving DecidableEq, Repr

/-- Modelled from the spec: the members the plugin inherits from the missing
`engine/plugins/plugin_base.hpp` and the response builder of the missing
`engine/api/route_api.hpp`, taken as parameters: the coordinate check, the phantom node lookup
(a pair of candidates per coordinate), the choice of one phantom node per pair, and
`RouteAPI::MakeResponse`. -/
structure PluginBase where
  CheckAllCoordinates : List Coordinate → Bool
  GetPhantomNodes : RouteParameters → List (PhantomNode × PhantomNode)
  SnapPhantomNodes : List (PhantomNode × PhantomNode) → List PhantomNode
  MakeResponse : InternalManyRoutesResult → JsonResult → JsonResult

/-- The calls `HandleRequest` makes, in the order it makes them. -/
inductive Call where
  | CheckAllCoordinates
  | GetPhantomNodes
  | SnapPhantomNodes
  | AlternativePathSearch
  | DirectShortestPathSearch
  | ShortestPathSearch
  | MakeResponse
deriving DecidableEq, Repr

/-- What a call of `HandleRequest` returns and leaves behind: the status, the JSON result and
the calls made. -/
structure Outcome where
  status : Status
  json_result : JsonResult
  calls : List Call
deriving DecidableEq, Repr

/-- Modelled from the spec: the helper `util::for_each_pair` of the missing
`util/for_each_pair.hpp`, applied to `build_phantom_pairs`: one `PhantomNodes` for every two
consecutive snapped phantom nodes (the legs of the route, section 4.7). -/
def forEachPair (snapped_phantoms : List PhantomNode) : List PhantomNodes :=
  (List.zip snapped_phantoms snapped_phantoms.tail).map (fun p => ⟨p.1, p.2⟩)

/-- The conversion `static_cast<int>` of a `std::size_t`. -/
def staticCastInt (n : Nat) : Int := ((n : Int) + 2 ^ 31) % 2 ^ 32 - 2 ^ 31

/-- The search `HandleRequest` runs on the legs `start_end_nodes`, with the result `routes`. -/
def searchRoutes (algorithms : RoutingAlgorithmsInterface) (route_parameters : RouteParameters)
    (start_end_nodes : List PhantomNodes) : Call × InternalManyRoutesResult :=
  match start_end_nodes with
  | [front] =>
    if algorithms.HasAlternativePathSearch && route_parameters.alternatives then
      (Call.AlternativePathSearch, algorithms.AlternativePathSearch front)
    else if algorithms.HasDirectShortestPathSearch then
      (Call.DirectShortestPathSearch, algorithms.DirectShortestPathSearch front)
    else
      (Call.ShortestPathSearch,
        algorithms.ShortestPathSearch start_end_nodes route_parameters.continue_straight)
  | _ =>
    (Call.ShortestPathSearch,
      algorithms.ShortestPathSearch start_end_nodes route_parameters.continue_straight)

/-- The method `ViaRoutePlugin::HandleRequest`. `routes.routes[0]` on an empty result, which
the program excludes by an assertion, is read as a default-constructed route. -/
def HandleRequest (base : PluginBase) (max_locations_viaroute : Int)
    (algorithms : RoutingAlgorithmsInterface) (route_parameters : RouteParameters)
    (json_result : JsonResult) : Outcome :=
  if !algorithms.HasShortestPathSearch && decide (route_parameters.coordinates.length > 2) then
    ⟨Status.Error,
      ⟨"NotImplemented",
        "Shortest path search is not implemented for the chosen search algorithm. " ++
          "Only two coordinates supported."⟩, []⟩
  else if !algorithms.HasDirectShortestPathSearch && !algorithms.HasShortestPathSearch then
    ⟨Status.Error,
      ⟨"NotImplemented",
        "Direct shortest path search is not implemented for the chosen search algorithm."⟩, []⟩
  else if decide (max_locations_viaroute > 0) &&
      decide (staticCastInt route_parameters.coordinates.length > max_locations_viaroute) then
    ⟨Status.Error,
      ⟨"TooBig",
        "Number of entries " ++ toString route_parameters.coordinates.length ++
          " is higher than current maximum (" ++ toString max_locations_viaroute ++ ")"⟩, []⟩
  else if !base.CheckAllCoordinates route_parameters.coordinates then
    ⟨Status.Error, ⟨"InvalidValue", "Invalid coordinate value."⟩, [Call.CheckAllCoordinates]⟩
  else
    let phantom_node_pairs := base.GetPhantomNodes route_parameters
    if phantom_node_pairs.length != route_parameters.coordinates.length then
      ⟨Status.Error,
        ⟨"NoSegment",
          "Could not find a matching segment for coordinate " ++
            toString phantom_node_pairs.length⟩,
        [Call.CheckAllCoordinates, Call.GetPhantomNodes]⟩
    else
      let snapped_phantoms := base.SnapPhantomNodes phantom_node_pairs
      let start_end_nodes := forEachPair snapped_phantoms
      let searched := searchRoutes algorithms route_parameters start_end_nodes
      let routes := searched.2
      if (routes.routes.headD ⟨[], [], [], [], INVALID_EDGE_WEIGHT⟩).is_valid then
        ⟨Status.Ok, base.MakeResponse routes json_result,
          [Call.CheckAllCoordinates, Call.GetPhantomNodes, Call.SnapPhantomNodes, searched.1,
            Call.MakeResponse]⟩
      else
        let first_component_id := (snapped_phantoms.head?.map PhantomNode.component_id).getD 0
        let not_in_same_component :=
          snapped_phantoms.any (fun node => node.component_id != first_component_id)
        if not_in_same_component then
          ⟨Status.Error, ⟨"NoRoute", "Impossible route between points"⟩,
            [Call.CheckAllCoordinates, Call.GetPhantomNodes, Call.SnapPhantomNodes, searched.1]⟩
        else
          ⟨Status.Error, ⟨"NoRoute", "No route found between points"⟩,
            [Call.CheckAllCoordinates, Call.GetPhantomNodes, Call.SnapPhantomNodes, searched.1]⟩

/-- A plugin base that accepts every coordinate and finds for each coordinate a phantom node
of the component `lon` of the coordinate. -/
def gridBase : PluginBase where
  CheckAllCoordinates := fun _ => true
  GetPhantomNodes := fun p =>
    p.coordinates.map (fun c =>
      (⟨0, 0, 0, 0, 0, 0, 0, c.lon.toNat⟩, ⟨0, 0, 0, 0, 0, 0, 0, c.lon.toNat⟩))
  SnapPhantomNodes := fun l => l.map Prod.fst
  MakeResponse := fun _ _ => ⟨"Ok", ""⟩

/-- An algorithm with every search, each finding one route of the given weight. -/
def fullAlgorithms (weight : Int) : RoutingAlgorithmsInterface where
  HasAlternativePathSearch := true
  HasShortestPathSearch := true
  HasDirectShortestPathSearch := true
  AlternativePathSearch := fun _ => ⟨[⟨[], [], [], [], weight⟩]⟩
  ShortestPathSearch := fun _ _ => ⟨[⟨[], [], [], [], weight⟩]⟩
  DirectShortestPathSearch := fun _ => ⟨[⟨[], [], [], [], weight⟩]⟩

end plugins

end engine

namespace storage

/-- Modelled from the spec: the region ids of the missing `storage/shared_datatype.hpp`, the
two named regions and the value for no region (section 6, memory region protocol). -/
inductive SharedDataType where
  | REGION_NONE
  | REGION_1
  | REGION_2
deriving DecidableEq, Repr

/-- Modelled from the spec: the shared timestamp cell `{region_id, u64 timestamp}` (section 6)
of the missing `storage/shared_datatype.hpp`. -/
structure SharedDataTimestamp where
  region : SharedDataType
  timestamp : Nat
deriving DecidableEq, Repr

/-- What a call of `Storage::Run` meets outside the program: the data of the shared monitor if
one exists already, which shared memory regions exist, whether layout, allocation and loading
of the data into a region complete (they throw otherwise), and whether `timed_lock` obtains the
lock within `max_wait` seconds. -/
structure RunEnvironment where
  monitor : Option SharedDataTimestamp
  region_exists : SharedDataType → Bool
  load : SharedDataType → Bool
  timed_lock : Bool

/-- The effects of `Storage::Run` on the shared state, in program order. -/
inductive Effect where
  | RemoveRegion (region : SharedDataType)
  | LoadInto (region : SharedDataType)
  | RemoveMonitor
  | Publish (data : SharedDataTimestamp)
  | NotifyAll
  | WaitForDetach (region : SharedDataType)
deriving DecidableEq, Repr

/-- What `Storage::Run` returns and leaves behind: the exit code, the region the data was
loaded into, the data of the monitor at the end, and the effects. -/
structure RunResult where
  exit_code : Int
  loaded_region : SharedDataType
  monitor : SharedDataTimestamp
  effects : List Effect
deriving DecidableEq, Repr

/-- The method `Storage::Run(max_wait)`, `none` when loading throws. The constructor
`Monitor(SharedDataTimestamp{REGION_NONE, 0})` opens the existing monitor or creates one with
the given data; the timestamp is an unsigned 64-bit counter. -/
def Run (env : RunEnvironment) (max_wait : Int) : Option RunResult :=
  let monitor := env.monitor.getD ⟨SharedDataType.REGION_NONE, 0⟩
  let in_use_region := monitor.region
  let next_timestamp := (monitor.timestamp + 1) % 2 ^ 64
  let next_region :=
    if in_use_region = SharedDataType.REGION_2 ∨ in_use_region = SharedDataType.REGION_NONE then
      SharedDataType.REGION_1
    else SharedDataType.REGION_2
  let removed :=
    if env.region_exists next_region then [Effect.RemoveRegion next_region] else []
  if !env.load next_region then none
  else
    let lock_failed := decide (max_wait ≥ 0) && !env.timed_lock
    let in_use_region1 := if lock_failed then SharedDataType.REGION_NONE else in_use_region
    let monitor1 : SharedDataTimestamp :=
      if lock_failed then ⟨SharedDataType.REGION_NONE, 0⟩ else monitor
    let monitor2 : SharedDataTimestamp := ⟨next_region, monitor1.timestamp⟩
    let monitor3 : SharedDataTimestamp := ⟨monitor2.region, next_timestamp⟩
    let detached :=
      if in_use_region1 ≠ SharedDataType.REGION_NONE && env.region_exists in_use_region1 then
        [Effect.RemoveRegion in_use_region1, Effect.WaitForDetach in_use_region1]
      else []
    some ⟨0, next_region, monitor3,
      removed ++ [Effect.LoadInto next_region] ++
        (if lock_failed then [Effect.RemoveMonitor] else []) ++
        [Effect.Publish monitor3, Effect.NotifyAll] ++ detached⟩

end storage

namespace storage

/-- Modelled from the spec: the ids of the blocks of the data layout that `PopulateLayout`
sizes (enumeration `DataLayout::BlockID` of the missing `storage/shared_datatype.hpp`;
section 6 lists the artifacts the blocks are filled from). -/
inductive BlockID where
  | FILE_INDEX_PATH | NAME_CHAR_DATA | LANE_DESCRIPTION_OFFSETS | LANE_DESCRIPTION_MASKS
  | PRE_TURN_BEARING | POST_TURN_BEARING | TURN_INSTRUCTION | LANE_DATA_ID | ENTRY_CLASSID
  | GEOMETRY_ID_LIST | NAME_ID_LIST | COMPONENT_ID_LIST | TRAVEL_MODE_LIST
  | HSGR_CHECKSUM | CH_GRAPH_NODE_LIST | CH_GRAPH_EDGE_LIST
  | R_SEARCH_TREE | R_SEARCH_TREE_LEVELS | PROPERTIES | TIMESTAMP | CH_CORE_MARKER
  | TURN_WEIGHT_PENALTIES | TURN_DURATION_PENALTIES | COORDINATE_LIST | OSM_NODE_ID_LIST
  | GEOMETRIES_INDEX | GEOMETRIES_NODE_LIST | GEOMETRIES_FWD_WEIGHT_LIST
  | GEOMETRIES_REV_WEIGHT_LIST | GEOMETRIES_FWD_DURATION_LIST | GEOMETRIES_REV_DURATION_LIST
  | DATASOURCES_LIST | DATASOURCES_NAMES
  | BEARING_VALUES | BEARING_CLASSID | BEARING_OFFSETS | BEARING_BLOCKS | ENTRY_CLASS
  | TURN_LANE_DATA
  | MLD_LEVEL_DATA | MLD_PARTITION | MLD_CELL_TO_CHILDREN
  | MLD_CELL_WEIGHTS | MLD_CELL_DURATIONS | MLD_CELL_SOURCE_BOUNDARY
  | MLD_CELL_DESTINATION_BOUNDARY | MLD_CELLS | MLD_CELL_LEVEL_OFFSETS
  | MLD_GRAPH_NODE_LIST | MLD_GRAPH_EDGE_LIST | MLD_GRAPH_NODE_TO_OFFSET
deriving DecidableEq, Repr

/-- The element types `PopulateLayout` names as template arguments of `SetBlockSize`,
`ReadVectorSize` and `Skip`; only their identity matters here. -/
inductive ElementType where
  | char | uint32 | uint64 | unsigned
  | TurnLaneMask | TurnBearing | TurnInstruction | LaneDataID | EntryClassID
  | NodeID | NameID | ComponentID | TravelMode
  | QueryGraphNodeArrayEntry | QueryGraphEdgeArrayEntry
  | RTreeNode | ProfileProperties | TurnPenalty | Coordinate | PackedOSMIDsBlock
  | SegmentWeightBlock | SegmentDurationBlock | DatasourceID | Datasources
  | DiscreteBearing | BearingClassID | RangeTableBlock | EntryClass | LaneTupleIdPair
  | LevelData | PartitionID | CellID | EdgeWeight | EdgeDuration | CellData
  | MultiLevelNodeArrayEntry | MultiLevelEdgeArrayEntry | MultiLevelEdgeOffset
deriving DecidableEq, Repr

/-- Modelled from the spec: the layout `DataLayout` of the missing
`storage/shared_datatype.hpp`: for every block the number of entries and the type of an entry
(the program stores the size of that type). -/
structure DataLayout where
  num_entries : BlockID → Nat
  entry_type : BlockID → Option ElementType

/-- Modelled from the spec: the method `DataLayout::SetBlockSize<T>(bid, entries)`. -/
def DataLayout.SetBlockSize (layout : DataLayout) (T : ElementType) (bid : BlockID)
    (entries : Nat) : DataLayout :=
  ⟨fun b => if b = bid then entries else layout.num_entries b,
    fun b => if b = bid then some T else layout.entry_type b⟩

/-- Modelled from the spec: the paths of the missing `storage/storage_config.hpp` that
`PopulateLayout` reads (the artifacts of section 6). -/
structure StorageConfig where
  file_index_path : String
  names_data_path : String
  turn_lane_description_path : String
  edges_data_path : String
  edge_based_nodes_data_path : String
  hsgr_data_path : String
  ram_index_path : String
  timestamp_path : String
  core_data_path : String
  turn_weight_penalties_path : String
  turn_duration_penalties_path : String
  node_based_nodes_data_path : String
  geometries_path : String
  intersection_class_path : String
  turn_lane_data_path : String
  mld_partition_path : String
  mld_storage_path : String
  mld_graph_path : String

/-- Modelled from the spec: the file system and the reader `io::FileReader` of the missing
`storage/io.hpp`, taken as parameters. `files` gives the content of every existing file;
`VerifyFingerprint` is the constructor run on that content, `none` when it throws; the read
operations return the value read and the reader moved on, `none` when they throw. -/
structure FileSystem (Content Reader : Type) where
  files : String → Option Content
  absolute : String → String
  VerifyFingerprint : Content → Option Reader
  GetSize : Reader → Nat
  ReadElementCount64 : Reader → Option (Nat × Reader)
  ReadVectorSize : ElementType → Reader → Option (Nat × Reader)
  Skip : ElementType → Nat → Reader → Option Reader

/-- The test `boost::filesystem::exists(path)`. -/
def FileSystem.file_exists {Content Reader : Type} (fs : FileSystem Content Reader)
    (path : String) : Bool :=
  (fs.files path).isSome

/-- The layout being populated and the files opened so far, in order. -/
structure LayoutState where
  layout : DataLayout
  opened : List String

/-- The statement `layout.SetBlockSize<T>(bid, entries)` on the state. -/
def setBlock (T : ElementType) (bid : BlockID) (entries : Nat) (st : LayoutState) :
    LayoutState :=
  ⟨st.layout.SetBlockSize T bid entries, st.opened⟩

/-- The construction `io::FileReader reader(path, io::FileReader::VerifyFingerprint)`: the
file is opened and its fingerprint verified; `none` when the file does not exist or the
constructor throws. -/
def openReader {Content Reader : Type} (fs : FileSystem Content Reader) (path : String)
    (st : LayoutState) : Option (Reader × LayoutState) :=
  match fs.files path with
  | none => none
  | some content =>
    match fs.VerifyFingerprint content with
    | none => none
    | some reader => some (reader, ⟨st.layout, st.opened ++ [path]⟩)

end storage

namespace storage

/-- The block of `PopulateLayout` for the path of the file index. -/
def layoutFileIndexPath {Content Reader : Type} (fs : FileSystem Content Reader) (config : StorageConfig)
    (st : LayoutState) : Option LayoutState :=
  let absolute_file_index_path := fs.absolute config.file_index_path
  some (setBlock ElementType.char BlockID.FILE_INDEX_PATH
    (absolute_file_index_path.length + 1) st)

/-- The block of `PopulateLayout` for the names. -/
def layoutNames {Content Reader : Type} (fs : FileSystem Content Reader) (config : StorageConfig)
    (st : LayoutState) : Option LayoutState := do
  let (name_file, st) ← openReader fs config.names_data_path st
  some (setBlock ElementType.char BlockID.NAME_CHAR_DATA (fs.GetSize name_file) st)

/-- The block of `PopulateLayout` for the turn lane descriptions. -/
def layoutLaneDescriptions {Content Reader : Type} (fs : FileSystem Content Reader) (config : StorageConfig)
    (st : LayoutState) : Option LayoutState := do
  let (reader, st) ← openReader fs config.turn_lane_description_path st
  let (num_offsets, reader) ← fs.ReadVectorSize ElementType.uint32 reader
  let (num_masks, _) ← fs.ReadVectorSize ElementType.TurnLaneMask reader
  let st := setBlock ElementType.uint32 BlockID.LANE_DESCRIPTION_OFFSETS num_offsets st
  some (setBlock ElementType.TurnLaneMask BlockID.LANE_DESCRIPTION_MASKS num_masks st)

/-- The block of `PopulateLayout` for the original edges. -/
def layoutOriginalEdges {Content Reader : Type} (fs : FileSystem Content Reader) (config : StorageConfig)
    (st : LayoutState) : Option LayoutState := do
  let (edges_file, st) ← openReader fs config.edges_data_path st
  let (number_of_original_edges, _) ← fs.ReadElementCount64 edges_file
  let st := setBlock ElementType.TurnBearing BlockID.PRE_TURN_BEARING number_of_original_edges st
  let st := setBlock ElementType.TurnBearing BlockID.POST_TURN_BEARING number_of_original_edges st
  let st := setBlock ElementType.TurnInstruction BlockID.TURN_INSTRUCTION
    number_of_original_edges st
  let st := setBlock ElementType.LaneDataID BlockID.LANE_DATA_ID number_of_original_edges st
  some (setBlock ElementType.EntryClassID BlockID.ENTRY_CLASSID number_of_original_edges st)

/-- The block of `PopulateLayout` for the data of the edge-based nodes. -/
def layoutNodeData {Content Reader : Type} (fs : FileSystem Content Reader) (config : StorageConfig)
    (st : LayoutState) : Option LayoutState := do
  let (nodes_data_file, st) ← openReader fs config.edge_based_nodes_data_path st
  let (nodes_number, _) ← fs.ReadElementCount64 nodes_data_file
  let st := setBlock ElementType.NodeID BlockID.GEOMETRY_ID_LIST nodes_number st
  let st := setBlock ElementType.NameID BlockID.NAME_ID_LIST nodes_number st
  let st := setBlock ElementType.ComponentID BlockID.COMPONENT_ID_LIST nodes_number st
  some (setBlock ElementType.TravelMode BlockID.TRAVEL_MODE_LIST nodes_number st)

/-- The block of `PopulateLayout` for the contraction hierarchy (the `.hsgr` file). -/
def layoutHsgr {Content Reader : Type} (fs : FileSystem Content Reader) (config : StorageConfig)
    (st : LayoutState) : Option LayoutState :=
  if fs.file_exists config.hsgr_data_path then do
    let (reader, st) ← openReader fs config.hsgr_data_path st
    let reader ← fs.Skip ElementType.uint32 1 reader
    let (num_nodes, reader) ← fs.ReadVectorSize ElementType.QueryGraphNodeArrayEntry reader
    let (num_edges, _) ← fs.ReadVectorSize ElementType.QueryGraphEdgeArrayEntry reader
    let st := setBlock ElementType.unsigned BlockID.HSGR_CHECKSUM 1 st
    let st := setBlock ElementType.QueryGraphNodeArrayEntry BlockID.CH_GRAPH_NODE_LIST
      num_nodes st
    some (setBlock ElementType.QueryGraphEdgeArrayEntry BlockID.CH_GRAPH_EDGE_LIST num_edges st)
  else
    let st := setBlock ElementType.unsigned BlockID.HSGR_CHECKSUM 0 st
    let st := setBlock ElementType.QueryGraphNodeArrayEntry BlockID.CH_GRAPH_NODE_LIST 0 st
    some (setBlock ElementType.QueryGraphEdgeArrayEntry BlockID.CH_GRAPH_EDGE_LIST 0 st)

/-- The block of `PopulateLayout` for the search tree. -/
def layoutSearchTree {Content Reader : Type} (fs : FileSystem Content Reader) (config : StorageConfig)
    (st : LayoutState) : Option LayoutState := do
  let (tree_node_file, st) ← openReader fs config.ram_index_path st
  let (tree_size, tree_node_file) ← fs.ReadElementCount64 tree_node_file
  let st := setBlock ElementType.RTreeNode BlockID.R_SEARCH_TREE tree_size st
  let tree_node_file ← fs.Skip ElementType.RTreeNode tree_size tree_node_file
  let (tree_levels_size, _) ← fs.ReadElementCount64 tree_node_file
  some (setBlock ElementType.uint64 BlockID.R_SEARCH_TREE_LEVELS tree_levels_size st)

/-- The block of `PopulateLayout` for the profile properties. -/
def layoutProperties (st : LayoutState) : Option LayoutState :=
  some (setBlock ElementType.ProfileProperties BlockID.PROPERTIES 1 st)

/-- The block of `PopulateLayout` for the timestamp. -/
def layoutTimestamp {Content Reader : Type} (fs : FileSystem Content Reader) (config : StorageConfig)
    (st : LayoutState) : Option LayoutState := do
  let (timestamp_file, st) ← openReader fs config.timestamp_path st
  let timestamp_size := fs.GetSize timestamp_file
  some (setBlock ElementType.char BlockID.TIMESTAMP timestamp_size st)

/-- The block of `PopulateLayout` for the core markers (the `.core` file). -/
def layoutCoreMarker {Content Reader : Type} (fs : FileSystem Content Reader) (config : StorageConfig)
    (st : LayoutState) : Option LayoutState :=
  if fs.file_exists config.core_data_path then do
    let (core_marker_file, st) ← openReader fs config.core_data_path st
    let (number_of_core_markers, _) ← fs.ReadElementCount64 core_marker_file
    some (setBlock ElementType.unsigned BlockID.CH_CORE_MARKER number_of_core_markers st)
  else
    some (setBlock ElementType.unsigned BlockID.CH_CORE_MARKER 0 st)

/-- The block of `PopulateLayout` for the turn weight penalties. -/
def layoutTurnWeightPenalties {Content Reader : Type} (fs : FileSystem Content Reader) (config : StorageConfig)
    (st : LayoutState) : Option LayoutState := do
  let (turn_weight_penalties_file, st) ← openReader fs config.turn_weight_penalties_path st
  let (number_of_penalties, _) ← fs.ReadElementCount64 turn_weight_penalties_file
  some (setBlock ElementType.TurnPenalty BlockID.TURN_WEIGHT_PENALTIES number_of_penalties st)

/-- The block of `PopulateLayout` for the turn duration penalties. -/
def layoutTurnDurationPenalties {Content Reader : Type} (fs : FileSystem Content Reader) (config : StorageConfig)
    (st : LayoutState) : Option LayoutState := do
  let (turn_duration_penalties_file, st) ← openReader fs config.turn_duration_penalties_path st
  let (number_of_penalties, _) ← fs.ReadElementCount64 turn_duration_penalties_file
  some (setBlock ElementType.TurnPenalty BlockID.TURN_DURATION_PENALTIES number_of_penalties st)

/-- The block of `PopulateLayout` for the coordinates and the OSM node ids. -/
def layoutCoordinates {Content Reader : Type} (fs : FileSystem Content Reader) (config : StorageConfig)
    (st : LayoutState) : Option LayoutState := do
  let (node_file, st) ← openReader fs config.node_based_nodes_data_path st
  let (coordinate_list_size, node_file) ← fs.ReadElementCount64 node_file
  let st := setBlock ElementType.Coordinate BlockID.COORDINATE_LIST coordinate_list_size st
  let node_file ← fs.Skip ElementType.Coordinate coordinate_list_size node_file
  let node_file ← fs.Skip ElementType.uint64 1 node_file
  let (num_id_blocks, _) ← fs.ReadElementCount64 node_file
  some (setBlock ElementType.PackedOSMIDsBlock BlockID.OSM_NODE_ID_LIST num_id_blocks st)

/-- The block of `PopulateLayout` for the geometries. -/
def layoutGeometries {Content Reader : Type} (fs : FileSystem Content Reader) (config : StorageConfig)
    (st : LayoutState) : Option LayoutState := do
  let (reader, st) ← openReader fs config.geometries_path st
  let (number_of_geometries_indices, reader) ← fs.ReadVectorSize ElementType.unsigned reader
  let st := setBlock ElementType.unsigned BlockID.GEOMETRIES_INDEX
    number_of_geometries_indices st
  let (number_of_compressed_geometries, reader) ← fs.ReadVectorSize ElementType.NodeID reader
  let st := setBlock ElementType.NodeID BlockID.GEOMETRIES_NODE_LIST
    number_of_compressed_geometries st
  let (_, reader) ← fs.ReadElementCount64 reader
  let (number_of_segment_weight_blocks, reader) ←
    fs.ReadVectorSize ElementType.SegmentWeightBlock reader
  let (_, reader) ← fs.ReadElementCount64 reader
  let (_, reader) ← fs.ReadVectorSize ElementType.SegmentWeightBlock reader
  let (_, reader) ← fs.ReadElementCount64 reader
  let (number_of_segment_duration_blocks, _) ←
    fs.ReadVectorSize ElementType.SegmentDurationBlock reader
  let st := setBlock ElementType.SegmentWeightBlock BlockID.GEOMETRIES_FWD_WEIGHT_LIST
    number_of_segment_weight_blocks st
  let st := setBlock ElementType.SegmentWeightBlock BlockID.GEOMETRIES_REV_WEIGHT_LIST
    number_of_segment_weight_blocks st
  let st := setBlock ElementType.SegmentDurationBlock BlockID.GEOMETRIES_FWD_DURATION_LIST
    number_of_segment_duration_blocks st
  let st := setBlock ElementType.SegmentDurationBlock BlockID.GEOMETRIES_REV_DURATION_LIST
    number_of_segment_duration_blocks st
  some (setBlock ElementType.DatasourceID BlockID.DATASOURCES_LIST
    number_of_compressed_geometries st)

/-- The block of `PopulateLayout` for the names of the data sources. -/
def layoutDatasourceNames (st : LayoutState) : Option LayoutState :=
  some (setBlock ElementType.Datasources BlockID.DATASOURCES_NAMES 1 st)

/-- The block of `PopulateLayout` for the intersection classes. -/
def layoutIntersectionClasses {Content Reader : Type} (fs : FileSystem Content Reader) (config : StorageConfig)
    (st : LayoutState) : Option LayoutState := do
  let (reader, st) ← openReader fs config.intersection_class_path st
  let (num_discreate_bearings, reader) ← fs.ReadVectorSize ElementType.DiscreteBearing reader
  let st := setBlock ElementType.DiscreteBearing BlockID.BEARING_VALUES
    num_discreate_bearings st
  let (num_bearing_classes, reader) ← fs.ReadVectorSize ElementType.BearingClassID reader
  let st := setBlock ElementType.BearingClassID BlockID.BEARING_CLASSID num_bearing_classes st
  let reader ← fs.Skip ElementType.uint32 1 reader
  let (bearing_blocks, reader) ← fs.ReadVectorSize ElementType.unsigned reader
  let (bearing_offsets, reader) ← fs.ReadVectorSize ElementType.RangeTableBlock reader
  let st := setBlock ElementType.unsigned BlockID.BEARING_OFFSETS bearing_blocks st
  let st := setBlock ElementType.RangeTableBlock BlockID.BEARING_BLOCKS bearing_offsets st
  let (num_entry_classes, _) ← fs.ReadVectorSize ElementType.EntryClass reader
  some (setBlock ElementType.EntryClass BlockID.ENTRY_CLASS num_entry_classes st)

/-- The block of `PopulateLayout` for the turn lane data. -/
def layoutTurnLaneData {Content Reader : Type} (fs : FileSystem Content Reader) (config : StorageConfig)
    (st : LayoutState) : Option LayoutState := do
  let (lane_data_file, st) ← openReader fs config.turn_lane_data_path st
  let (lane_tuple_count, _) ← fs.ReadElementCount64 lane_data_file
  some (setBlock ElementType.LaneTupleIdPair BlockID.TURN_LANE_DATA lane_tuple_count st)

/-- The part of the block for the MLD data that reads the `.partition` file. -/
def layoutPartition {Content Reader : Type} (fs : FileSystem Content Reader) (config : StorageConfig)
    (st : LayoutState) : Option LayoutState :=
  if fs.file_exists config.mld_partition_path then do
    let (reader, st) ← openReader fs config.mld_partition_path st
    let reader ← fs.Skip ElementType.LevelData 1 reader
    let st := setBlock ElementType.LevelData BlockID.MLD_LEVEL_DATA 1 st
    let (partition_entries_count, reader) ← fs.ReadVectorSize ElementType.PartitionID reader
    let st := setBlock ElementType.PartitionID BlockID.MLD_PARTITION partition_entries_count st
    let (children_entries_count, _) ← fs.ReadVectorSize ElementType.CellID reader
    some (setBlock ElementType.CellID BlockID.MLD_CELL_TO_CHILDREN children_entries_count st)
  else
    let st := setBlock ElementType.LevelData BlockID.MLD_LEVEL_DATA 0 st
    let st := setBlock ElementType.PartitionID BlockID.MLD_PARTITION 0 st
    some (setBlock ElementType.CellID BlockID.MLD_CELL_TO_CHILDREN 0 st)

/-- The part of the block for the MLD data that reads the `.cells` file. -/
def layoutCells {Content Reader : Type} (fs : FileSystem Content Reader) (config : StorageConfig)
    (st : LayoutState) : Option LayoutState :=
  if fs.file_exists config.mld_storage_path then do
    let (reader, st) ← openReader fs config.mld_storage_path st
    let (weights_count, reader) ← fs.ReadVectorSize ElementType.EdgeWeight reader
    let st := setBlock ElementType.EdgeWeight BlockID.MLD_CELL_WEIGHTS weights_count st
    let (durations_count, reader) ← fs.ReadVectorSize ElementType.EdgeDuration reader
    let st := setBlock ElementType.EdgeDuration BlockID.MLD_CELL_DURATIONS durations_count st
    let (source_node_count, reader) ← fs.ReadVectorSize ElementType.NodeID reader
    let st := setBlock ElementType.NodeID BlockID.MLD_CELL_SOURCE_BOUNDARY source_node_count st
    let (destination_node_count, reader) ← fs.ReadVectorSize ElementType.NodeID reader
    let st := setBlock ElementType.NodeID BlockID.MLD_CELL_DESTINATION_BOUNDARY
      destination_node_count st
    let (cell_count, reader) ← fs.ReadVectorSize ElementType.CellData reader
    let st := setBlock ElementType.CellData BlockID.MLD_CELLS cell_count st
    let (level_offsets_count, _) ← fs.ReadVectorSize ElementType.uint64 reader
    some (setBlock ElementType.uint64 BlockID.MLD_CELL_LEVEL_OFFSETS level_offsets_count st)
  else
    let st := setBlock ElementType.char BlockID.MLD_CELL_WEIGHTS 0 st
    let st := setBlock ElementType.char BlockID.MLD_CELL_DURATIONS 0 st
    let st := setBlock ElementType.char BlockID.MLD_CELL_SOURCE_BOUNDARY 0 st
    let st := setBlock ElementType.char BlockID.MLD_CELL_DESTINATION_BOUNDARY 0 st
    let st := setBlock ElementType.char BlockID.MLD_CELLS 0 st
    some (setBlock ElementType.char BlockID.MLD_CELL_LEVEL_OFFSETS 0 st)

/-- The part of the block for the MLD data that reads the `.mldgr` file. -/
def layoutMultiLevelGraph {Content Reader : Type} (fs : FileSystem Content Reader) (config : StorageConfig)
    (st : LayoutState) : Option LayoutState :=
  if fs.file_exists config.mld_graph_path then do
    let (reader, st) ← openReader fs config.mld_graph_path st
    let (num_nodes, reader) ← fs.ReadVectorSize ElementType.MultiLevelNodeArrayEntry reader
    let (num_edges, reader) ← fs.ReadVectorSize ElementType.MultiLevelEdgeArrayEntry reader
    let (num_node_offsets, _) ← fs.ReadVectorSize ElementType.MultiLevelEdgeOffset reader
    let st := setBlock ElementType.MultiLevelNodeArrayEntry BlockID.MLD_GRAPH_NODE_LIST
      num_nodes st
    let st := setBlock ElementType.MultiLevelEdgeArrayEntry BlockID.MLD_GRAPH_EDGE_LIST
      num_edges st
    some (setBlock ElementType.MultiLevelEdgeOffset BlockID.MLD_GRAPH_NODE_TO_OFFSET
      num_node_offsets st)
  else
    let st := setBlock ElementType.MultiLevelNodeArrayEntry BlockID.MLD_GRAPH_NODE_LIST 0 st
    let st := setBlock ElementType.MultiLevelEdgeArrayEntry BlockID.MLD_GRAPH_EDGE_LIST 0 st
    some (setBlock ElementType.MultiLevelEdgeOffset BlockID.MLD_GRAPH_NODE_TO_OFFSET 0 st)

/-- The blocks of `PopulateLayout` in program order. -/
def layoutBlocks {Content Reader : Type} (fs : FileSystem Content Reader) (config : StorageConfig) :
    List (LayoutState → Option LayoutState) :=
  [layoutFileIndexPath fs config, layoutNames fs config, layoutLaneDescriptions fs config,
    layoutOriginalEdges fs config, layoutNodeData fs config, layoutHsgr fs config,
    layoutSearchTree fs config, layoutProperties, layoutTimestamp fs config,
    layoutCoreMarker fs config, layoutTurnWeightPenalties fs config,
    layoutTurnDurationPenalties fs config, layoutCoordinates fs config,
    layoutGeometries fs config, layoutDatasourceNames, layoutIntersectionClasses fs config,
    layoutTurnLaneData fs config, layoutPartition fs config, layoutCells fs config,
    layoutMultiLevelGraph fs config]

/-- Running blocks one after the other; a block that throws ends the run. -/
def runBlocks : List (LayoutState → Option LayoutState) → LayoutState → Option LayoutState
  | [], st => some st
  | block :: rest, st =>
    match block st with
    | none => none
    | some st1 => runBlocks rest st1

/-- The method `Storage::PopulateLayout(layout)`: the blocks of the function body run in
order on the layout, `none` when a reader throws; the result carries the files opened. -/
def PopulateLayout {Content Reader : Type} (fs : FileSystem Content Reader) (config : StorageConfig)
    (layout : DataLayout) : Option LayoutState :=
  runBlocks (layoutBlocks fs config) ⟨layout, []⟩

/-- The block ids the block number `i` of `layoutBlocks` sets. -/
def blockIds : Nat → List BlockID
  | 0 => [BlockID.FILE_INDEX_PATH]
  | 1 => [BlockID.NAME_CHAR_DATA]
  | 2 => [BlockID.LANE_DESCRIPTION_OFFSETS, BlockID.LANE_DESCRIPTION_MASKS]
  | 3 => [BlockID.PRE_TURN_BEARING, BlockID.POST_TURN_BEARING, BlockID.TURN_INSTRUCTION,
          BlockID.LANE_DATA_ID, BlockID.ENTRY_CLASSID]
  | 4 => [BlockID.GEOMETRY_ID_LIST, BlockID.NAME_ID_LIST, BlockID.COMPONENT_ID_LIST,
          BlockID.TRAVEL_MODE_LIST]
  | 5 => [BlockID.HSGR_CHECKSUM, BlockID.CH_GRAPH_NODE_LIST, BlockID.CH_GRAPH_EDGE_LIST]
  | 6 => [BlockID.R_SEARCH_TREE, BlockID.R_SEARCH_TREE_LEVELS]
  | 7 => [BlockID.PROPERTIES]
  | 8 => [BlockID.TIMESTAMP]
  | 9 => [BlockID.CH_CORE_MARKER]
  | 10 => [BlockID.TURN_WEIGHT_PENALTIES]
  | 11 => [BlockID.TURN_DURATION_PENALTIES]
  | 12 => [BlockID.COORDINATE_LIST, BlockID.OSM_NODE_ID_LIST]
  | 13 => [BlockID.GEOMETRIES_INDEX, BlockID.GEOMETRIES_NODE_LIST,
          BlockID.GEOMETRIES_FWD_WEIGHT_LIST, BlockID.GEOMETRIES_REV_WEIGHT_LIST,
          BlockID.GEOMETRIES_FWD_DURATION_LIST, BlockID.GEOMETRIES_REV_DURATION_LIST,
          BlockID.DATASOURCES_LIST]
  | 14 => [BlockID.DATASOURCES_NAMES]
  | 15 => [BlockID.BEARING_VALUES, BlockID.BEARING_CLASSID, BlockID.BEARING_OFFSETS,
          BlockID.BEARING_BLOCKS, BlockID.ENTRY_CLASS]
  | 16 => [BlockID.TURN_LANE_DATA]
  | 17 => [BlockID.MLD_LEVEL_DATA, BlockID.MLD_PARTITION, BlockID.MLD_CELL_TO_CHILDREN]
  | 18 => [BlockID.MLD_CELL_WEIGHTS, BlockID.MLD_CELL_DURATIONS,
          BlockID.MLD_CELL_SOURCE_BOUNDARY, BlockID.MLD_CELL_DESTINATION_BOUNDARY,
          BlockID.MLD_CELLS, BlockID.MLD_CELL_LEVEL_OFFSETS]
  | 19 => [BlockID.MLD_GRAPH_NODE_LIST, BlockID.MLD_GRAPH_EDGE_LIST,
          BlockID.MLD_GRAPH_NODE_TO_OFFSET]
  | _ => []

/-- Every file opened so far exists. -/
def AllExist {Content Reader : Type} (fs : FileSystem Content Reader) (st : LayoutState) :
    Prop :=
  ∀ p ∈ st.opened, fs.file_exists p = true

/-- The block `block` opens only existing files and changes the number of entries of no block
id outside `ids`. -/
def FrameOf {Content Reader : Type} (fs : FileSystem Content Reader) (ids : List BlockID)
    (block : LayoutState → Option LayoutState) : Prop :=
  ∀ st st', block st = some st' →
    (AllExist fs st → AllExist fs st') ∧
      ∀ b : BlockID, b ∉ ids → st'.layout.num_entries b = st.layout.num_entries b

/-- A configuration with short path names. -/
def shortConfig : StorageConfig :=
  ⟨"fileIndex", "names", "tld", "edges", "nodes", "hsgr", "ramIndex", "timestamp", "core",
    "twp", "tdp", "nbg", "geometry", "icd", "tls", "partition", "cells", "mldgr"⟩

/-- A file system in which the files of the contraction hierarchy and of the MLD overlay
(`hsgr`, `core`, `partition`, `cells`, `mldgr`) are missing and every other file holds the
numbers 1 to 12; a reader is the list of the numbers not yet read, a count or a vector size is
the next number, and skipping consumes nothing. -/
def plainFiles : FileSystem (List Nat) (List Nat) where
  files := fun path =>
    if path = "hsgr" ∨ path = "core" ∨ path = "partition" ∨ path = "cells" ∨ path = "mldgr" then
      none
    else some [1, 2, 3, 4, 5, 6, 7, 8, 9, 10, 11, 12]
  absolute := fun path => path
  VerifyFingerprint := fun content => some content
  GetSize := fun reader => reader.length
  ReadElementCount64 := fun reader =>
    match reader with
    | [] => none
    | n :: rest => some (n, rest)
  ReadVectorSize := fun _ reader =>
    match reader with
    | [] => none
    | n :: rest => some (n, rest)
  Skip := fun _ _ reader => some reader

/-- A layout in which every block has 7 entries. -/
def sevenLayout : DataLayout := ⟨fun _ => 7, fun _ => none⟩

end storage

namespace extractor

/-- Modelled from the spec: a condition of a conditional turn restriction
(`util::OpeningHours` of the missing `util/opening_hours.hpp`): a modifier and the vectors of
times, weekdays and monthdays, whose entries are kept as numbers. -/
structure Condition where
  modifier : Nat
  times : List Nat
  weekdays : List Nat
  monthdays : List Nat
deriving DecidableEq, Repr

/-- Modelled from the spec: the member `flags` of a turn restriction (missing
`extractor/restriction.hpp`): the bit `is_only` and the other bits. -/
structure RestrictionFlags where
  is_only : Bool
  other_bits : Nat
deriving DecidableEq, Repr

/-- Modelled from the spec: the struct `TurnRestriction` of the missing
`extractor/restriction.hpp` (section 3, turn restrictions): via, from and to ids, the flags
and the conditions. -/
structure TurnRestriction where
  via : Nat
  from_way : Nat
  to_way : Nat
  flags : RestrictionFlags
  condition : List Condition
deriving DecidableEq, Repr

namespace serialization

/-- Modelled from the spec: the primitives of `storage::io::FileWriter` and
`storage::io::FileReader` (missing `storage/io.hpp`) and the vector serializers of the missing
`storage/serialization.hpp`, taken as parameters. A stream is the list of its bytes; a write
gives the bytes it emits, a read consumes bytes from the front of the stream and gives the
value with the rest of the stream, `none` when it throws. The vector readers receive the
vector they read into. -/
structure FileFormat where
  WriteOneId : Nat → List Nat
  ReadIntoId : List Nat → Option (Nat × List Nat)
  WriteOneBool : Bool → List Nat
  ReadIntoBool : List Nat → Option (Bool × List Nat)
  WriteElementCount64 : Nat → List Nat
  ReadElementCount64 : List Nat → Option (Nat × List Nat)
  WriteOneModifier : Nat → List Nat
  ReadIntoModifier : List Nat → Option (Nat × List Nat)
  writeTimes : List Nat → List Nat
  readTimes : List Nat → List Nat → Option (List Nat × List Nat)
  writeWeekdays : List Nat → List Nat
  readWeekdays : List Nat → List Nat → Option (List Nat × List Nat)
  writeMonthdays : List Nat → List Nat
  readMonthdays : List Nat → List Nat → Option (List Nat × List Nat)

/-- The readers and writers of a format round-trip: reading what was written gives the value
written and leaves the rest of the stream; counts are 64-bit values. -/
structure RoundTrips (f : FileFormat) : Prop where
  id : ∀ x rest, f.ReadIntoId (f.WriteOneId x ++ rest) = some (x, rest)
  bool : ∀ x rest, f.ReadIntoBool (f.WriteOneBool x ++ rest) = some (x, rest)
  count : ∀ n rest, n < 2 ^ 64 →
    f.ReadElementCount64 (f.WriteElementCount64 n ++ rest) = some (n, rest)
  modifier : ∀ x rest, f.ReadIntoModifier (f.WriteOneModifier x ++ rest) = some (x, rest)
  times : ∀ into v rest, f.readTimes into (f.writeTimes v ++ rest) = some (v, rest)
  weekdays : ∀ into v rest, f.readWeekdays into (f.writeWeekdays v ++ rest) = some (v, rest)
  monthdays : ∀ into v rest, f.readMonthdays into (f.writeMonthdays v ++ rest) = some (v, rest)

/-- The function `write(FileWriter&, const TurnRestriction&)`; `writer` is the stream written
so far. -/
def write (f : FileFormat) (writer : List Nat) (restriction : TurnRestriction) : List Nat :=
  let writer := writer ++ f.WriteOneId restriction.via
  let writer := writer ++ f.WriteOneId restriction.from_way
  let writer := writer ++ f.WriteOneId restriction.to_way
  let writer := writer ++ f.WriteOneBool restriction.flags.is_only
  let writer := writer ++ f.WriteElementCount64 restriction.condition.length
  restriction.condition.foldl
    (fun writer c =>
      let writer := writer ++ f.WriteOneModifier c.modifier
      let writer := writer ++ f.writeTimes c.times
      let writer := writer ++ f.writeWeekdays c.weekdays
      writer ++ f.writeMonthdays c.monthdays)
    writer

/-- The call `condition.resize(n)`: surplus entries are dropped, missing ones are
value-initialised. -/
def resize (condition : List Condition) (n : Nat) : List Condition :=
  condition.take n ++ List.replicate (n - condition.length) ⟨0, [], [], []⟩

/-- The loop `for (uint64_t i = 0; i < num_conditions; i++)` of `read`, with `remaining`
iterations to go from index `i`: each iteration reads the members of `condition[i]` in
place. -/
def readConditions (f : FileFormat) :
    Nat → Nat → List Condition → List Nat → Option (List Condition × List Nat)
  | 0, _, condition, reader => some (condition, reader)
  | remaining + 1, i, condition, reader =>
    match f.ReadIntoModifier reader with
    | none => none
    | some (modifier, reader) =>
      match f.readTimes (condition.getD i ⟨0, [], [], []⟩).times reader with
      | none => none
      | some (times, reader) =>
        match f.readWeekdays (condition.getD i ⟨0, [], [], []⟩).weekdays reader with
        | none => none
        | some (weekdays, reader) =>
          match f.readMonthdays (condition.getD i ⟨0, [], [], []⟩).monthdays reader with
          | none => none
          | some (monthdays, reader) =>
            readConditions f remaining (i + 1)
              (condition.set i ⟨modifier, times, weekdays, monthdays⟩) reader

/-- The loop `while (num_indices > 0)` of `read`: `restriction` is the variable declared
before the loop, which after `push_back(std::move(restriction))` keeps its scalar members and
has an empty condition vector. -/
def readRestrictions (f : FileFormat) :
    Nat → TurnRestriction → List TurnRestriction → List Nat →
      Option (List TurnRestriction × List Nat)
  | 0, _, restrictions, reader => some (restrictions, reader)
  | num_indices + 1, restriction, restrictions, reader =>
    match f.ReadIntoId reader with
    | none => none
    | some (via, reader) =>
      match f.ReadIntoId reader with
      | none => none
      | some (from_way, reader) =>
        match f.ReadIntoId reader with
        | none => none
        | some (to_way, reader) =>
          match f.ReadIntoBool reader with
          | none => none
          | some (is_only, reader) =>
            match f.ReadElementCount64 reader with
            | none => none
            | some (num_conditions, reader) =>
              match readConditions f num_conditions 0
                  (resize restriction.condition num_conditions) reader with
              | none => none
              | some (condition, reader) =>
                readRestrictions f num_indices
                  ⟨via, from_way, to_way, ⟨is_only, restriction.flags.other_bits⟩, []⟩
                  (restrictions ++
                    [⟨via, from_way, to_way, ⟨is_only, restriction.flags.other_bits⟩,
                      condition⟩])
                  reader

/-- The function `read(FileReader&, std::vector<TurnRestriction>&)`: the result is the vector
and the rest of the stream, `none` when a read throws. -/
def read (f : FileFormat) (reader : List Nat) (restrictions : List TurnRestriction) :
    Option (List TurnRestriction × List Nat) :=
  match f.ReadElementCount64 reader with
  | none => none
  | some (num_indices, reader) =>
    readRestrictions f num_indices ⟨0, 0, 0, ⟨false, 0⟩, []⟩ restrictions reader

/-- A format that writes every number and every flag as one entry of the stream and a vector
as its length followed by its entries. -/
def plainFormat : FileFormat where
  WriteOneId := fun x => [x]
  ReadIntoId := fun s => match s with
    | [] => none
    | x :: rest => some (x, rest)
  WriteOneBool := fun b => [if b then 1 else 0]
  ReadIntoBool := fun s => match s with
    | [] => none
    | x :: rest => some (decide (x ≠ 0), rest)
  WriteElementCount64 := fun n => [n % 2 ^ 64]
  ReadElementCount64 := fun s => match s with
    | [] => none
    | x :: rest => some (x, rest)
  WriteOneModifier := fun x => [x]
  ReadIntoModifier := fun s => match s with
    | [] => none
    | x :: rest => some (x, rest)
  writeTimes := fun v => v.length :: v
  readTimes := fun _ s => match s with
    | [] => none
    | n :: rest => if n ≤ rest.length then some (rest.take n, rest.drop n) else none
  writeWeekdays := fun v => v.length :: v
  readWeekdays := fun _ s => match s with
    | [] => none
    | n :: rest => if n ≤ rest.length then some (rest.take n, rest.drop n) else none
  writeMonthdays := fun v => v.length :: v
  readMonthdays := fun _ s => match s with
    | [] => none
    | n :: rest => if n ≤ rest.length then some (rest.take n, rest.drop n) else none

end serialization

end extractor

namespace customize

/-- The struct `CustomizationConfig` of customizer_config.hpp; paths are kept as strings. -/
structure CustomizationConfig where
  base_path : String
  edge_based_graph_path : String
  compressed_node_based_graph_path : String
  nbg_ebg_mapping_path : String
  partition_path : String
  requested_num_threads : Nat
deriving DecidableEq, Repr

/-- The constructor `CustomizationConfig()`: no thread is requested, the paths are empty. -/
def CustomizationConfig.new : CustomizationConfig := ⟨"", "", "", "", "", 0⟩

/-- Whether the characters `ext` stand at the front of `s`. -/
def startsWithChars : List Char → List Char → Bool
  | [], _ => true
  | _ :: _, [] => false
  | e :: ext, c :: s => e == c && startsWithChars ext s

/-- The calls `basepath.find(ext)` and `basepath.replace(pos, ext.size(), "")` of
`UseDefaults`: the first occurrence of `ext` is removed, if there is one. -/
def removeFirst (ext : List Char) : List Char → List Char
  | [] => []
  | c :: s =>
    if startsWithChars ext (c :: s) then (c :: s).drop ext.length
    else c :: removeFirst ext s

/-- The method `CustomizationConfig::UseDefaults`. -/
def CustomizationConfig.UseDefaults (config : CustomizationConfig) : CustomizationConfig :=
  let basepath := String.mk (removeFirst ".osrm".data config.base_path.data)
  ⟨config.base_path, basepath ++ ".osrm.ebg", basepath ++ ".osrm.cnbg",
    basepath ++ ".osrm.nbg_to_ebg", basepath ++ ".osrm.partition",
    config.requested_num_threads⟩

/-- The enumeration `return_code` of customize.cpp. -/
inductive return_code where
  | ok
  | fail
  | exit
deriving DecidableEq, Repr

/-- The options `store` finds on a command line: whether `version` and `help` occur, and the
value of `input` if it occurs. -/
structure VariablesMap where
  version : Bool
  help : Bool
  input : Option String
deriving DecidableEq, Repr

/-- The function `parseArguments` of customize.cpp. The command line parser of the library
(for the options `version,v`, `help,h`, `input,i` and one positional `input`) is the parameter
`store`, `none` when it throws `boost::program_options::error`; `notify` assigns the value of
`input` to `base_path`, the only variable bound to an option. -/
def parseArguments (store : List String → Option VariablesMap) (argv : List String)
    (customization_config : CustomizationConfig) : return_code × CustomizationConfig :=
  match store argv with
  | none => (return_code.fail, customization_config)
  | some option_variables =>
    if option_variables.version then (return_code.exit, customization_config)
    else if option_variables.help then (return_code.exit, customization_config)
    else
      match option_variables.input with
      | none => (return_code.exit, customization_config)
      | some input =>
        (return_code.ok,
          ⟨input, customization_config.edge_based_graph_path,
            customization_config.compressed_node_based_graph_path,
            customization_config.nbg_ebg_mapping_path, customization_config.partition_path,
            customization_config.requested_num_threads⟩)

/-- How a call of `Customizer::Run` ends: it returns an exit code or throws. -/
inductive RunOutcome where
  | returns (exitcode : Int)
  | bad_alloc
  | other_exception
deriving DecidableEq, Repr

/-- What `main` of customize.cpp meets outside the program: the command line parser, the files
that are regular files, and the method `Customizer::Run` (declared in customizer.hpp, defined
outside the sources at hand). -/
structure MainEnvironment where
  store : List String → Option VariablesMap
  is_regular_file : String → Bool
  Run : CustomizationConfig → RunOutcome

/-- What `main` returns and does: the exit code (`none` when an exception leaves `main`) and
the configurations `Customizer::Run` was called with. -/
structure MainResult where
  exit_code : Option Int
  runs : List CustomizationConfig
deriving DecidableEq, Repr

/-- The value `EXIT_SUCCESS`. -/
def EXIT_SUCCESS : Int := 0

/-- The value `EXIT_FAILURE`. -/
def EXIT_FAILURE : Int := 1

/-- The function `main` of customize.cpp (outside Windows, where only `std::bad_alloc` is
caught). -/
def main (env : MainEnvironment) (argv : List String) : MainResult :=
  let customization_config := CustomizationConfig.new
  let parsed := parseArguments env.store argv customization_config
  let result := parsed.1
  let customization_config := parsed.2
  if return_code.fail = result then ⟨some EXIT_FAILURE, []⟩
  else if return_code.exit = result then ⟨some EXIT_SUCCESS, []⟩
  else
    let customization_config := customization_config.UseDefaults
    if 1 > customization_config.requested_num_threads then ⟨some EXIT_FAILURE, []⟩
    else if !env.is_regular_file customization_config.base_path then ⟨some EXIT_FAILURE, []⟩
    else
      match env.Run customization_config with
      | RunOutcome.returns exitcode => ⟨some exitcode, [customization_config]⟩
      | RunOutcome.bad_alloc => ⟨some EXIT_FAILURE, [customization_config]⟩
      | RunOutcome.other_exception => ⟨none, [customization_config]⟩

/-- A command line parser for command lines with at most one argument after the program
name: `--version`, `--help` or their short forms, or the positional input file. -/
def oneArgumentStore (argv : List String) : Option VariablesMap :=
  match argv.tail with
  | [] => some ⟨false, false, none⟩
  | [argument] =>
    if argument = "--version" ∨ argument = "-v" then some ⟨true, false, none⟩
    else if argument = "--help" ∨ argument = "-h" then some ⟨false, true, none⟩
    else if argument.data.head? = some '-' then none
    else some ⟨false, false, some argument⟩
  | _ => none

/-- An environment in which `map.osrm` is the only regular file and the customizer
succeeds. -/
def mapEnvironment : MainEnvironment :=
  ⟨oneArgumentStore, fun path => path == "map.osrm", fun _ => RunOutcome.returns 0⟩

end customize

namespace CellCustomizer

/-- The nodes returned by the successive `DeleteMin` calls of the search loop, in order. -/
def deleteMinNodes (graph : Graph) (partition : MultiLevelPartition) (cells : CellStorage)
    (level : Nat) : Nat → Heap → List Nat → List Nat
  | 0, _, _ => []
  | fuel + 1, heap, destinations_set =>
    if !heap.Empty && !destinations_set.isEmpty then
      let node := heap.DeleteMin.1
      let heap1 := heap.DeleteMin.2
      let weight := heap1.GetKey node
      let duration := (heap1.GetData node).duration
      let heap2 :=
        if level == 1 then RelaxNode true graph partition cells heap1 level node weight duration
        else RelaxNode false graph partition cells heap1 level node weight duration
      node :: deleteMinNodes graph partition cells level fuel heap2
        (destinations_set.filter (fun d => d != node))
    else []

end CellCustomizer

namespace engine

/-- A facade as `rowFacade` whose turns carry an instruction, an entry class, penalties and
bearings different from the defaults of a step. -/
def turnFacade : Facade where
  GetEdgeDataTurnId := fun edge => edge + 1
  GetNameIndex := fun _ => 0
  GetTurnInstructionForEdgeID := fun turn_id => 5 + turn_id
  GetTravelMode := fun _ => 1
  GetGeometryIndex := fun _ => ⟨0, true⟩
  GetUncompressedForwardGeometry := fun _ => [10, 11, 12, 13]
  GetUncompressedForwardWeights := fun _ => [4, 5, 6]
  GetUncompressedForwardDurations := fun _ => [1, 2, 3]
  GetUncompressedForwardDatasources := fun _ => [0, 0, 0]
  GetUncompressedReverseGeometry := fun _ => [13, 12, 11, 10]
  GetUncompressedReverseWeights := fun _ => [6, 5, 4]
  GetUncompressedReverseDurations := fun _ => [3, 2, 1]
  GetUncompressedReverseDatasources := fun _ => [0, 0, 0]
  HasLaneData := fun _ => false
  GetLaneData := fun _ => ⟨0, 0, 0⟩
  GetEntryClass := fun turn_id => 2 + turn_id
  GetDurationPenaltyForEdgeID := fun _ => 7
  GetWeightPenaltyForEdgeID := fun _ => 9
  PreTurnBearing := fun _ => 90
  PostTurnBearing := fun _ => 180

end engine

namespace customize

/-- The call `basepath.find(ext)` of `UseDefaults`: the position of the first occurrence of
`ext`, `none` for `std::string::npos`. -/
def findChars (ext : List Char) : List Char → Option Nat
  | [] => if ext.isEmpty then some 0 else none
  | c :: s =>
    if startsWithChars ext (c :: s) then some 0
    else (findChars ext s).map (fun pos => pos + 1)

end customize

namespace Partitioner

/-- Modelled from the spec: the pair `NodeBasedNodes` that `mapping.Lookup` returns for an
edge-based node, the two node-based endpoints `u` and `v` (the mapping of the missing
`partition/node_based_graph_to_edge_based_graph_mapping.hpp`). -/
structure NodeBasedNodes where
  u : Nat
  v : Nat
deriving DecidableEq, Repr

/-- Modelled from the spec: the edge-based graph loaded by `LoadEdgeBasedGraph` (missing
`partition/edge_based_graph_reader.hpp`): the number of nodes, the ids of the outgoing edges of
a node and the target of an edge. -/
structure EdgeBasedGraph where
  GetNumberOfNodes : Nat
  GetAdjacentEdgeRange : Nat → List Nat
  GetTarget : Nat → Nat

/-- The flag `use_v` after the loop over the outgoing edges of `node` in `Partitioner::Run`.
Reading `node_based_partition_ids` out of range is undefined in the program and yields 0. -/
def useV (Lookup : Nat → NodeBasedNodes) (edge_based_graph : EdgeBasedGraph)
    (node_based_partition_ids : List Nat) (node : Nat) : Bool :=
  let u := (Lookup node).u
  let v := (Lookup node).v
  (edge_based_graph.GetAdjacentEdgeRange node).foldl
    (fun use_v edge =>
      let other := edge_based_graph.GetTarget edge
      let other_node_based_nodes := Lookup other
      let is_uturn := u == other_node_based_nodes.v && v == other_node_based_nodes.u
      if !is_uturn then
        (use_v &&
            node_based_partition_ids.getD v 0 ==
              node_based_partition_ids.getD other_node_based_nodes.u 0) &&
          node_based_partition_ids.getD v 0 ==
            node_based_partition_ids.getD other_node_based_nodes.v 0
      else use_v)
    true

/-- The value assigned to `edge_based_partition_ids[node]` in `Partitioner::Run`. -/
def edgeBasedPartitionId (Lookup : Nat → NodeBasedNodes) (edge_based_graph : EdgeBasedGraph)
    (node_based_partition_ids : List Nat) (node : Nat) : Nat :=
  let u := (Lookup node).u
  let v := (Lookup node).v
  if node_based_partition_ids.getD u 0 == node_based_partition_ids.getD v 0 then
    node_based_partition_ids.getD u 0
  else
    node_based_partition_ids.getD
      (if useV Lookup edge_based_graph node_based_partition_ids node then v else u) 0

/-- The vector `edge_based_partition_ids` after the loop over the edge-based nodes. -/
def edgeBasedPartitionIds (Lookup : Nat → NodeBasedNodes) (edge_based_graph : EdgeBasedGraph)
    (node_based_partition_ids : List Nat) : List Nat :=
  (List.range edge_based_graph.GetNumberOfNodes).map
    (edgeBasedPartitionId Lookup edge_based_graph node_based_partition_ids)

/-- The mapping of three edge-based nodes: node 0 runs from the node-based node 0 to 1, node 1
from 1 to 2 and node 2 from 1 back to 0. -/
def turnLookup (node : Nat) : NodeBasedNodes :=
  if node = 0 then ⟨0, 1⟩ else if node = 1 then ⟨1, 2⟩ else ⟨1, 0⟩

/-- An edge-based graph on the nodes of `turnLookup`: the edge 0 turns from node 0 into node
1, the edge 1 is the u-turn from node 0 into node 2. -/
def turnGraph : EdgeBasedGraph where
  GetNumberOfNodes := 3
  GetAdjacentEdgeRange := fun node => if node = 0 then [0, 1] else []
  GetTarget := fun edge => if edge = 0 then 1 else 2

end Partitioner

namespace extractor

namespace guidance

/-- Modelled from the spec: the data of an edge of the node-based graph that the roundabout
handler reads (missing `util/node_based_graph.hpp`): the flags `reversed`, `roundabout` and
`circular`, and the answer of `road_classification.IsLowPriorityRoadClass()`. -/
structure NodeBasedEdgeData where
  reversed : Bool
  roundabout : Bool
  circular : Bool
  is_low_priority_road_class : Bool
deriving DecidableEq, Repr

/-- Modelled from the spec: the node-based graph `util::NodeBasedDynamicGraph` (missing
`util/node_based_graph.hpp`), by the queries the roundabout handler makes. -/
structure NodeBasedDynamicGraph where
  GetEdgeData : Nat → NodeBasedEdgeData
  GetTarget : Nat → Nat
  GetAdjacentEdgeRange : Nat → List Nat
  GetOutDegree : Nat → Nat
  GetDirectedOutDegree : Nat → Nat

/-- Modelled from the spec: a turn instruction, a turn type and a direction modifier (missing
`extractor/guidance/turn_instruction.hpp`), both kept as their numeric codes. -/
structure TurnInstruction where
  type : Nat
  direction_modifier : Nat
deriving DecidableEq, Repr

/-- Modelled from the spec: the enumeration `RoundaboutType` of the missing
`extractor/guidance/roundabout_type.hpp`. -/
inductive RoundaboutType where
  | None
  | Roundabout
  | Rotary
  | RoundaboutIntersection
deriving DecidableEq, Repr

/-- Modelled from the spec: what the missing `extractor/guidance/turn_instruction.hpp` and
`extractor/guidance/toolkit.hpp` provide to `handleRoundabouts`: the instruction `NO_TURN()`,
the instructions built from a roundabout type and a direction modifier, the turn type
`Suppressed`, and the function `getTurnDirection` from the angle of a turn to its modifier. -/
structure TurnInstructions where
  NO_TURN : TurnInstruction
  REMAIN_ROUNDABOUT : RoundaboutType → Nat → TurnInstruction
  ENTER_ROUNDABOUT : RoundaboutType → Nat → TurnInstruction
  ENTER_ROUNDABOUT_AT_EXIT : RoundaboutType → Nat → TurnInstruction
  ENTER_AND_EXIT_ROUNDABOUT : RoundaboutType → Nat → TurnInstruction
  EXIT_ROUNDABOUT : RoundaboutType → Nat → TurnInstruction
  Suppressed : Nat
  getTurnDirection : ℚ → Nat

/-- Modelled from the spec: a road of an intersection, `ConnectedRoad` of the missing
`extractor/guidance/intersection.hpp`, with the members the roundabout handler reads or
writes; the angle, a `double` in the program, is a rational number here. -/
structure ConnectedRoad where
  eid : Nat
  entry_allowed : Bool
  angle : ℚ
  instruction : TurnInstruction
deriving DecidableEq, Repr

/-- The values of `idx` in the loops `for (cnt = 0, idx = lhs ? size - 1 : 0; cnt < size;
++cnt, idx += step)`: upwards from 0, or downwards from `size - 1` under left-hand driving. -/
def roadIndices (lhs : Bool) (size : Nat) : List Nat :=
  (List.range size).map (fun cnt => if lhs then size - 1 - cnt else cnt)

/-- The instruction `handleRoundabouts` assigns to a road when the incoming edge is on the
roundabout; `size` is `intersection.size()`. -/
def onRoundaboutInstruction (node_based_graph : NodeBasedDynamicGraph)
    (instructions : TurnInstructions) (roundabout_type : RoundaboutType)
    (node_at_center_of_intersection size : Nat) (road : ConnectedRoad) : TurnInstruction :=
  let out_data := node_based_graph.GetEdgeData road.eid
  if out_data.roundabout || out_data.circular then
    if 1 == node_based_graph.GetDirectedOutDegree node_at_center_of_intersection then
      if size == 2 then instructions.NO_TURN
      else ⟨instructions.Suppressed, instructions.getTurnDirection road.angle⟩
    else
      let has_non_ignorable_exit :=
        (node_based_graph.GetAdjacentEdgeRange node_at_center_of_intersection).any
          (fun eid =>
            let data_of_leaving_edge := node_based_graph.GetEdgeData eid
            !data_of_leaving_edge.reversed && !data_of_leaving_edge.roundabout &&
              !data_of_leaving_edge.circular &&
              !data_of_leaving_edge.is_low_priority_road_class)
      if out_data.is_low_priority_road_class || has_non_ignorable_exit then
        instructions.REMAIN_ROUNDABOUT roundabout_type
          (instructions.getTurnDirection road.angle)
      else ⟨instructions.Suppressed, instructions.getTurnDirection road.angle⟩
  else
    instructions.EXIT_ROUNDABOUT roundabout_type (instructions.getTurnDirection road.angle)

/-- The instruction `handleRoundabouts` assigns to a road with `entry_allowed` when the
incoming edge is not on the roundabout. -/
def enterRoundaboutInstruction (node_based_graph : NodeBasedDynamicGraph)
    (instructions : TurnInstructions) (roundabout_type : RoundaboutType)
    (can_exit_roundabout_separately : Bool) (road : ConnectedRoad) : TurnInstruction :=
  let out_data := node_based_graph.GetEdgeData road.eid
  if out_data.roundabout || out_data.circular then
    if can_exit_roundabout_separately then
      instructions.ENTER_ROUNDABOUT_AT_EXIT roundabout_type
        (instructions.getTurnDirection road.angle)
    else
      instructions.ENTER_ROUNDABOUT roundabout_type (instructions.getTurnDirection road.angle)
  else
    instructions.ENTER_AND_EXIT_ROUNDABOUT roundabout_type
      (instructions.getTurnDirection road.angle)

/-- The method `RoundaboutHandler::handleRoundabouts`; `left_hand_driving` is the member of
`profile_properties`. Each iteration of a loop writes the instruction of the road
`intersection[idx]`. -/
def handleRoundabouts (node_based_graph : NodeBasedDynamicGraph)
    (instructions : TurnInstructions) (left_hand_driving : Bool)
    (roundabout_type : RoundaboutType) (via_eid : Nat)
    (on_roundabout can_exit_roundabout_separately : Bool)
    (intersection : List ConnectedRoad) : List ConnectedRoad :=
  let node_at_center_of_intersection := node_based_graph.GetTarget via_eid
  if on_roundabout then
    (roadIndices left_hand_driving intersection.length).foldl
      (fun intersection idx =>
        match intersection[idx]? with
        | none => intersection
        | some road =>
          intersection.set idx
            ⟨road.eid, road.entry_allowed, road.angle,
              onRoundaboutInstruction node_based_graph instructions roundabout_type
                node_at_center_of_intersection intersection.length road⟩)
      intersection
  else
    (roadIndices left_hand_driving intersection.length).foldl
      (fun intersection idx =>
        match intersection[idx]? with
        | none => intersection
        | some road =>
          if !road.entry_allowed then intersection
          else
            intersection.set idx
              ⟨road.eid, road.entry_allowed, road.angle,
                enterRoundaboutInstruction node_based_graph instructions roundabout_type
                  can_exit_roundabout_separately road⟩)
      intersection

/-- The first loop of `invalidateExitAgainstDirection`: the flag `roundabout_entry_first` and
the iterators `invalidate_from` and `invalidate_to`, as positions in the intersection
(`intersection.end()` is the position `intersection.size()`). -/
def invalidateRange (node_based_graph : NodeBasedDynamicGraph)
    (intersection : List ConnectedRoad) : Bool × Nat × Nat :=
  (List.zip (List.range intersection.length) intersection).foldl
    (fun state road =>
      let edge_data := node_based_graph.GetEdgeData road.2.eid
      if edge_data.roundabout || edge_data.circular then
        if edge_data.reversed then
          if state.1 then (state.1, road.1 + 1, intersection.length)
          else (state.1, 0 + 1, road.1)
        else (true, state.2.1, state.2.2)
      else state)
    (false, intersection.length, intersection.length)

/-- The method `RoundaboutHandler::invalidateExitAgainstDirection`, with the intersection it
leaves behind as the result; `none` when `OSRM_ASSERT(invalidate_from <= invalidate_to)` is
violated, where the loop that follows would leave the intersection. -/
def invalidateExitAgainstDirection (node_based_graph : NodeBasedDynamicGraph)
    (from_nid via_eid : Nat) (intersection : List ConnectedRoad) :
    Option (List ConnectedRoad) :=
  let in_edge_data := node_based_graph.GetEdgeData via_eid
  if in_edge_data.roundabout || in_edge_data.circular then some intersection
  else
    let invalidate_from := (invalidateRange node_based_graph intersection).2.1
    let invalidate_to := (invalidateRange node_based_graph intersection).2.2
    if !decide (invalidate_from ≤ invalidate_to) then none
    else
      some ((List.range' invalidate_from (invalidate_to - invalidate_from)).foldl
        (fun intersection position =>
          match intersection[position]? with
          | none => intersection
          | some road =>
            let edge_data := node_based_graph.GetEdgeData road.eid
            if !edge_data.roundabout && !edge_data.circular &&
                node_based_graph.GetTarget road.eid != from_nid then
              intersection.set position ⟨road.eid, false, road.angle, road.instruction⟩
            else intersection)
        intersection)

/-- The function `std::abs` on the difference of two bearings. -/
def absDifference (x : ℚ) : ℚ := if x < 0 then -x else x

/-- The lambda `exit_bearings` of `qualifiesAsRoundaboutIntersection`: for every node the
bearing of its first adjacent edge that is neither `roundabout` nor `circular`, sorted.
`exit_bearing node edge` stands for the call of `util::coordinate_calculation::bearing` on the
coordinate of `node` and the coordinate `GetCoordinateAlongRoad` finds along `edge` (both
missing); the bearings, `double` in the program, are rational numbers here. -/
def exitBearings (node_based_graph : NodeBasedDynamicGraph) (exit_bearing : Nat → Nat → ℚ)
    (roundabout_nodes : List Nat) : List ℚ :=
  (roundabout_nodes.foldl
    (fun result node =>
      match (node_based_graph.GetAdjacentEdgeRange node).find?
          (fun edge =>
            !((node_based_graph.GetEdgeData edge).roundabout ||
              (node_based_graph.GetEdgeData edge).circular)) with
      | none => result
      | some edge => result ++ [exit_bearing node edge])
    []).insertionSort (fun a b => a ≤ b)

/-- The lambda `well_distinct_bearings` of `qualifiesAsRoundaboutIntersection`;
`NARROW_TURN_ANGLE` is the constant of the missing `extractor/guidance/constants.hpp`. -/
def wellDistinctBearings (NARROW_TURN_ANGLE : ℚ) (bearings : List ℚ) : Bool :=
  (List.range bearings.length).all
    (fun bearing_index =>
      let difference :=
        absDifference (bearings.getD ((bearing_index + 1) % bearings.length) 0 -
          bearings.getD bearing_index 0)
      !decide (difference ≤ NARROW_TURN_ANGLE))

/-- The method `RoundaboutHandler::qualifiesAsRoundaboutIntersection`; the set
`roundabout_nodes` is the list of its elements in the order of iteration. -/
def qualifiesAsRoundaboutIntersection (node_based_graph : NodeBasedDynamicGraph)
    (exit_bearing : Nat → Nat → ℚ) (NARROW_TURN_ANGLE : ℚ) (roundabout_nodes : List Nat) :
    Bool :=
  let has_limited_size := decide (roundabout_nodes.length ≤ 4)
  if !has_limited_size then false
  else
    let simple_exits :=
      (roundabout_nodes.find? (fun node => decide (node_based_graph.GetOutDegree node > 3)))
        == none
    if !simple_exits then false
    else
      wellDistinctBearings NARROW_TURN_ANGLE
        (exitBearings node_based_graph exit_bearing roundabout_nodes)

end guidance

end extractor

namespace extractor

namespace guidance

/-- A node-based graph around the node 4 of a roundabout: the edge 0 leads back to the node 9,
the edge 1 leaves the roundabout to the node 5, the edge 2 is the reversed roundabout edge to
the node 6 and the edge 3 the roundabout edge on to the node 7; the node 4 is entered over the
roundabout edge 4 (from the node 6) or over the edge 5 (from the node 9). -/
def ringGraph : NodeBasedDynamicGraph where
  GetEdgeData := fun eid =>
    if eid = 2 then ⟨true, true, false, false⟩
    else if eid = 3 ∨ eid = 4 then ⟨false, true, false, false⟩
    else ⟨false, false, false, false⟩
  GetTarget := fun eid =>
    if eid = 0 then 9 else if eid = 1 then 5 else if eid = 2 then 6 else if eid = 3 then 7
    else 4
  GetAdjacentEdgeRange := fun node => if node = 4 then [0, 1, 2, 3] else []
  GetOutDegree := fun node => if node = 4 then 4 else 0
  GetDirectedOutDegree := fun node => if node = 4 then 3 else 0

/-- The roads of the intersection at the node 4 of `ringGraph`, in the order of the edges. -/
def ringIntersection : List ConnectedRoad :=
  [⟨0, true, 0, ⟨0, 0⟩⟩, ⟨1, true, 90, ⟨0, 0⟩⟩, ⟨2, false, 180, ⟨0, 0⟩⟩, ⟨3, true, 270, ⟨0, 0⟩⟩]

/-- Instructions with a code of their own for every kind: the type of `NO_TURN` is 0, of the
roundabout instructions 1 to 5 (whatever the roundabout type), `Suppressed` is 6, and the
modifier of a turn is 1 for an angle above 180 and 2 otherwise. -/
def plainInstructions : TurnInstructions where
  NO_TURN := ⟨0, 0⟩
  REMAIN_ROUNDABOUT := fun _ modifier => ⟨1, modifier⟩
  ENTER_ROUNDABOUT := fun _ modifier => ⟨2, modifier⟩
  ENTER_ROUNDABOUT_AT_EXIT := fun _ modifier => ⟨3, modifier⟩
  ENTER_AND_EXIT_ROUNDABOUT := fun _ modifier => ⟨4, modifier⟩
  EXIT_ROUNDABOUT := fun _ modifier => ⟨5, modifier⟩
  Suppressed := 6
  getTurnDirection := fun angle => if 180 < angle then 1 else 2

/-- A roundabout of the two nodes 0 and 1, each of out-degree 3: the roundabout edge on to the
other node (the edges 0 and 2), the reversed roundabout edge from the other node (the edges 4
and 5) and one exit (the edges 1 and 3). -/
def twoExitGraph : NodeBasedDynamicGraph where
  GetEdgeData := fun eid =>
    if eid = 0 ∨ eid = 2 then ⟨false, true, false, false⟩
    else if eid = 4 ∨ eid = 5 then ⟨true, true, false, false⟩
    else ⟨false, false, false, false⟩
  GetTarget := fun eid =>
    if eid = 0 ∨ eid = 4 then 1 else if eid = 2 ∨ eid = 5 then 0 else eid + 10
  GetAdjacentEdgeRange := fun node =>
    if node = 0 then [0, 4, 1] else if node = 1 then [2, 5, 3] else []
  GetOutDegree := fun node => if node = 0 ∨ node = 1 then 3 else 0
  GetDirectedOutDegree := fun node => if node = 0 ∨ node = 1 then 2 else 0

/-- The exits of `twoExitGraph` leave at the bearings 350 (node 0) and 10 (node 1). -/
def twoExitBearing (node : Nat) (_edge : Nat) : ℚ := if node = 0 then 350 else 10

end guidance

end extractor

end osrm

/-! # Theorems -/

namespace osrm

namespace CellCustomizer

/-! ## The relaxation block -/

theorem relax_inserted_nodes (h : Heap) (t : Nat) (k : Int) (d : HeapData) :
    (relax h t k d).inserted_nodes =
      if t ∈ h.inserted_nodes then h.inserted_nodes else h.inserted_nodes ++ [t] := by
  unfold relax
  by_cases ht : t ∈ h.inserted_nodes
  · by_cases hk : k < h.GetKey t <;>
      simp [Heap.WasInserted, ht, hk, Heap.DecreaseKey, Heap.SetData]
  · simp [Heap.WasInserted, ht, Heap.Insert]

theorem relax_heap (h : Heap) (t : Nat) (k : Int) (d : HeapData) :
    (relax h t k d).heap = if t ∈ h.inserted_nodes then h.heap else h.heap ++ [t] := by
  unfold relax
  by_cases ht : t ∈ h.inserted_nodes
  · by_cases hk : k < h.GetKey t <;>
      simp [Heap.WasInserted, ht, hk, Heap.DecreaseKey, Heap.SetData]
  · simp [Heap.WasInserted, ht, Heap.Insert]

theorem relax_key (h : Heap) (t : Nat) (k : Int) (d : HeapData) (n : Nat) :
    (relax h t k d).key n =
      if n = t ∧ (t ∉ h.inserted_nodes ∨ k < h.key t) then k else h.key n := by
  unfold relax
  by_cases ht : t ∈ h.inserted_nodes
  · by_cases hk : k < h.key t
    · by_cases hn : n = t <;>
        simp [Heap.WasInserted, Heap.GetKey, ht, hk, hn, Heap.DecreaseKey, Heap.SetData]
    · simp [Heap.WasInserted, Heap.GetKey, ht, hk, Heap.DecreaseKey, Heap.SetData]
  · by_cases hn : n = t <;> simp [Heap.WasInserted, ht, hn, Heap.Insert]

theorem relax_data (h : Heap) (t : Nat) (k : Int) (d : HeapData) (n : Nat) :
    (relax h t k d).data n =
      if n = t ∧ (t ∉ h.inserted_nodes ∨ k < h.key t) then d else h.data n := by
  unfold relax
  by_cases ht : t ∈ h.inserted_nodes
  · by_cases hk : k < h.key t
    · by_cases hn : n = t <;>
        simp [Heap.WasInserted, Heap.GetKey, ht, hk, hn, Heap.DecreaseKey, Heap.SetData]
    · simp [Heap.WasInserted, Heap.GetKey, ht, hk, Heap.DecreaseKey, Heap.SetData]
  · by_cases hn : n = t <;> simp [Heap.WasInserted, ht, hn, Heap.Insert]

theorem relaxArcs_nil (W D : Int) (h : Heap) : relaxArcs W D [] h = h := rfl

theorem relaxArcs_cons (W D : Int) (a : Arc) (arcs : List Arc) (h : Heap) :
    relaxArcs W D (a :: arcs) h =
      relaxArcs W D arcs
        (relax h a.to_node (W + a.weight) ⟨a.from_clique, D + a.duration⟩) := rfl

theorem relaxArcs_append (W D : Int) (l1 l2 : List Arc) (h : Heap) :
    relaxArcs W D (l1 ++ l2) h = relaxArcs W D l2 (relaxArcs W D l1 h) := by
  simp [relaxArcs, List.foldl_append]

/-- The nodes `relaxArcs` inserts are appended to both lists of the heap. -/
theorem relaxArcs_new (W D : Int) (arcs : List Arc) (h : Heap) :
    ∃ new : List Nat,
      (relaxArcs W D arcs h).inserted_nodes = h.inserted_nodes ++ new ∧
      (relaxArcs W D arcs h).heap = h.heap ++ new ∧
      (h.inserted_nodes.Nodup → (h.inserted_nodes ++ new).Nodup) ∧
      ∀ n ∈ new, ∃ a ∈ arcs, a.to_node = n := by
  induction arcs generalizing h with
  | nil => exact ⟨[], by simp [relaxArcs_nil]⟩
  | cons a rest ih =>
    obtain ⟨new, h1, h2, h3, h4⟩ :=
      ih (relax h a.to_node (W + a.weight) ⟨a.from_clique, D + a.duration⟩)
    rw [relaxArcs_cons]
    rw [relax_inserted_nodes] at h1 h3
    rw [relax_heap] at h2
    by_cases ht : a.to_node ∈ h.inserted_nodes
    · simp only [ht, if_true] at h1 h2 h3
      exact ⟨new, h1, h2, h3, fun n hn => by
        obtain ⟨b, hb, hbn⟩ := h4 n hn
        exact ⟨b, List.mem_cons_of_mem _ hb, hbn⟩⟩
    · simp only [ht, if_false] at h1 h2 h3
      refine ⟨a.to_node :: new, by simpa using h1, by simpa using h2, ?_, ?_⟩
      · intro hnd
        have : (h.inserted_nodes ++ [a.to_node]).Nodup := by
          rw [List.nodup_append]
          refine ⟨hnd, List.nodup_singleton _, ?_⟩
          intro x hx hx2
          simp only [List.mem_singleton] at hx2
          subst hx2
          exact ht hx
        simpa using h3 this
      · intro n hn
        rcases List.mem_cons.1 hn with hn | hn
        · exact ⟨a, List.mem_cons_self _ _, hn.symm⟩
        · obtain ⟨b, hb, hbn⟩ := h4 n hn
          exact ⟨b, List.mem_cons_of_mem _ hb, hbn⟩

/-- Every node keeps its key and payload under `relaxArcs`, or receives them from one of the
relaxed arcs; a node inserted before only receives a smaller key. -/
theorem relaxArcs_change (W D : Int) (arcs : List Arc) (h : Heap) (n : Nat) :
    ((relaxArcs W D arcs h).key n = h.key n ∧ (relaxArcs W D arcs h).data n = h.data n ∧
        (n ∈ (relaxArcs W D arcs h).inserted_nodes → n ∈ h.inserted_nodes)) ∨
      ∃ a ∈ arcs, a.to_node = n ∧ (relaxArcs W D arcs h).key n = W + a.weight ∧
        (relaxArcs W D arcs h).data n = ⟨a.from_clique, D + a.duration⟩ ∧
        (n ∈ h.inserted_nodes → (relaxArcs W D arcs h).key n < h.key n) := by
  induction arcs generalizing h with
  | nil => left; simp [relaxArcs_nil]
  | cons a rest ih =>
    rw [relaxArcs_cons]
    have hk := relax_key h a.to_node (W + a.weight) ⟨a.from_clique, D + a.duration⟩ n
    have hd := relax_data h a.to_node (W + a.weight) ⟨a.from_clique, D + a.duration⟩ n
    have hi := relax_inserted_nodes h a.to_node (W + a.weight) ⟨a.from_clique, D + a.duration⟩
    rcases ih (relax h a.to_node (W + a.weight) ⟨a.from_clique, D + a.duration⟩) with
      ⟨e1, e2, e3⟩ | ⟨b, hb, hbn, e1, e2, e3⟩
    · by_cases hc : n = a.to_node ∧ (a.to_node ∉ h.inserted_nodes ∨ W + a.weight < h.key a.to_node)
      · right
        rw [if_pos hc] at hk hd
        refine ⟨a, List.mem_cons_self _ _, hc.1.symm, by rw [e1, hk], by rw [e2, hd], ?_⟩
        intro hin
        rw [e1, hk]
        rcases hc.2 with h1 | h1
        · exact absurd (hc.1 ▸ hin) h1
        · rw [hc.1]; exact h1
      · left
        rw [if_neg hc] at hk hd
        refine ⟨by rw [e1, hk], by rw [e2, hd], ?_⟩
        intro hin
        have := e3 hin
        rw [hi] at this
        by_cases ht : a.to_node ∈ h.inserted_nodes
        · simpa [ht] using this
        · simp only [ht, if_false, List.mem_append, List.mem_singleton] at this
          rcases this with h1 | h1
          · exact h1
          · exact absurd ⟨h1, Or.inl ht⟩ hc
    · right
      refine ⟨b, List.mem_cons_of_mem _ hb, hbn, e1, e2, ?_⟩
      intro hin
      have h1 : n ∈ (relax h a.to_node (W + a.weight) ⟨a.from_clique, D + a.duration⟩).inserted_nodes := by
        rw [hi]; split_ifs
        · exact hin
        · exact List.mem_append_left _ hin
      have h2 := e3 h1
      rw [hk] at h2
      by_cases hc : n = a.to_node ∧ (a.to_node ∉ h.inserted_nodes ∨ W + a.weight < h.key a.to_node)
      · rw [if_pos hc] at h2
        rcases hc.2 with h3 | h3
        · exact absurd (hc.1 ▸ hin) h3
        · rw [hc.1] at h2 ⊢; omega
      · rw [if_neg hc] at h2; exact h2

/-- Inserted nodes stay inserted and their keys never grow under `relaxArcs`. -/
theorem relaxArcs_mono (W D : Int) (arcs : List Arc) (h : Heap) (n : Nat)
    (hn : n ∈ h.inserted_nodes) :
    n ∈ (relaxArcs W D arcs h).inserted_nodes ∧ (relaxArcs W D arcs h).key n ≤ h.key n := by
  constructor
  · obtain ⟨new, h1, _⟩ := relaxArcs_new W D arcs h
    rw [h1]; exact List.mem_append_left _ hn
  · rcases relaxArcs_change W D arcs h n with ⟨e1, _⟩ | ⟨b, _, _, _, _, e3⟩
    · omega
    · exact le_of_lt (e3 hn)

/-- After `relaxArcs` every relaxed arc is satisfied: its target is inserted with a key no
larger than the relaxed weight. -/
theorem relaxArcs_sat (W D : Int) (arcs : List Arc) (h : Heap) :
    ∀ a ∈ arcs, a.to_node ∈ (relaxArcs W D arcs h).inserted_nodes ∧
      (relaxArcs W D arcs h).key a.to_node ≤ W + a.weight := by
  induction arcs generalizing h with
  | nil => intro a ha; cases ha
  | cons b rest ih =>
    intro a ha
    rw [relaxArcs_cons]
    rcases List.mem_cons.1 ha with hab | hab
    · subst hab
      have hi := relax_inserted_nodes h a.to_node (W + a.weight) ⟨a.from_clique, D + a.duration⟩
      have hk := relax_key h a.to_node (W + a.weight) ⟨a.from_clique, D + a.duration⟩ a.to_node
      have hin : a.to_node ∈
          (relax h a.to_node (W + a.weight) ⟨a.from_clique, D + a.duration⟩).inserted_nodes := by
        rw [hi]; split_ifs with ht
        · exact ht
        · simp
      have hle : (relax h a.to_node (W + a.weight) ⟨a.from_clique, D + a.duration⟩).key a.to_node
          ≤ W + a.weight := by
        rw [hk]
        split_ifs with hc
        · exact le_refl _
        · simp only [true_and, not_or, not_not, not_lt] at hc
          exact hc.2
      obtain ⟨m1, m2⟩ := relaxArcs_mono W D rest _ a.to_node hin
      exact ⟨m1, le_trans m2 hle⟩
    · exact ih _ a hab

/-! ## The heap -/

theorem minNode_spec (key : Nat → Int) (l : List Nat) (hl : l ≠ []) :
    ∃ u, Heap.minNode key l = some u ∧ u ∈ l ∧ ∀ m ∈ l, key u ≤ key m := by
  induction l with
  | nil => exact absurd rfl hl
  | cons n rest ih =>
    by_cases hr : rest = []
    · subst hr
      exact ⟨n, by simp [Heap.minNode], by simp, by simp⟩
    · obtain ⟨m, hm, hmem, hmin⟩ := ih hr
      by_cases hc : key n < key m ∨ (key n = key m ∧ n ≤ m)
      · refine ⟨n, by simp [Heap.minNode, hm, hc], by simp, ?_⟩
        intro x hx
        rcases List.mem_cons.1 hx with hx | hx
        · rw [hx]
        · have := hmin x hx
          rcases hc with h1 | h1 <;> omega
      · refine ⟨m, by simp [Heap.minNode, hm, hc], List.mem_cons_of_mem _ hmem, ?_⟩
        intro x hx
        rcases List.mem_cons.1 hx with hx | hx
        · rw [hx]
          by_contra hlt
          exact hc (Or.inl (by omega))
        · exact hmin x hx

/-- On a non-empty queue `DeleteMin` returns a queued node of least key and removes it from
the queue, leaving keys, payloads and the inserted nodes as they are. -/
theorem DeleteMin_spec (h : Heap) (hne : h.Empty = false) :
    h.DeleteMin.1 ∈ h.heap ∧ (∀ m ∈ h.heap, h.key h.DeleteMin.1 ≤ h.key m) ∧
      h.DeleteMin.2.inserted_nodes = h.inserted_nodes ∧
      h.DeleteMin.2.heap = h.heap.erase h.DeleteMin.1 ∧
      h.DeleteMin.2.key = h.key ∧ h.DeleteMin.2.data = h.data := by
  have hl : h.heap ≠ [] := by
    intro he
    simp [Heap.Empty, he] at hne
  obtain ⟨u, hu, hmem, hmin⟩ := minNode_spec h.key h.heap hl
  have h1 : h.DeleteMin = (u, ⟨h.inserted_nodes, h.heap.erase u, h.key, h.data⟩) := by
    simp only [Heap.DeleteMin, hu]
  rw [h1]
  exact ⟨hmem, hmin, rfl, rfl, rfl, rfl⟩

/-! ## One iteration of a search -/

theorem genStep_eq (C E : Nat → List Arc) (h : Heap) (hne : h.Empty = false) :
    genStep C E h =
      relaxArcs (h.key h.DeleteMin.1) (h.data h.DeleteMin.1).duration
        ((if (h.data h.DeleteMin.1).from_clique then [] else C h.DeleteMin.1) ++
          E h.DeleteMin.1)
        ⟨h.inserted_nodes, h.heap.erase h.DeleteMin.1, h.key, h.data⟩ := by
  obtain ⟨_, _, e1, e2, e3, e4⟩ := DeleteMin_spec h hne
  have : h.DeleteMin.2 = ⟨h.inserted_nodes, h.heap.erase h.DeleteMin.1, h.key, h.data⟩ := by
    cases hd : h.DeleteMin.2
    rw [hd] at e1 e2 e3 e4
    simp only at e1 e2 e3 e4
    rw [e1, e2, e3, e4]
  unfold genStep
  simp only [Heap.GetKey, Heap.GetData]
  rw [this]

theorem genStep_new (C E : Nat → List Arc) (h : Heap) (hok : HeapOK h) (hne : h.Empty = false) :
    ∃ new : List Nat,
      (genStep C E h).inserted_nodes = h.inserted_nodes ++ new ∧
      (genStep C E h).heap = h.heap.erase h.DeleteMin.1 ++ new ∧
      (h.inserted_nodes ++ new).Nodup ∧
      ∀ n ∈ new, ∃ a ∈ (if (h.data h.DeleteMin.1).from_clique then [] else C h.DeleteMin.1) ++
          E h.DeleteMin.1, a.to_node = n := by
  rw [genStep_eq C E h hne]
  obtain ⟨new, h1, h2, h3, h4⟩ := relaxArcs_new (h.key h.DeleteMin.1)
    (h.data h.DeleteMin.1).duration
    ((if (h.data h.DeleteMin.1).from_clique then [] else C h.DeleteMin.1) ++ E h.DeleteMin.1)
    ⟨h.inserted_nodes, h.heap.erase h.DeleteMin.1, h.key, h.data⟩
  exact ⟨new, h1, h2, h3 hok.nodup_inserted, h4⟩

theorem genStep_change (C E : Nat → List Arc) (h : Heap) (hne : h.Empty = false) (n : Nat) :
    ((genStep C E h).key n = h.key n ∧ (genStep C E h).data n = h.data n ∧
        (n ∈ (genStep C E h).inserted_nodes → n ∈ h.inserted_nodes)) ∨
      ∃ a ∈ (if (h.data h.DeleteMin.1).from_clique then [] else C h.DeleteMin.1) ++
          E h.DeleteMin.1,
        a.to_node = n ∧ (genStep C E h).key n = h.key h.DeleteMin.1 + a.weight ∧
        (genStep C E h).data n = ⟨a.from_clique, (h.data h.DeleteMin.1).duration + a.duration⟩ ∧
        (n ∈ h.inserted_nodes → (genStep C E h).key n < h.key n) := by
  rw [genStep_eq C E h hne]
  exact relaxArcs_change _ _ _ ⟨h.inserted_nodes, h.heap.erase h.DeleteMin.1, h.key, h.data⟩ n

theorem genStep_sat (C E : Nat → List Arc) (h : Heap) (hne : h.Empty = false) :
    ∀ a ∈ (if (h.data h.DeleteMin.1).from_clique then [] else C h.DeleteMin.1) ++
        E h.DeleteMin.1,
      a.to_node ∈ (genStep C E h).inserted_nodes ∧
        (genStep C E h).key a.to_node ≤ h.key h.DeleteMin.1 + a.weight := by
  rw [genStep_eq C E h hne]
  exact relaxArcs_sat _ _ _ ⟨h.inserted_nodes, h.heap.erase h.DeleteMin.1, h.key, h.data⟩

theorem genStep_mono (C E : Nat → List Arc) (h : Heap) (hne : h.Empty = false) (n : Nat)
    (hn : n ∈ h.inserted_nodes) :
    n ∈ (genStep C E h).inserted_nodes ∧ (genStep C E h).key n ≤ h.key n := by
  rw [genStep_eq C E h hne]
  exact relaxArcs_mono _ _ _ ⟨h.inserted_nodes, h.heap.erase h.DeleteMin.1, h.key, h.data⟩ n hn

theorem genStep_HeapOK (C E : Nat → List Arc) (h : Heap) (hok : HeapOK h)
    (hne : h.Empty = false) : HeapOK (genStep C E h) := by
  obtain ⟨new, h1, h2, h3, _⟩ := genStep_new C E h hok hne
  have hd := List.nodup_append.1 h3
  refine ⟨by rw [h1]; exact h3, ?_, ?_⟩
  · rw [h2, List.nodup_append]
    refine ⟨hok.nodup_heap.erase _, hd.2.1, ?_⟩
    intro x hx hx2
    exact hd.2.2 (hok.heap_sub x (List.mem_of_mem_erase hx)) hx2
  · intro n hn
    rw [h2] at hn
    rw [h1]
    rcases List.mem_append.1 hn with hn | hn
    · exact List.mem_append_left _ (hok.heap_sub n (List.mem_of_mem_erase hn))
    · exact List.mem_append_right _ hn

/-- The settled nodes after an iteration are those settled before and the dequeued node. -/
theorem genStep_settled (C E : Nat → List Arc) (h : Heap) (hok : HeapOK h)
    (hne : h.Empty = false) (r : Nat) :
    Settled (genStep C E h) r ↔ Settled h r ∨ r = h.DeleteMin.1 := by
  obtain ⟨new, h1, h2, h3, _⟩ := genStep_new C E h hok hne
  obtain ⟨hu, _⟩ := DeleteMin_spec h hne
  have hd := List.nodup_append.1 h3
  unfold Settled
  rw [h1, h2]
  constructor
  · rintro ⟨hin, hnot⟩
    have hnew : r ∉ new := fun hx => hnot (List.mem_append_right _ hx)
    have hr : r ∈ h.inserted_nodes := by
      rcases List.mem_append.1 hin with hx | hx
      · exact hx
      · exact absurd hx hnew
    by_cases hru : r = h.DeleteMin.1
    · exact Or.inr hru
    · left
      refine ⟨hr, fun hx => hnot (List.mem_append_left _ ?_)⟩
      exact (List.mem_erase_of_ne hru).2 hx
  · rintro (⟨hin, hnot⟩ | hru)
    · refine ⟨List.mem_append_left _ hin, ?_⟩
      intro hx
      rcases List.mem_append.1 hx with hx | hx
      · exact hnot (List.mem_of_mem_erase hx)
      · exact hd.2.2 hin hx
    · subst hru
      have hin := hok.heap_sub _ hu
      refine ⟨List.mem_append_left _ hin, ?_⟩
      intro hx
      rcases List.mem_append.1 hx with hx | hx
      · exact ((hok.nodup_heap.mem_erase_iff).1 hx).1 rfl
      · exact hd.2.2 hin hx

/-- A node queued after an iteration was queued before it or was inserted by it. -/
theorem genStep_heap_mem (C E : Nat → List Arc) (h : Heap) (hok : HeapOK h)
    (hne : h.Empty = false) (m : Nat) (hm : m ∈ (genStep C E h).heap) :
    (m ∈ h.heap ∧ m ≠ h.DeleteMin.1) ∨ m ∉ h.inserted_nodes := by
  obtain ⟨new, h1, h2, h3, _⟩ := genStep_new C E h hok hne
  have hd := List.nodup_append.1 h3
  rw [h2] at hm
  rcases List.mem_append.1 hm with hx | hx
  · left
    have := (hok.nodup_heap.mem_erase_iff).1 hx
    exact ⟨this.2, this.1⟩
  · right
    intro hin
    exact hd.2.2 hin hx

theorem relaxed_sub_full (C E : Nat → List Arc) (f : Bool) (u : Nat) (a : Arc)
    (ha : a ∈ (if f then [] else C u) ++ E u) : a ∈ C u ++ E u := by
  rcases List.mem_append.1 ha with h1 | h1
  · cases f
    · exact List.mem_append_left _ (by simpa using h1)
    · simp at h1
  · exact List.mem_append_right _ h1

theorem full_relaxed_or (C E : Nat → List Arc) (f : Bool) (u : Nat) (a : Arc)
    (ha : a ∈ C u ++ E u) :
    a ∈ (if f then [] else C u) ++ E u ∨ (f = true ∧ a ∈ C u) := by
  rcases List.mem_append.1 ha with h1 | h1
  · cases f
    · left; exact List.mem_append_left _ (by simpa using h1)
    · right; exact ⟨rfl, h1⟩
  · left; exact List.mem_append_right _ h1

theorem genStep_BaseInv (C E : Nat → List Arc) (U0 U1 : List Nat) (s : Nat) (h : Heap)
    (hU : Universe C E U0 U1 s) (hf : ArcFlags C E) (inv : BaseInv C E U0 U1 s h)
    (hne : h.Empty = false) : BaseInv C E U0 U1 s (genStep C E h) := by
  obtain ⟨hu, _⟩ := DeleteMin_spec h hne
  have huin := inv.ok.heap_sub _ hu
  refine ⟨genStep_HeapOK C E h inv.ok hne, (genStep_mono C E h hne s inv.source).1, ?_, ?_, ?_⟩
  · intro n hn
    rcases genStep_change C E h hne n with ⟨e1, e2, e3⟩ | ⟨a, ha, han, e1, e2, _⟩
    · rw [e1, e2]; exact inv.path n (e3 hn)
    · rw [e1, e2, ← han]
      exact Path.snoc a (inv.path _ huin) (relaxed_sub_full C E _ _ a ha)
  · intro n hn
    obtain ⟨new, h1, _, _, h4⟩ := genStep_new C E h inv.ok hne
    rw [h1] at hn
    rcases List.mem_append.1 hn with hx | hx
    · exact inv.inU1 n hx
    · obtain ⟨a, ha, han⟩ := h4 n hx
      rw [← han]
      rcases List.mem_append.1 ha with h5 | h5
      · by_cases hfl : (h.data h.DeleteMin.1).from_clique = true
        · simp [hfl] at h5
        · have hfl2 : (h.data h.DeleteMin.1).from_clique = false := by simpa using hfl
          simp only [hfl2] at h5
          exact hU.clique _ (inv.inU0 _ huin hfl2) a (by simpa using h5)
      · exact hU.sub _ (hU.edge _ a h5)
  · intro n hn hfl
    rcases genStep_change C E h hne n with ⟨_, e2, e3⟩ | ⟨a, ha, han, _, e2, _⟩
    · rw [e2] at hfl; exact inv.inU0 n (e3 hn) hfl
    · rw [e2] at hfl
      simp only at hfl
      rw [← han]
      rcases List.mem_append.1 ha with h5 | h5
      · by_cases hfl2 : (h.data h.DeleteMin.1).from_clique = true
        · simp [hfl2] at h5
        · have hfl3 : (h.data h.DeleteMin.1).from_clique = false := by simpa using hfl2
          simp only [hfl3] at h5
          have := hf.clique _ a (by simpa using h5)
          rw [hfl] at this
          cases this
      · exact hU.edge _ a h5

/-- With non-negative weights an iteration leaves the key of every node whose key is at most
the key of the dequeued node as it is. -/
theorem genStep_key_fixed (C E : Nat → List Arc) (h : Heap) (hnn : ArcsNonneg C E)
    (hne : h.Empty = false) (r : Nat) (hr : r ∈ h.inserted_nodes)
    (hle : h.key r ≤ h.key h.DeleteMin.1) : (genStep C E h).key r = h.key r := by
  rcases genStep_change C E h hne r with ⟨e1, _⟩ | ⟨a, ha, _, e1, _, e3⟩
  · exact e1
  · have := hnn _ a (relaxed_sub_full C E _ _ a ha)
    have := e3 hr
    omega

theorem genStep_MonoInv (C E : Nat → List Arc) (s : Nat) (h : Heap) (hnn : ArcsNonneg C E)
    (hok : HeapOK h) (hs : s ∈ h.inserted_nodes) (inv : MonoInv s h)
    (hne : h.Empty = false) : MonoInv s (genStep C E h) := by
  obtain ⟨hu, hmin, _⟩ := DeleteMin_spec h hne
  have huin := hok.heap_sub _ hu
  have hW := inv.keys_nonneg _ huin
  refine ⟨?_, ?_, ?_⟩
  · rcases genStep_change C E h hne s with ⟨e1, _⟩ | ⟨a, ha, _, e1, _, e3⟩
    · rw [e1]; exact inv.source_key
    · have := hnn _ a (relaxed_sub_full C E _ _ a ha)
      have := e3 hs
      have := inv.source_key
      omega
  · intro n hn
    rcases genStep_change C E h hne n with ⟨e1, _, e3⟩ | ⟨a, ha, _, e1, _, _⟩
    · rw [e1]; exact inv.keys_nonneg n (e3 hn)
    · have := hnn _ a (relaxed_sub_full C E _ _ a ha)
      omega
  · intro r hr m hm
    have hr2 : r ∈ h.inserted_nodes ∧ h.key r ≤ h.key h.DeleteMin.1 := by
      rcases (genStep_settled C E h hok hne r).1 hr with h1 | h1
      · exact ⟨h1.1, inv.mono r h1 _ hu⟩
      · rw [h1]; exact ⟨huin, le_refl _⟩
    rw [genStep_key_fixed C E h hnn hne r hr2.1 hr2.2]
    have hmin2 := (genStep_HeapOK C E h hok hne).heap_sub m hm
    rcases genStep_change C E h hne m with ⟨e1, _, e3⟩ | ⟨a, ha, _, e1, _, _⟩
    · rw [e1]
      rcases genStep_heap_mem C E h hok hne m hm with h1 | h1
      · have := hmin m h1.1
        omega
      · exact absurd (e3 hmin2) h1
    · have := hnn _ a (relaxed_sub_full C E _ _ a ha)
      omega

theorem genStep_TriInv (C E : Nat → List Arc) (h : Heap) (hT : CliqueTriangle C)
    (hf : ArcFlags C E) (hok : HeapOK h) (inv : TriInv C E h)
    (hne : h.Empty = false) : TriInv C E (genStep C E h) := by
  obtain ⟨hu, _⟩ := DeleteMin_spec h hne
  have huin := hok.heap_sub _ hu
  refine ⟨?_, ?_⟩
  · intro n hn hfl
    rcases genStep_change C E h hne n with ⟨e1, e2, e3⟩ | ⟨a, ha, han, e1, e2, _⟩
    · rw [e2] at hfl
      obtain ⟨p, K, a1, ha1, h1, h2, h3⟩ := inv.witness n (e3 hn) hfl
      refine ⟨p, K, a1, ha1, h1, by rw [e1]; exact h2, ?_⟩
      intro b hb
      obtain ⟨m1, m2⟩ := genStep_mono C E h hne _ (h3 b hb).1
      exact ⟨m1, le_trans m2 (h3 b hb).2⟩
    · rw [e2] at hfl
      simp only at hfl
      rcases List.mem_append.1 ha with h5 | h5
      · by_cases hfl2 : (h.data h.DeleteMin.1).from_clique = true
        · simp [hfl2] at h5
        · have hfl3 : (h.data h.DeleteMin.1).from_clique = false := by simpa using hfl2
          simp only [hfl3] at h5
          refine ⟨h.DeleteMin.1, h.key h.DeleteMin.1, a, by simpa using h5, han, e1, ?_⟩
          intro b hb
          apply genStep_sat C E h hne b
          simp only [hfl3]
          exact List.mem_append_left _ (by simpa using hb)
      · have := hf.edge _ a h5
        rw [hfl] at this
        cases this
  · intro r hr a ha
    rcases (genStep_settled C E h hok hne r).1 hr with h1 | h1
    · exact (genStep_mono C E h hne _ (inv.closed r h1 a ha)).1
    · subst h1
      rcases full_relaxed_or C E (h.data h.DeleteMin.1).from_clique _ a ha with h2 | ⟨h2, h3⟩
      · exact (genStep_sat C E h hne a h2).1
      · obtain ⟨p, K, a1, ha1, h4, _, h6⟩ := inv.witness _ huin h2
        rw [← h4] at h3
        obtain ⟨a3, ha3, h7, _⟩ := hT p a1 ha1 a h3
        have := (h6 a3 ha3).1
        rw [h7] at this
        exact (genStep_mono C E h hne _ this).1

theorem genStep_RelaxedInv (C E : Nat → List Arc) (s : Nat) (h : Heap) (hnn : ArcsNonneg C E)
    (hT : CliqueTriangle C) (hok : HeapOK h) (mono : MonoInv s h) (tri : TriInv C E h)
    (inv : RelaxedInv C E h) (hne : h.Empty = false) : RelaxedInv C E (genStep C E h) := by
  obtain ⟨hu, hmin, _⟩ := DeleteMin_spec h hne
  have huin := hok.heap_sub _ hu
  intro r hr a ha
  rcases (genStep_settled C E h hok hne r).1 hr with h1 | h1
  · rw [genStep_key_fixed C E h hnn hne r h1.1 (mono.mono r h1 _ hu)]
    obtain ⟨m1, m2⟩ := genStep_mono C E h hne _ (inv r h1 a ha).1
    exact ⟨m1, le_trans m2 (inv r h1 a ha).2⟩
  · subst h1
    rw [genStep_key_fixed C E h hnn hne _ huin (le_refl _)]
    rcases full_relaxed_or C E (h.data h.DeleteMin.1).from_clique _ a ha with h2 | ⟨h2, h3⟩
    · exact genStep_sat C E h hne a h2
    · obtain ⟨p, K, a1, ha1, h4, h5, h6⟩ := tri.witness _ huin h2
      rw [← h4] at h3
      obtain ⟨a3, ha3, h7, h8⟩ := hT p a1 ha1 a h3
      have h9 := h6 a3 ha3
      rw [h7] at h9
      obtain ⟨m1, m2⟩ := genStep_mono C E h hne _ h9.1
      refine ⟨m1, ?_⟩
      omega

/-! ## `RelaxNode` as a relaxation of arcs -/

theorem foldl_if_filter_map {α β γ : Type} (P : α → Prop) [DecidablePred P]
    (f : γ → β → γ) (g : α → β) (l : List α) (h : γ) :
    l.foldl (fun h x => if P x then f h (g x) else h) h =
      ((l.filter (fun x => decide (P x))).map g).foldl f h := by
  induction l generalizing h with
  | nil => rfl
  | cons x rest ih =>
    by_cases hx : P x
    · simp [List.filter, hx, ih]
    · simp [List.filter, hx, ih]

theorem edge_fold_eq (first_level : Bool) (graph : Graph) (partition : MultiLevelPartition)
    (level node : Nat) (W D : Int) (h0 : Heap) :
    (graph.GetInternalEdgeRange partition level node).foldl
        (fun heap edge =>
          if (edge.forward &&
              (first_level ||
                partition.GetCell (level - 1) node != partition.GetCell (level - 1) edge.target))
              = true then
            relax heap edge.target (W + edge.weight) ⟨false, D + edge.duration⟩
          else heap) h0 =
      relaxArcs W D (edgeArcs first_level graph partition level node) h0 := by
  have := foldl_if_filter_map
    (fun edge : Edge => (edge.forward &&
      (first_level ||
        partition.GetCell (level - 1) node != partition.GetCell (level - 1) edge.target)) = true)
    (fun (heap : Heap) (a : Arc) =>
      relax heap a.to_node (W + a.weight) ⟨a.from_clique, D + a.duration⟩)
    (fun edge : Edge => (⟨edge.target, edge.weight, edge.duration, false⟩ : Arc))
    (graph.GetInternalEdgeRange partition level node) h0
  simp only [Bool.decide_eq_true] at this
  exact this

theorem clique_fold_eq (partition : MultiLevelPartition) (cells : CellStorage)
    (level node : Nat) (W D : Int) (h0 : Heap) :
    (List.zip ((cells.GetCell (level - 1) (partition.GetCell (level - 1) node)).GetOutWeight node)
        (List.zip (cells.GetCell (level - 1) (partition.GetCell (level - 1) node)).GetDestinationNodes
          ((cells.GetCell (level - 1) (partition.GetCell (level - 1) node)).GetOutDuration
            node))).foldl
        (fun heap entry =>
          if entry.1 ≠ INVALID_EDGE_WEIGHT then
            relax heap entry.2.1 (W + entry.1) ⟨true, D + entry.2.2⟩
          else heap) h0 =
      relaxArcs W D (cliqueArcs partition cells level node) h0 :=
  foldl_if_filter_map
    (fun entry : Int × Nat × Int => entry.1 ≠ INVALID_EDGE_WEIGHT)
    (fun (heap : Heap) (a : Arc) =>
      relax heap a.to_node (W + a.weight) ⟨a.from_clique, D + a.duration⟩)
    (fun entry : Int × Nat × Int => (⟨entry.2.1, entry.1, entry.2.2, true⟩ : Arc))
    _ h0

theorem RelaxNode_eq (first_level : Bool) (graph : Graph) (partition : MultiLevelPartition)
    (cells : CellStorage) (heap : Heap) (level node : Nat) (W D : Int) :
    RelaxNode first_level graph partition cells heap level node W D =
      relaxArcs W D
        ((if first_level || (heap.GetData node).from_clique then []
          else cliqueArcs partition cells level node) ++
          edgeArcs first_level graph partition level node) heap := by
  rw [relaxArcs_append]
  unfold RelaxNode
  simp only []
  rw [edge_fold_eq]
  congr 1
  cases first_level
  · cases hfl : (heap.GetData node).from_clique
    · simp only [Bool.not_false, if_true, Bool.false_or]
      rw [clique_fold_eq]
      simp
    · simp [relaxArcs_nil]
  · simp [relaxArcs_nil]

theorem RelaxNodeEveryNode_eq (graph : Graph) (partition : MultiLevelPartition)
    (cells : CellStorage) (heap : Heap) (level node : Nat) (W D : Int) :
    RelaxNodeEveryNode graph partition cells heap level node W D =
      relaxArcs W D
        (cliqueArcs partition cells level node ++ edgeArcs false graph partition level node)
        heap := by
  rw [relaxArcs_append]
  unfold RelaxNodeEveryNode
  simp only []
  have := edge_fold_eq false graph partition level node W D
  simp only [Bool.false_or] at this
  rw [this, clique_fold_eq]

theorem stepHeap_eq_genStep (graph : Graph) (partition : MultiLevelPartition)
    (cells : CellStorage) (level : Nat) (heap : Heap) :
    stepHeap graph partition cells level heap =
      genStep (levelCliqueArcs partition cells level) (levelEdgeArcs graph partition level)
        heap := by
  unfold stepHeap genStep levelCliqueArcs levelEdgeArcs
  by_cases hl : level = 1
  · subst hl
    simp [RelaxNode_eq]
  · have hl2 : (level == 1) = false := by simpa using hl
    simp only [hl2, RelaxNode_eq, Bool.false_or]
    simp

theorem searchLoop_zero (graph : Graph) (partition : MultiLevelPartition) (cells : CellStorage)
    (level : Nat) (heap : Heap) (dset : List Nat) :
    searchLoop graph partition cells level 0 heap dset = (heap, dset) := rfl

theorem searchLoop_succ (graph : Graph) (partition : MultiLevelPartition) (cells : CellStorage)
    (level fuel : Nat) (heap : Heap) (dset : List Nat) :
    searchLoop graph partition cells level (fuel + 1) heap dset =
      if heap.Empty = false ∧ dset ≠ [] then
        searchLoop graph partition cells level fuel
          (genStep (levelCliqueArcs partition cells level) (levelEdgeArcs graph partition level)
            heap)
          (dset.filter (fun d => d != heap.DeleteMin.1))
      else (heap, dset) := by
  rw [← stepHeap_eq_genStep]
  conv_lhs => unfold searchLoop
  unfold stepHeap
  by_cases h1 : heap.Empty = false
  · by_cases h2 : dset = []
    · simp [h1, h2]
    · have h3 : dset.isEmpty = false := by
        cases dset with
        | nil => exact absurd rfl h2
        | cons _ _ => rfl
      simp only [h1, h3, h2]
      by_cases hl : level = 1
      · subst hl; simp [h2]
      · have hl2 : (level == 1) = false := by simpa using hl
        simp [hl2, h2]
  · have h1b : heap.Empty = true := by simpa using h1
    simp [h1b]

/-! ## The search loop -/

/-- Induction over the iterations of the search loop. -/
theorem searchLoop_induct (graph : Graph) (partition : MultiLevelPartition)
    (cells : CellStorage) (level : Nat) (Inv : Heap → List Nat → Prop)
    (hstep : ∀ h d, Inv h d → h.Empty = false → d ≠ [] →
      Inv (genStep (levelCliqueArcs partition cells level) (levelEdgeArcs graph partition level) h)
        (d.filter (fun x => x != h.DeleteMin.1)))
    (fuel : Nat) (h : Heap) (d : List Nat) (h0 : Inv h d) :
    Inv (searchLoop graph partition cells level fuel h d).1
      (searchLoop graph partition cells level fuel h d).2 := by
  induction fuel generalizing h d with
  | zero => exact h0
  | succ fuel ih =>
    rw [searchLoop_succ]
    by_cases hc : h.Empty = false ∧ d ≠ []
    · rw [if_pos hc]
      exact ih _ _ (hstep h d h0 hc.1 hc.2)
    · rw [if_neg hc]
      exact h0

theorem HeapOK.length_heap_le {h : Heap} (hok : HeapOK h) :
    h.heap.length ≤ h.inserted_nodes.length :=
  (List.subperm_of_subset hok.nodup_heap hok.heap_sub).length_le

/-- The loop ends by its own condition when the fuel covers the nodes not yet settled. -/
theorem searchLoop_exit_aux (graph : Graph) (partition : MultiLevelPartition)
    (cells : CellStorage) (level : Nat) (U0 U1 : List Nat) (s : Nat)
    (hU : Universe (levelCliqueArcs partition cells level) (levelEdgeArcs graph partition level)
      U0 U1 s)
    (hf : ArcFlags (levelCliqueArcs partition cells level) (levelEdgeArcs graph partition level))
    (fuel : Nat) (h : Heap) (d : List Nat)
    (inv : BaseInv (levelCliqueArcs partition cells level) (levelEdgeArcs graph partition level)
      U0 U1 s h)
    (hfuel : U1.length + 1 ≤ (h.inserted_nodes.length - h.heap.length) + fuel) :
    (searchLoop graph partition cells level fuel h d).1.Empty = true ∨
      (searchLoop graph partition cells level fuel h d).2 = [] := by
  induction fuel generalizing h d with
  | zero =>
    have h1 : h.inserted_nodes.length ≤ U1.length :=
      (List.subperm_of_subset inv.ok.nodup_inserted inv.inU1).length_le
    omega
  | succ fuel ih =>
    rw [searchLoop_succ]
    by_cases hc : h.Empty = false ∧ d ≠ []
    · rw [if_pos hc]
      apply ih _ _ (genStep_BaseInv _ _ U0 U1 s h hU hf inv hc.1)
      obtain ⟨new, h1, h2, _, _⟩ := genStep_new (levelCliqueArcs partition cells level)
        (levelEdgeArcs graph partition level) h inv.ok hc.1
      obtain ⟨hu, _⟩ := DeleteMin_spec h hc.1
      rw [h1, h2, List.length_append, List.length_append, List.length_erase_of_mem hu]
      have := inv.ok.length_heap_le
      have : 0 < h.heap.length := List.length_pos_of_mem hu
      omega
    · rw [if_neg hc]
      by_cases h1 : h.Empty = false
      · right
        by_contra h2
        exact hc ⟨h1, h2⟩
      · left; simpa using h1

/-- Every destination is still awaited or settled, throughout the loop. -/
theorem searchLoop_dests (graph : Graph) (partition : MultiLevelPartition)
    (cells : CellStorage) (level : Nat) (dests : List Nat) (fuel : Nat) (h : Heap)
    (d : List Nat) (hok : HeapOK h) (h0 : ∀ t ∈ dests, t ∈ d ∨ Settled h t) :
    ∀ t ∈ dests, t ∈ (searchLoop graph partition cells level fuel h d).2 ∨
      Settled (searchLoop graph partition cells level fuel h d).1 t := by
  have := searchLoop_induct graph partition cells level
    (fun h d => HeapOK h ∧ ∀ t ∈ dests, t ∈ d ∨ Settled h t)
    (by
      intro h d ⟨hok, hd⟩ hne _
      refine ⟨genStep_HeapOK _ _ h hok hne, ?_⟩
      intro t ht
      by_cases htu : t = h.DeleteMin.1
      · right
        exact (genStep_settled _ _ h hok hne t).2 (Or.inr htu)
      · rcases hd t ht with h1 | h1
        · left
          simp [List.mem_filter, h1, htu]
        · right
          exact (genStep_settled _ _ h hok hne t).2 (Or.inl h1))
    fuel h d ⟨hok, h0⟩
  exact this.2

/-! ## Cell tables and arcs -/

theorem GetOutWeight_getElem? (c : CellData) (s k : Nat) :
    (c.GetOutWeight s)[k]? =
      if s ∈ c.source_boundary ∧ k < c.destination_boundary.length then
        some (c.weights (c.source_boundary.indexOf s) k)
      else none := by
  unfold CellData.GetOutWeight
  by_cases hs : s ∈ c.source_boundary
  · have := List.indexOf_lt_length.2 hs
    by_cases hk : k < c.destination_boundary.length
    · simp [this, hs, hk, List.getElem?_range hk]
    · simp [this, hs, hk]
      omega
  · have : ¬ c.source_boundary.indexOf s < c.source_boundary.length := by
      rw [List.indexOf_lt_length]; exact hs
    simp [this, hs]

theorem GetOutDuration_getElem? (c : CellData) (s k : Nat) :
    (c.GetOutDuration s)[k]? =
      if s ∈ c.source_boundary ∧ k < c.destination_boundary.length then
        some (c.durations (c.source_boundary.indexOf s) k)
      else none := by
  unfold CellData.GetOutDuration
  by_cases hs : s ∈ c.source_boundary
  · have := List.indexOf_lt_length.2 hs
    by_cases hk : k < c.destination_boundary.length
    · simp [this, hs, hk, List.getElem?_range hk]
    · simp [this, hs, hk]
      omega
  · have : ¬ c.source_boundary.indexOf s < c.source_boundary.length := by
      rw [List.indexOf_lt_length]; exact hs
    simp [this, hs]

/-- The clique arcs of a node are the valid slots of its row in the table of its sub-cell. -/
theorem mem_cliqueArcs (partition : MultiLevelPartition) (cells : CellStorage)
    (level x : Nat) (a : Arc) :
    a ∈ cliqueArcs partition cells level x ↔
      x ∈ (cells.GetCell (level - 1) (partition.GetCell (level - 1) x)).source_boundary ∧
      ∃ k : Nat,
        (cells.GetCell (level - 1) (partition.GetCell (level - 1) x)).destination_boundary[k]?
            = some a.to_node ∧
        ((cells.GetCell (level - 1) (partition.GetCell (level - 1) x)).GetOutWeight x)[k]?
            = some a.weight ∧
        ((cells.GetCell (level - 1) (partition.GetCell (level - 1) x)).GetOutDuration x)[k]?
            = some a.duration ∧
        a.weight ≠ INVALID_EDGE_WEIGHT ∧ a.from_clique = true := by
  unfold cliqueArcs
  simp only [List.mem_map, List.mem_filter, decide_eq_true_eq, CellData.GetDestinationNodes]
  constructor
  · rintro ⟨⟨w, t, d⟩, ⟨hmem, hw⟩, rfl⟩
    obtain ⟨k, hk⟩ := List.mem_iff_getElem?.1 hmem
    rw [List.getElem?_zip_eq_some, List.getElem?_zip_eq_some] at hk
    obtain ⟨h1, h2, h3⟩ := hk
    simp only at h1 h2 h3 hw
    have hs : x ∈ (cells.GetCell (level - 1) (partition.GetCell (level - 1) x)).source_boundary := by
      rw [GetOutWeight_getElem?] at h1
      by_contra hc
      simp [hc] at h1
    exact ⟨hs, k, h2, h1, h3, hw, rfl⟩
  · rintro ⟨_, k, h2, h1, h3, hw, hfl⟩
    refine ⟨(a.weight, a.to_node, a.duration), ⟨?_, hw⟩, ?_⟩
    · rw [List.mem_iff_getElem?]
      refine ⟨k, ?_⟩
      rw [List.getElem?_zip_eq_some, List.getElem?_zip_eq_some]
      exact ⟨h1, h2, h3⟩
    · cases a
      simp only at hfl
      simp [hfl]

theorem mem_edgeArcs (first_level : Bool) (graph : Graph) (partition : MultiLevelPartition)
    (level x : Nat) (a : Arc) :
    a ∈ edgeArcs first_level graph partition level x ↔
      ∃ e ∈ graph.GetInternalEdgeRange partition level x, e.forward = true ∧
        (first_level = true ∨
          partition.GetCell (level - 1) x ≠ partition.GetCell (level - 1) e.target) ∧
        a = ⟨e.target, e.weight, e.duration, false⟩ := by
  unfold edgeArcs
  simp only [List.mem_map, List.mem_filter, Bool.and_eq_true, Bool.or_eq_true, bne_iff_ne]
  constructor
  · rintro ⟨e, ⟨he, hf, hc⟩, rfl⟩
    exact ⟨e, he, hf, hc, rfl⟩
  · rintro ⟨e, he, hf, hc, rfl⟩
    exact ⟨e, ⟨he, hf, hc⟩, rfl⟩

theorem mem_adj_of_internal (graph : Graph) (partition : MultiLevelPartition)
    (level x : Nat) (e : Edge) (he : e ∈ graph.GetInternalEdgeRange partition level x) :
    ∃ es ∈ graph.adj, e ∈ es := by
  unfold Graph.GetInternalEdgeRange Graph.GetAdjacentEdgeRange at he
  have h1 := (List.mem_filter.1 he).1
  rw [List.getD_eq_getElem?_getD] at h1
  cases hx : graph.adj[x]? with
  | none => rw [hx] at h1; simp at h1
  | some es =>
    rw [hx] at h1
    exact ⟨es, List.mem_iff_getElem?.2 ⟨x, hx⟩, h1⟩

theorem levelArcFlags (graph : Graph) (partition : MultiLevelPartition) (cells : CellStorage)
    (level : Nat) :
    ArcFlags (levelCliqueArcs partition cells level) (levelEdgeArcs graph partition level) := by
  constructor
  · intro x a ha
    unfold levelCliqueArcs at ha
    by_cases hl : level = 1
    · simp [hl] at ha
    · have hl2 : (level == 1) = false := by simpa using hl
      simp only [hl2] at ha
      exact ((mem_cliqueArcs partition cells level x a).1 (by simpa using ha)).2.choose_spec.2.2.2.2
  · intro x a ha
    obtain ⟨e, _, _, _, rfl⟩ := (mem_edgeArcs _ graph partition level x a).1 ha
    rfl

theorem searchUniverse_ok (graph : Graph) (partition : MultiLevelPartition)
    (cells : CellStorage) (level s : Nat) :
    Universe (levelCliqueArcs partition cells level) (levelEdgeArcs graph partition level)
      (searchBase graph s) (searchUniverse graph partition cells level s) s := by
  constructor
  · simp [searchBase]
  · intro n hn
    unfold searchUniverse
    exact List.mem_append_left _ hn
  · intro x a ha
    obtain ⟨e, he, _, _, rfl⟩ := (mem_edgeArcs _ graph partition level x a).1 ha
    obtain ⟨es, hes, hin⟩ := mem_adj_of_internal graph partition level x e he
    unfold searchBase
    refine List.mem_cons_of_mem _ (List.mem_map.2 ⟨e, ?_, rfl⟩)
    exact List.mem_flatten.2 ⟨es, hes, hin⟩
  · intro x hx a ha
    unfold levelCliqueArcs at ha
    by_cases hl : level = 1
    · simp [hl] at ha
    · have hl2 : (level == 1) = false := by simpa using hl
      simp only [hl2] at ha
      obtain ⟨_, k, hk, _⟩ := (mem_cliqueArcs partition cells level x a).1 (by simpa using ha)
      unfold searchUniverse
      refine List.mem_append_right _ (List.mem_flatMap.2 ⟨x, hx, ?_⟩)
      exact List.mem_iff_getElem?.2 ⟨k, hk⟩

/-! ## The search from one source -/

theorem init_BaseInv (C E : Nat → List Arc) (U0 U1 : List Nat) (s : Nat) (heap : Heap)
    (hU : Universe C E U0 U1 s) :
    BaseInv C E U0 U1 s (heap.Clear.Insert s 0 ⟨false, 0⟩) := by
  refine ⟨⟨?_, ?_, ?_⟩, ?_, ?_, ?_, ?_⟩
  · simp [Heap.Clear, Heap.Insert]
  · simp [Heap.Clear, Heap.Insert]
  · intro n hn; simpa [Heap.Clear, Heap.Insert] using hn
  · simp [Heap.Clear, Heap.Insert]
  · intro n hn
    have : n = s := by simpa [Heap.Clear, Heap.Insert] using hn
    subst this
    simp only [Heap.Clear, Heap.Insert, if_true]
    exact Path.nil
  · intro n hn
    have : n = s := by simpa [Heap.Clear, Heap.Insert] using hn
    subst this
    exact hU.sub _ hU.source
  · intro n hn _
    have : n = s := by simpa [Heap.Clear, Heap.Insert] using hn
    subst this
    exact hU.source

theorem init_not_settled (s : Nat) (heap : Heap) (r : Nat) :
    ¬ Settled (heap.Clear.Insert s 0 ⟨false, 0⟩) r := by
  rintro ⟨h1, h2⟩
  simp only [Heap.Clear, Heap.Insert, List.nil_append] at h1 h2
  exact h2 h1

theorem init_MonoInv (s : Nat) (heap : Heap) :
    MonoInv s (heap.Clear.Insert s 0 ⟨false, 0⟩) := by
  refine ⟨by simp [Heap.Clear, Heap.Insert], ?_, ?_⟩
  · intro n hn
    have : n = s := by simpa [Heap.Clear, Heap.Insert] using hn
    subst this
    simp [Heap.Clear, Heap.Insert]
  · intro r hr
    exact absurd hr (init_not_settled s heap r)

theorem init_TriInv (C E : Nat → List Arc) (s : Nat) (heap : Heap) :
    TriInv C E (heap.Clear.Insert s 0 ⟨false, 0⟩) := by
  refine ⟨?_, ?_⟩
  · intro n hn hfl
    have : n = s := by simpa [Heap.Clear, Heap.Insert] using hn
    subst this
    simp [Heap.Clear, Heap.Insert] at hfl
  · intro r hr
    exact absurd hr (init_not_settled s heap r)

/-- The invariants hold for the heap a search ends with. -/
theorem search_invariants (graph : Graph) (partition : MultiLevelPartition) (heap : Heap)
    (cells : CellStorage) (level s : Nat) (dests : List Nat) :
    BaseInv (levelCliqueArcs partition cells level) (levelEdgeArcs graph partition level)
        (searchBase graph s) (searchUniverse graph partition cells level s) s
        (search graph partition heap cells level s dests) ∧
      (ArcsNonneg (levelCliqueArcs partition cells level) (levelEdgeArcs graph partition level) →
        MonoInv s (search graph partition heap cells level s dests)) ∧
      (CliqueTriangle (levelCliqueArcs partition cells level) →
        TriInv (levelCliqueArcs partition cells level) (levelEdgeArcs graph partition level)
          (search graph partition heap cells level s dests)) ∧
      (ArcsNonneg (levelCliqueArcs partition cells level) (levelEdgeArcs graph partition level) →
        CliqueTriangle (levelCliqueArcs partition cells level) →
        RelaxedInv (levelCliqueArcs partition cells level) (levelEdgeArcs graph partition level)
          (search graph partition heap cells level s dests)) := by
  have hU := searchUniverse_ok graph partition cells level s
  have hf := levelArcFlags graph partition cells level
  unfold search
  exact searchLoop_induct graph partition cells level
    (fun h _ =>
      BaseInv (levelCliqueArcs partition cells level) (levelEdgeArcs graph partition level)
        (searchBase graph s) (searchUniverse graph partition cells level s) s h ∧
      (ArcsNonneg (levelCliqueArcs partition cells level) (levelEdgeArcs graph partition level) →
        MonoInv s h) ∧
      (CliqueTriangle (levelCliqueArcs partition cells level) →
        TriInv (levelCliqueArcs partition cells level) (levelEdgeArcs graph partition level) h) ∧
      (ArcsNonneg (levelCliqueArcs partition cells level) (levelEdgeArcs graph partition level) →
        CliqueTriangle (levelCliqueArcs partition cells level) →
        RelaxedInv (levelCliqueArcs partition cells level) (levelEdgeArcs graph partition level) h))
    (by
      intro h d ⟨hb, hm, ht, hr⟩ hne _
      refine ⟨genStep_BaseInv _ _ _ _ s h hU hf hb hne, ?_, ?_, ?_⟩
      · intro hnn
        exact genStep_MonoInv _ _ s h hnn hb.ok hb.source (hm hnn) hne
      · intro hT
        exact genStep_TriInv _ _ h hT hf hb.ok (ht hT) hne
      · intro hnn hT
        exact genStep_RelaxedInv _ _ s h hnn hT hb.ok (hm hnn) (ht hT) (hr hnn hT) hne)
    _ _ _
    ⟨init_BaseInv _ _ _ _ s heap hU, fun _ => init_MonoInv s heap,
      fun _ => init_TriInv _ _ s heap,
      fun _ _ r hr => absurd hr (init_not_settled s heap r)⟩

/-- The search ends by the condition of its loop: the queue is empty or every destination
boundary node is settled. -/
theorem search_exit (graph : Graph) (partition : MultiLevelPartition) (heap : Heap)
    (cells : CellStorage) (level s : Nat) (dests : List Nat) :
    (search graph partition heap cells level s dests).heap = [] ∨
      ∀ t ∈ dests, Settled (search graph partition heap cells level s dests) t := by
  have hU := searchUniverse_ok graph partition cells level s
  have hf := levelArcFlags graph partition cells level
  have h0 := init_BaseInv _ _ _ _ s heap hU
  have hex := searchLoop_exit_aux graph partition cells level _ _ s hU hf
    (searchFuel graph partition cells level s) _ dests h0
    (by
      simp only [searchFuel, Heap.Clear, Heap.Insert, List.nil_append, List.length_singleton]
      omega)
  have hd := searchLoop_dests graph partition cells level dests
    (searchFuel graph partition cells level s) _ dests h0.ok (fun t ht => Or.inl ht)
  unfold search
  rcases hex with h1 | h1
  · left
    simpa [Heap.Empty] using h1
  · right
    intro t ht
    rcases hd t ht with h2 | h2
    · rw [h1] at h2; cases h2
    · exact h2

/-- When the arcs of settled nodes lead to inserted nodes, every node reachable from the
source is settled unless the queue is non-empty. -/
theorem settled_of_path (C E : Nat → List Arc) (s : Nat) (h : Heap) (tri : TriInv C E h)
    (hs : s ∈ h.inserted_nodes) {v : Nat} {W D : Int}
    (hp : Path (fun x => C x ++ E x) s v W D) : Settled h v ∨ h.heap ≠ [] := by
  induction hp with
  | nil =>
    by_cases h1 : s ∈ h.heap
    · right; exact List.ne_nil_of_mem h1
    · left; exact ⟨hs, h1⟩
  | snoc a _ ha ih =>
    rcases ih with h1 | h1
    · have h2 := tri.closed _ h1 a ha
      by_cases h3 : a.to_node ∈ h.heap
      · right; exact List.ne_nil_of_mem h3
      · left; exact ⟨h2, h3⟩
    · right; exact h1

/-- With non-negative weights and satisfied arcs, the weight of a path from the source bounds
the key of its end node if that node is settled, and the key of some queued node otherwise. -/
theorem covered_of_path (C E : Nat → List Arc) (s : Nat) (h : Heap) (hnn : ArcsNonneg C E)
    (mono : MonoInv s h) (rel : RelaxedInv C E h) (hs : s ∈ h.inserted_nodes)
    {v : Nat} {W D : Int} (hp : Path (fun x => C x ++ E x) s v W D) :
    (Settled h v ∧ h.key v ≤ W) ∨ ∃ y ∈ h.heap, h.key y ≤ W := by
  induction hp with
  | nil =>
    by_cases h1 : s ∈ h.heap
    · right; exact ⟨s, h1, le_of_eq mono.source_key⟩
    · left; exact ⟨⟨hs, h1⟩, le_of_eq mono.source_key⟩
  | snoc a _ ha ih =>
    have hw := hnn _ a ha
    rcases ih with ⟨h1, h2⟩ | ⟨y, hy, h2⟩
    · obtain ⟨h3, h4⟩ := rel _ h1 a ha
      by_cases h5 : a.to_node ∈ h.heap
      · right; exact ⟨a.to_node, h5, by omega⟩
      · left; exact ⟨⟨h3, h5⟩, by omega⟩
    · right; exact ⟨y, hy, by omega⟩

/-- Keys and durations written by a search are realised by a path of the overlay. -/
theorem search_path (graph : Graph) (partition : MultiLevelPartition) (heap : Heap)
    (cells : CellStorage) (level s : Nat) (dests : List Nat) (t : Nat)
    (ht : t ∈ (search graph partition heap cells level s dests).inserted_nodes) :
    Path (overlayArcs graph partition cells level) s t
      ((search graph partition heap cells level s dests).key t)
      ((search graph partition heap cells level s dests).data t).duration :=
  (search_invariants graph partition heap cells level s dests).1.path t ht

/-- A destination boundary node reachable in the overlay is settled by the search. -/
theorem search_reach (graph : Graph) (partition : MultiLevelPartition) (heap : Heap)
    (cells : CellStorage) (level s : Nat) (dests : List Nat)
    (hT : CliqueTriangle (levelCliqueArcs partition cells level))
    (t : Nat) (ht : t ∈ dests) {W D : Int}
    (hp : Path (overlayArcs graph partition cells level) s t W D) :
    Settled (search graph partition heap cells level s dests) t := by
  obtain ⟨hb, _, htri, _⟩ := search_invariants graph partition heap cells level s dests
  rcases search_exit graph partition heap cells level s dests with h1 | h1
  · rcases settled_of_path _ _ s _ (htri hT) hb.source hp with h2 | h2
    · exact h2
    · exact absurd h1 h2
  · exact h1 t ht

/-- With non-negative weights and the triangle inequality of the clique arcs, the key of a
settled destination is at most the weight of every overlay path to it. -/
theorem search_optimal (graph : Graph) (partition : MultiLevelPartition) (heap : Heap)
    (cells : CellStorage) (level s : Nat) (dests : List Nat)
    (hnn : ArcsNonneg (levelCliqueArcs partition cells level)
      (levelEdgeArcs graph partition level))
    (hT : CliqueTriangle (levelCliqueArcs partition cells level))
    (t : Nat) (ht : t ∈ dests) {W D : Int}
    (hp : Path (overlayArcs graph partition cells level) s t W D) :
    (search graph partition heap cells level s dests).key t ≤ W := by
  obtain ⟨hb, hm, _, hr⟩ := search_invariants graph partition heap cells level s dests
  have hset := search_reach graph partition heap cells level s dests hT t ht hp
  rcases covered_of_path _ _ s _ hnn (hm hnn) (hr hnn hT) hb.source hp with ⟨_, h2⟩ | ⟨y, hy, h2⟩
  · exact h2
  · exact le_trans ((hm hnn).mono t hset y hy) h2

/-! ## Writing the clique rows -/

theorem Customize_eq_foldl (graph : Graph) (partition : MultiLevelPartition) (heap : Heap)
    (cells : CellStorage) (level id : Nat) :
    Customize graph partition heap cells level id =
      (cells.GetCell level id).source_boundary.foldl
        (customizeSource graph partition heap level id
          (cells.GetCell level id).destination_boundary) cells := rfl

theorem RelaxNode_congr (first_level : Bool) (graph : Graph) (partition : MultiLevelPartition)
    (cs1 cs2 : CellStorage) (level : Nat)
    (hc : ∀ i, cs1.GetCell (level - 1) i = cs2.GetCell (level - 1) i)
    (heap : Heap) (node : Nat) (W D : Int) :
    RelaxNode first_level graph partition cs1 heap level node W D =
      RelaxNode first_level graph partition cs2 heap level node W D := by
  unfold RelaxNode
  simp only [hc]

theorem searchLoop_congr (graph : Graph) (partition : MultiLevelPartition)
    (cs1 cs2 : CellStorage) (level : Nat)
    (hc : ∀ i, cs1.GetCell (level - 1) i = cs2.GetCell (level - 1) i)
    (fuel : Nat) (heap : Heap) (d : List Nat) :
    searchLoop graph partition cs1 level fuel heap d =
      searchLoop graph partition cs2 level fuel heap d := by
  induction fuel generalizing heap d with
  | zero => rfl
  | succ fuel ih =>
    unfold searchLoop
    simp only [RelaxNode_congr _ graph partition cs1 cs2 level hc, ih]

/-- A search reads the cell storage only at the level below its own. -/
theorem search_congr (graph : Graph) (partition : MultiLevelPartition) (heap : Heap)
    (cs1 cs2 : CellStorage) (level s : Nat) (dests : List Nat)
    (hc : ∀ i, cs1.GetCell (level - 1) i = cs2.GetCell (level - 1) i) :
    search graph partition heap cs1 level s dests =
      search graph partition heap cs2 level s dests := by
  unfold search searchFuel searchUniverse
  simp only [hc, searchLoop_congr graph partition cs1 cs2 level hc]

theorem searchWeights_congr (graph : Graph) (partition : MultiLevelPartition) (heap : Heap)
    (cs1 cs2 : CellStorage) (level s : Nat) (dests : List Nat)
    (hc : ∀ i, cs1.GetCell (level - 1) i = cs2.GetCell (level - 1) i) :
    searchWeights graph partition heap cs1 level s dests =
      searchWeights graph partition heap cs2 level s dests := by
  unfold searchWeights
  rw [search_congr graph partition heap cs1 cs2 level s dests hc]

theorem searchDurations_congr (graph : Graph) (partition : MultiLevelPartition) (heap : Heap)
    (cs1 cs2 : CellStorage) (level s : Nat) (dests : List Nat)
    (hc : ∀ i, cs1.GetCell (level - 1) i = cs2.GetCell (level - 1) i) :
    searchDurations graph partition heap cs1 level s dests =
      searchDurations graph partition heap cs2 level s dests := by
  unfold searchDurations
  rw [search_congr graph partition heap cs1 cs2 level s dests hc]

theorem SetCell_GetCell (cs : CellStorage) (level id : Nat) (c : CellData) (l i : Nat) :
    (cs.SetCell level id c).GetCell l i = if l = level ∧ i = id then c else cs.GetCell l i := rfl

theorem customizeSource_other (graph : Graph) (partition : MultiLevelPartition) (heap : Heap)
    (level id : Nat) (dests : List Nat) (cs : CellStorage) (s l i : Nat)
    (hne : l ≠ level ∨ i ≠ id) :
    (customizeSource graph partition heap level id dests cs s).GetCell l i = cs.GetCell l i := by
  unfold customizeSource
  rw [SetCell_GetCell]
  have : ¬ (l = level ∧ i = id) := by
    rintro ⟨h1, h2⟩
    rcases hne with h | h
    · exact h h1
    · exact h h2
  rw [if_neg this]

theorem SetOut_source_boundary (c : CellData) (s : Nat) (ws ds : List Int) :
    ((c.SetOutWeight s ws).SetOutDuration s ds).source_boundary = c.source_boundary := by
  unfold CellData.SetOutDuration CellData.SetOutWeight
  split_ifs <;> rfl

theorem SetOut_destination_boundary (c : CellData) (s : Nat) (ws ds : List Int) :
    ((c.SetOutWeight s ws).SetOutDuration s ds).destination_boundary =
      c.destination_boundary := by
  unfold CellData.SetOutDuration CellData.SetOutWeight
  split_ifs <;> rfl

theorem SetOut_weights (c : CellData) (s : Nat) (ws ds : List Int) (hs : s ∈ c.source_boundary)
    (r k : Nat) :
    ((c.SetOutWeight s ws).SetOutDuration s ds).weights r k =
      if r = c.source_boundary.indexOf s ∧ k < ws.length then ws.getD k 0
      else c.weights r k := by
  have h1 := List.indexOf_lt_length.2 hs
  unfold CellData.SetOutDuration CellData.SetOutWeight
  simp only [h1, if_true]

theorem SetOut_durations (c : CellData) (s : Nat) (ws ds : List Int)
    (hs : s ∈ c.source_boundary) (r k : Nat) :
    ((c.SetOutWeight s ws).SetOutDuration s ds).durations r k =
      if r = c.source_boundary.indexOf s ∧ k < ds.length then ds.getD k 0
      else c.durations r k := by
  have h1 := List.indexOf_lt_length.2 hs
  unfold CellData.SetOutDuration CellData.SetOutWeight
  simp only [h1, if_true]

theorem searchWeights_length (graph : Graph) (partition : MultiLevelPartition) (heap : Heap)
    (cells : CellStorage) (level s : Nat) (dests : List Nat) :
    (searchWeights graph partition heap cells level s dests).length = dests.length := by
  simp [searchWeights]

theorem searchDurations_length (graph : Graph) (partition : MultiLevelPartition) (heap : Heap)
    (cells : CellStorage) (level s : Nat) (dests : List Nat) :
    (searchDurations graph partition heap cells level s dests).length = dests.length := by
  simp [searchDurations]

theorem getD_indexOf (S : List Nat) (s : Nat) (hs : s ∈ S) : S.getD (S.indexOf s) 0 = s := by
  rw [List.getD_eq_getElem?_getD, List.getElem?_indexOf hs]
  rfl

/-- The storage after the loop over the sources: only the clique rows of the processed
sources of the cell `(level, id)` change, and they hold what the searches on the storage
`cells` the loop started from produce. -/
theorem foldl_customizeSource (graph : Graph) (partition : MultiLevelPartition) (heap : Heap)
    (level id : Nat) (hl : 1 ≤ level) (dests : List Nat) (cells : CellStorage) (S : List Nat)
    (srcs : List Nat) (cs : CellStorage)
    (hframe : ∀ i, cs.GetCell (level - 1) i = cells.GetCell (level - 1) i)
    (hS : (cs.GetCell level id).source_boundary = S) (hsub : ∀ s ∈ srcs, s ∈ S) :
    (∀ l i, (l ≠ level ∨ i ≠ id) →
      (srcs.foldl (customizeSource graph partition heap level id dests) cs).GetCell l i =
        cs.GetCell l i) ∧
    ((srcs.foldl (customizeSource graph partition heap level id dests) cs).GetCell level
      id).source_boundary = S ∧
    ((srcs.foldl (customizeSource graph partition heap level id dests) cs).GetCell level
      id).destination_boundary = (cs.GetCell level id).destination_boundary ∧
    (∀ r k,
      ((srcs.foldl (customizeSource graph partition heap level id dests) cs).GetCell level
        id).weights r k =
        if (∃ s ∈ srcs, S.indexOf s = r) ∧ k < dests.length then
          (searchWeights graph partition heap cells level (S.getD r 0) dests).getD k 0
        else (cs.GetCell level id).weights r k) ∧
    (∀ r k,
      ((srcs.foldl (customizeSource graph partition heap level id dests) cs).GetCell level
        id).durations r k =
        if (∃ s ∈ srcs, S.indexOf s = r) ∧ k < dests.length then
          (searchDurations graph partition heap cells level (S.getD r 0) dests).getD k 0
        else (cs.GetCell level id).durations r k) := by
  induction srcs generalizing cs with
  | nil => simp [hS]
  | cons s rest ih =>
    have hsS : s ∈ S := hsub s (List.mem_cons_self _ _)
    have hs1 : s ∈ (cs.GetCell level id).source_boundary := by rw [hS]; exact hsS
    have hframe1 : ∀ i, (customizeSource graph partition heap level id dests cs s).GetCell
        (level - 1) i = cells.GetCell (level - 1) i := by
      intro i
      rw [customizeSource_other _ _ _ _ _ _ _ _ _ _ (Or.inl (by omega))]
      exact hframe i
    have hcell : (customizeSource graph partition heap level id dests cs s).GetCell level id =
        ((cs.GetCell level id).SetOutWeight s
          (searchWeights graph partition heap cs level s dests)).SetOutDuration s
          (searchDurations graph partition heap cs level s dests) := by
      unfold customizeSource
      rw [SetCell_GetCell, if_pos ⟨rfl, rfl⟩]
    have hS1 : ((customizeSource graph partition heap level id dests cs s).GetCell level
        id).source_boundary = S := by
      rw [hcell, SetOut_source_boundary]; exact hS
    obtain ⟨i1, i2, i3, i4, i5⟩ := ih (customizeSource graph partition heap level id dests cs s)
      hframe1 hS1 (fun x hx => hsub x (List.mem_cons_of_mem _ hx))
    rw [List.foldl_cons]
    refine ⟨?_, i2, ?_, ?_, ?_⟩
    · intro l i hne
      rw [i1 l i hne, customizeSource_other _ _ _ _ _ _ _ _ _ _ hne]
    · rw [i3, hcell, SetOut_destination_boundary]
    · intro r k
      rw [i4 r k, hcell, SetOut_weights _ _ _ _ hs1, hS,
        searchWeights_congr graph partition heap cs cells level s dests hframe,
        searchWeights_length]
      by_cases hk : k < dests.length
      · by_cases h1 : ∃ s' ∈ rest, S.indexOf s' = r
        · have h2 : ∃ s' ∈ s :: rest, S.indexOf s' = r := by
            obtain ⟨s', hs', e⟩ := h1
            exact ⟨s', List.mem_cons_of_mem _ hs', e⟩
          rw [if_pos ⟨h1, hk⟩, if_pos ⟨h2, hk⟩]
        · rw [if_neg (fun h => h1 h.1)]
          by_cases h3 : r = S.indexOf s
          · have h2 : ∃ s' ∈ s :: rest, S.indexOf s' = r :=
              ⟨s, List.mem_cons_self _ _, h3.symm⟩
            rw [if_pos ⟨h3, hk⟩, if_pos ⟨h2, hk⟩, h3, getD_indexOf S s hsS]
          · have h2 : ¬ ∃ s' ∈ s :: rest, S.indexOf s' = r := by
              rintro ⟨s', hs', e⟩
              rcases List.mem_cons.1 hs' with h | h
              · exact h3 (by rw [← e, h])
              · exact h1 ⟨s', h, e⟩
            rw [if_neg (fun h => h3 h.1), if_neg (fun h => h2 h.1)]
      · rw [if_neg (fun h => hk h.2), if_neg (fun h => hk h.2), if_neg (fun h => hk h.2)]
    · intro r k
      rw [i5 r k, hcell, SetOut_durations _ _ _ _ hs1, hS,
        searchDurations_congr graph partition heap cs cells level s dests hframe,
        searchDurations_length]
      by_cases hk : k < dests.length
      · by_cases h1 : ∃ s' ∈ rest, S.indexOf s' = r
        · have h2 : ∃ s' ∈ s :: rest, S.indexOf s' = r := by
            obtain ⟨s', hs', e⟩ := h1
            exact ⟨s', List.mem_cons_of_mem _ hs', e⟩
          rw [if_pos ⟨h1, hk⟩, if_pos ⟨h2, hk⟩]
        · rw [if_neg (fun h => h1 h.1)]
          by_cases h3 : r = S.indexOf s
          · have h2 : ∃ s' ∈ s :: rest, S.indexOf s' = r :=
              ⟨s, List.mem_cons_self _ _, h3.symm⟩
            rw [if_pos ⟨h3, hk⟩, if_pos ⟨h2, hk⟩, h3, getD_indexOf S s hsS]
          · have h2 : ¬ ∃ s' ∈ s :: rest, S.indexOf s' = r := by
              rintro ⟨s', hs', e⟩
              rcases List.mem_cons.1 hs' with h | h
              · exact h3 (by rw [← e, h])
              · exact h1 ⟨s', h, e⟩
            rw [if_neg (fun h => h3 h.1), if_neg (fun h => h2 h.1)]
      · rw [if_neg (fun h => hk h.2), if_neg (fun h => hk h.2), if_neg (fun h => hk h.2)]

/-- `Customize` changes no cell but `(level, id)`. -/
theorem Customize_other (graph : Graph) (partition : MultiLevelPartition) (heap : Heap)
    (cells : CellStorage) (level id : Nat) (hl : 1 ≤ level) (l i : Nat)
    (hne : l ≠ level ∨ i ≠ id) :
    (Customize graph partition heap cells level id).GetCell l i = cells.GetCell l i := by
  rw [Customize_eq_foldl]
  exact (foldl_customizeSource graph partition heap level id hl _ cells _ _ cells
    (fun _ => rfl) rfl (fun _ h => h)).1 l i hne

/-- `Customize` keeps the boundary node lists of the cell. -/
theorem Customize_boundary (graph : Graph) (partition : MultiLevelPartition) (heap : Heap)
    (cells : CellStorage) (level id : Nat) (hl : 1 ≤ level) :
    ((Customize graph partition heap cells level id).GetCell level id).source_boundary =
        (cells.GetCell level id).source_boundary ∧
      ((Customize graph partition heap cells level id).GetCell level id).destination_boundary =
        (cells.GetCell level id).destination_boundary := by
  rw [Customize_eq_foldl]
  have := foldl_customizeSource graph partition heap level id hl
    (cells.GetCell level id).destination_boundary cells _ _ cells
    (fun _ => rfl) rfl (fun _ h => h)
  exact ⟨this.2.1, this.2.2.1⟩

/-- The slot `out_weight[s][t]` after `Customize`: the key of `t` in the search from `s` if
`t` was inserted, the sentinel otherwise. -/
theorem Customize_outWeight (graph : Graph) (partition : MultiLevelPartition) (heap : Heap)
    (cells : CellStorage) (level id : Nat) (hl : 1 ≤ level) (s k t : Nat)
    (hs : s ∈ (cells.GetCell level id).source_boundary)
    (ht : (cells.GetCell level id).destination_boundary[k]? = some t) :
    outWeight (Customize graph partition heap cells level id) level id s k =
      some (if t ∈ (search graph partition heap cells level s
              (cells.GetCell level id).destination_boundary).inserted_nodes
            then (search graph partition heap cells level s
              (cells.GetCell level id).destination_boundary).key t
            else INVALID_EDGE_WEIGHT) := by
  obtain ⟨hk, hkt⟩ := List.getElem?_eq_some.1 ht
  have hb := Customize_boundary graph partition heap cells level id hl
  unfold outWeight
  rw [GetOutWeight_getElem?, hb.1, hb.2, if_pos ⟨hs, hk⟩, Customize_eq_foldl]
  have := (foldl_customizeSource graph partition heap level id hl
    (cells.GetCell level id).destination_boundary cells _ _ cells
    (fun _ => rfl) rfl (fun _ h => h)).2.2.2.1
    ((cells.GetCell level id).source_boundary.indexOf s) k
  rw [this, if_pos ⟨⟨s, hs, rfl⟩, hk⟩, getD_indexOf _ s hs]
  unfold searchWeights
  rw [List.getD_eq_getElem?_getD, List.getElem?_map, ht]
  simp [Heap.WasInserted, Heap.GetKey]

/-- The slot `out_duration[s][t]` after `Customize`: the duration stored with `t` in the search
from `s` if `t` was inserted, the sentinel otherwise. -/
theorem Customize_outDuration (graph : Graph) (partition : MultiLevelPartition) (heap : Heap)
    (cells : CellStorage) (level id : Nat) (hl : 1 ≤ level) (s k t : Nat)
    (hs : s ∈ (cells.GetCell level id).source_boundary)
    (ht : (cells.GetCell level id).destination_boundary[k]? = some t) :
    outDuration (Customize graph partition heap cells level id) level id s k =
      some (if t ∈ (search graph partition heap cells level s
              (cells.GetCell level id).destination_boundary).inserted_nodes
            then ((search graph partition heap cells level s
              (cells.GetCell level id).destination_boundary).data t).duration
            else MAXIMAL_EDGE_DURATION) := by
  obtain ⟨hk, hkt⟩ := List.getElem?_eq_some.1 ht
  have hb := Customize_boundary graph partition heap cells level id hl
  unfold outDuration
  rw [GetOutDuration_getElem?, hb.1, hb.2, if_pos ⟨hs, hk⟩, Customize_eq_foldl]
  have := (foldl_customizeSource graph partition heap level id hl
    (cells.GetCell level id).destination_boundary cells _ _ cells
    (fun _ => rfl) rfl (fun _ h => h)).2.2.2.2
    ((cells.GetCell level id).source_boundary.indexOf s) k
  rw [this, if_pos ⟨⟨s, hs, rfl⟩, hk⟩, getD_indexOf _ s hs]
  unfold searchDurations
  rw [List.getD_eq_getElem?_getD, List.getElem?_map, ht]
  simp [Heap.WasInserted, Heap.GetData]

/-! ## Paths of the graph and of the overlay -/

theorem internalPath_iff_path (graph : Graph) (partition : MultiLevelPartition)
    (level s t : Nat) (W D : Int) :
    InternalPath graph partition level s t W D ↔
      Path (edgeArcs true graph partition level) s t W D := by
  constructor
  · intro hp
    induction hp with
    | nil => exact Path.nil
    | snoc e _ he hf ih =>
      exact Path.snoc ⟨e.target, e.weight, e.duration, false⟩ ih
        ((mem_edgeArcs true graph partition level _ _).2 ⟨e, he, hf, Or.inl rfl, rfl⟩)
  · intro hp
    induction hp with
    | nil => exact InternalPath.nil
    | snoc a _ ha ih =>
      obtain ⟨e, he, hf, _, rfl⟩ := (mem_edgeArcs true graph partition level _ _).1 ha
      exact InternalPath.snoc e ih he hf

theorem overlayArcs_level_one (graph : Graph) (partition : MultiLevelPartition)
    (cells : CellStorage) :
    overlayArcs graph partition cells 1 = edgeArcs true graph partition 1 := by
  funext x
  simp [overlayArcs, levelCliqueArcs, levelEdgeArcs]

theorem cliqueTriangle_level_one (partition : MultiLevelPartition) (cells : CellStorage) :
    CliqueTriangle (levelCliqueArcs partition cells 1) := by
  intro p a ha
  simp [levelCliqueArcs] at ha

/-- Non-negative forward edges and non-negative clique weights make all arcs of the search
non-negative. -/
theorem levelArcsNonneg (graph : Graph) (partition : MultiLevelPartition)
    (cells : CellStorage) (level : Nat)
    (hE : ∀ es ∈ graph.adj, ∀ e ∈ es, e.forward = true → 0 ≤ e.weight)
    (hC : level ≠ 1 → ∀ i s, ∀ w ∈ (cells.GetCell (level - 1) i).GetOutWeight s, 0 ≤ w) :
    ArcsNonneg (levelCliqueArcs partition cells level) (levelEdgeArcs graph partition level) := by
  intro x a ha
  rcases List.mem_append.1 ha with h1 | h1
  · unfold levelCliqueArcs at h1
    by_cases hl : level = 1
    · simp [hl] at h1
    · have hl2 : (level == 1) = false := by simpa using hl
      simp only [hl2] at h1
      obtain ⟨_, k, _, hk, _⟩ := (mem_cliqueArcs partition cells level x a).1 (by simpa using h1)
      exact hC hl _ x _ (List.mem_iff_getElem?.2 ⟨k, hk⟩)
  · obtain ⟨e, he, hf, _, rfl⟩ := (mem_edgeArcs _ graph partition level x a).1 h1
    obtain ⟨es, hes, hin⟩ := mem_adj_of_internal graph partition level x e he
    exact hE es hes e hin hf

/-! ## Claims on the customizer -/

/-- C1: for a level-1 cell `c`, a source boundary node `s` and a destination boundary node `t`
(at column `k`), with non-negative forward edge weights, after `Customize` at level 1 the slot
`out_weight[s][t]` holds the least total weight of the paths from `s` to `t` over
forward-flagged edges of the level-1 internal edge range, whenever such a path exists. -/
theorem customize_level_one_shortest (graph : Graph) (partition : MultiLevelPartition)
    (heap : Heap) (cells : CellStorage) (c s k t : Nat)
    (hnn : ∀ es ∈ graph.adj, ∀ e ∈ es, e.forward = true → 0 ≤ e.weight)
    (hs : s ∈ (cells.GetCell 1 c).GetSourceNodes)
    (ht : (cells.GetCell 1 c).GetDestinationNodes[k]? = some t)
    (hp : ∃ W D, InternalPath graph partition 1 s t W D) :
    ∃ m, outWeight (Customize graph partition heap cells 1 c) 1 c s k = some m ∧
      (∃ D, InternalPath graph partition 1 s t m D) ∧
      ∀ W D, InternalPath graph partition 1 s t W D → m ≤ W := by
  obtain ⟨W0, D0, hp0⟩ := hp
  have htm : t ∈ (cells.GetCell 1 c).destination_boundary := List.mem_iff_getElem?.2 ⟨k, ht⟩
  have hT := cliqueTriangle_level_one partition cells
  have hN := levelArcsNonneg graph partition cells 1 hnn (fun h => absurd rfl h)
  have conv : ∀ W D, InternalPath graph partition 1 s t W D →
      Path (overlayArcs graph partition cells 1) s t W D := by
    intro W D h
    rw [overlayArcs_level_one]
    exact (internalPath_iff_path graph partition 1 s t W D).1 h
  have hset := search_reach graph partition heap cells 1 s _ hT t htm (conv W0 D0 hp0)
  refine ⟨(search graph partition heap cells 1 s (cells.GetCell 1 c).destination_boundary).key t,
    ?_, ?_, ?_⟩
  · rw [Customize_outWeight graph partition heap cells 1 c (le_refl 1) s k t hs ht,
      if_pos hset.1]
  · have := search_path graph partition heap cells 1 s
      (cells.GetCell 1 c).destination_boundary t hset.1
    rw [overlayArcs_level_one] at this
    exact ⟨_, (internalPath_iff_path graph partition 1 s t _ _).2 this⟩
  · intro W D h
    exact search_optimal graph partition heap cells 1 s _ hN hT t htm (conv W D h)

theorem customize_level_one_shortest_witness :
    (∀ es ∈ lineGraph.adj, ∀ e ∈ es, e.forward = true → 0 ≤ e.weight) ∧
    0 ∈ (lineCells.GetCell 1 0).GetSourceNodes ∧
    (lineCells.GetCell 1 0).GetDestinationNodes[0]? = some 1 ∧
    (∃ W D, InternalPath lineGraph oneCellPartition 1 0 1 W D) ∧
    ∃ m, outWeight (Customize lineGraph oneCellPartition emptyHeap lineCells 1 0) 1 0 0 0
        = some m ∧
      (∃ D, InternalPath lineGraph oneCellPartition 1 0 1 m D) ∧
      ∀ W D, InternalPath lineGraph oneCellPartition 1 0 1 W D → m ≤ W :=
  have hp : ∃ W D, InternalPath lineGraph oneCellPartition 1 0 1 W D :=
    ⟨_, _, InternalPath.snoc ⟨1, 5, 7, true, false⟩ InternalPath.nil (by decide) rfl⟩
  ⟨by decide, by decide, by decide, hp,
    customize_level_one_shortest lineGraph oneCellPartition emptyHeap lineCells 0 0 0 1
      (by decide) (by decide) (by decide) hp⟩

/-- C4: for a cell of a level from 1 upwards and a node `n` that is a source boundary node and
(at column `k`) a destination boundary node of it, with non-negative forward edge weights and
non-negative clique weights of the level below, after `Customize` the diagonal slot
`out_weight[n][n]` holds weight 0. -/
theorem customize_diagonal_zero (graph : Graph) (partition : MultiLevelPartition)
    (heap : Heap) (cells : CellStorage) (level id n k : Nat) (hl : 1 ≤ level)
    (hE : ∀ es ∈ graph.adj, ∀ e ∈ es, e.forward = true → 0 ≤ e.weight)
    (hC : level ≠ 1 → ∀ i s, ∀ w ∈ (cells.GetCell (level - 1) i).GetOutWeight s, 0 ≤ w)
    (hs : n ∈ (cells.GetCell level id).GetSourceNodes)
    (ht : (cells.GetCell level id).GetDestinationNodes[k]? = some n) :
    outWeight (Customize graph partition heap cells level id) level id n k = some 0 := by
  obtain ⟨hb, hm, _, _⟩ := search_invariants graph partition heap cells level n
    (cells.GetCell level id).destination_boundary
  have hN := levelArcsNonneg graph partition cells level hE hC
  rw [Customize_outWeight graph partition heap cells level id hl n k n hs ht, if_pos hb.source,
    (hm hN).source_key]

theorem customize_diagonal_zero_witness :
    1 ≤ 1 ∧
    (∀ es ∈ lineGraph.adj, ∀ e ∈ es, e.forward = true → 0 ≤ e.weight) ∧
    (1 ≠ 1 → ∀ i s, ∀ w ∈ (loopCells.GetCell (1 - 1) i).GetOutWeight s, 0 ≤ w) ∧
    0 ∈ (loopCells.GetCell 1 0).GetSourceNodes ∧
    (loopCells.GetCell 1 0).GetDestinationNodes[1]? = some 0 ∧
    outWeight (Customize lineGraph oneCellPartition emptyHeap loopCells 1 0) 1 0 0 1 = some 0 :=
  ⟨by decide, by decide, fun h => absurd rfl h, by decide, by decide,
    customize_diagonal_zero lineGraph oneCellPartition emptyHeap loopCells 1 0 0 1
      (by decide) (by decide) (fun h => absurd rfl h) (by decide) (by decide)⟩

/-- C5: for a level-1 cell, a source boundary node `s` and a destination boundary node `t`
(at column `k`) reachable from `s`, the stored `out_duration[s][t]` is the sum of the edge
durations along a path from `s` to `t` over forward internal edges whose edge weights sum to
the stored `out_weight[s][t]`; with non-negative forward edge weights that weight is the
least weight of such a path. -/
theorem customize_level_one_duration (graph : Graph) (partition : MultiLevelPartition)
    (heap : Heap) (cells : CellStorage) (c s k t : Nat)
    (hs : s ∈ (cells.GetCell 1 c).GetSourceNodes)
    (ht : (cells.GetCell 1 c).GetDestinationNodes[k]? = some t)
    (hp : ∃ W D, InternalPath graph partition 1 s t W D) :
    ∃ m d, outWeight (Customize graph partition heap cells 1 c) 1 c s k = some m ∧
      outDuration (Customize graph partition heap cells 1 c) 1 c s k = some d ∧
      InternalPath graph partition 1 s t m d ∧
      ((∀ es ∈ graph.adj, ∀ e ∈ es, e.forward = true → 0 ≤ e.weight) →
        ∀ W D, InternalPath graph partition 1 s t W D → m ≤ W) := by
  obtain ⟨W0, D0, hp0⟩ := hp
  have htm : t ∈ (cells.GetCell 1 c).destination_boundary := List.mem_iff_getElem?.2 ⟨k, ht⟩
  have hT := cliqueTriangle_level_one partition cells
  have conv : ∀ W D, InternalPath graph partition 1 s t W D →
      Path (overlayArcs graph partition cells 1) s t W D := by
    intro W D h
    rw [overlayArcs_level_one]
    exact (internalPath_iff_path graph partition 1 s t W D).1 h
  have hset := search_reach graph partition heap cells 1 s _ hT t htm (conv W0 D0 hp0)
  refine ⟨(search graph partition heap cells 1 s (cells.GetCell 1 c).destination_boundary).key t,
    ((search graph partition heap cells 1 s (cells.GetCell 1 c).destination_boundary).data
      t).duration, ?_, ?_, ?_, ?_⟩
  · rw [Customize_outWeight graph partition heap cells 1 c (le_refl 1) s k t hs ht,
      if_pos hset.1]
  · rw [Customize_outDuration graph partition heap cells 1 c (le_refl 1) s k t hs ht,
      if_pos hset.1]
  · have := search_path graph partition heap cells 1 s
      (cells.GetCell 1 c).destination_boundary t hset.1
    rw [overlayArcs_level_one] at this
    exact (internalPath_iff_path graph partition 1 s t _ _).2 this
  · intro hnn W D h
    have hN := levelArcsNonneg graph partition cells 1 hnn (fun h => absurd rfl h)
    exact search_optimal graph partition heap cells 1 s _ hN hT t htm (conv W D h)

theorem customize_level_one_duration_witness :
    0 ∈ (lineCells.GetCell 1 0).GetSourceNodes ∧
    (lineCells.GetCell 1 0).GetDestinationNodes[0]? = some 1 ∧
    (∃ W D, InternalPath lineGraph oneCellPartition 1 0 1 W D) ∧
    ∃ m d, outWeight (Customize lineGraph oneCellPartition emptyHeap lineCells 1 0) 1 0 0 0
        = some m ∧
      outDuration (Customize lineGraph oneCellPartition emptyHeap lineCells 1 0) 1 0 0 0
        = some d ∧
      InternalPath lineGraph oneCellPartition 1 0 1 m d ∧
      ((∀ es ∈ lineGraph.adj, ∀ e ∈ es, e.forward = true → 0 ≤ e.weight) →
        ∀ W D, InternalPath lineGraph oneCellPartition 1 0 1 W D → m ≤ W) :=
  have hp : ∃ W D, InternalPath lineGraph oneCellPartition 1 0 1 W D :=
    ⟨_, _, InternalPath.snoc ⟨1, 5, 7, true, false⟩ InternalPath.nil (by decide) rfl⟩
  ⟨by decide, by decide, hp,
    customize_level_one_duration lineGraph oneCellPartition emptyHeap lineCells 0 0 0 1
      (by decide) (by decide) hp⟩

theorem deleteMinKeys_succ (graph : Graph) (partition : MultiLevelPartition)
    (cells : CellStorage) (level fuel : Nat) (heap : Heap) (dset : List Nat) :
    deleteMinKeys graph partition cells level (fuel + 1) heap dset =
      if heap.Empty = false ∧ dset ≠ [] then
        heap.key heap.DeleteMin.1 ::
          deleteMinKeys graph partition cells level fuel
            (genStep (levelCliqueArcs partition cells level)
              (levelEdgeArcs graph partition level) heap)
            (dset.filter (fun d => d != heap.DeleteMin.1))
      else [] := by
  rw [← stepHeap_eq_genStep]
  conv_lhs => unfold deleteMinKeys
  unfold stepHeap
  by_cases h1 : heap.Empty = false
  · by_cases h2 : dset = []
    · simp [h1, h2]
    · have h3 : dset.isEmpty = false := by
        cases dset with
        | nil => exact absurd rfl h2
        | cons _ _ => rfl
      have hk : heap.DeleteMin.2.GetKey heap.DeleteMin.1 = heap.key heap.DeleteMin.1 := by
        obtain ⟨_, _, _, _, e3, _⟩ := DeleteMin_spec heap h1
        simp [Heap.GetKey, e3]
      simp only [h1, h3, h2]
      by_cases hl : level = 1
      · subst hl; simp [h2, hk]
      · have hl2 : (level == 1) = false := by simpa using hl
        simp [hl2, h2, hk]
  · have h1b : heap.Empty = true := by simpa using h1
    simp [h1b]

/-- With non-negative weights the keys dequeued from a heap are sorted and bounded below by
the keys of the nodes settled before. -/
theorem deleteMinKeys_sorted_aux (graph : Graph) (partition : MultiLevelPartition)
    (cells : CellStorage) (level s : Nat)
    (hnn : ArcsNonneg (levelCliqueArcs partition cells level)
      (levelEdgeArcs graph partition level))
    (fuel : Nat) (h : Heap) (d : List Nat) (hok : HeapOK h) (hs : s ∈ h.inserted_nodes)
    (mono : MonoInv s h) :
    (deleteMinKeys graph partition cells level fuel h d).Pairwise (fun a b => a ≤ b) ∧
      ∀ k ∈ deleteMinKeys graph partition cells level fuel h d,
        ∀ r, Settled h r → h.key r ≤ k := by
  induction fuel generalizing h d with
  | zero => exact ⟨List.Pairwise.nil, fun k hk => by cases hk⟩
  | succ fuel ih =>
    rw [deleteMinKeys_succ]
    by_cases hc : h.Empty = false ∧ d ≠ []
    · rw [if_pos hc]
      obtain ⟨hu, _, _⟩ := DeleteMin_spec h hc.1
      have huin := hok.heap_sub _ hu
      obtain ⟨ih1, ih2⟩ := ih _ (d.filter (fun x => x != h.DeleteMin.1))
        (genStep_HeapOK _ _ h hok hc.1) (genStep_mono _ _ h hc.1 s hs).1
        (genStep_MonoInv _ _ s h hnn hok hs mono hc.1)
      refine ⟨List.Pairwise.cons ?_ ih1, ?_⟩
      · intro k hk
        have := ih2 k hk _ ((genStep_settled _ _ h hok hc.1 _).2 (Or.inr rfl))
        rw [genStep_key_fixed _ _ h hnn hc.1 _ huin (le_refl _)] at this
        exact this
      · intro k hk r hr
        rcases List.mem_cons.1 hk with h1 | h1
        · rw [h1]; exact mono.mono r hr _ hu
        · have := ih2 k h1 r ((genStep_settled _ _ h hok hc.1 r).2 (Or.inl hr))
          rw [genStep_key_fixed _ _ h hnn hc.1 r hr.1 (mono.mono r hr _ hu)] at this
          exact this
    · rw [if_neg hc]
      exact ⟨List.Pairwise.nil, fun k hk => by cases hk⟩

/-- C8: within the search from one source of one cell, with non-negative forward edge weights
and non-negative clique weights of the level below, the keys of the nodes returned by the
successive `DeleteMin` calls are nondecreasing (whatever the number of iterations run). -/
theorem deleteMin_keys_nondecreasing (graph : Graph) (partition : MultiLevelPartition)
    (heap : Heap) (cells : CellStorage) (level source : Nat) (destinations : List Nat)
    (fuel : Nat)
    (hE : ∀ es ∈ graph.adj, ∀ e ∈ es, e.forward = true → 0 ≤ e.weight)
    (hC : level ≠ 1 → ∀ i s, ∀ w ∈ (cells.GetCell (level - 1) i).GetOutWeight s, 0 ≤ w) :
    (deleteMinKeys graph partition cells level fuel
      (heap.Clear.Insert source 0 ⟨false, 0⟩) destinations).Pairwise (fun a b => a ≤ b) := by
  have hN := levelArcsNonneg graph partition cells level hE hC
  have hU := searchUniverse_ok graph partition cells level source
  have h0 := init_BaseInv _ _ _ _ source heap hU
  exact (deleteMinKeys_sorted_aux graph partition cells level source hN fuel _ destinations
    h0.ok h0.source (init_MonoInv source heap)).1

theorem deleteMin_keys_nondecreasing_witness :
    (∀ es ∈ lineGraph.adj, ∀ e ∈ es, e.forward = true → 0 ≤ e.weight) ∧
    (1 ≠ 1 → ∀ i s, ∀ w ∈ (lineCells.GetCell (1 - 1) i).GetOutWeight s, 0 ≤ w) ∧
    (deleteMinKeys lineGraph oneCellPartition lineCells 1 3
      (emptyHeap.Clear.Insert 0 0 ⟨false, 0⟩) [1]).Pairwise (fun a b => a ≤ b) :=
  ⟨by decide, fun h => absurd rfl h,
    deleteMin_keys_nondecreasing lineGraph oneCellPartition emptyHeap lineCells 1 0 [1] 3
      (by decide) (fun h => absurd rfl h)⟩

/-! ## The `from_clique` flag -/

theorem relax_noop (h : Heap) (t : Nat) (k : Int) (d : HeapData) (ht : t ∈ h.inserted_nodes)
    (hk : h.key t ≤ k) : relax h t k d = h := by
  unfold relax
  have : ¬ k < h.GetKey t := by simp only [Heap.GetKey]; omega
  simp [Heap.WasInserted, ht, this]

theorem relaxArcs_noop (W D : Int) (arcs : List Arc) (h : Heap)
    (hs : ∀ a ∈ arcs, a.to_node ∈ h.inserted_nodes ∧ h.key a.to_node ≤ W + a.weight) :
    relaxArcs W D arcs h = h := by
  induction arcs with
  | nil => rfl
  | cons a rest ih =>
    rw [relaxArcs_cons,
      relax_noop h _ _ _ (hs a (List.mem_cons_self _ _)).1 (hs a (List.mem_cons_self _ _)).2]
    exact ih (fun b hb => hs b (List.mem_cons_of_mem _ hb))

/-- When the clique arcs satisfy the triangle inequality, relaxing the clique arcs of a node
that carries the flag changes nothing: an iteration that relaxes the clique at every node
yields the same heap. -/
theorem genStep_every_node (C E : Nat → List Arc) (h : Heap) (hT : CliqueTriangle C)
    (hok : HeapOK h) (tri : TriInv C E h) (hne : h.Empty = false) :
    relaxArcs (h.DeleteMin.2.GetKey h.DeleteMin.1) (h.DeleteMin.2.GetData h.DeleteMin.1).duration
      (C h.DeleteMin.1 ++ E h.DeleteMin.1) h.DeleteMin.2 = genStep C E h := by
  unfold genStep
  cases hfl : (h.DeleteMin.2.GetData h.DeleteMin.1).from_clique
  · simp
  · obtain ⟨hu, _, e1, _, e3, e4⟩ := DeleteMin_spec h hne
    have huin := hok.heap_sub _ hu
    simp only [if_true, List.nil_append]
    rw [relaxArcs_append]
    congr 1
    apply relaxArcs_noop
    intro a ha
    have hfl2 : (h.data h.DeleteMin.1).from_clique = true := by
      rw [← e4]; exact hfl
    obtain ⟨p, K, a1, ha1, h4, h5, h6⟩ := tri.witness _ huin hfl2
    rw [← h4] at ha
    obtain ⟨a3, ha3, h7, h8⟩ := hT p a1 ha1 a ha
    have h9 := h6 a3 ha3
    rw [h7] at h9
    rw [e1, e3]
    simp only [Heap.GetKey, e3]
    exact ⟨h9.1, by omega⟩

theorem searchLoopEveryNode_succ (graph : Graph) (partition : MultiLevelPartition)
    (cells : CellStorage) (level fuel : Nat) (hl : level ≠ 1) (heap : Heap) (dset : List Nat) :
    searchLoopEveryNode graph partition cells level (fuel + 1) heap dset =
      if heap.Empty = false ∧ dset ≠ [] then
        searchLoopEveryNode graph partition cells level fuel
          (relaxArcs (heap.DeleteMin.2.GetKey heap.DeleteMin.1)
            (heap.DeleteMin.2.GetData heap.DeleteMin.1).duration
            (levelCliqueArcs partition cells level heap.DeleteMin.1 ++
              levelEdgeArcs graph partition level heap.DeleteMin.1) heap.DeleteMin.2)
          (dset.filter (fun d => d != heap.DeleteMin.1))
      else (heap, dset) := by
  have hl2 : (level == 1) = false := by simpa using hl
  conv_lhs => unfold searchLoopEveryNode
  simp only [levelCliqueArcs, levelEdgeArcs, hl2, RelaxNodeEveryNode_eq]
  by_cases h1 : heap.Empty = false
  · by_cases h2 : dset = []
    · simp [h1, h2]
    · have h3 : dset.isEmpty = false := by
        cases dset with
        | nil => exact absurd rfl h2
        | cons _ _ => rfl
      simp [h1, h3, h2]
  · have h1b : heap.Empty = true := by simpa using h1
    simp [h1b]

/-- With the triangle inequality of the clique arcs, the search that relaxes the clique at
every node runs through the same heaps as the search of the customizer. -/
theorem searchLoopEveryNode_eq (graph : Graph) (partition : MultiLevelPartition)
    (cells : CellStorage) (level : Nat) (hl : level ≠ 1)
    (hT : CliqueTriangle (levelCliqueArcs partition cells level))
    (fuel : Nat) (h : Heap) (d : List Nat) (hok : HeapOK h)
    (tri : TriInv (levelCliqueArcs partition cells level) (levelEdgeArcs graph partition level) h) :
    searchLoopEveryNode graph partition cells level fuel h d =
      searchLoop graph partition cells level fuel h d := by
  induction fuel generalizing h d with
  | zero => rfl
  | succ fuel ih =>
    rw [searchLoopEveryNode_succ graph partition cells level fuel hl, searchLoop_succ]
    by_cases hc : h.Empty = false ∧ d ≠ []
    · rw [if_pos hc, if_pos hc, genStep_every_node _ _ h hT hok tri hc.1]
      exact ih _ _ (genStep_HeapOK _ _ h hok hc.1)
        (genStep_TriInv _ _ h hT (levelArcFlags graph partition cells level) hok tri hc.1)
    · rw [if_neg hc, if_neg hc]

theorem cliqueArcs_congr (partition : MultiLevelPartition) (cs1 cs2 : CellStorage)
    (level : Nat) (hc : ∀ i, cs1.GetCell (level - 1) i = cs2.GetCell (level - 1) i) :
    cliqueArcs partition cs1 level = cliqueArcs partition cs2 level := by
  funext x
  unfold cliqueArcs
  simp only [hc]

theorem levelCliqueArcs_above_one (partition : MultiLevelPartition) (cells : CellStorage)
    (level : Nat) (hl : level ≠ 1) :
    levelCliqueArcs partition cells level = cliqueArcs partition cells level := by
  funext x
  have hl2 : (level == 1) = false := by simpa using hl
  simp [levelCliqueArcs, hl2]

theorem CustomizeEveryNode_eq_foldl (graph : Graph) (partition : MultiLevelPartition)
    (heap : Heap) (cells : CellStorage) (level id : Nat) :
    CustomizeEveryNode graph partition heap cells level id =
      (cells.GetCell level id).source_boundary.foldl
        (fun cs source =>
          cs.SetCell level id
            (((cs.GetCell level id).SetOutWeight source
              ((cells.GetCell level id).destination_boundary.map
                (fun destination =>
                  if (searchLoopEveryNode graph partition cs level
                      (searchFuel graph partition cs level source)
                      (heap.Clear.Insert source 0 ⟨false, 0⟩)
                      (cells.GetCell level id).destination_boundary).1.WasInserted destination
                  then (searchLoopEveryNode graph partition cs level
                      (searchFuel graph partition cs level source)
                      (heap.Clear.Insert source 0 ⟨false, 0⟩)
                      (cells.GetCell level id).destination_boundary).1.GetKey destination
                  else INVALID_EDGE_WEIGHT))).SetOutDuration source
              ((cells.GetCell level id).destination_boundary.map
                (fun destination =>
                  if (searchLoopEveryNode graph partition cs level
                      (searchFuel graph partition cs level source)
                      (heap.Clear.Insert source 0 ⟨false, 0⟩)
                      (cells.GetCell level id).destination_boundary).1.WasInserted destination
                  then ((searchLoopEveryNode graph partition cs level
                      (searchFuel graph partition cs level source)
                      (heap.Clear.Insert source 0 ⟨false, 0⟩)
                      (cells.GetCell level id).destination_boundary).1.GetData
                        destination).duration
                  else MAXIMAL_EDGE_DURATION))))
        cells := rfl

theorem foldl_every_node (graph : Graph) (partition : MultiLevelPartition) (heap : Heap)
    (cells : CellStorage) (level id : Nat) (hl : 1 < level) (dests : List Nat)
    (hT : CliqueTriangle (cliqueArcs partition cells level))
    (srcs : List Nat) (cs : CellStorage)
    (hframe : ∀ i, cs.GetCell (level - 1) i = cells.GetCell (level - 1) i) :
    srcs.foldl
        (fun cs source =>
          cs.SetCell level id
            (((cs.GetCell level id).SetOutWeight source
              (dests.map
                (fun destination =>
                  if (searchLoopEveryNode graph partition cs level
                      (searchFuel graph partition cs level source)
                      (heap.Clear.Insert source 0 ⟨false, 0⟩) dests).1.WasInserted destination
                  then (searchLoopEveryNode graph partition cs level
                      (searchFuel graph partition cs level source)
                      (heap.Clear.Insert source 0 ⟨false, 0⟩) dests).1.GetKey destination
                  else INVALID_EDGE_WEIGHT))).SetOutDuration source
              (dests.map
                (fun destination =>
                  if (searchLoopEveryNode graph partition cs level
                      (searchFuel graph partition cs level source)
                      (heap.Clear.Insert source 0 ⟨false, 0⟩) dests).1.WasInserted destination
                  then ((searchLoopEveryNode graph partition cs level
                      (searchFuel graph partition cs level source)
                      (heap.Clear.Insert source 0 ⟨false, 0⟩) dests).1.GetData
                        destination).duration
                  else MAXIMAL_EDGE_DURATION))))
        cs =
      srcs.foldl (customizeSource graph partition heap level id dests) cs := by
  induction srcs generalizing cs with
  | nil => rfl
  | cons s rest ih =>
    rw [List.foldl_cons, List.foldl_cons]
    have hne : level ≠ 1 := by omega
    have hT2 : CliqueTriangle (levelCliqueArcs partition cs level) := by
      rw [levelCliqueArcs_above_one partition cs level hne,
        cliqueArcs_congr partition cs cells level hframe]
      exact hT
    have hU := searchUniverse_ok graph partition cs level s
    have h0 := init_BaseInv _ _ _ _ s heap hU
    have heq := searchLoopEveryNode_eq graph partition cs level hne hT2
      (searchFuel graph partition cs level s) _ dests h0.ok
      (init_TriInv _ _ s heap)
    have hbody : cs.SetCell level id
            (((cs.GetCell level id).SetOutWeight s
              (dests.map
                (fun destination =>
                  if (searchLoopEveryNode graph partition cs level
                      (searchFuel graph partition cs level s)
                      (heap.Clear.Insert s 0 ⟨false, 0⟩) dests).1.WasInserted destination
                  then (searchLoopEveryNode graph partition cs level
                      (searchFuel graph partition cs level s)
                      (heap.Clear.Insert s 0 ⟨false, 0⟩) dests).1.GetKey destination
                  else INVALID_EDGE_WEIGHT))).SetOutDuration s
              (dests.map
                (fun destination =>
                  if (searchLoopEveryNode graph partition cs level
                      (searchFuel graph partition cs level s)
                      (heap.Clear.Insert s 0 ⟨false, 0⟩) dests).1.WasInserted destination
                  then ((searchLoopEveryNode graph partition cs level
                      (searchFuel graph partition cs level s)
                      (heap.Clear.Insert s 0 ⟨false, 0⟩) dests).1.GetData
                        destination).duration
                  else MAXIMAL_EDGE_DURATION))) =
        customizeSource graph partition heap level id dests cs s := by
      rw [heq]
      rfl
    rw [hbody]
    apply ih
    intro i
    rw [customizeSource_other _ _ _ _ _ _ _ _ _ _ (Or.inl (by omega))]
    exact hframe i

/-- C7: at a level above 1, when the sub-cell clique arcs satisfy the triangle inequality
(two consecutive valid clique entries `p → n`, `n → v` are dominated by a valid entry `p → v`
with `d(p, v) ≤ d(p, n) + d(n, v)`), the customizer produces the same cell storage, hence the
same `out_weight` for every pair, as the variant whose search relaxes the sub-cell clique at
every dequeued node. -/
theorem customize_same_as_every_node (graph : Graph) (partition : MultiLevelPartition)
    (heap : Heap) (cells : CellStorage) (level id : Nat) (hl : 1 < level)
    (hT : CliqueTriangle (cliqueArcs partition cells level)) :
    Customize graph partition heap cells level id =
      CustomizeEveryNode graph partition heap cells level id := by
  rw [CustomizeEveryNode_eq_foldl, Customize_eq_foldl]
  exact (foldl_every_node graph partition heap cells level id hl _ hT _ cells
    (fun _ => rfl)).symm

theorem cliqueCells_triangle : CliqueTriangle (cliqueArcs oneCellPartition cliqueCells 2) := by
  have e0 : cliqueArcs oneCellPartition cliqueCells 2 0 =
      [⟨1, 1, 3, true⟩, ⟨2, 2, 6, true⟩] := by decide
  have e1 : cliqueArcs oneCellPartition cliqueCells 2 1 =
      [⟨1, 0, 0, true⟩, ⟨2, 1, 3, true⟩] := by decide
  have e2 : cliqueArcs oneCellPartition cliqueCells 2 2 = [] := by decide
  intro p a1 ha1 a2 ha2
  have hp : p ∈ [0, 1] := ((mem_cliqueArcs oneCellPartition cliqueCells 2 p a1).1 ha1).1
  simp only [List.mem_cons, List.mem_singleton, List.not_mem_nil, or_false] at hp
  rcases hp with rfl | rfl
  · rw [e0] at ha1 ⊢
    simp only [List.mem_cons, List.mem_singleton, List.not_mem_nil, or_false] at ha1
    rcases ha1 with rfl | rfl
    · simp only [e1, List.mem_cons, List.mem_singleton, List.not_mem_nil, or_false] at ha2
      rcases ha2 with rfl | rfl
      · exact ⟨⟨1, 1, 3, true⟩, by simp, rfl, by decide⟩
      · exact ⟨⟨2, 2, 6, true⟩, by simp, rfl, by decide⟩
    · simp only [e2, List.not_mem_nil] at ha2
  · rw [e1] at ha1 ⊢
    simp only [List.mem_cons, List.mem_singleton, List.not_mem_nil, or_false] at ha1
    rcases ha1 with rfl | rfl
    · simp only [e1, List.mem_cons, List.mem_singleton, List.not_mem_nil, or_false] at ha2
      rcases ha2 with rfl | rfl
      · exact ⟨⟨1, 0, 0, true⟩, by simp, rfl, by decide⟩
      · exact ⟨⟨2, 1, 3, true⟩, by simp, rfl, by decide⟩
    · simp only [e2, List.not_mem_nil] at ha2

theorem customize_same_as_every_node_witness :
    1 < 2 ∧ CliqueTriangle (cliqueArcs oneCellPartition cliqueCells 2) ∧
    Customize lineGraph oneCellPartition emptyHeap cliqueCells 2 0 =
      CustomizeEveryNode lineGraph oneCellPartition emptyHeap cliqueCells 2 0 :=
  ⟨by decide, cliqueCells_triangle,
    customize_same_as_every_node lineGraph oneCellPartition emptyHeap cliqueCells 2 0
      (by decide) cliqueCells_triangle⟩

/-! ## Paths inside sub-cells -/

theorem InternalPath.append_path {graph : Graph} {partition : MultiLevelPartition} {level s x v : Nat}
    {W1 D1 W2 D2 : Int} (h1 : InternalPath graph partition level s x W1 D1)
    (h2 : InternalPath graph partition level x v W2 D2) :
    InternalPath graph partition level s v (W1 + W2) (D1 + D2) := by
  induction h2 with
  | nil => simpa using h1
  | snoc e _ he hf ih =>
    have := InternalPath.snoc e ih he hf
    rw [add_assoc, add_assoc] at this
    exact this

theorem Path.append_arcs {arcs : Nat → List Arc} {s x v : Nat}
    {W1 D1 W2 D2 : Int} (h1 : Path arcs s x W1 D1) (h2 : Path arcs x v W2 D2) :
    Path arcs s v (W1 + W2) (D1 + D2) := by
  induction h2 with
  | nil => simpa using h1
  | snoc a _ ha ih =>
    have := Path.snoc a ih ha
    rw [add_assoc, add_assoc] at this
    exact this

theorem mem_internal_iff (graph : Graph) (partition : MultiLevelPartition) (level x : Nat)
    (e : Edge) :
    e ∈ graph.GetInternalEdgeRange partition level x ↔
      e ∈ graph.GetAdjacentEdgeRange x ∧
        partition.GetCell level e.target = partition.GetCell level x := by
  unfold Graph.GetInternalEdgeRange
  simp [List.mem_filter]

/-- An internal path stays in the cell of its first node. -/
theorem InternalPath.same_cell {graph : Graph} {partition : MultiLevelPartition}
    {level s v : Nat} {W D : Int} (h : InternalPath graph partition level s v W D) :
    partition.GetCell level v = partition.GetCell level s := by
  induction h with
  | nil => rfl
  | snoc e _ he _ ih =>
    rw [((mem_internal_iff graph partition level _ e).1 he).2, ih]

/-- With nested cells a path inside a cell of the lower level is a path of the upper level. -/
theorem InternalPath.lift {graph : Graph} {partition : MultiLevelPartition}
    {lo hi s v : Nat} {W D : Int}
    (hnest : ∀ u w, partition.GetCell lo u = partition.GetCell lo w →
      partition.GetCell hi u = partition.GetCell hi w)
    (h : InternalPath graph partition lo s v W D) :
    InternalPath graph partition hi s v W D := by
  induction h with
  | nil => exact InternalPath.nil
  | snoc e _ he hf ih =>
    have h1 := (mem_internal_iff graph partition lo _ e).1 he
    exact InternalPath.snoc e ih
      ((mem_internal_iff graph partition hi _ e).2 ⟨h1.1, hnest _ _ h1.2⟩) hf

/-- With non-negative forward edge weights every internal path has non-negative weight. -/
theorem InternalPath.weight_nonneg {graph : Graph} {partition : MultiLevelPartition}
    {level s v : Nat} {W D : Int}
    (hE : ∀ es ∈ graph.adj, ∀ e ∈ es, e.forward = true → 0 ≤ e.weight)
    (h : InternalPath graph partition level s v W D) : 0 ≤ W := by
  induction h with
  | nil => exact le_refl _
  | snoc e _ he hf ih =>
    obtain ⟨es, hes, hin⟩ := mem_adj_of_internal graph partition level _ e he
    have := hE es hes e hin hf
    omega

/-- A valid clique entry of an exact table is the least weight of a path inside the sub-cell. -/
theorem cliqueArc_exact (graph : Graph) (partition : MultiLevelPartition)
    (cells : CellStorage) (level x : Nat) (a : Arc)
    (hex : TablesExact graph partition cells (level - 1))
    (ha : a ∈ cliqueArcs partition cells level x) :
    (∃ D, InternalPath graph partition (level - 1) x a.to_node a.weight D) ∧
      ∀ W D, InternalPath graph partition (level - 1) x a.to_node W D → a.weight ≤ W := by
  obtain ⟨hs, k, hk, hw, _, hne, _⟩ := (mem_cliqueArcs partition cells level x a).1 ha
  rcases hex _ x k a.to_node hs hk with ⟨_, h2⟩ | ⟨m, h1, _, h3, h4⟩
  · unfold outWeight at h2
    rw [hw] at h2
    exact absurd (Option.some.inj h2) hne
  · unfold outWeight at h1
    rw [hw] at h1
    have := Option.some.inj h1
    subst this
    exact ⟨h3, h4⟩

/-- In an exact table a pair joined by a path inside the sub-cell has a valid clique entry, no
heavier than the path. -/
theorem exact_cliqueArc (graph : Graph) (partition : MultiLevelPartition)
    (cells : CellStorage) (level x v : Nat) (W D : Int)
    (hex : TablesExact graph partition cells (level - 1))
    (hs : x ∈ (cells.GetCell (level - 1) (partition.GetCell (level - 1) x)).source_boundary)
    (hv : v ∈ (cells.GetCell (level - 1) (partition.GetCell (level - 1) x)).destination_boundary)
    (hp : InternalPath graph partition (level - 1) x v W D) :
    ∃ a ∈ cliqueArcs partition cells level x, a.to_node = v ∧ a.weight ≤ W := by
  obtain ⟨k, hk⟩ := List.mem_iff_getElem?.1 hv
  obtain ⟨hkl, _⟩ := List.getElem?_eq_some.1 hk
  rcases hex _ x k v hs hk with ⟨h1, _⟩ | ⟨m, h1, h2, _, h4⟩
  · exact absurd ⟨W, D, hp⟩ h1
  · refine ⟨⟨v, m, (cells.GetCell (level - 1) (partition.GetCell (level - 1) x)).durations
      ((cells.GetCell (level - 1) (partition.GetCell (level - 1) x)).source_boundary.indexOf x) k,
      true⟩, ?_, rfl, h4 W D hp⟩
    rw [mem_cliqueArcs]
    refine ⟨hs, k, hk, h1, ?_, h2, rfl⟩
    rw [GetOutDuration_getElem?, if_pos ⟨hs, hkl⟩]

/-- Exact tables satisfy the triangle inequality. -/
theorem cliqueTriangle_of_exact (graph : Graph) (partition : MultiLevelPartition)
    (cells : CellStorage) (level : Nat)
    (hex : TablesExact graph partition cells (level - 1)) :
    CliqueTriangle (cliqueArcs partition cells level) := by
  intro p a1 ha1 a2 ha2
  obtain ⟨⟨D1, hp1⟩, _⟩ := cliqueArc_exact graph partition cells level p a1 hex ha1
  obtain ⟨⟨D2, hp2⟩, _⟩ := cliqueArc_exact graph partition cells level _ a2 hex ha2
  obtain ⟨hs, _⟩ := (mem_cliqueArcs partition cells level p a1).1 ha1
  obtain ⟨_, k, hk, _⟩ := (mem_cliqueArcs partition cells level _ a2).1 ha2
  rw [hp1.same_cell] at hk
  obtain ⟨a3, h1, h2, h3⟩ := exact_cliqueArc graph partition cells level p a2.to_node _ _ hex hs
    (List.mem_iff_getElem?.2 ⟨k, hk⟩) (hp1.append_path hp2)
  exact ⟨a3, h1, h2, h3⟩

/-- With exact tables and non-negative forward edge weights all arcs of the overlay are
non-negative. -/
theorem arcsNonneg_of_exact (graph : Graph) (partition : MultiLevelPartition)
    (cells : CellStorage) (level : Nat)
    (hE : ∀ es ∈ graph.adj, ∀ e ∈ es, e.forward = true → 0 ≤ e.weight)
    (hex : TablesExact graph partition cells (level - 1)) :
    ArcsNonneg (levelCliqueArcs partition cells level) (levelEdgeArcs graph partition level) := by
  intro x a ha
  rcases List.mem_append.1 ha with h1 | h1
  · unfold levelCliqueArcs at h1
    by_cases hl : level = 1
    · simp [hl] at h1
    · have hl2 : (level == 1) = false := by simpa using hl
      simp only [hl2] at h1
      obtain ⟨⟨D, hp⟩, _⟩ := cliqueArc_exact graph partition cells level x a hex
        (by simpa using h1)
      exact hp.weight_nonneg hE
  · obtain ⟨e, he, hf, _, rfl⟩ := (mem_edgeArcs _ graph partition level x a).1 h1
    obtain ⟨es, hes, hin⟩ := mem_adj_of_internal graph partition level x e he
    exact hE es hes e hin hf

/-- With exact tables and nested cells every path of the overlay is matched by a path of the
graph inside the cell, of the same weight. -/
theorem overlay_to_internal (graph : Graph) (partition : MultiLevelPartition)
    (cells : CellStorage) (level : Nat)
    (hnest : ∀ u w, partition.GetCell (level - 1) u = partition.GetCell (level - 1) w →
      partition.GetCell level u = partition.GetCell level w)
    (hex : TablesExact graph partition cells (level - 1))
    {s v : Nat} {W D : Int} (hp : Path (overlayArcs graph partition cells level) s v W D) :
    ∃ D2, InternalPath graph partition level s v W D2 := by
  induction hp with
  | nil => exact ⟨0, InternalPath.nil⟩
  | snoc a _ ha ih =>
    obtain ⟨D1, ih⟩ := ih
    rcases List.mem_append.1 ha with h1 | h1
    · unfold levelCliqueArcs at h1
      by_cases hl : level = 1
      · simp [hl] at h1
      · have hl2 : (level == 1) = false := by simpa using hl
        simp only [hl2] at h1
        obtain ⟨⟨D2, hp2⟩, _⟩ := cliqueArc_exact graph partition cells level _ a hex
          (by simpa using h1)
        exact ⟨_, ih.append_path (hp2.lift hnest)⟩
    · obtain ⟨e, he, hf, _, rfl⟩ := (mem_edgeArcs _ graph partition level _ a).1 h1
      exact ⟨_, InternalPath.snoc e ih he hf⟩

/-- With exact tables and complete boundary lists a path of the graph inside the cell splits
into a path of the overlay up to the node where it last entered a sub-cell and its stretch
inside that sub-cell. -/
theorem internal_to_overlay_aux (graph : Graph) (partition : MultiLevelPartition)
    (cells : CellStorage) (level c : Nat) (hl : level ≠ 1)
    (hex : TablesExact graph partition cells (level - 1))
    (hcomp : BoundaryComplete graph partition cells level c)
    {s v : Nat} (hs : s ∈ (cells.GetCell level c).source_boundary) {W D : Int}
    (hp : InternalPath graph partition level s v W D) :
    ∃ e W1 D1 W2, Path (overlayArcs graph partition cells level) s e W1 D1 ∧
      EntersSubcell graph partition cells level c e ∧
      partition.GetCell (level - 1) e = partition.GetCell (level - 1) v ∧
      InnerStretch graph partition level e v W2 ∧ W1 + W2 ≤ W := by
  have hl2 : (level == 1) = false := by simpa using hl
  induction hp with
  | nil => exact ⟨s, 0, 0, 0, Path.nil, Or.inl hs, rfl, Or.inl ⟨rfl, rfl⟩, le_refl _⟩
  | @snoc x W0 D0 ed _ he hf ih =>
    obtain ⟨e, W1, D1, W2, hpath, hent, hcell, hinner, hle⟩ := ih
    have hadj := (mem_internal_iff graph partition level x ed).1 he
    by_cases hc : partition.GetCell (level - 1) x = partition.GetCell (level - 1) ed.target
    · have he2 : ed ∈ graph.GetInternalEdgeRange partition (level - 1) x :=
        (mem_internal_iff graph partition (level - 1) x ed).2 ⟨hadj.1, hc.symm⟩
      refine ⟨e, W1, D1, W2 + ed.weight, hpath, hent, hcell.trans hc, ?_, by omega⟩
      rcases hinner with ⟨h1, h2⟩ | ⟨hout, _, D2, hp2⟩
      · subst h1
        subst h2
        exact Or.inr ⟨⟨ed, he2, hf⟩, ⟨e, ed, he2, hf, rfl⟩, _,
          InternalPath.snoc ed InternalPath.nil he2 hf⟩
      · exact Or.inr ⟨hout, ⟨x, ed, he2, hf, rfl⟩, _, InternalPath.snoc ed hp2 he2 hf⟩
    · have hx : ∃ W3 D3, Path (overlayArcs graph partition cells level) s x W3 D3 ∧
          W3 ≤ W1 + W2 := by
        rcases hinner with ⟨h1, h2⟩ | ⟨hout, hin, D2, hp2⟩
        · subst h1
          exact ⟨W1, D1, hpath, by omega⟩
        · have hsrc := hcomp.source e hent hout
          have hdst := hcomp.destination x (Or.inr ⟨ed, he, hf, hc⟩) hin
          rw [← hcell] at hdst
          obtain ⟨a, ha, hat, haw⟩ := exact_cliqueArc graph partition cells level e x _ _ hex
            hsrc hdst hp2
          have hmem : a ∈ overlayArcs graph partition cells level e := by
            unfold overlayArcs levelCliqueArcs
            simp only [hl2]
            exact List.mem_append_left _ (by simpa using ha)
          have := Path.snoc a hpath hmem
          rw [hat] at this
          exact ⟨_, _, this, by omega⟩
      obtain ⟨W3, D3, hp3, hle3⟩ := hx
      have hmem : (⟨ed.target, ed.weight, ed.duration, false⟩ : Arc) ∈
          overlayArcs graph partition cells level x := by
        unfold overlayArcs levelEdgeArcs
        exact List.mem_append_right _
          ((mem_edgeArcs _ graph partition level x _).2 ⟨ed, he, hf, Or.inr hc, rfl⟩)
      exact ⟨ed.target, W3 + ed.weight, D3 + ed.duration, 0, Path.snoc _ hp3 hmem,
        Or.inr ⟨x, ed, he, hf, rfl, hc⟩, rfl, Or.inl ⟨rfl, rfl⟩, by omega⟩

/-- With exact tables and complete boundary lists every path of the graph inside the cell,
from a source boundary node to a destination boundary node, is matched by a path of the
overlay that is no heavier. -/
theorem internal_to_overlay (graph : Graph) (partition : MultiLevelPartition)
    (cells : CellStorage) (level c : Nat) (hl : level ≠ 1)
    (hex : TablesExact graph partition cells (level - 1))
    (hcomp : BoundaryComplete graph partition cells level c)
    {s t : Nat} (hs : s ∈ (cells.GetCell level c).source_boundary)
    (ht : t ∈ (cells.GetCell level c).destination_boundary) {W D : Int}
    (hp : InternalPath graph partition level s t W D) :
    ∃ W2 D2, Path (overlayArcs graph partition cells level) s t W2 D2 ∧ W2 ≤ W := by
  have hl2 : (level == 1) = false := by simpa using hl
  obtain ⟨e, W1, D1, W2, hpath, hent, hcell, hinner, hle⟩ :=
    internal_to_overlay_aux graph partition cells level c hl hex hcomp hs hp
  rcases hinner with ⟨h1, h2⟩ | ⟨hout, hin, D2, hp2⟩
  · subst h1
    exact ⟨W1, D1, hpath, by omega⟩
  · have hsrc := hcomp.source e hent hout
    have hdst := hcomp.destination t (Or.inl ht) hin
    rw [← hcell] at hdst
    obtain ⟨a, ha, hat, haw⟩ := exact_cliqueArc graph partition cells level e t _ _ hex
      hsrc hdst hp2
    have hmem : a ∈ overlayArcs graph partition cells level e := by
      unfold overlayArcs levelCliqueArcs
      simp only [hl2]
      exact List.mem_append_left _ (by simpa using ha)
    have := Path.snoc a hpath hmem
    rw [hat] at this
    exact ⟨_, _, this, by omega⟩

/-- C2 (amended): for a level above 1, a cell `c`, a source boundary node `s` and a destination
boundary node `t` (at column `k`) of `c`: if the forward edge weights are non-negative, every
table of the level below holds the exact shortest-path weights inside its cell (`INVALID`
where no path exists), the cells of the level below are nested in those of the level and the
boundary lists of the sub-cells are complete for `c`, then after `Customize` the slot
`out_weight[s][t]` holds the least weight of a path from `s` to `t` over forward edges inside
`c`, and `INVALID` if there is no such path. -/
theorem customize_upper_level_shortest (graph : Graph) (partition : MultiLevelPartition)
    (heap : Heap) (cells : CellStorage) (level c s k t : Nat) (hl : 1 < level)
    (hE : ∀ es ∈ graph.adj, ∀ e ∈ es, e.forward = true → 0 ≤ e.weight)
    (hex : TablesExact graph partition cells (level - 1))
    (hnest : ∀ u w, partition.GetCell (level - 1) u = partition.GetCell (level - 1) w →
      partition.GetCell level u = partition.GetCell level w)
    (hcomp : BoundaryComplete graph partition cells level c)
    (hs : s ∈ (cells.GetCell level c).GetSourceNodes)
    (ht : (cells.GetCell level c).GetDestinationNodes[k]? = some t) :
    ((∃ W D, InternalPath graph partition level s t W D) →
      ∃ m, outWeight (Customize graph partition heap cells level c) level c s k = some m ∧
        (∃ D, InternalPath graph partition level s t m D) ∧
        ∀ W D, InternalPath graph partition level s t W D → m ≤ W) ∧
    ((¬ ∃ W D, InternalPath graph partition level s t W D) →
      outWeight (Customize graph partition heap cells level c) level c s k =
        some INVALID_EDGE_WEIGHT) := by
  have hl1 : level ≠ 1 := by omega
  have htm : t ∈ (cells.GetCell level c).destination_boundary := List.mem_iff_getElem?.2 ⟨k, ht⟩
  have hT : CliqueTriangle (levelCliqueArcs partition cells level) := by
    rw [levelCliqueArcs_above_one partition cells level hl1]
    exact cliqueTriangle_of_exact graph partition cells level hex
  have hN := arcsNonneg_of_exact graph partition cells level hE hex
  have hval := Customize_outWeight graph partition heap cells level c (by omega) s k t hs ht
  constructor
  · rintro ⟨W0, D0, hp0⟩
    obtain ⟨W1, D1, hp1, _⟩ := internal_to_overlay graph partition cells level c hl1 hex hcomp
      hs htm hp0
    have hset := search_reach graph partition heap cells level s _ hT t htm hp1
    refine ⟨(search graph partition heap cells level s
      (cells.GetCell level c).destination_boundary).key t, ?_, ?_, ?_⟩
    · rw [hval, if_pos hset.1]
    · exact overlay_to_internal graph partition cells level hnest hex
        (search_path graph partition heap cells level s _ t hset.1)
    · intro W D h
      obtain ⟨W2, D2, hp2, hle⟩ := internal_to_overlay graph partition cells level c hl1 hex
        hcomp hs htm h
      exact le_trans (search_optimal graph partition heap cells level s _ hN hT t htm hp2) hle
  · intro hno
    rw [hval, if_neg]
    intro hin
    obtain ⟨D2, hp2⟩ := overlay_to_internal graph partition cells level hnest hex
      (search_path graph partition heap cells level s _ t hin)
    exact hno ⟨_, _, hp2⟩

theorem lineGraph_adjacent (x : Nat) (e : Edge) (he : e ∈ lineGraph.GetAdjacentEdgeRange x) :
    x = 0 ∧ e = ⟨1, 5, 7, true, false⟩ := by
  match x with
  | 0 => exact ⟨rfl, by simpa [lineGraph, Graph.GetAdjacentEdgeRange] using he⟩
  | 1 => simp [lineGraph, Graph.GetAdjacentEdgeRange] at he
  | n + 2 => simp [lineGraph, Graph.GetAdjacentEdgeRange] at he

theorem lineGraph_path_weight_aux (level s v : Nat) (W D : Int)
    (hp : InternalPath lineGraph oneCellPartition level s v W D) (hne : v ≠ s) : 5 ≤ W := by
  cases hp with
  | nil => exact absurd rfl hne
  | snoc e hp2 he hf =>
    have h1 := lineGraph_adjacent _ e ((mem_internal_iff _ _ _ _ e).1 he).1
    have h2 := hp2.weight_nonneg (by decide)
    rw [h1.2]
    simp only
    omega

theorem lineGraph_path_weight (level : Nat) (W D : Int)
    (hp : InternalPath lineGraph oneCellPartition level 0 1 W D) : 5 ≤ W :=
  lineGraph_path_weight_aux level 0 1 W D hp (by decide)

theorem lineGraph_internal (level : Nat) :
    (⟨1, 5, 7, true, false⟩ : Edge) ∈ lineGraph.GetInternalEdgeRange oneCellPartition level 0 := by
  simp [lineGraph, Graph.GetInternalEdgeRange, Graph.GetAdjacentEdgeRange, oneCellPartition,
    MultiLevelPartition.GetCell]

theorem lineCellsExact_tables (level : Nat) :
    TablesExact lineGraph oneCellPartition lineCellsExact level := by
  intro i src k t hs hk
  by_cases hi : i = 0
  · subst hi
    have h1 : src = 0 := by simpa [lineCellsExact, CellStorage.GetCell] using hs
    have h2 : t ∈ [1] := List.mem_iff_getElem?.2 ⟨k, hk⟩
    have h3 : t = 1 := by simpa using h2
    have h4 : k = 0 := by
      have := (List.getElem?_eq_some.1 hk).1
      simp [lineCellsExact, CellStorage.GetCell] at this
      exact this
    subst h1 h3 h4
    right
    refine ⟨5, rfl, by decide,
      ⟨_, InternalPath.snoc ⟨1, 5, 7, true, false⟩ InternalPath.nil (lineGraph_internal level)
        rfl⟩, ?_⟩
    intro W D hp
    exact lineGraph_path_weight level W D hp
  · simp [lineCellsExact, CellStorage.GetCell, hi] at hs

theorem lineCellsExact_complete :
    BoundaryComplete lineGraph oneCellPartition lineCellsExact 2 0 := by
  constructor
  · rintro x _ ⟨e, he, _⟩
    have h1 := lineGraph_adjacent x e ((mem_internal_iff _ _ _ _ e).1 he).1
    rw [h1.1]
    decide
  · rintro x _ ⟨y, e, he, _, het⟩
    have h1 := lineGraph_adjacent y e ((mem_internal_iff _ _ _ _ e).1 he).1
    rw [← het, h1.2]
    decide

theorem customize_upper_level_shortest_witness :
    1 < 2 ∧
    (∀ es ∈ lineGraph.adj, ∀ e ∈ es, e.forward = true → 0 ≤ e.weight) ∧
    TablesExact lineGraph oneCellPartition lineCellsExact (2 - 1) ∧
    (∀ u w, oneCellPartition.GetCell (2 - 1) u = oneCellPartition.GetCell (2 - 1) w →
      oneCellPartition.GetCell 2 u = oneCellPartition.GetCell 2 w) ∧
    BoundaryComplete lineGraph oneCellPartition lineCellsExact 2 0 ∧
    0 ∈ (lineCellsExact.GetCell 2 0).GetSourceNodes ∧
    (lineCellsExact.GetCell 2 0).GetDestinationNodes[0]? = some 1 ∧
    (((∃ W D, InternalPath lineGraph oneCellPartition 2 0 1 W D) →
      ∃ m, outWeight (Customize lineGraph oneCellPartition emptyHeap lineCellsExact 2 0) 2 0 0 0
          = some m ∧
        (∃ D, InternalPath lineGraph oneCellPartition 2 0 1 m D) ∧
        ∀ W D, InternalPath lineGraph oneCellPartition 2 0 1 W D → m ≤ W) ∧
    ((¬ ∃ W D, InternalPath lineGraph oneCellPartition 2 0 1 W D) →
      outWeight (Customize lineGraph oneCellPartition emptyHeap lineCellsExact 2 0) 2 0 0 0 =
        some INVALID_EDGE_WEIGHT)) :=
  ⟨by decide, by decide, lineCellsExact_tables (2 - 1), fun _ _ _ => rfl,
    lineCellsExact_complete, by decide, by decide,
    customize_upper_level_shortest lineGraph oneCellPartition emptyHeap lineCellsExact 2 0 0 0 1
      (by decide) (by decide) (lineCellsExact_tables (2 - 1)) (fun _ _ _ => rfl)
      lineCellsExact_complete (by decide) (by decide)⟩

theorem crossGraph_path :
    InternalPath crossGraph crossPartition 2 0 2 2 20 :=
  InternalPath.snoc ⟨2, 1, 10, true, false⟩
    (InternalPath.snoc ⟨1, 1, 10, true, false⟩ InternalPath.nil (by decide) rfl)
    (by decide) rfl

theorem crossCells_tables : TablesExact crossGraph crossPartition crossCells 1 := by
  intro i src k t hs hk
  by_cases h0 : i = 0
  · subst h0
    simp [crossCells, CellStorage.GetCell] at hk
  · by_cases h1 : i = 1
    · subst h1
      simp [crossCells, CellStorage.GetCell] at hs
    · by_cases h2 : i = 2
      · subst h2
        have e1 : src = 3 := by simpa [crossCells, CellStorage.GetCell] using hs
        have e2 : t ∈ [3] := List.mem_iff_getElem?.2 ⟨k, hk⟩
        have e3 : t = 3 := by simpa using e2
        have e4 : k = 0 := by
          have := (List.getElem?_eq_some.1 hk).1
          simp [crossCells, CellStorage.GetCell] at this
          exact this
        subst e1 e3 e4
        right
        exact ⟨0, by decide, by decide, ⟨0, InternalPath.nil⟩,
          fun W D hp => hp.weight_nonneg (by decide)⟩
      · simp [crossCells, CellStorage.GetCell, h0, h1, h2] at hs

/-- Counterexample to C2 as stated: in `crossGraph` the forward edge weights are non-negative
and every level-1 table is exact, the path `0 → 1 → 2` of weight 2 stays inside the level-2
cell 0, node 0 is a source and node 2 a destination boundary node of that cell, yet after
`Customize` the slot `out_weight[0][2]` is not the least weight of a path from 0 to 2 inside
the cell (it holds `INVALID`): node 1, where the path leaves the sub-cell `{0, 1}`, is no
destination boundary node of that sub-cell. -/
theorem customize_upper_level_counterexample :
    (∀ es ∈ crossGraph.adj, ∀ e ∈ es, e.forward = true → 0 ≤ e.weight) ∧
    TablesExact crossGraph crossPartition crossCells (2 - 1) ∧
    0 ∈ (crossCells.GetCell 2 0).GetSourceNodes ∧
    (crossCells.GetCell 2 0).GetDestinationNodes[0]? = some 2 ∧
    outWeight (Customize crossGraph crossPartition emptyHeap crossCells 2 0) 2 0 0 0 =
      some INVALID_EDGE_WEIGHT ∧
    ¬ ∃ m, outWeight (Customize crossGraph crossPartition emptyHeap crossCells 2 0) 2 0 0 0
        = some m ∧
      (∃ D, InternalPath crossGraph crossPartition 2 0 2 m D) ∧
      ∀ W D, InternalPath crossGraph crossPartition 2 0 2 W D → m ≤ W := by
  have hval : outWeight (Customize crossGraph crossPartition emptyHeap crossCells 2 0) 2 0 0 0 =
      some INVALID_EDGE_WEIGHT := by decide
  refine ⟨by decide, crossCells_tables, by decide, by decide, hval, ?_⟩
  rintro ⟨m, h1, _, h3⟩
  rw [hval] at h1
  have h4 := h3 2 20 crossGraph_path
  rw [← Option.some.inj h1] at h4
  exact absurd h4 (by decide)

/-! ## Idempotence of the customization -/

theorem SetOut_noop (c : CellData) (s : Nat) (ws ds : List Int)
    (hw : ∀ k, k < ws.length → c.weights (c.source_boundary.indexOf s) k = ws.getD k 0)
    (hd : ∀ k, k < ds.length → c.durations (c.source_boundary.indexOf s) k = ds.getD k 0) :
    (c.SetOutWeight s ws).SetOutDuration s ds = c := by
  unfold CellData.SetOutDuration CellData.SetOutWeight
  by_cases hs : c.source_boundary.indexOf s < c.source_boundary.length
  · simp only [hs, if_true]
    cases c with
    | mk sb db w d =>
      simp only [CellData.mk.injEq, true_and]
      constructor
      · funext r k
        by_cases hc : r = sb.indexOf s ∧ k < ws.length
        · rw [if_pos hc, hc.1]
          exact (hw k hc.2).symm
        · rw [if_neg hc]
      · funext r k
        by_cases hc : r = sb.indexOf s ∧ k < ds.length
        · rw [if_pos hc, hc.1]
          exact (hd k hc.2).symm
        · rw [if_neg hc]
  · simp only [hs, if_false]

theorem SetCell_noop (cs : CellStorage) (level id : Nat) (c : CellData)
    (hc : c = cs.GetCell level id) : cs.SetCell level id c = cs := by
  cases cs with
  | mk cells =>
    unfold CellStorage.SetCell
    simp only [CellStorage.mk.injEq]
    funext l i
    by_cases h : l = level ∧ i = id
    · rw [if_pos h, hc, h.1, h.2]
      rfl
    · rw [if_neg h]

theorem customizeSource_noop (graph : Graph) (partition : MultiLevelPartition)
    (level id : Nat) (cs : CellStorage) (s : Nat)
    (hs : s ∈ (cs.GetCell level id).source_boundary)
    (hdone : RowsDone graph partition cs level id) :
    customizeSource graph partition emptyHeap level id
      (cs.GetCell level id).destination_boundary cs s = cs := by
  unfold customizeSource
  apply SetCell_noop
  apply SetOut_noop
  · intro k hk
    rw [searchWeights_length] at hk
    exact (hdone s hs k hk).1
  · intro k hk
    rw [searchDurations_length] at hk
    exact (hdone s hs k hk).2

/-- `Customize` changes nothing on a cell whose rows are done. -/
theorem Customize_noop (graph : Graph) (partition : MultiLevelPartition)
    (level id : Nat) (cs : CellStorage) (hdone : RowsDone graph partition cs level id) :
    Customize graph partition emptyHeap cs level id = cs := by
  rw [Customize_eq_foldl]
  have : ∀ srcs : List Nat, (∀ s ∈ srcs, s ∈ (cs.GetCell level id).source_boundary) →
      srcs.foldl (customizeSource graph partition emptyHeap level id
        (cs.GetCell level id).destination_boundary) cs = cs := by
    intro srcs
    induction srcs with
    | nil => intro _; rfl
    | cons s rest ih =>
      intro hsub
      rw [List.foldl_cons,
        customizeSource_noop graph partition level id cs s (hsub s (List.mem_cons_self _ _)) hdone]
      exact ih (fun x hx => hsub x (List.mem_cons_of_mem _ hx))
  exact this _ (fun _ h => h)

/-- After `Customize` the rows of the cell are done. -/
theorem Customize_establishes (graph : Graph) (partition : MultiLevelPartition)
    (level id : Nat) (hl : 1 ≤ level) (cs : CellStorage) :
    RowsDone graph partition (Customize graph partition emptyHeap cs level id) level id := by
  have hb := Customize_boundary graph partition emptyHeap cs level id hl
  have hframe : ∀ i, (Customize graph partition emptyHeap cs level id).GetCell (level - 1) i =
      cs.GetCell (level - 1) i :=
    fun i => Customize_other graph partition emptyHeap cs level id hl _ _ (Or.inl (by omega))
  intro s hs k hk
  rw [hb.1] at hs
  rw [hb.2] at hk
  have hf := foldl_customizeSource graph partition emptyHeap level id hl
    (cs.GetCell level id).destination_boundary cs _ _ cs (fun _ => rfl) rfl (fun _ h => h)
  rw [hb.1, hb.2, searchWeights_congr graph partition emptyHeap _ cs level s _ hframe,
    searchDurations_congr graph partition emptyHeap _ cs level s _ hframe, Customize_eq_foldl,
    hf.2.2.2.1, hf.2.2.2.2, if_pos ⟨⟨s, hs, rfl⟩, hk⟩, if_pos ⟨⟨s, hs, rfl⟩, hk⟩,
    getD_indexOf _ s hs]
  exact ⟨rfl, rfl⟩

/-- `Customize` at a level keeps the rows of the cells of that level and below done. -/
theorem Customize_preserves (graph : Graph) (partition : MultiLevelPartition)
    (level id : Nat) (hl : 1 ≤ level) (cs : CellStorage) (l i : Nat) (h1 : 1 ≤ l)
    (h2 : l ≤ level) (hdone : RowsDone graph partition cs l i) :
    RowsDone graph partition (Customize graph partition emptyHeap cs level id) l i := by
  by_cases hc : l = level ∧ i = id
  · rw [hc.1, hc.2]
    exact Customize_establishes graph partition level id hl cs
  · have hne : l ≠ level ∨ i ≠ id := by
      by_contra h
      push_neg at h
      exact hc h
    have hcell := Customize_other graph partition emptyHeap cs level id hl l i hne
    have hframe : ∀ j, (Customize graph partition emptyHeap cs level id).GetCell (l - 1) j =
        cs.GetCell (l - 1) j :=
      fun j => Customize_other graph partition emptyHeap cs level id hl _ _ (Or.inl (by omega))
    intro s hs k hk
    rw [hcell] at hs hk ⊢
    rw [searchWeights_congr graph partition emptyHeap _ cs l s _ hframe,
      searchDurations_congr graph partition emptyHeap _ cs l s _ hframe]
    exact hdone s hs k hk

theorem level_fold_done (graph : Graph) (partition : MultiLevelPartition)
    (level : Nat) (hl : 1 ≤ level) (ids : List Nat) (cs : CellStorage) :
    (∀ l i, 1 ≤ l → l ≤ level → RowsDone graph partition cs l i →
      RowsDone graph partition
        (ids.foldl (fun cs id => Customize graph partition emptyHeap cs level id) cs) l i) ∧
    ∀ i ∈ ids, RowsDone graph partition
      (ids.foldl (fun cs id => Customize graph partition emptyHeap cs level id) cs) level i := by
  induction ids generalizing cs with
  | nil => exact ⟨fun _ _ _ _ h => h, fun i hi => by cases hi⟩
  | cons id rest ih =>
    obtain ⟨ih1, ih2⟩ := ih (Customize graph partition emptyHeap cs level id)
    rw [List.foldl_cons]
    refine ⟨?_, ?_⟩
    · intro l i h1 h2 hd
      exact ih1 l i h1 h2 (Customize_preserves graph partition level id hl cs l i h1 h2 hd)
    · intro i hi
      rcases List.mem_cons.1 hi with h | h
      · rw [h]
        exact ih1 level id hl (le_refl _) (Customize_establishes graph partition level id hl cs)
      · exact ih2 i h

theorem levels_fold_done (graph : Graph) (partition : MultiLevelPartition)
    (lvls : List Nat) (hp : lvls.Pairwise (fun a b => a ≤ b)) (hpos : ∀ l ∈ lvls, 1 ≤ l)
    (cs : CellStorage) :
    (∀ l i, 1 ≤ l → (∀ x ∈ lvls, l ≤ x) → RowsDone graph partition cs l i →
      RowsDone graph partition
        (lvls.foldl (fun cs level =>
          (List.range (partition.GetNumberOfCells level)).foldl
            (fun cs id => Customize graph partition emptyHeap cs level id) cs) cs) l i) ∧
    ∀ l ∈ lvls, ∀ i ∈ List.range (partition.GetNumberOfCells l), RowsDone graph partition
      (lvls.foldl (fun cs level =>
        (List.range (partition.GetNumberOfCells level)).foldl
          (fun cs id => Customize graph partition emptyHeap cs level id) cs) cs) l i := by
  induction lvls generalizing cs with
  | nil => exact ⟨fun _ _ _ _ h => h, fun l hl => by cases hl⟩
  | cons lv rest ih =>
    have hlv : 1 ≤ lv := hpos lv (List.mem_cons_self _ _)
    obtain ⟨hle, hp2⟩ := List.pairwise_cons.1 hp
    obtain ⟨in1, in2⟩ := level_fold_done graph partition lv hlv
      (List.range (partition.GetNumberOfCells lv)) cs
    obtain ⟨ih1, ih2⟩ := ih hp2 (fun l h => hpos l (List.mem_cons_of_mem _ h))
      ((List.range (partition.GetNumberOfCells lv)).foldl
        (fun cs id => Customize graph partition emptyHeap cs lv id) cs)
    rw [List.foldl_cons]
    refine ⟨?_, ?_⟩
    · intro l i h1 h2 hd
      exact ih1 l i h1 (fun x hx => h2 x (List.mem_cons_of_mem _ hx))
        (in1 l i h1 (h2 lv (List.mem_cons_self _ _)) hd)
    · intro l hl i hi
      rcases List.mem_cons.1 hl with h | h
      · subst h
        exact ih1 l i hlv hle (in2 i hi)
      · exact ih2 l h i hi

theorem levels_fold_noop (graph : Graph) (partition : MultiLevelPartition)
    (lvls : List Nat) (cs : CellStorage)
    (hdone : ∀ l ∈ lvls, ∀ i ∈ List.range (partition.GetNumberOfCells l),
      RowsDone graph partition cs l i) :
    lvls.foldl (fun cs level =>
      (List.range (partition.GetNumberOfCells level)).foldl
        (fun cs id => Customize graph partition emptyHeap cs level id) cs) cs = cs := by
  have inner : ∀ (level : Nat) (ids : List Nat),
      (∀ i ∈ ids, RowsDone graph partition cs level i) →
      ids.foldl (fun cs id => Customize graph partition emptyHeap cs level id) cs = cs := by
    intro level ids
    induction ids with
    | nil => intro _; rfl
    | cons id rest ih =>
      intro h
      rw [List.foldl_cons, Customize_noop graph partition level id cs
        (h id (List.mem_cons_self _ _))]
      exact ih (fun i hi => h i (List.mem_cons_of_mem _ hi))
  induction lvls with
  | nil => rfl
  | cons lv rest ih =>
    rw [List.foldl_cons, inner lv _ (hdone lv (List.mem_cons_self _ _))]
    exact ih (fun l hl => hdone l (List.mem_cons_of_mem _ hl))

/-- C6: customization is idempotent: running `Customize(graph, cells)` a second time on the
storage produced by a first run yields the same storage, so every weight and duration table
is unchanged. -/
theorem customize_idempotent (graph : Graph) (partition : MultiLevelPartition)
    (cells : CellStorage) :
    CustomizeCells graph partition (CustomizeCells graph partition cells) =
      CustomizeCells graph partition cells := by
  have hp : (List.range' 1 (partition.GetNumberOfLevels - 1)).Pairwise (fun a b => a ≤ b) :=
    List.pairwise_le_range' 1 _
  have hpos : ∀ l ∈ List.range' 1 (partition.GetNumberOfLevels - 1), 1 ≤ l := by
    intro l hl
    exact (List.mem_range'_1.1 hl).1
  have hdone := (levels_fold_done graph partition _ hp hpos cells).2
  exact levels_fold_noop graph partition _ _ hdone

/-! ## Unreached destinations -/

/-- A node inserted by a search is settled when the search ends, if it is a destination
boundary node. -/
theorem search_inserted_settled (graph : Graph) (partition : MultiLevelPartition) (heap : Heap)
    (cells : CellStorage) (level s : Nat) (dests : List Nat) (t : Nat) (ht : t ∈ dests)
    (hin : t ∈ (search graph partition heap cells level s dests).inserted_nodes) :
    Settled (search graph partition heap cells level s dests) t := by
  rcases search_exit graph partition heap cells level s dests with h1 | h1
  · exact ⟨hin, by rw [h1]; exact List.not_mem_nil _⟩
  · exact h1 t ht

/-- C3 (amended): for a cell of a level from 1 upwards, a source boundary node `s` and a
destination boundary node `t` (at column `k`): `Customize` writes the pair
`(INVALID_EDGE_WEIGHT, MAXIMAL_EDGE_DURATION)` into the slot `(s, t)` when `t` was never
inserted by the search from `s`, and otherwise the key of `t` and the duration stored with
`t`, which is then settled.  At level 1 `t` is inserted exactly when a path from `s` to `t`
over forward internal edges exists; above level 1, when the sub-cell clique entries satisfy
the triangle inequality, exactly when a path from `s` to `t` exists in the overlay of valid
sub-cell clique entries and forward edges between different sub-cells. -/
theorem customize_unreached (graph : Graph) (partition : MultiLevelPartition)
    (heap : Heap) (cells : CellStorage) (level c s k t : Nat) (hl : 1 ≤ level)
    (hs : s ∈ (cells.GetCell level c).GetSourceNodes)
    (ht : (cells.GetCell level c).GetDestinationNodes[k]? = some t) :
    ((search graph partition heap cells level s
        (cells.GetCell level c).GetDestinationNodes).WasInserted t = false →
      outWeight (Customize graph partition heap cells level c) level c s k =
          some INVALID_EDGE_WEIGHT ∧
        outDuration (Customize graph partition heap cells level c) level c s k =
          some MAXIMAL_EDGE_DURATION) ∧
    ((search graph partition heap cells level s
        (cells.GetCell level c).GetDestinationNodes).WasInserted t = true →
      Settled (search graph partition heap cells level s
        (cells.GetCell level c).GetDestinationNodes) t ∧
      outWeight (Customize graph partition heap cells level c) level c s k =
          some ((search graph partition heap cells level s
            (cells.GetCell level c).GetDestinationNodes).GetKey t) ∧
        outDuration (Customize graph partition heap cells level c) level c s k =
          some ((search graph partition heap cells level s
            (cells.GetCell level c).GetDestinationNodes).GetData t).duration) ∧
    (level = 1 →
      ((search graph partition heap cells level s
          (cells.GetCell level c).GetDestinationNodes).WasInserted t = true ↔
        ∃ W D, InternalPath graph partition 1 s t W D)) ∧
    (1 < level → CliqueTriangle (cliqueArcs partition cells level) →
      ((search graph partition heap cells level s
          (cells.GetCell level c).GetDestinationNodes).WasInserted t = true ↔
        ∃ W D, Path (overlayArcs graph partition cells level) s t W D)) := by
  have htm : t ∈ (cells.GetCell level c).destination_boundary := List.mem_iff_getElem?.2 ⟨k, ht⟩
  have hw := Customize_outWeight graph partition heap cells level c hl s k t hs ht
  have hd := Customize_outDuration graph partition heap cells level c hl s k t hs ht
  simp only [CellData.GetDestinationNodes, Heap.WasInserted, decide_eq_true_eq,
    decide_eq_false_iff_not, Heap.GetKey, Heap.GetData]
  refine ⟨?_, ?_, ?_, ?_⟩
  · intro hin
    rw [hw, hd, if_neg hin, if_neg hin]
    exact ⟨rfl, rfl⟩
  · intro hin
    rw [hw, hd, if_pos hin, if_pos hin]
    exact ⟨search_inserted_settled graph partition heap cells level s _ t htm hin, rfl, rfl⟩
  · intro h1
    subst h1
    constructor
    · intro hin
      have := search_path graph partition heap cells 1 s _ t hin
      rw [overlayArcs_level_one] at this
      exact ⟨_, _, (internalPath_iff_path graph partition 1 s t _ _).2 this⟩
    · rintro ⟨W, D, hp⟩
      have hp2 : Path (overlayArcs graph partition cells 1) s t W D := by
        rw [overlayArcs_level_one]
        exact (internalPath_iff_path graph partition 1 s t W D).1 hp
      exact (search_reach graph partition heap cells 1 s _
        (cliqueTriangle_level_one partition cells) t htm hp2).1
  · intro h1 hT
    have hT2 : CliqueTriangle (levelCliqueArcs partition cells level) := by
      rw [levelCliqueArcs_above_one partition cells level (by omega)]
      exact hT
    constructor
    · intro hin
      exact ⟨_, _, search_path graph partition heap cells level s _ t hin⟩
    · rintro ⟨W, D, hp⟩
      exact (search_reach graph partition heap cells level s _ hT2 t htm hp).1

theorem customize_unreached_witness :
    1 ≤ 1 ∧ 0 ∈ (lineCells.GetCell 1 0).GetSourceNodes ∧
    (lineCells.GetCell 1 0).GetDestinationNodes[0]? = some 1 ∧
    (((search lineGraph oneCellPartition emptyHeap lineCells 1 0
        (lineCells.GetCell 1 0).GetDestinationNodes).WasInserted 1 = false →
      outWeight (Customize lineGraph oneCellPartition emptyHeap lineCells 1 0) 1 0 0 0 =
          some INVALID_EDGE_WEIGHT ∧
        outDuration (Customize lineGraph oneCellPartition emptyHeap lineCells 1 0) 1 0 0 0 =
          some MAXIMAL_EDGE_DURATION) ∧
    ((search lineGraph oneCellPartition emptyHeap lineCells 1 0
        (lineCells.GetCell 1 0).GetDestinationNodes).WasInserted 1 = true →
      Settled (search lineGraph oneCellPartition emptyHeap lineCells 1 0
        (lineCells.GetCell 1 0).GetDestinationNodes) 1 ∧
      outWeight (Customize lineGraph oneCellPartition emptyHeap lineCells 1 0) 1 0 0 0 =
          some ((search lineGraph oneCellPartition emptyHeap lineCells 1 0
            (lineCells.GetCell 1 0).GetDestinationNodes).GetKey 1) ∧
        outDuration (Customize lineGraph oneCellPartition emptyHeap lineCells 1 0) 1 0 0 0 =
          some ((search lineGraph oneCellPartition emptyHeap lineCells 1 0
            (lineCells.GetCell 1 0).GetDestinationNodes).GetData 1).duration) ∧
    (1 = 1 →
      ((search lineGraph oneCellPartition emptyHeap lineCells 1 0
          (lineCells.GetCell 1 0).GetDestinationNodes).WasInserted 1 = true ↔
        ∃ W D, InternalPath lineGraph oneCellPartition 1 0 1 W D)) ∧
    (1 < 1 → CliqueTriangle (cliqueArcs oneCellPartition lineCells 1) →
      ((search lineGraph oneCellPartition emptyHeap lineCells 1 0
          (lineCells.GetCell 1 0).GetDestinationNodes).WasInserted 1 = true ↔
        ∃ W D, Path (overlayArcs lineGraph oneCellPartition lineCells 1) 0 1 W D))) :=
  ⟨by decide, by decide, by decide,
    customize_unreached lineGraph oneCellPartition emptyHeap lineCells 1 0 0 0 1
      (by decide) (by decide) (by decide)⟩

/-- Counterexample to C3 as stated: after the whole customization of `crossGraph`, first
level 1 and then level 2, the slot of the source boundary node 0 and the destination boundary
node 2 of the level-2 cell 0 holds the pair `(INVALID_EDGE_WEIGHT, MAXIMAL_EDGE_DURATION)`,
although the path `0 → 1 → 2` from 0 to 2 exists inside the cell. -/
theorem customize_unreached_counterexample :
    0 ∈ (crossCells.GetCell 2 0).GetSourceNodes ∧
    (crossCells.GetCell 2 0).GetDestinationNodes[0]? = some 2 ∧
    (∃ W D, InternalPath crossGraph crossPartition 2 0 2 W D) ∧
    outWeight (CustomizeCells crossGraph crossPartition crossCells) 2 0 0 0 =
      some INVALID_EDGE_WEIGHT ∧
    outDuration (CustomizeCells crossGraph crossPartition crossCells) 2 0 0 0 =
      some MAXIMAL_EDGE_DURATION :=
  ⟨by decide, by decide, ⟨2, 20, crossGraph_path⟩, by decide, by decide⟩

end CellCustomizer

/-! ## Claims on the partitioner -/

namespace Partitioner

/-- The loop over the masks ends by its own condition within the iterations allowed: more
fuel yields the same masks. -/
theorem levelMasksLoop_fuel (fnp : Nat) (n : Nat) :
    ∀ (fuel1 fuel2 : Nat) (mask_to : Int), mask_to - (fnp : Int) ≤ 3 * (n : Int) →
      n ≤ fuel1 → n ≤ fuel2 →
      levelMasksLoop fnp fuel1 mask_to (mask_to - 3) =
        levelMasksLoop fnp fuel2 mask_to (mask_to - 3) := by
  induction n with
  | zero =>
    intro fuel1 fuel2 mask_to h _ _
    have hc : ¬ mask_to > (fnp : Int) := by omega
    cases fuel1 <;> cases fuel2 <;> simp [levelMasksLoop, hc]
  | succ n ih =>
    intro fuel1 fuel2 mask_to h h1 h2
    obtain ⟨f1, rfl⟩ : ∃ f1, fuel1 = f1 + 1 := ⟨fuel1 - 1, by omega⟩
    obtain ⟨f2, rfl⟩ : ∃ f2, fuel2 = f2 + 1 := ⟨fuel2 - 1, by omega⟩
    unfold levelMasksLoop
    by_cases hc : mask_to > (fnp : Int)
    · rw [if_pos hc, if_pos hc, ih f1 f2 (mask_to - 3) (by omega) (by omega) (by omega)]
    · rw [if_neg hc, if_neg hc]

theorem levelMasks_fuel (fnp scc_depth fuel : Nat) (h : 33 ≤ fuel) :
    levelMasksLoop fnp fuel 32 (32 - (scc_depth : Int)) = levelMasks fnp scc_depth := by
  obtain ⟨f, rfl⟩ : ∃ f, fuel = f + 1 := ⟨fuel - 1, by omega⟩
  unfold levelMasks
  conv_lhs => unfold levelMasksLoop
  conv_rhs => unfold levelMasksLoop
  by_cases hc : (32 : Int) > (fnp : Int)
  · rw [if_pos hc, if_pos hc]
    rw [levelMasksLoop_fuel fnp 11 f 32 (32 - (scc_depth : Int)) (by omega) (by omega)
      (by omega)]
  · rw [if_neg hc, if_neg hc]

theorem cellId_eq (ids : List Nat) (scc_depth level node : Nat)
    (hl : level < numberOfLevels ids scc_depth) (hn : node < ids.length) :
    cellId ids scc_depth level node =
      some (ids.getD node 0 &&&
        (levelMasks (firstNonzeroPosition ids) scc_depth).getD
          (numberOfLevels ids scc_depth - 1 - level) 0) := by
  unfold cellId partitions numberOfLevels at *
  simp only [List.getElem?_map, List.getElem?_range hl, Option.map_some']
  rw [List.getElem?_eq_getElem (by simpa using hn)]
  simp [List.getD_eq_getElem?_getD, List.getElem?_eq_getElem hn]

end Partitioner

/-! ## Claims on the annotation of a path -/

namespace engine

theorem popDuplicateBack_head (l : List PathData) (x : PathData) (xs : List PathData)
    (h : l = x :: xs) : ∃ ys, popDuplicateBack l = x :: ys := by
  subst h
  unfold popDuplicateBack
  split
  · split_ifs
    · cases xs with
      | nil => rename_i heq; simp at heq
      | cons y ys => exact ⟨(y :: ys).dropLast, by simp [List.dropLast]⟩
    · exact ⟨xs, rfl⟩
  · exact ⟨xs, rfl⟩

theorem popDuplicateBack_nil : popDuplicateBack [] = [] := rfl

/-- C10: whenever `annotatePath`, started with an empty output path, returns a non-empty path,
the first step's `weight_until_turn` equals `max (w - source_weight) 0` and its
`duration_until_turn` equals `max (d - source_duration) 0`, where `w` and `d` are the values
of the first step before the adjustment and `source_weight`, `source_duration` are the source
phantom's reverse weight and duration if the first unpacked node differs from the source's
forward segment id and its forward weight and duration otherwise; both are never negative. -/
theorem annotatePath_first_step (facade : Facade) (phantom_node_pair : PhantomNodes)
    (unpacked_nodes unpacked_edges : List Nat)
    (h : annotatePath facade phantom_node_pair unpacked_nodes unpacked_edges [] ≠ []) :
    ∃ before rest0 first rest,
      annotatePathSteps facade phantom_node_pair unpacked_nodes unpacked_edges [] =
        before :: rest0 ∧
      annotatePath facade phantom_node_pair unpacked_nodes unpacked_edges [] = first :: rest ∧
      first.weight_until_turn =
        max (before.weight_until_turn -
          (if phantom_node_pair.source_phantom.forward_segment_id ≠ unpacked_nodes.headD 0 then
            phantom_node_pair.source_phantom.reverse_weight
          else phantom_node_pair.source_phantom.forward_weight)) 0 ∧
      first.duration_until_turn =
        max (before.duration_until_turn -
          (if phantom_node_pair.source_phantom.forward_segment_id ≠ unpacked_nodes.headD 0 then
            phantom_node_pair.source_phantom.reverse_duration
          else phantom_node_pair.source_phantom.forward_duration)) 0 ∧
      0 ≤ first.weight_until_turn ∧ 0 ≤ first.duration_until_turn := by
  unfold annotatePath at h ⊢
  cases hs : annotatePathSteps facade phantom_node_pair unpacked_nodes unpacked_edges [] with
  | nil =>
    rw [hs] at h
    exact absurd rfl h
  | cons before rest0 =>
    obtain ⟨ys, hy⟩ := popDuplicateBack_head
      (adjustFront (sourceWeight phantom_node_pair unpacked_nodes)
        (sourceDuration phantom_node_pair unpacked_nodes) (before :: rest0)) _ rest0 rfl
    refine ⟨before, rest0, _, ys, rfl, hy, rfl, rfl, ?_, ?_⟩
    · exact le_max_right _ _
    · exact le_max_right _ _

theorem annotatePath_first_step_witness :
    annotatePath rowFacade rowPhantoms [7] [] [] ≠ [] ∧
    ∃ before rest0 first rest,
      annotatePathSteps rowFacade rowPhantoms [7] [] [] = before :: rest0 ∧
      annotatePath rowFacade rowPhantoms [7] [] [] = first :: rest ∧
      first.weight_until_turn =
        max (before.weight_until_turn -
          (if rowPhantoms.source_phantom.forward_segment_id ≠ [7].headD 0 then
            rowPhantoms.source_phantom.reverse_weight
          else rowPhantoms.source_phantom.forward_weight)) 0 ∧
      first.duration_until_turn =
        max (before.duration_until_turn -
          (if rowPhantoms.source_phantom.forward_segment_id ≠ [7].headD 0 then
            rowPhantoms.source_phantom.reverse_duration
          else rowPhantoms.source_phantom.forward_duration)) 0 ∧
      0 ≤ first.weight_until_turn ∧ 0 ≤ first.duration_until_turn :=
  ⟨by decide, annotatePath_first_step rowFacade rowPhantoms [7] [] (by decide)⟩

end engine

namespace CellCustomizer

/-- C18, counterexample: in the search at level 2 of `bridgeGraph` with `bridgeCells` from the
source 0, the second node dequeued is node 1, reached over the clique entry `0 → 1` and
carrying `from_clique = true`; node 2 was not inserted before, and the call of `RelaxNode` for
node 1 inserts it with key 2 over the original edge `1 → 2`. The search ends with key 2 for
node 2, and `Customize` writes it into the slot `(0, 2)`: the weight of the path
`0 → 1 → 2`. -/
theorem relaxNode_from_clique_counterexample :
    (searchLoop bridgeGraph crossPartition bridgeCells 2 1
        (emptyHeap.Clear.Insert 0 0 ⟨false, 0⟩) [2]).1.DeleteMin.1 = 1 ∧
      ((searchLoop bridgeGraph crossPartition bridgeCells 2 1
        (emptyHeap.Clear.Insert 0 0 ⟨false, 0⟩) [2]).1.DeleteMin.2.GetData 1).from_clique = true ∧
      (searchLoop bridgeGraph crossPartition bridgeCells 2 1
        (emptyHeap.Clear.Insert 0 0 ⟨false, 0⟩) [2]).1.DeleteMin.2.WasInserted 2 = false ∧
      (RelaxNode false bridgeGraph crossPartition bridgeCells
        (searchLoop bridgeGraph crossPartition bridgeCells 2 1
          (emptyHeap.Clear.Insert 0 0 ⟨false, 0⟩) [2]).1.DeleteMin.2 2 1 1 10).WasInserted 2 = true ∧
      (RelaxNode false bridgeGraph crossPartition bridgeCells
        (searchLoop bridgeGraph crossPartition bridgeCells 2 1
          (emptyHeap.Clear.Insert 0 0 ⟨false, 0⟩) [2]).1.DeleteMin.2 2 1 1 10).GetKey 2 = 2 ∧
      (search bridgeGraph crossPartition emptyHeap bridgeCells 2 0 [2]).WasInserted 2 = true ∧
      (search bridgeGraph crossPartition emptyHeap bridgeCells 2 0 [2]).GetKey 2 = 2 ∧
      outWeight (Customize bridgeGraph crossPartition emptyHeap bridgeCells 2 0) 2 0 0 0 =
        some 2 := by
  decide

/-- C18, amended: `RelaxNode` relaxes the original edges of the dequeued node whatever its
`from_clique` flag: after the call the target of every forward edge of the internal edge range
(at a level above 1: leading to another sub-cell) is inserted with a key of at most
`weight + edge.weight`. The flag only suppresses the loop over the sub-cell clique entries: with
`from_clique = true` the call is the loop over the edges run on the heap as it was. -/
theorem relaxNode_edges_whatever_flag (first_level : Bool) (graph : Graph)
    (partition : MultiLevelPartition) (cells : CellStorage) (heap : Heap) (level node : Nat)
    (W D : Int) :
    (∀ e ∈ graph.GetInternalEdgeRange partition level node, e.forward = true →
      (first_level = true ∨
        partition.GetCell (level - 1) node ≠ partition.GetCell (level - 1) e.target) →
      e.target ∈
          (RelaxNode first_level graph partition cells heap level node W D).inserted_nodes ∧
        (RelaxNode first_level graph partition cells heap level node W D).key e.target ≤
          W + e.weight) ∧
    ((heap.GetData node).from_clique = true →
      RelaxNode first_level graph partition cells heap level node W D =
        (graph.GetInternalEdgeRange partition level node).foldl
          (fun heap edge =>
            if edge.forward &&
                (first_level ||
                  partition.GetCell (level - 1) node !=
                    partition.GetCell (level - 1) edge.target) then
              relax heap edge.target (W + edge.weight) ⟨false, D + edge.duration⟩
            else heap)
          heap) := by
  constructor
  · intro e he hf hc
    rw [RelaxNode_eq, relaxArcs_append]
    exact relaxArcs_sat W D _ _ _
      ((mem_edgeArcs _ graph partition level node _).2 ⟨e, he, hf, hc, rfl⟩)
  · intro hfl
    rw [RelaxNode_eq, edge_fold_eq, hfl]
    simp

/-- Witness of the amended C18: node 1 of `crossGraph`, inserted with `from_clique = true`,
still relaxes its edge `1 → 2` into the other sub-cell at level 2. -/
theorem relaxNode_edges_whatever_flag_witness :
    ((emptyHeap.Insert 1 5 ⟨true, 0⟩).GetData 1).from_clique = true ∧
      2 ∈ (RelaxNode false crossGraph crossPartition crossCells
          (emptyHeap.Insert 1 5 ⟨true, 0⟩) 2 1 5 0).inserted_nodes ∧
      (RelaxNode false crossGraph crossPartition crossCells
          (emptyHeap.Insert 1 5 ⟨true, 0⟩) 2 1 5 0).key 2 ≤ 5 + 1 :=
  ⟨by decide,
    (relaxNode_edges_whatever_flag false crossGraph crossPartition crossCells
      (emptyHeap.Insert 1 5 ⟨true, 0⟩) 2 1 5 0).1 ⟨2, 1, 10, true, false⟩ (by decide) rfl
      (Or.inr (by decide))⟩

end CellCustomizer

namespace CellCustomizer

theorem internalEdgeRange_no_edges (partition : MultiLevelPartition) (level node : Nat) :
    (⟨[]⟩ : Graph).GetInternalEdgeRange partition level node = [] := by
  simp [Graph.GetInternalEdgeRange, Graph.GetAdjacentEdgeRange]

theorem edgeArcs_no_edges (first_level : Bool) (partition : MultiLevelPartition)
    (level node : Nat) : edgeArcs first_level ⟨[]⟩ partition level node = [] := by
  simp [edgeArcs, internalEdgeRange_no_edges]

/-- On the graph without edges `RelaxNode` runs its loop over the clique entries only. -/
theorem RelaxNode_no_edges (first_level : Bool) (partition : MultiLevelPartition)
    (cells : CellStorage) (heap : Heap) (level node : Nat) (W D : Int) :
    RelaxNode first_level ⟨[]⟩ partition cells heap level node W D =
      relaxArcs W D
        (if first_level || (heap.GetData node).from_clique then []
          else cliqueArcs partition cells level node) heap := by
  rw [RelaxNode_eq, edgeArcs_no_edges, List.append_nil]

/-- `RelaxNode` is its loop over the clique entries followed by its loop over the edges. -/
theorem RelaxNode_split (first_level : Bool) (graph : Graph) (partition : MultiLevelPartition)
    (cells : CellStorage) (heap : Heap) (level node : Nat) (W D : Int) :
    RelaxNode first_level graph partition cells heap level node W D =
      relaxArcs W D (edgeArcs first_level graph partition level node)
        (RelaxNode first_level ⟨[]⟩ partition cells heap level node W D) := by
  rw [RelaxNode_no_edges, RelaxNode_eq, relaxArcs_append]

/-- C19: `RelaxNode` at `level` (first_level exactly at level 1) runs the insert-or-decrease
block for an edge `n → t` of the internal edge range exactly when the edge is forward and the
level is 1 or `n` and `t` lie in different sub-cells of level `level - 1`, and leaves the heap as
it is for every other edge. So the target of every such edge ends inserted with a key of at most
`weight + edge.weight`, and a node `t` all of whose incoming edges from `n` fail the condition
has after the call the inserted state, key and payload it had after the loop over the clique
entries (the call on the graph without edges). -/
theorem relaxNode_edge_condition (graph : Graph) (partition : MultiLevelPartition)
    (cells : CellStorage) (heap : Heap) (level node : Nat) (W D : Int) :
    RelaxNode (level == 1) graph partition cells heap level node W D =
        (graph.GetInternalEdgeRange partition level node).foldl
          (fun h e =>
            if e.forward = true ∧
                (level = 1 ∨
                  partition.GetCell (level - 1) node ≠ partition.GetCell (level - 1) e.target) then
              relax h e.target (W + e.weight) ⟨false, D + e.duration⟩
            else h)
          (RelaxNode (level == 1) ⟨[]⟩ partition cells heap level node W D) ∧
      (∀ e ∈ graph.GetInternalEdgeRange partition level node, e.forward = true →
        (level = 1 ∨
          partition.GetCell (level - 1) node ≠ partition.GetCell (level - 1) e.target) →
        e.target ∈
            (RelaxNode (level == 1) graph partition cells heap level node W D).inserted_nodes ∧
          (RelaxNode (level == 1) graph partition cells heap level node W D).key e.target ≤
            W + e.weight) ∧
      (∀ t : Nat,
        (∀ e ∈ graph.GetInternalEdgeRange partition level node, e.target = t →
          ¬(e.forward = true ∧
            (level = 1 ∨
              partition.GetCell (level - 1) node ≠ partition.GetCell (level - 1) e.target))) →
        (t ∈ (RelaxNode (level == 1) graph partition cells heap level node W D).inserted_nodes ↔
            t ∈ (RelaxNode (level == 1) ⟨[]⟩ partition cells heap level node W D).inserted_nodes) ∧
          (RelaxNode (level == 1) graph partition cells heap level node W D).key t =
            (RelaxNode (level == 1) ⟨[]⟩ partition cells heap level node W D).key t ∧
          (RelaxNode (level == 1) graph partition cells heap level node W D).data t =
            (RelaxNode (level == 1) ⟨[]⟩ partition cells heap level node W D).data t) := by
  refine ⟨?_, ?_, ?_⟩
  · rw [RelaxNode_split, ← edge_fold_eq]
    congr 1
    funext h e
    simp only [Bool.and_eq_true, Bool.or_eq_true, beq_iff_eq, bne_iff_ne]
  · intro e he hf hc
    rw [RelaxNode_split]
    have ha : (⟨e.target, e.weight, e.duration, false⟩ : Arc) ∈
        edgeArcs (level == 1) graph partition level node :=
      (mem_edgeArcs _ graph partition level node _).2
        ⟨e, he, hf, by simpa using hc, rfl⟩
    exact relaxArcs_sat W D _ _ _ ha
  · intro t ht
    rw [RelaxNode_split]
    generalize RelaxNode (level == 1) ⟨[]⟩ partition cells heap level node W D = mid
    rcases relaxArcs_change W D (edgeArcs (level == 1) graph partition level node) mid t with
      ⟨e1, e2, e3⟩ | ⟨a, ha, hat, _⟩
    · exact ⟨⟨e3, fun h => (relaxArcs_mono W D _ mid t h).1⟩, e1, e2⟩
    · obtain ⟨e, he, hf, hc, rfl⟩ := (mem_edgeArcs _ graph partition level node a).1 ha
      exact absurd ⟨hf, by simpa using hc⟩ (ht e he hat)

/-- Witness of C19: the forward edge `0 → 1` of `lineGraph` is relaxed at level 1, and at
level 2 of `crossGraph` the edge `0 → 1` inside the sub-cell `{0, 1}` leaves node 1 out of the
heap. -/
theorem relaxNode_edge_condition_witness :
    (1 ∈ (RelaxNode ((1 : Nat) == 1) lineGraph oneCellPartition lineCells
          (emptyHeap.Insert 0 0 ⟨false, 0⟩) 1 0 0 0).inserted_nodes ∧
      (RelaxNode ((1 : Nat) == 1) lineGraph oneCellPartition lineCells
          (emptyHeap.Insert 0 0 ⟨false, 0⟩) 1 0 0 0).key 1 ≤ 0 + 5) ∧
    (1 ∈ (RelaxNode ((2 : Nat) == 1) crossGraph crossPartition crossCells
          (emptyHeap.Insert 0 0 ⟨false, 0⟩) 2 0 0 0).inserted_nodes ↔
      1 ∈ (RelaxNode ((2 : Nat) == 1) ⟨[]⟩ crossPartition crossCells
          (emptyHeap.Insert 0 0 ⟨false, 0⟩) 2 0 0 0).inserted_nodes) :=
  ⟨(relaxNode_edge_condition lineGraph oneCellPartition lineCells
      (emptyHeap.Insert 0 0 ⟨false, 0⟩) 1 0 0 0).2.1 ⟨1, 5, 7, true, false⟩ (by decide) rfl
      (Or.inl rfl),
    ((relaxNode_edge_condition crossGraph crossPartition crossCells
      (emptyHeap.Insert 0 0 ⟨false, 0⟩) 2 0 0 0).2.2 1 (by decide)).1⟩

end CellCustomizer

namespace CellCustomizer

theorem relaxTraced_fst (h : Heap) (o : Nat → KeyOrigin) (t : Nat) (k : Int) (d : HeapData)
    (x : KeyOrigin) : (relaxTraced h o t k d x).1 = relax h t k d := by
  unfold relaxTraced relax
  split_ifs <;> rfl

theorem relaxTraced_FlagRecord (s : Nat) (h : Heap) (o : Nat → KeyOrigin) (t : Nat) (k : Int)
    (d : HeapData) (x : KeyOrigin) (hinv : FlagRecord s (h, o))
    (hd : d.from_clique = true ↔ x = KeyOrigin.clique) (hx : x ≠ KeyOrigin.source) :
    FlagRecord s (relaxTraced h o t k d x) := by
  unfold relaxTraced
  split_ifs with h1 h2
  · intro n hn
    simp only [Heap.Insert, List.mem_append, List.mem_singleton] at hn ⊢
    by_cases hnt : n = t
    · simp only [hnt, if_true]
      exact ⟨hd, fun hc => absurd hc hx⟩
    · simp only [hnt, if_false]
      rcases hn with hn | hn
      · exact hinv n hn
      · exact absurd hn hnt
  · intro n hn
    simp only [Heap.SetData, Heap.DecreaseKey] at hn ⊢
    by_cases hnt : n = t
    · simp only [hnt, if_true]
      exact ⟨hd, fun hc => absurd hc hx⟩
    · simp only [hnt, if_false]
      exact hinv n hn
  · exact hinv

theorem foldl_relaxTraced {α : Type} (s : Nat) (l : List α) (P : α → Prop) [DecidablePred P]
    (t : α → Nat) (k : α → Int) (d : α → HeapData) (x : KeyOrigin)
    (state : Heap × (Nat → KeyOrigin)) :
    (l.foldl (fun state e =>
        if P e then relaxTraced state.1 state.2 (t e) (k e) (d e) x else state) state).1 =
      l.foldl (fun h e => if P e then relax h (t e) (k e) (d e) else h) state.1 ∧
    (FlagRecord s state → (∀ e, (d e).from_clique = true ↔ x = KeyOrigin.clique) →
      x ≠ KeyOrigin.source →
      FlagRecord s (l.foldl (fun state e =>
        if P e then relaxTraced state.1 state.2 (t e) (k e) (d e) x else state) state)) := by
  induction l generalizing state with
  | nil => exact ⟨rfl, fun h _ _ => h⟩
  | cons e rest ih =>
    simp only [List.foldl_cons]
    by_cases hP : P e
    · simp only [hP, if_true]
      obtain ⟨h1, h2⟩ := ih (relaxTraced state.1 state.2 (t e) (k e) (d e) x)
      rw [relaxTraced_fst] at h1
      exact ⟨h1, fun hinv hd hx =>
        h2 (relaxTraced_FlagRecord s state.1 state.2 (t e) (k e) (d e) x hinv (hd e) hx) hd hx⟩
    · simp only [hP, if_false]
      exact ih state

theorem RelaxNodeTraced_spec (s : Nat) (first_level : Bool) (graph : Graph)
    (partition : MultiLevelPartition) (cells : CellStorage) (state : Heap × (Nat → KeyOrigin))
    (level node : Nat) (W D : Int) :
    (RelaxNodeTraced first_level graph partition cells state level node W D).1 =
        RelaxNode first_level graph partition cells state.1 level node W D ∧
      (FlagRecord s state →
        FlagRecord s (RelaxNodeTraced first_level graph partition cells state level node W D)) := by
  unfold RelaxNodeTraced RelaxNode
  simp only []
  have hE := fun st => foldl_relaxTraced s (graph.GetInternalEdgeRange partition level node)
    (fun edge : Edge => (edge.forward &&
      (first_level ||
        partition.GetCell (level - 1) node != partition.GetCell (level - 1) edge.target)) = true)
    (fun edge => edge.target) (fun edge => W + edge.weight)
    (fun edge => ⟨false, D + edge.duration⟩) KeyOrigin.edge st
  have hC := fun st => foldl_relaxTraced s
    (List.zip ((cells.GetCell (level - 1) (partition.GetCell (level - 1) node)).GetOutWeight node)
      (List.zip (cells.GetCell (level - 1) (partition.GetCell (level - 1) node)).GetDestinationNodes
        ((cells.GetCell (level - 1) (partition.GetCell (level - 1) node)).GetOutDuration node)))
    (fun entry : Int × Nat × Int => entry.1 ≠ INVALID_EDGE_WEIGHT)
    (fun entry => entry.2.1) (fun entry => W + entry.1)
    (fun entry => ⟨true, D + entry.2.2⟩) KeyOrigin.clique st
  constructor
  · rw [(hE _).1]
    congr 1
    cases first_level
    · cases hfl : (state.1.GetData node).from_clique
      · simp only [Bool.not_false, if_true]
        exact (hC state).1
      · simp
    · simp
  · intro hinv
    refine (hE _).2 ?_ (fun e => by simp) (by simp)
    cases first_level
    · cases hfl : (state.1.GetData node).from_clique
      · simp only [Bool.not_false, if_true]
        exact (hC state).2 hinv (fun e => by simp) (by simp)
      · simpa using hinv
    · simpa using hinv

theorem DeleteMin_inserted_nodes (h : Heap) :
    h.DeleteMin.2.inserted_nodes = h.inserted_nodes := by
  unfold Heap.DeleteMin
  split <;> rfl

theorem DeleteMin_data (h : Heap) : h.DeleteMin.2.data = h.data := by
  unfold Heap.DeleteMin
  split <;> rfl

theorem searchLoopTraced_spec (s : Nat) (graph : Graph) (partition : MultiLevelPartition)
    (cells : CellStorage) (level fuel : Nat) (state : Heap × (Nat → KeyOrigin))
    (dset : List Nat) :
    (searchLoopTraced graph partition cells level fuel state dset).1.1 =
        (searchLoop graph partition cells level fuel state.1 dset).1 ∧
      (FlagRecord s state →
        FlagRecord s (searchLoopTraced graph partition cells level fuel state dset).1) := by
  induction fuel generalizing state dset with
  | zero => exact ⟨rfl, fun h => h⟩
  | succ fuel ih =>
    unfold searchLoopTraced searchLoop
    by_cases hc : (!state.1.Empty && !dset.isEmpty) = true
    · simp only [hc, if_true]
      have hpre : FlagRecord s state → FlagRecord s (state.1.DeleteMin.2, state.2) := by
        intro hinv n hn
        simp only [DeleteMin_inserted_nodes, DeleteMin_data] at hn ⊢
        exact hinv n hn
      by_cases hl : (level == 1) = true
      · simp only [hl, if_true]
        obtain ⟨h1, h2⟩ := RelaxNodeTraced_spec s true graph partition cells
          (state.1.DeleteMin.2, state.2) level state.1.DeleteMin.1
          (state.1.DeleteMin.2.GetKey state.1.DeleteMin.1)
          (state.1.DeleteMin.2.GetData state.1.DeleteMin.1).duration
        obtain ⟨h3, h4⟩ := ih (RelaxNodeTraced true graph partition cells
          (state.1.DeleteMin.2, state.2) level state.1.DeleteMin.1
          (state.1.DeleteMin.2.GetKey state.1.DeleteMin.1)
          (state.1.DeleteMin.2.GetData state.1.DeleteMin.1).duration)
          (dset.filter (fun d => d != state.1.DeleteMin.1))
        rw [h1] at h3
        exact ⟨h3, fun hinv => h4 (h2 (hpre hinv))⟩
      · simp only [hl, if_false]
        obtain ⟨h1, h2⟩ := RelaxNodeTraced_spec s false graph partition cells
          (state.1.DeleteMin.2, state.2) level state.1.DeleteMin.1
          (state.1.DeleteMin.2.GetKey state.1.DeleteMin.1)
          (state.1.DeleteMin.2.GetData state.1.DeleteMin.1).duration
        obtain ⟨h3, h4⟩ := ih (RelaxNodeTraced false graph partition cells
          (state.1.DeleteMin.2, state.2) level state.1.DeleteMin.1
          (state.1.DeleteMin.2.GetKey state.1.DeleteMin.1)
          (state.1.DeleteMin.2.GetData state.1.DeleteMin.1).duration)
          (dset.filter (fun d => d != state.1.DeleteMin.1))
        rw [h1] at h3
        exact ⟨h3, fun hinv => h4 (h2 (hpre hinv))⟩
    · simp only [hc]
      exact ⟨rfl, fun h => h⟩

theorem flag_false_iff (s : Nat) (state : Heap × (Nat → KeyOrigin)) (hinv : FlagRecord s state)
    (n : Nat) (hn : n ∈ state.1.inserted_nodes) :
    (state.1.data n).from_clique = false ↔
      (state.2 n = KeyOrigin.edge ∨ (n = s ∧ state.2 n = KeyOrigin.source)) := by
  obtain ⟨h1, h2⟩ := hinv n hn
  constructor
  · intro hf
    have hne : state.2 n ≠ KeyOrigin.clique := fun hc => by
      have := h1.2 hc
      rw [hf] at this
      exact Bool.noConfusion this
    cases ho : state.2 n with
    | source => exact Or.inr ⟨h2 ho, rfl⟩
    | clique => exact absurd ho hne
    | edge => exact Or.inl rfl
  · intro ho
    cases hf : (state.1.data n).from_clique with
    | false => rfl
    | true =>
      have hc := h1.1 hf
      rcases ho with ho | ⟨_, ho⟩ <;> rw [hc] at ho <;> exact KeyOrigin.noConfusion ho

theorem init_FlagRecord (heap : Heap) (s : Nat) :
    FlagRecord s (heap.Clear.Insert s 0 ⟨false, 0⟩, fun _ => KeyOrigin.source) := by
  intro n hn
  simp only [Heap.Clear, Heap.Insert, List.nil_append, List.mem_singleton] at hn ⊢
  subst hn
  simp

/-- C20: throughout a customizer search (after any number `fuel` of iterations) the
`from_clique` flag of every inserted node tells what last set its key: run beside a record
that is written at each insertion and key decrease, the search computes the same heap, and the
flag of an inserted node is true exactly when the record says its key was last set from a
sub-cell clique entry, false exactly when it was last set from an edge of the graph or the node
is the source with its initial key. Moreover a call of `RelaxNode` leaves key and payload of a
node untouched, or sets them from a forward edge of the dequeued node (flag false), or sets
them from a clique entry (flag true), the last only at a level other than 1, when the dequeued
node does not carry the flag, and from an entry whose weight is not INVALID. -/
theorem from_clique_records_origin (graph : Graph) (partition : MultiLevelPartition)
    (cells : CellStorage) (heap : Heap) (level source : Nat) (destinations : List Nat)
    (fuel : Nat) :
    (searchLoopTraced graph partition cells level fuel
        (heap.Clear.Insert source 0 ⟨false, 0⟩, fun _ => KeyOrigin.source) destinations).1.1 =
      (searchLoop graph partition cells level fuel
        (heap.Clear.Insert source 0 ⟨false, 0⟩) destinations).1 ∧
    (∀ n ∈ (searchLoop graph partition cells level fuel
          (heap.Clear.Insert source 0 ⟨false, 0⟩) destinations).1.inserted_nodes,
      (((searchLoop graph partition cells level fuel
            (heap.Clear.Insert source 0 ⟨false, 0⟩) destinations).1.GetData n).from_clique = true ↔
          (searchLoopTraced graph partition cells level fuel
            (heap.Clear.Insert source 0 ⟨false, 0⟩, fun _ => KeyOrigin.source)
            destinations).1.2 n = KeyOrigin.clique) ∧
        (((searchLoop graph partition cells level fuel
            (heap.Clear.Insert source 0 ⟨false, 0⟩) destinations).1.GetData n).from_clique = false ↔
          ((searchLoopTraced graph partition cells level fuel
              (heap.Clear.Insert source 0 ⟨false, 0⟩, fun _ => KeyOrigin.source)
              destinations).1.2 n = KeyOrigin.edge ∨
            (n = source ∧
              (searchLoopTraced graph partition cells level fuel
                (heap.Clear.Insert source 0 ⟨false, 0⟩, fun _ => KeyOrigin.source)
                destinations).1.2 n = KeyOrigin.source)))) ∧
    (∀ (h : Heap) (node n : Nat) (W D : Int),
      ((RelaxNode (level == 1) graph partition cells h level node W D).key n = h.key n ∧
          (RelaxNode (level == 1) graph partition cells h level node W D).data n = h.data n ∧
          (n ∈ (RelaxNode (level == 1) graph partition cells h level node W D).inserted_nodes →
            n ∈ h.inserted_nodes)) ∨
        (∃ e ∈ graph.GetInternalEdgeRange partition level node,
          e.forward = true ∧
            (level = 1 ∨
              partition.GetCell (level - 1) node ≠ partition.GetCell (level - 1) e.target) ∧
            e.target = n ∧
            (RelaxNode (level == 1) graph partition cells h level node W D).key n =
              W + e.weight ∧
            (RelaxNode (level == 1) graph partition cells h level node W D).data n =
              ⟨false, D + e.duration⟩) ∨
        (level ≠ 1 ∧ (h.GetData node).from_clique = false ∧
          ∃ (k : Nat) (w d : Int),
            (cells.GetCell (level - 1)
                (partition.GetCell (level - 1) node)).GetDestinationNodes[k]? = some n ∧
              ((cells.GetCell (level - 1)
                (partition.GetCell (level - 1) node)).GetOutWeight node)[k]? = some w ∧
              ((cells.GetCell (level - 1)
                (partition.GetCell (level - 1) node)).GetOutDuration node)[k]? = some d ∧
              w ≠ INVALID_EDGE_WEIGHT ∧
              (RelaxNode (level == 1) graph partition cells h level node W D).key n = W + w ∧
              (RelaxNode (level == 1) graph partition cells h level node W D).data n =
                ⟨true, D + d⟩)) := by
  obtain ⟨h1, h2⟩ := searchLoopTraced_spec source graph partition cells level fuel
    (heap.Clear.Insert source 0 ⟨false, 0⟩, fun _ => KeyOrigin.source) destinations
  have h3 := h2 (init_FlagRecord heap source)
  refine ⟨h1, ?_, ?_⟩
  · intro n hn
    rw [← h1] at hn ⊢
    exact ⟨(h3 n hn).1, flag_false_iff source _ h3 n hn⟩
  · intro h node n W D
    rw [RelaxNode_eq]
    rcases relaxArcs_change W D
        ((if (level == 1) || (h.GetData node).from_clique then []
          else cliqueArcs partition cells level node) ++
          edgeArcs (level == 1) graph partition level node) h n with
      hun | ⟨a, ha, hat, hk, hd, _⟩
    · exact Or.inl hun
    · right
      rcases List.mem_append.1 ha with ha | ha
      · right
        by_cases hc : ((level == 1) || (h.GetData node).from_clique) = true
        · rw [if_pos hc] at ha
          cases ha
        · rw [if_neg hc] at ha
          simp only [Bool.or_eq_true, beq_iff_eq, not_or, Bool.not_eq_true] at hc
          obtain ⟨_, k, hk1, hk2, hk3, hw, hfl⟩ :=
            (mem_cliqueArcs partition cells level node a).1 ha
          refine ⟨hc.1, hc.2, k, a.weight, a.duration, ?_, hk2, hk3, hw, hk, ?_⟩
          · rw [← hat]; exact hk1
          · rw [hd, hfl]
      · left
        obtain ⟨e, he, hf, hc, rfl⟩ := (mem_edgeArcs _ graph partition level node a).1 ha
        exact ⟨e, he, hf, by simpa using hc, hat, hk, hd⟩

/-- Witness of C20 on the search at level 2 of `bridgeGraph` with `bridgeCells`: node 1 is
reached over the clique entry `0 → 1` and carries the flag, node 2 is reached over the edge
`1 → 2` and does not. -/
theorem from_clique_records_origin_witness :
    ((((searchLoop bridgeGraph crossPartition bridgeCells 2 10
            (emptyHeap.Clear.Insert 0 0 ⟨false, 0⟩) [2]).1.GetData 1).from_clique = true ↔
        (searchLoopTraced bridgeGraph crossPartition bridgeCells 2 10
          (emptyHeap.Clear.Insert 0 0 ⟨false, 0⟩, fun _ => KeyOrigin.source) [2]).1.2 1 =
            KeyOrigin.clique) ∧
      ((searchLoop bridgeGraph crossPartition bridgeCells 2 10
            (emptyHeap.Clear.Insert 0 0 ⟨false, 0⟩) [2]).1.GetData 1).from_clique = true) ∧
    ((searchLoop bridgeGraph crossPartition bridgeCells 2 10
        (emptyHeap.Clear.Insert 0 0 ⟨false, 0⟩) [2]).1.GetData 2).from_clique = false ∧
    (searchLoopTraced bridgeGraph crossPartition bridgeCells 2 10
        (emptyHeap.Clear.Insert 0 0 ⟨false, 0⟩, fun _ => KeyOrigin.source) [2]).1.2 2 =
      KeyOrigin.edge :=
  ⟨⟨((from_clique_records_origin bridgeGraph crossPartition bridgeCells emptyHeap 2 0 [2]
      10).2.1 1 (by decide)).1, by decide⟩, by decide, by decide⟩

end CellCustomizer

namespace engine

theorem annotateEdge_eq (facade : Facade) (pair : PhantomNodes) (rev : Bool)
    (path : List PathData) (node edge : Nat) :
    annotateEdge facade pair rev path (node, edge) =
      setTurnOnBack facade (facade.GetEdgeDataTurnId edge)
        (path ++
          (List.range'
              (if path.isEmpty then
                (if rev then
                  subSize (subSize (edgeWeightVector facade node).length
                    pair.source_phantom.fwd_segment_position) 1
                else pair.source_phantom.fwd_segment_position % 2 ^ 64)
              else 0)
              ((edgeWeightVector facade node).length -
                (if path.isEmpty then
                  (if rev then
                    subSize (subSize (edgeWeightVector facade node).length
                      pair.source_phantom.fwd_segment_position) 1
                  else pair.source_phantom.fwd_segment_position % 2 ^ 64)
                else 0))).map
            (fun segment_idx =>
              segmentStep (edgeIdVector facade node) (edgeWeightVector facade node)
                (edgeDurationVector facade node) (edgeDatasourceVector facade node)
                (facade.GetNameIndex node) (facade.GetTravelMode node)
                (segment_idx + 1) segment_idx)) := rfl

theorem setTurnOnBack_length (facade : Facade) (turn_id : Nat) (l : List PathData) :
    (setTurnOnBack facade turn_id l).length = l.length := by
  unfold setTurnOnBack
  cases h : l.getLast? with
  | none => rfl
  | some back =>
    have hne : l ≠ [] := by
      intro hl; rw [hl] at h; simp at h
    simp only [List.length_append, List.length_dropLast, List.length_singleton]
    have := List.length_pos.2 hne
    omega

/-- The turn written on the last step leaves via node, name, travel mode and data source of
every step as they were. -/
theorem setTurnOnBack_getElem? (facade : Facade) (turn_id : Nat) (l : List PathData) (j : Nat)
    (x : PathData) (hx : l[j]? = some x) :
    ∃ y, (setTurnOnBack facade turn_id l)[j]? = some y ∧ y.turn_via_node = x.turn_via_node ∧
      y.name_id = x.name_id ∧ y.travel_mode = x.travel_mode ∧
      y.datasource_id = x.datasource_id := by
  unfold setTurnOnBack
  cases h : l.getLast? with
  | none =>
    exact ⟨x, hx, rfl, rfl, rfl, rfl⟩
  | some back =>
    have hl : l = l.dropLast ++ [back] := (List.dropLast_append_getLast? back h).symm
    simp only []
    by_cases hj : j < l.dropLast.length
    · refine ⟨x, ?_, rfl, rfl, rfl, rfl⟩
      rw [List.getElem?_append_left hj]
      rw [hl, List.getElem?_append_left hj] at hx
      exact hx
    · have hjl : j < l.length := (List.getElem?_eq_some.1 hx).1
      have hlen : l.length = l.dropLast.length + 1 := by
        conv_lhs => rw [hl]
        simp
      have hje : j = l.dropLast.length := by omega
      rw [hl, List.getElem?_append_right (by omega)] at hx
      rw [List.getElem?_append_right (by omega)]
      have h0 : j - l.dropLast.length = 0 := by omega
      rw [h0] at hx ⊢
      simp only [List.getElem?_cons_zero, Option.some.injEq] at hx ⊢
      subst hx
      exact ⟨_, rfl, rfl, rfl, rfl, rfl⟩

/-- The turn is written on the last of the steps just pushed, when there is one. -/
theorem setTurnOnBack_append (facade : Facade) (turn_id : Nat) (p new : List PathData)
    (hnew : new ≠ []) :
    setTurnOnBack facade turn_id (p ++ new) = p ++ setTurnOnBack facade turn_id new := by
  unfold setTurnOnBack
  rw [List.getLast?_append_of_ne_nil p hnew]
  cases h : new.getLast? with
  | none => rfl
  | some back =>
    simp only []
    rw [List.dropLast_append_of_ne_nil p hnew, List.append_assoc]

theorem subSize_reverse_start (len pos : Nat) (hlen : len < 2 ^ 64) (hpos : pos < len) :
    subSize (subSize len pos) 1 = len - pos - 1 := by
  unfold subSize
  have h64 : (2 : Nat) ^ 64 = 18446744073709551616 := by norm_num
  rw [h64] at hlen ⊢
  omega

theorem annotateEdge_length_le (facade : Facade) (pair : PhantomNodes) (rev : Bool)
    (path : List PathData) (ne : Nat × Nat) :
    path.length ≤ (annotateEdge facade pair rev path ne).length := by
  obtain ⟨node, edge⟩ := ne
  rw [annotateEdge_eq, setTurnOnBack_length, List.length_append]
  omega

theorem foldl_annotateEdge_length_le (facade : Facade) (pair : PhantomNodes) (rev : Bool)
    (l : List (Nat × Nat)) (path : List PathData) :
    path.length ≤ (l.foldl (annotateEdge facade pair rev) path).length := by
  induction l generalizing path with
  | nil => exact le_refl _
  | cons x rest ih =>
    exact le_trans (annotateEdge_length_le facade pair rev path x) (ih _)

theorem zip_dropLast_head (nodes edges : List Nat) (n e : Nat)
    (h : (List.zip nodes.dropLast edges)[0]? = some (n, e)) : n = nodes.headD 0 := by
  cases nodes with
  | nil => simp at h
  | cons a rest =>
    cases rest with
    | nil => simp at h
    | cons b rest2 =>
      cases edges with
      | nil => simp at h
      | cons e0 es =>
        simp [List.dropLast] at h
        simp [h.1]

theorem pathAfterEdges_succ (facade : Facade) (pair : PhantomNodes) (nodes edges : List Nat)
    (i node edge : Nat) (hi : (List.zip nodes.dropLast edges)[i]? = some (node, edge)) :
    pathAfterEdges facade pair nodes edges (i + 1) =
      annotateEdge facade pair
        (decide (pair.source_phantom.forward_segment_id ≠ nodes.headD 0))
        (pathAfterEdges facade pair nodes edges i) (node, edge) := by
  unfold pathAfterEdges
  rw [List.take_succ, hi, List.foldl_append]
  rfl

/-- All iterations of the loop give the path `annotatePath` continues with. -/
theorem pathAfterEdges_all (facade : Facade) (pair : PhantomNodes) (nodes edges : List Nat) :
    pathAfterEdges facade pair nodes edges (List.zip nodes.dropLast edges).length =
      (List.zip nodes.dropLast edges).foldl
        (annotateEdge facade pair
          (decide (pair.source_phantom.forward_segment_id ≠ nodes.headD 0))) [] := by
  unfold pathAfterEdges
  rw [List.take_length]

theorem first_start_index (facade : Facade) (pair : PhantomNodes) (nodes : List Nat)
    (hsize : (edgeWeightVector facade (nodes.headD 0)).length < 2 ^ 64)
    (hpos : pair.source_phantom.fwd_segment_position <
      (edgeWeightVector facade (nodes.headD 0)).length) :
    (if decide (pair.source_phantom.forward_segment_id ≠ nodes.headD 0) = true then
        subSize (subSize (edgeWeightVector facade (nodes.headD 0)).length
          pair.source_phantom.fwd_segment_position) 1
      else pair.source_phantom.fwd_segment_position % 2 ^ 64) =
      (if pair.source_phantom.forward_segment_id ≠ nodes.headD 0 then
        (edgeWeightVector facade (nodes.headD 0)).length -
          pair.source_phantom.fwd_segment_position - 1
      else pair.source_phantom.fwd_segment_position) := by
  by_cases h : pair.source_phantom.forward_segment_id ≠ nodes.headD 0
  · rw [if_pos (by simpa using h), if_pos h]
    exact subSize_reverse_start _ _ hsize hpos
  · rw [if_neg (by simpa using h), if_neg h]
    exact Nat.mod_eq_of_lt (lt_trans hpos hsize)

theorem pathAfterEdges_ne_nil (facade : Facade) (pair : PhantomNodes) (nodes edges : List Nat)
    (i : Nat) (hi0 : 0 < i) (hi : i < (List.zip nodes.dropLast edges).length)
    (hsize : (edgeWeightVector facade (nodes.headD 0)).length < 2 ^ 64)
    (hpos : pair.source_phantom.fwd_segment_position <
      (edgeWeightVector facade (nodes.headD 0)).length) :
    pathAfterEdges facade pair nodes edges i ≠ [] := by
  obtain ⟨j, rfl⟩ : ∃ j, i = j + 1 := ⟨i - 1, by omega⟩
  cases hz : List.zip nodes.dropLast edges with
  | nil => rw [hz] at hi; simp at hi
  | cons p0 rest =>
    obtain ⟨n0, e0⟩ := p0
    have hn0 : n0 = nodes.headD 0 := zip_dropLast_head nodes edges n0 e0 (by rw [hz]; simp)
    unfold pathAfterEdges
    rw [hz, List.take_succ_cons, List.foldl_cons]
    have hlen := foldl_annotateEdge_length_le facade pair
      (decide (pair.source_phantom.forward_segment_id ≠ nodes.headD 0)) (rest.take j)
      (annotateEdge facade pair
        (decide (pair.source_phantom.forward_segment_id ≠ nodes.headD 0)) [] (n0, e0))
    have h1 : 0 < (annotateEdge facade pair
        (decide (pair.source_phantom.forward_segment_id ≠ nodes.headD 0)) [] (n0, e0)).length := by
      rw [annotateEdge_eq, setTurnOnBack_length, hn0]
      simp only [List.isEmpty_nil, if_true, List.nil_append, List.length_map,
        List.length_range']
      rw [first_start_index facade pair nodes hsize hpos]
      split_ifs <;> omega
    intro hnil
    rw [hnil] at hlen
    simp only [List.length_nil] at hlen
    omega

/-- The loop over the edges, one iteration: in the loop of `annotatePath` over the edges of the unpacked path (started on an
empty path), the iteration for the edge number `i` with source node `node` appends one step for
each geometry segment of `node` from the segment `start` on, in segment order, where `start` is 0
for every edge but the first and, for the first edge, the segment position of the source
phantom, or `size - position - 1` when the source is traversed in reverse. The step of the
segment `start + k` carries the via node `id_vector[start + k + 1]`, the data source
`datasource_vector[start + k]`, the name of the node and its travel mode (as the 4-bit field of
the step holds it, the travel mode itself when it is below 16); the vectors are the forward
rows of the geometry of the node when its geometry index has `forward` set and the reverse rows
otherwise. When a step is appended, the steps of the earlier edges stay as they were. The
source phantom lies on the geometry of the first node (`hpos`, asserted by the program as
`start_index < end_index`), and a vector has fewer than `2 ^ 64` entries (`hsize`). -/
theorem pathAfterEdges_edge_steps (facade : Facade) (phantom_node_pair : PhantomNodes)
    (unpacked_nodes unpacked_edges : List Nat) (i node edge : Nat)
    (hi : (List.zip unpacked_nodes.dropLast unpacked_edges)[i]? = some (node, edge))
    (hsize : (edgeWeightVector facade (unpacked_nodes.headD 0)).length < 2 ^ 64)
    (hpos : phantom_node_pair.source_phantom.fwd_segment_position <
      (edgeWeightVector facade (unpacked_nodes.headD 0)).length) :
    (pathAfterEdges facade phantom_node_pair unpacked_nodes unpacked_edges (i + 1)).length =
        (pathAfterEdges facade phantom_node_pair unpacked_nodes unpacked_edges i).length +
          ((edgeWeightVector facade node).length -
            (if i = 0 then
              (if phantom_node_pair.source_phantom.forward_segment_id ≠
                  unpacked_nodes.headD 0 then
                (edgeWeightVector facade node).length -
                  phantom_node_pair.source_phantom.fwd_segment_position - 1
              else phantom_node_pair.source_phantom.fwd_segment_position)
            else 0)) ∧
      (∀ k : Nat,
        k < (edgeWeightVector facade node).length -
            (if i = 0 then
              (if phantom_node_pair.source_phantom.forward_segment_id ≠
                  unpacked_nodes.headD 0 then
                (edgeWeightVector facade node).length -
                  phantom_node_pair.source_phantom.fwd_segment_position - 1
              else phantom_node_pair.source_phantom.fwd_segment_position)
            else 0) →
        ∃ step : PathData,
          (pathAfterEdges facade phantom_node_pair unpacked_nodes unpacked_edges (i + 1))[
              (pathAfterEdges facade phantom_node_pair unpacked_nodes unpacked_edges i).length
                + k]? = some step ∧
            step.turn_via_node =
              (edgeIdVector facade node).getD
                ((if i = 0 then
                  (if phantom_node_pair.source_phantom.forward_segment_id ≠
                      unpacked_nodes.headD 0 then
                    (edgeWeightVector facade node).length -
                      phantom_node_pair.source_phantom.fwd_segment_position - 1
                  else phantom_node_pair.source_phantom.fwd_segment_position)
                else 0) + k + 1) 0 ∧
            step.datasource_id =
              (edgeDatasourceVector facade node).getD
                ((if i = 0 then
                  (if phantom_node_pair.source_phantom.forward_segment_id ≠
                      unpacked_nodes.headD 0 then
                    (edgeWeightVector facade node).length -
                      phantom_node_pair.source_phantom.fwd_segment_position - 1
                  else phantom_node_pair.source_phantom.fwd_segment_position)
                else 0) + k) 0 ∧
            step.name_id = facade.GetNameIndex node ∧
            step.travel_mode = facade.GetTravelMode node % 16 ∧
            (facade.GetTravelMode node < 16 →
              step.travel_mode = facade.GetTravelMode node) ∧
            (pathAfterEdges facade phantom_node_pair unpacked_nodes unpacked_edges
                (i + 1)).take
              (pathAfterEdges facade phantom_node_pair unpacked_nodes unpacked_edges i).length =
              pathAfterEdges facade phantom_node_pair unpacked_nodes unpacked_edges i) := by
  have hilt : i < (List.zip unpacked_nodes.dropLast unpacked_edges).length :=
    (List.getElem?_eq_some.1 hi).1
  -- the start index of the program is the one of the statement
  have hstart :
      (if (pathAfterEdges facade phantom_node_pair unpacked_nodes unpacked_edges i).isEmpty then
        (if decide (phantom_node_pair.source_phantom.forward_segment_id ≠
              unpacked_nodes.headD 0) = true then
          subSize (subSize (edgeWeightVector facade node).length
            phantom_node_pair.source_phantom.fwd_segment_position) 1
        else phantom_node_pair.source_phantom.fwd_segment_position % 2 ^ 64)
      else 0) =
      (if i = 0 then
        (if phantom_node_pair.source_phantom.forward_segment_id ≠ unpacked_nodes.headD 0 then
          (edgeWeightVector facade node).length -
            phantom_node_pair.source_phantom.fwd_segment_position - 1
        else phantom_node_pair.source_phantom.fwd_segment_position)
      else 0) := by
    by_cases h0 : i = 0
    · subst h0
      have hn : node = unpacked_nodes.headD 0 :=
        zip_dropLast_head unpacked_nodes unpacked_edges node edge hi
      have hnil : pathAfterEdges facade phantom_node_pair unpacked_nodes unpacked_edges 0 = [] :=
        rfl
      rw [hnil, hn]
      simp only [List.isEmpty_nil, if_true]
      exact first_start_index facade phantom_node_pair unpacked_nodes hsize hpos
    · have hne := pathAfterEdges_ne_nil facade phantom_node_pair unpacked_nodes unpacked_edges i
        (Nat.pos_of_ne_zero h0) hilt hsize hpos
      have hemp :
          (pathAfterEdges facade phantom_node_pair unpacked_nodes unpacked_edges i).isEmpty
            = false := by
        cases hp : pathAfterEdges facade phantom_node_pair unpacked_nodes unpacked_edges i with
        | nil => exact absurd hp hne
        | cons _ _ => rfl
      simp [hemp, h0]
  rw [pathAfterEdges_succ facade phantom_node_pair unpacked_nodes unpacked_edges i node edge hi,
    annotateEdge_eq, hstart]
  generalize (if i = 0 then
      (if phantom_node_pair.source_phantom.forward_segment_id ≠ unpacked_nodes.headD 0 then
        (edgeWeightVector facade node).length -
          phantom_node_pair.source_phantom.fwd_segment_position - 1
      else phantom_node_pair.source_phantom.fwd_segment_position)
    else 0) = start
  generalize pathAfterEdges facade phantom_node_pair unpacked_nodes unpacked_edges i = before
  refine ⟨?_, ?_⟩
  · rw [setTurnOnBack_length]
    simp
  · intro k hk
    have hnew : (before ++ (List.range' start ((edgeWeightVector facade node).length - start)).map
        (fun segment_idx =>
          segmentStep (edgeIdVector facade node) (edgeWeightVector facade node)
            (edgeDurationVector facade node) (edgeDatasourceVector facade node)
            (facade.GetNameIndex node) (facade.GetTravelMode node)
            (segment_idx + 1) segment_idx))[before.length + k]? =
        some (segmentStep (edgeIdVector facade node) (edgeWeightVector facade node)
            (edgeDurationVector facade node) (edgeDatasourceVector facade node)
            (facade.GetNameIndex node) (facade.GetTravelMode node)
            (start + k + 1) (start + k)) := by
      rw [List.getElem?_append_right (by omega)]
      simp only [Nat.add_sub_cancel_left, List.getElem?_map]
      rw [List.getElem?_range' _ _ hk]
      simp
    obtain ⟨y, hy, h1, h2, h3, h4⟩ := setTurnOnBack_getElem? facade
      (facade.GetEdgeDataTurnId edge) _ _ _ hnew
    refine ⟨y, hy, ?_, ?_, ?_, ?_, ?_, ?_⟩
    · rw [h1]; rfl
    · rw [h4]; rfl
    · rw [h2]; rfl
    · rw [h3]; rfl
    · intro hlt
      rw [h3]
      exact Nat.mod_eq_of_lt hlt
    · rw [setTurnOnBack_append]
      · simp
      · intro hnil
        have := congrArg List.length hnil
        simp at this
        omega

end engine

namespace engine

namespace plugins

/-- C12: `HandleRequest` returns the error `NotImplemented` exactly when the algorithm lacks
`ShortestPathSearch` and the request has more than two coordinates, or the algorithm has
neither `DirectShortestPathSearch` nor `ShortestPathSearch`; and it then returns before any
call of the coordinate check, the phantom node lookup or a search. -/
theorem handleRequest_not_implemented (base : PluginBase) (max_locations_viaroute : Int)
    (algorithms : RoutingAlgorithmsInterface) (route_parameters : RouteParameters)
    (json_result : JsonResult) :
    (((HandleRequest base max_locations_viaroute algorithms route_parameters
            json_result).status = Status.Error ∧
        (HandleRequest base max_locations_viaroute algorithms route_parameters
            json_result).json_result.code = "NotImplemented") ↔
      ((algorithms.HasShortestPathSearch = false ∧ 2 < route_parameters.coordinates.length) ∨
        (algorithms.HasDirectShortestPathSearch = false ∧
          algorithms.HasShortestPathSearch = false))) ∧
    (((algorithms.HasShortestPathSearch = false ∧ 2 < route_parameters.coordinates.length) ∨
        (algorithms.HasDirectShortestPathSearch = false ∧
          algorithms.HasShortestPathSearch = false)) →
      (HandleRequest base max_locations_viaroute algorithms route_parameters
          json_result).calls = []) := by
  unfold HandleRequest
  by_cases h1 : (!algorithms.HasShortestPathSearch &&
      decide (route_parameters.coordinates.length > 2)) = true
  · rw [if_pos h1]
    simp only [Bool.and_eq_true, Bool.not_eq_true', decide_eq_true_eq] at h1
    exact ⟨⟨fun _ => Or.inl h1, fun _ => ⟨rfl, rfl⟩⟩, fun _ => rfl⟩
  · rw [if_neg h1]
    by_cases h2 : (!algorithms.HasDirectShortestPathSearch &&
        !algorithms.HasShortestPathSearch) = true
    · rw [if_pos h2]
      simp only [Bool.and_eq_true, Bool.not_eq_true'] at h2
      exact ⟨⟨fun _ => Or.inr h2, fun _ => ⟨rfl, rfl⟩⟩, fun _ => rfl⟩
    · rw [if_neg h2]
      simp only [Bool.and_eq_true, Bool.not_eq_true', decide_eq_true_eq, gt_iff_lt] at h1 h2
      have hcond : ¬((algorithms.HasShortestPathSearch = false ∧
            2 < route_parameters.coordinates.length) ∨
          (algorithms.HasDirectShortestPathSearch = false ∧
            algorithms.HasShortestPathSearch = false)) := by
        rintro (h | h)
        · exact h1 h
        · exact h2 h
      refine ⟨⟨fun h => ?_, fun h => absurd h hcond⟩, fun h => absurd h hcond⟩
      exfalso
      revert h
      simp only []
      split_ifs <;> simp

/-- Witness of C12: an algorithm without `ShortestPathSearch` and a request with three
coordinates. -/
theorem handleRequest_not_implemented_witness :
    (HandleRequest gridBase 25
        ⟨true, false, true, fun _ => ⟨[]⟩, fun _ _ => ⟨[]⟩, fun _ => ⟨[]⟩⟩
        ⟨[⟨1, 0⟩, ⟨2, 0⟩, ⟨3, 0⟩], false, none⟩ ⟨"", ""⟩).calls = [] :=
  (handleRequest_not_implemented gridBase 25
      ⟨true, false, true, fun _ => ⟨[]⟩, fun _ _ => ⟨[]⟩, fun _ => ⟨[]⟩⟩
      ⟨[⟨1, 0⟩, ⟨2, 0⟩, ⟨3, 0⟩], false, none⟩ ⟨"", ""⟩).2 (Or.inl ⟨rfl, by decide⟩)

end plugins

end engine

namespace engine

namespace plugins

theorem any_other_component (snapped : List PhantomNode) :
    snapped.any (fun node =>
        node.component_id != (snapped.head?.map PhantomNode.component_id).getD 0) = true ↔
      ¬(∀ p ∈ snapped, ∀ q ∈ snapped, p.component_id = q.component_id) := by
  cases snapped with
  | nil => simp
  | cons x xs =>
    simp only [List.head?_cons, Option.map_some', Option.getD_some, List.any_eq_true,
      bne_iff_ne, ne_eq]
    constructor
    · rintro ⟨p, hp, hne⟩ hall
      exact hne (hall p hp x (List.mem_cons_self _ _))
    · intro hnot
      by_contra hc
      apply hnot
      intro p hp q hq
      have h1 : p.component_id = x.component_id := by
        by_contra h; exact hc ⟨p, hp, h⟩
      have h2 : q.component_id = x.component_id := by
        by_contra h; exact hc ⟨q, hq, h⟩
      rw [h1, h2]

/-- C13: when no pre-check of `HandleRequest` fires (the algorithm provides the searches
needed, the number of coordinates is within the maximum, the coordinates are valid and every
coordinate has a phantom node), the request returns `Status::Ok` exactly when the first route
returned by the search has a weight other than `INVALID_EDGE_WEIGHT`; otherwise it returns the
error `NoRoute`, with the message "Impossible route between points" exactly when the snapped
phantom nodes do not all carry the same component id and "No route found between points" when
they all carry the same id. -/
theorem handleRequest_route_or_no_route (base : PluginBase) (max_locations_viaroute : Int)
    (algorithms : RoutingAlgorithmsInterface) (route_parameters : RouteParameters)
    (json_result : JsonResult)
    (hshortest : ¬(algorithms.HasShortestPathSearch = false ∧
      2 < route_parameters.coordinates.length))
    (hdirect : ¬(algorithms.HasDirectShortestPathSearch = false ∧
      algorithms.HasShortestPathSearch = false))
    (hbig : ¬(0 < max_locations_viaroute ∧
      max_locations_viaroute < staticCastInt route_parameters.coordinates.length))
    (hcoord : base.CheckAllCoordinates route_parameters.coordinates = true)
    (hsegment : (base.GetPhantomNodes route_parameters).length =
      route_parameters.coordinates.length) :
    ((HandleRequest base max_locations_viaroute algorithms route_parameters
          json_result).status = Status.Ok ↔
      ∃ first : InternalRouteResult,
        (searchRoutes algorithms route_parameters
          (forEachPair (base.SnapPhantomNodes
            (base.GetPhantomNodes route_parameters)))).2.routes.head? = some first ∧
        first.shortest_path_weight ≠ INVALID_EDGE_WEIGHT) ∧
    ((HandleRequest base max_locations_viaroute algorithms route_parameters
          json_result).status ≠ Status.Ok →
      (HandleRequest base max_locations_viaroute algorithms route_parameters
          json_result).status = Status.Error ∧
      (HandleRequest base max_locations_viaroute algorithms route_parameters
          json_result).json_result.code = "NoRoute" ∧
      ((HandleRequest base max_locations_viaroute algorithms route_parameters
            json_result).json_result.message = "Impossible route between points" ↔
        ¬(∀ p ∈ base.SnapPhantomNodes (base.GetPhantomNodes route_parameters),
          ∀ q ∈ base.SnapPhantomNodes (base.GetPhantomNodes route_parameters),
            p.component_id = q.component_id)) ∧
      ((∀ p ∈ base.SnapPhantomNodes (base.GetPhantomNodes route_parameters),
          ∀ q ∈ base.SnapPhantomNodes (base.GetPhantomNodes route_parameters),
            p.component_id = q.component_id) →
        (HandleRequest base max_locations_viaroute algorithms route_parameters
            json_result).json_result.message = "No route found between points")) := by
  have h1 : ¬((!algorithms.HasShortestPathSearch &&
      decide (route_parameters.coordinates.length > 2)) = true) := by
    simpa using hshortest
  have h2 : ¬((!algorithms.HasDirectShortestPathSearch &&
      !algorithms.HasShortestPathSearch) = true) := by
    simpa using hdirect
  have h3 : ¬((decide (max_locations_viaroute > 0) &&
      decide (staticCastInt route_parameters.coordinates.length > max_locations_viaroute))
        = true) := by
    simpa using hbig
  have h4 : ¬((!base.CheckAllCoordinates route_parameters.coordinates) = true) := by
    simp [hcoord]
  have h5 : ¬(((base.GetPhantomNodes route_parameters).length !=
      route_parameters.coordinates.length) = true) := by
    simp [hsegment]
  have hvalid : (((searchRoutes algorithms route_parameters
        (forEachPair (base.SnapPhantomNodes
          (base.GetPhantomNodes route_parameters)))).2.routes.headD
        ⟨[], [], [], [], INVALID_EDGE_WEIGHT⟩).is_valid = true) ↔
      ∃ first : InternalRouteResult,
        (searchRoutes algorithms route_parameters
          (forEachPair (base.SnapPhantomNodes
            (base.GetPhantomNodes route_parameters)))).2.routes.head? = some first ∧
        first.shortest_path_weight ≠ INVALID_EDGE_WEIGHT := by
    cases (searchRoutes algorithms route_parameters
        (forEachPair (base.SnapPhantomNodes
          (base.GetPhantomNodes route_parameters)))).2.routes with
    | nil => simp [InternalRouteResult.is_valid]
    | cons r rest =>
      simp only [List.headD_cons, List.head?_cons, Option.some.injEq, exists_eq_left',
        InternalRouteResult.is_valid, bne_iff_ne, ne_eq]
      exact ⟨fun h hc => h hc.symm, fun h hc => h hc.symm⟩
  unfold HandleRequest
  rw [if_neg h1, if_neg h2, if_neg h3, if_neg h4]
  simp only []
  rw [if_neg h5]
  by_cases hv : ((searchRoutes algorithms route_parameters
        (forEachPair (base.SnapPhantomNodes
          (base.GetPhantomNodes route_parameters)))).2.routes.headD
        ⟨[], [], [], [], INVALID_EDGE_WEIGHT⟩).is_valid = true
  · rw [if_pos hv]
    exact ⟨⟨fun _ => hvalid.1 hv, fun _ => rfl⟩, fun h => absurd rfl h⟩
  · rw [if_neg hv]
    have hany := any_other_component (base.SnapPhantomNodes (base.GetPhantomNodes route_parameters))
    by_cases ha : (base.SnapPhantomNodes (base.GetPhantomNodes route_parameters)).any
        (fun node => node.component_id !=
          ((base.SnapPhantomNodes (base.GetPhantomNodes route_parameters)).head?.map
            PhantomNode.component_id).getD 0) = true
    · rw [if_pos ha]
      refine ⟨⟨fun h => by simp at h, fun h => absurd (hvalid.2 h) hv⟩, fun _ => ?_⟩
      exact ⟨rfl, rfl, ⟨fun _ => hany.1 ha, fun _ => rfl⟩, fun hall => absurd hall (hany.1 ha)⟩
    · rw [if_neg ha]
      refine ⟨⟨fun h => by simp at h, fun h => absurd (hvalid.2 h) hv⟩, fun _ => ?_⟩
      refine ⟨rfl, rfl, ⟨fun h => ?_, fun h => absurd (hany.2 h) ha⟩, fun _ => rfl⟩
      have h' : "No route found between points" = "Impossible route between points" := h
      exact absurd h' (by decide)

/-- Witness of C13: two coordinates in different components and a search that finds no route
give the error `NoRoute` with the message of an impossible route. -/
theorem handleRequest_route_or_no_route_witness :
    (¬((fullAlgorithms INVALID_EDGE_WEIGHT).HasShortestPathSearch = false ∧
        2 < (⟨[⟨1, 0⟩, ⟨2, 0⟩], false, none⟩ : RouteParameters).coordinates.length) ∧
      ¬((fullAlgorithms INVALID_EDGE_WEIGHT).HasDirectShortestPathSearch = false ∧
        (fullAlgorithms INVALID_EDGE_WEIGHT).HasShortestPathSearch = false) ∧
      ¬(0 < (25 : Int) ∧
        (25 : Int) < staticCastInt
          (⟨[⟨1, 0⟩, ⟨2, 0⟩], false, none⟩ : RouteParameters).coordinates.length) ∧
      gridBase.CheckAllCoordinates
        (⟨[⟨1, 0⟩, ⟨2, 0⟩], false, none⟩ : RouteParameters).coordinates = true ∧
      (gridBase.GetPhantomNodes ⟨[⟨1, 0⟩, ⟨2, 0⟩], false, none⟩).length =
        (⟨[⟨1, 0⟩, ⟨2, 0⟩], false, none⟩ : RouteParameters).coordinates.length) ∧
    ((HandleRequest gridBase 25 (fullAlgorithms INVALID_EDGE_WEIGHT)
          ⟨[⟨1, 0⟩, ⟨2, 0⟩], false, none⟩ ⟨"", ""⟩).status = Status.Ok ↔
      ∃ first : InternalRouteResult,
        (searchRoutes (fullAlgorithms INVALID_EDGE_WEIGHT) ⟨[⟨1, 0⟩, ⟨2, 0⟩], false, none⟩
          (forEachPair (gridBase.SnapPhantomNodes
            (gridBase.GetPhantomNodes ⟨[⟨1, 0⟩, ⟨2, 0⟩], false, none⟩)))).2.routes.head?
              = some first ∧
        first.shortest_path_weight ≠ INVALID_EDGE_WEIGHT) ∧
    (HandleRequest gridBase 25 (fullAlgorithms INVALID_EDGE_WEIGHT)
        ⟨[⟨1, 0⟩, ⟨2, 0⟩], false, none⟩ ⟨"", ""⟩).json_result =
      ⟨"NoRoute", "Impossible route between points"⟩ ∧
    (HandleRequest gridBase 25 (fullAlgorithms 7)
        ⟨[⟨1, 0⟩, ⟨2, 0⟩], false, none⟩ ⟨"", ""⟩).status = Status.Ok :=
  ⟨⟨by decide, by decide, by decide, by decide, by decide⟩,
    (handleRequest_route_or_no_route gridBase 25 (fullAlgorithms INVALID_EDGE_WEIGHT)
      ⟨[⟨1, 0⟩, ⟨2, 0⟩], false, none⟩ ⟨"", ""⟩ (by decide) (by decide) (by decide) (by decide)
      (by decide)).1,
    by decide, by decide⟩

end plugins

end engine

namespace storage

/-- C14: `Storage::Run` returns exactly when loading the data completes, and then the region
it loaded the data into is the region it publishes in the monitor: `REGION_1` when the region
in use read from the monitor is `REGION_2` or `REGION_NONE`, `REGION_2` when it is `REGION_1`,
hence never the region in use; and the published timestamp is the timestamp read from the
monitor plus one (in the unsigned 64-bit arithmetic of the counter, so exactly the successor
unless the counter is at its maximum). -/
theorem run_publishes_idle_region (env : RunEnvironment) (max_wait : Int) :
    ((Run env max_wait).isSome =
      env.load
        (if (env.monitor.getD ⟨SharedDataType.REGION_NONE, 0⟩).region = SharedDataType.REGION_2 ∨
            (env.monitor.getD ⟨SharedDataType.REGION_NONE, 0⟩).region =
              SharedDataType.REGION_NONE then
          SharedDataType.REGION_1
        else SharedDataType.REGION_2)) ∧
    ∀ result : RunResult, Run env max_wait = some result →
      result.exit_code = 0 ∧
      result.loaded_region = result.monitor.region ∧
      Effect.LoadInto result.monitor.region ∈ result.effects ∧
      Effect.Publish result.monitor ∈ result.effects ∧
      ((env.monitor.getD ⟨SharedDataType.REGION_NONE, 0⟩).region = SharedDataType.REGION_2 ∨
          (env.monitor.getD ⟨SharedDataType.REGION_NONE, 0⟩).region =
            SharedDataType.REGION_NONE →
        result.monitor.region = SharedDataType.REGION_1) ∧
      ((env.monitor.getD ⟨SharedDataType.REGION_NONE, 0⟩).region = SharedDataType.REGION_1 →
        result.monitor.region = SharedDataType.REGION_2) ∧
      result.monitor.region ≠ (env.monitor.getD ⟨SharedDataType.REGION_NONE, 0⟩).region ∧
      result.monitor.timestamp =
        ((env.monitor.getD ⟨SharedDataType.REGION_NONE, 0⟩).timestamp + 1) % 2 ^ 64 ∧
      ((env.monitor.getD ⟨SharedDataType.REGION_NONE, 0⟩).timestamp + 1 < 2 ^ 64 →
        result.monitor.timestamp =
          (env.monitor.getD ⟨SharedDataType.REGION_NONE, 0⟩).timestamp + 1) := by
  generalize hm : env.monitor.getD ⟨SharedDataType.REGION_NONE, 0⟩ = monitor
  obtain ⟨region, timestamp⟩ := monitor
  unfold Run
  simp only [hm]
  constructor
  · cases hl : env.load
        (if region = SharedDataType.REGION_2 ∨ region = SharedDataType.REGION_NONE then
          SharedDataType.REGION_1
        else SharedDataType.REGION_2) <;> simp
  · intro result hres
    cases hl : env.load
        (if region = SharedDataType.REGION_2 ∨ region = SharedDataType.REGION_NONE then
          SharedDataType.REGION_1
        else SharedDataType.REGION_2) with
    | false => simp [hl] at hres
    | true =>
      simp only [hl, Bool.not_true, Bool.false_eq_true, if_false, Option.some.injEq] at hres
      subst hres
      refine ⟨rfl, rfl, by simp, by simp, ?_, ?_, ?_, rfl, fun h => Nat.mod_eq_of_lt h⟩
      · intro h; simp [h]
      · intro h; simp [h]
      · cases region <;> simp

/-- Witness of C14: with `REGION_1` in use at timestamp 41 the data goes into `REGION_2`, which
is published with timestamp 42. -/
theorem run_publishes_idle_region_witness :
    Run ⟨some ⟨SharedDataType.REGION_1, 41⟩, fun _ => true, fun _ => true, true⟩ 10 =
        some ⟨0, SharedDataType.REGION_2, ⟨SharedDataType.REGION_2, 42⟩,
          [Effect.RemoveRegion SharedDataType.REGION_2, Effect.LoadInto SharedDataType.REGION_2,
            Effect.Publish ⟨SharedDataType.REGION_2, 42⟩, Effect.NotifyAll,
            Effect.RemoveRegion SharedDataType.REGION_1,
            Effect.WaitForDetach SharedDataType.REGION_1]⟩ ∧
      (⟨SharedDataType.REGION_2, 42⟩ : SharedDataTimestamp).timestamp = 41 + 1 :=
  ⟨by decide,
    ((run_publishes_idle_region
      ⟨some ⟨SharedDataType.REGION_1, 41⟩, fun _ => true, fun _ => true, true⟩ 10).2
      ⟨0, SharedDataType.REGION_2, ⟨SharedDataType.REGION_2, 42⟩,
          [Effect.RemoveRegion SharedDataType.REGION_2, Effect.LoadInto SharedDataType.REGION_2,
            Effect.Publish ⟨SharedDataType.REGION_2, 42⟩, Effect.NotifyAll,
            Effect.RemoveRegion SharedDataType.REGION_1,
            Effect.WaitForDetach SharedDataType.REGION_1]⟩ (by decide)).2.2.2.2.2.2.2.2
      (by decide)⟩

end storage

namespace storage

theorem setBlock_num_entries (T : ElementType) (bid : BlockID) (n : Nat) (st : LayoutState)
    (b : BlockID) :
    (setBlock T bid n st).layout.num_entries b =
      if b = bid then n else st.layout.num_entries b := rfl

theorem openReader_spec {Content Reader : Type} (fs : FileSystem Content Reader) (path : String)
    (st : LayoutState) (r : Reader) (st' : LayoutState)
    (h : openReader fs path st = some (r, st')) :
    st' = ⟨st.layout, st.opened ++ [path]⟩ ∧ fs.file_exists path = true := by
  unfold openReader at h
  cases hf : fs.files path with
  | none => simp [hf] at h
  | some content =>
    simp only [hf] at h
    cases hv : fs.VerifyFingerprint content with
    | none => simp [hv] at h
    | some reader =>
      simp only [hv, Option.some.injEq, Prod.mk.injEq] at h
      exact ⟨h.2.symm, by simp [FileSystem.file_exists, hf]⟩

theorem allExist_open {Content Reader : Type} (fs : FileSystem Content Reader) (path : String)
    (st : LayoutState) (hex : fs.file_exists path = true) (h : AllExist fs st) :
    AllExist fs ⟨st.layout, st.opened ++ [path]⟩ := by
  intro p hp
  simp only [List.mem_append, List.mem_singleton] at hp
  rcases hp with hp | hp
  · exact h p hp
  · rw [hp]; exact hex

theorem allExist_setBlock {Content Reader : Type} (fs : FileSystem Content Reader)
    (T : ElementType) (bid : BlockID) (n : Nat) (st : LayoutState) :
    AllExist fs (setBlock T bid n st) ↔ AllExist fs st := Iff.rfl

theorem layoutFileIndexPath_frame {Content Reader : Type} (fs : FileSystem Content Reader)
    (config : StorageConfig) : FrameOf fs (blockIds 0) (layoutFileIndexPath fs config) := by
  intro st st' h
  unfold layoutFileIndexPath at h
  simp only [Option.some.injEq] at h
  subst h
  refine ⟨fun ha => ha, fun b hb => ?_⟩
  simp only [blockIds, List.mem_cons, List.mem_singleton, List.not_mem_nil, or_false,
    not_or] at hb
  simp [setBlock_num_entries, hb]

theorem layoutNames_frame {Content Reader : Type} (fs : FileSystem Content Reader)
    (config : StorageConfig) : FrameOf fs (blockIds 1) (layoutNames fs config) := by
  intro st st' h
  unfold layoutNames at h
  simp only [Option.bind_eq_bind, Option.bind_eq_some, Prod.exists, Option.some.injEq] at h
  obtain ⟨r, st1, ho, h⟩ := h
  obtain ⟨rfl, hex⟩ := openReader_spec fs _ _ _ _ ho
  try casesm* ∃ _, _, _ ∧ _
  subst_vars
  refine ⟨fun ha => ?_, fun b hb => ?_⟩
  · simp only [allExist_setBlock]
    exact allExist_open fs _ _ hex ha
  · simp only [blockIds, List.mem_cons, List.mem_singleton, List.not_mem_nil, or_false,
      not_or] at hb
    simp [setBlock_num_entries, hb]

theorem layoutLaneDescriptions_frame {Content Reader : Type} (fs : FileSystem Content Reader)
    (config : StorageConfig) : FrameOf fs (blockIds 2) (layoutLaneDescriptions fs config) := by
  intro st st' h
  unfold layoutLaneDescriptions at h
  simp only [Option.bind_eq_bind, Option.bind_eq_some, Prod.exists, Option.some.injEq] at h
  obtain ⟨r, st1, ho, h⟩ := h
  obtain ⟨rfl, hex⟩ := openReader_spec fs _ _ _ _ ho
  try casesm* ∃ _, _, _ ∧ _
  subst_vars
  refine ⟨fun ha => ?_, fun b hb => ?_⟩
  · simp only [allExist_setBlock]
    exact allExist_open fs _ _ hex ha
  · simp only [blockIds, List.mem_cons, List.mem_singleton, List.not_mem_nil, or_false,
      not_or] at hb
    simp [setBlock_num_entries, hb]

theorem layoutOriginalEdges_frame {Content Reader : Type} (fs : FileSystem Content Reader)
    (config : StorageConfig) : FrameOf fs (blockIds 3) (layoutOriginalEdges fs config) := by
  intro st st' h
  unfold layoutOriginalEdges at h
  simp only [Option.bind_eq_bind, Option.bind_eq_some, Prod.exists, Option.some.injEq] at h
  obtain ⟨r, st1, ho, h⟩ := h
  obtain ⟨rfl, hex⟩ := openReader_spec fs _ _ _ _ ho
  try casesm* ∃ _, _, _ ∧ _
  subst_vars
  refine ⟨fun ha => ?_, fun b hb => ?_⟩
  · simp only [allExist_setBlock]
    exact allExist_open fs _ _ hex ha
  · simp only [blockIds, List.mem_cons, List.mem_singleton, List.not_mem_nil, or_false,
      not_or] at hb
    simp [setBlock_num_entries, hb]

theorem layoutNodeData_frame {Content Reader : Type} (fs : FileSystem Content Reader)
    (config : StorageConfig) : FrameOf fs (blockIds 4) (layoutNodeData fs config) := by
  intro st st' h
  unfold layoutNodeData at h
  simp only [Option.bind_eq_bind, Option.bind_eq_some, Prod.exists, Option.some.injEq] at h
  obtain ⟨r, st1, ho, h⟩ := h
  obtain ⟨rfl, hex⟩ := openReader_spec fs _ _ _ _ ho
  try casesm* ∃ _, _, _ ∧ _
  subst_vars
  refine ⟨fun ha => ?_, fun b hb => ?_⟩
  · simp only [allExist_setBlock]
    exact allExist_open fs _ _ hex ha
  · simp only [blockIds, List.mem_cons, List.mem_singleton, List.not_mem_nil, or_false,
      not_or] at hb
    simp [setBlock_num_entries, hb]

theorem layoutHsgr_frame {Content Reader : Type} (fs : FileSystem Content Reader)
    (config : StorageConfig) : FrameOf fs (blockIds 5) (layoutHsgr fs config) := by
  intro st st' h
  unfold layoutHsgr at h
  by_cases hf : fs.file_exists config.hsgr_data_path = true
  · rw [if_pos hf] at h
    simp only [Option.bind_eq_bind, Option.bind_eq_some, Prod.exists, Option.some.injEq] at h
    obtain ⟨r, st1, ho, h⟩ := h
    obtain ⟨rfl, hex⟩ := openReader_spec fs _ _ _ _ ho
    try casesm* ∃ _, _, _ ∧ _
    subst_vars
    refine ⟨fun ha => ?_, fun b hb => ?_⟩
    · simp only [allExist_setBlock]
      exact allExist_open fs _ _ hex ha
    · simp only [blockIds, List.mem_cons, List.mem_singleton, List.not_mem_nil, or_false,
        not_or] at hb
      simp [setBlock_num_entries, hb]
  · rw [if_neg hf] at h
    simp only [Option.some.injEq] at h
    subst h
    refine ⟨fun ha => ha, fun b hb => ?_⟩
    simp only [blockIds, List.mem_cons, List.mem_singleton, List.not_mem_nil, or_false,
      not_or] at hb
    simp [setBlock_num_entries, hb]

theorem layoutSearchTree_frame {Content Reader : Type} (fs : FileSystem Content Reader)
    (config : StorageConfig) : FrameOf fs (blockIds 6) (layoutSearchTree fs config) := by
  intro st st' h
  unfold layoutSearchTree at h
  simp only [Option.bind_eq_bind, Option.bind_eq_some, Prod.exists, Option.some.injEq] at h
  obtain ⟨r, st1, ho, h⟩ := h
  obtain ⟨rfl, hex⟩ := openReader_spec fs _ _ _ _ ho
  try casesm* ∃ _, _, _ ∧ _
  subst_vars
  refine ⟨fun ha => ?_, fun b hb => ?_⟩
  · simp only [allExist_setBlock]
    exact allExist_open fs _ _ hex ha
  · simp only [blockIds, List.mem_cons, List.mem_singleton, List.not_mem_nil, or_false,
      not_or] at hb
    simp [setBlock_num_entries, hb]

theorem layoutProperties_frame {Content Reader : Type} (fs : FileSystem Content Reader) : FrameOf fs (blockIds 7) (layoutProperties) := by
  intro st st' h
  unfold layoutProperties at h
  simp only [Option.some.injEq] at h
  subst h
  refine ⟨fun ha => ha, fun b hb => ?_⟩
  simp only [blockIds, List.mem_cons, List.mem_singleton, List.not_mem_nil, or_false,
    not_or] at hb
  simp [setBlock_num_entries, hb]

theorem layoutTimestamp_frame {Content Reader : Type} (fs : FileSystem Content Reader)
    (config : StorageConfig) : FrameOf fs (blockIds 8) (layoutTimestamp fs config) := by
  intro st st' h
  unfold layoutTimestamp at h
  simp only [Option.bind_eq_bind, Option.bind_eq_some, Prod.exists, Option.some.injEq] at h
  obtain ⟨r, st1, ho, h⟩ := h
  obtain ⟨rfl, hex⟩ := openReader_spec fs _ _ _ _ ho
  try casesm* ∃ _, _, _ ∧ _
  subst_vars
  refine ⟨fun ha => ?_, fun b hb => ?_⟩
  · simp only [allExist_setBlock]
    exact allExist_open fs _ _ hex ha
  · simp only [blockIds, List.mem_cons, List.mem_singleton, List.not_mem_nil, or_false,
      not_or] at hb
    simp [setBlock_num_entries, hb]

theorem layoutCoreMarker_frame {Content Reader : Type} (fs : FileSystem Content Reader)
    (config : StorageConfig) : FrameOf fs (blockIds 9) (layoutCoreMarker fs config) := by
  intro st st' h
  unfold layoutCoreMarker at h
  by_cases hf : fs.file_exists config.core_data_path = true
  · rw [if_pos hf] at h
    simp only [Option.bind_eq_bind, Option.bind_eq_some, Prod.exists, Option.some.injEq] at h
    obtain ⟨r, st1, ho, h⟩ := h
    obtain ⟨rfl, hex⟩ := openReader_spec fs _ _ _ _ ho
    try casesm* ∃ _, _, _ ∧ _
    subst_vars
    refine ⟨fun ha => ?_, fun b hb => ?_⟩
    · simp only [allExist_setBlock]
      exact allExist_open fs _ _ hex ha
    · simp only [blockIds, List.mem_cons, List.mem_singleton, List.not_mem_nil, or_false,
        not_or] at hb
      simp [setBlock_num_entries, hb]
  · rw [if_neg hf] at h
    simp only [Option.some.injEq] at h
    subst h
    refine ⟨fun ha => ha, fun b hb => ?_⟩
    simp only [blockIds, List.mem_cons, List.mem_singleton, List.not_mem_nil, or_false,
      not_or] at hb
    simp [setBlock_num_entries, hb]

theorem layoutTurnWeightPenalties_frame {Content Reader : Type} (fs : FileSystem Content Reader)
    (config : StorageConfig) : FrameOf fs (blockIds 10) (layoutTurnWeightPenalties fs config) := by
  intro st st' h
  unfold layoutTurnWeightPenalties at h
  simp only [Option.bind_eq_bind, Option.bind_eq_some, Prod.exists, Option.some.injEq] at h
  obtain ⟨r, st1, ho, h⟩ := h
  obtain ⟨rfl, hex⟩ := openReader_spec fs _ _ _ _ ho
  try casesm* ∃ _, _, _ ∧ _
  subst_vars
  refine ⟨fun ha => ?_, fun b hb => ?_⟩
  · simp only [allExist_setBlock]
    exact allExist_open fs _ _ hex ha
  · simp only [blockIds, List.mem_cons, List.mem_singleton, List.not_mem_nil, or_false,
      not_or] at hb
    simp [setBlock_num_entries, hb]

theorem layoutTurnDurationPenalties_frame {Content Reader : Type} (fs : FileSystem Content Reader)
    (config : StorageConfig) : FrameOf fs (blockIds 11) (layoutTurnDurationPenalties fs config) := by
  intro st st' h
  unfold layoutTurnDurationPenalties at h
  simp only [Option.bind_eq_bind, Option.bind_eq_some, Prod.exists, Option.some.injEq] at h
  obtain ⟨r, st1, ho, h⟩ := h
  obtain ⟨rfl, hex⟩ := openReader_spec fs _ _ _ _ ho
  try casesm* ∃ _, _, _ ∧ _
  subst_vars
  refine ⟨fun ha => ?_, fun b hb => ?_⟩
  · simp only [allExist_setBlock]
    exact allExist_open fs _ _ hex ha
  · simp only [blockIds, List.mem_cons, List.mem_singleton, List.not_mem_nil, or_false,
      not_or] at hb
    simp [setBlock_num_entries, hb]

theorem layoutCoordinates_frame {Content Reader : Type} (fs : FileSystem Content Reader)
    (config : StorageConfig) : FrameOf fs (blockIds 12) (layoutCoordinates fs config) := by
  intro st st' h
  unfold layoutCoordinates at h
  simp only [Option.bind_eq_bind, Option.bind_eq_some, Prod.exists, Option.some.injEq] at h
  obtain ⟨r, st1, ho, h⟩ := h
  obtain ⟨rfl, hex⟩ := openReader_spec fs _ _ _ _ ho
  try casesm* ∃ _, _, _ ∧ _
  subst_vars
  refine ⟨fun ha => ?_, fun b hb => ?_⟩
  · simp only [allExist_setBlock]
    exact allExist_open fs _ _ hex ha
  · simp only [blockIds, List.mem_cons, List.mem_singleton, List.not_mem_nil, or_false,
      not_or] at hb
    simp [setBlock_num_entries, hb]

theorem layoutGeometries_frame {Content Reader : Type} (fs : FileSystem Content Reader)
    (config : StorageConfig) : FrameOf fs (blockIds 13) (layoutGeometries fs config) := by
  intro st st' h
  unfold layoutGeometries at h
  simp only [Option.bind_eq_bind, Option.bind_eq_some, Prod.exists, Option.some.injEq] at h
  obtain ⟨r, st1, ho, h⟩ := h
  obtain ⟨rfl, hex⟩ := openReader_spec fs _ _ _ _ ho
  try casesm* ∃ _, _, _ ∧ _
  subst_vars
  refine ⟨fun ha => ?_, fun b hb => ?_⟩
  · simp only [allExist_setBlock]
    exact allExist_open fs _ _ hex ha
  · simp only [blockIds, List.mem_cons, List.mem_singleton, List.not_mem_nil, or_false,
      not_or] at hb
    simp [setBlock_num_entries, hb]

theorem layoutDatasourceNames_frame {Content Reader : Type} (fs : FileSystem Content Reader) : FrameOf fs (blockIds 14) (layoutDatasourceNames) := by
  intro st st' h
  unfold layoutDatasourceNames at h
  simp only [Option.some.injEq] at h
  subst h
  refine ⟨fun ha => ha, fun b hb => ?_⟩
  simp only [blockIds, List.mem_cons, List.mem_singleton, List.not_mem_nil, or_false,
    not_or] at hb
  simp [setBlock_num_entries, hb]

theorem layoutIntersectionClasses_frame {Content Reader : Type} (fs : FileSystem Content Reader)
    (config : StorageConfig) : FrameOf fs (blockIds 15) (layoutIntersectionClasses fs config) := by
  intro st st' h
  unfold layoutIntersectionClasses at h
  simp only [Option.bind_eq_bind, Option.bind_eq_some, Prod.exists, Option.some.injEq] at h
  obtain ⟨r, st1, ho, h⟩ := h
  obtain ⟨rfl, hex⟩ := openReader_spec fs _ _ _ _ ho
  try casesm* ∃ _, _, _ ∧ _
  subst_vars
  refine ⟨fun ha => ?_, fun b hb => ?_⟩
  · simp only [allExist_setBlock]
    exact allExist_open fs _ _ hex ha
  · simp only [blockIds, List.mem_cons, List.mem_singleton, List.not_mem_nil, or_false,
      not_or] at hb
    simp [setBlock_num_entries, hb]

theorem layoutTurnLaneData_frame {Content Reader : Type} (fs : FileSystem Content Reader)
    (config : StorageConfig) : FrameOf fs (blockIds 16) (layoutTurnLaneData fs config) := by
  intro st st' h
  unfold layoutTurnLaneData at h
  simp only [Option.bind_eq_bind, Option.bind_eq_some, Prod.exists, Option.some.injEq] at h
  obtain ⟨r, st1, ho, h⟩ := h
  obtain ⟨rfl, hex⟩ := openReader_spec fs _ _ _ _ ho
  try casesm* ∃ _, _, _ ∧ _
  subst_vars
  refine ⟨fun ha => ?_, fun b hb => ?_⟩
  · simp only [allExist_setBlock]
    exact allExist_open fs _ _ hex ha
  · simp only [blockIds, List.mem_cons, List.mem_singleton, List.not_mem_nil, or_false,
      not_or] at hb
    simp [setBlock_num_entries, hb]

theorem layoutPartition_frame {Content Reader : Type} (fs : FileSystem Content Reader)
    (config : StorageConfig) : FrameOf fs (blockIds 17) (layoutPartition fs config) := by
  intro st st' h
  unfold layoutPartition at h
  by_cases hf : fs.file_exists config.mld_partition_path = true
  · rw [if_pos hf] at h
    simp only [Option.bind_eq_bind, Option.bind_eq_some, Prod.exists, Option.some.injEq] at h
    obtain ⟨r, st1, ho, h⟩ := h
    obtain ⟨rfl, hex⟩ := openReader_spec fs _ _ _ _ ho
    try casesm* ∃ _, _, _ ∧ _
    subst_vars
    refine ⟨fun ha => ?_, fun b hb => ?_⟩
    · simp only [allExist_setBlock]
      exact allExist_open fs _ _ hex ha
    · simp only [blockIds, List.mem_cons, List.mem_singleton, List.not_mem_nil, or_false,
        not_or] at hb
      simp [setBlock_num_entries, hb]
  · rw [if_neg hf] at h
    simp only [Option.some.injEq] at h
    subst h
    refine ⟨fun ha => ha, fun b hb => ?_⟩
    simp only [blockIds, List.mem_cons, List.mem_singleton, List.not_mem_nil, or_false,
      not_or] at hb
    simp [setBlock_num_entries, hb]

theorem layoutCells_frame {Content Reader : Type} (fs : FileSystem Content Reader)
    (config : StorageConfig) : FrameOf fs (blockIds 18) (layoutCells fs config) := by
  intro st st' h
  unfold layoutCells at h
  by_cases hf : fs.file_exists config.mld_storage_path = true
  · rw [if_pos hf] at h
    simp only [Option.bind_eq_bind, Option.bind_eq_some, Prod.exists, Option.some.injEq] at h
    obtain ⟨r, st1, ho, h⟩ := h
    obtain ⟨rfl, hex⟩ := openReader_spec fs _ _ _ _ ho
    try casesm* ∃ _, _, _ ∧ _
    subst_vars
    refine ⟨fun ha => ?_, fun b hb => ?_⟩
    · simp only [allExist_setBlock]
      exact allExist_open fs _ _ hex ha
    · simp only [blockIds, List.mem_cons, List.mem_singleton, List.not_mem_nil, or_false,
        not_or] at hb
      simp [setBlock_num_entries, hb]
  · rw [if_neg hf] at h
    simp only [Option.some.injEq] at h
    subst h
    refine ⟨fun ha => ha, fun b hb => ?_⟩
    simp only [blockIds, List.mem_cons, List.mem_singleton, List.not_mem_nil, or_false,
      not_or] at hb
    simp [setBlock_num_entries, hb]

theorem layoutMultiLevelGraph_frame {Content Reader : Type} (fs : FileSystem Content Reader)
    (config : StorageConfig) : FrameOf fs (blockIds 19) (layoutMultiLevelGraph fs config) := by
  intro st st' h
  unfold layoutMultiLevelGraph at h
  by_cases hf : fs.file_exists config.mld_graph_path = true
  · rw [if_pos hf] at h
    simp only [Option.bind_eq_bind, Option.bind_eq_some, Prod.exists, Option.some.injEq] at h
    obtain ⟨r, st1, ho, h⟩ := h
    obtain ⟨rfl, hex⟩ := openReader_spec fs _ _ _ _ ho
    try casesm* ∃ _, _, _ ∧ _
    subst_vars
    refine ⟨fun ha => ?_, fun b hb => ?_⟩
    · simp only [allExist_setBlock]
      exact allExist_open fs _ _ hex ha
    · simp only [blockIds, List.mem_cons, List.mem_singleton, List.not_mem_nil, or_false,
        not_or] at hb
      simp [setBlock_num_entries, hb]
  · rw [if_neg hf] at h
    simp only [Option.some.injEq] at h
    subst h
    refine ⟨fun ha => ha, fun b hb => ?_⟩
    simp only [blockIds, List.mem_cons, List.mem_singleton, List.not_mem_nil, or_false,
      not_or] at hb
    simp [setBlock_num_entries, hb]

theorem layoutBlocks_length {Content Reader : Type} (fs : FileSystem Content Reader)
    (config : StorageConfig) : (layoutBlocks fs config).length = 20 := rfl

/-- Every block of `PopulateLayout` opens only existing files and sets only its own ids. -/
theorem layoutBlocks_frame {Content Reader : Type} (fs : FileSystem Content Reader)
    (config : StorageConfig) (i : Nat) (block : LayoutState → Option LayoutState)
    (h : (layoutBlocks fs config)[i]? = some block) : FrameOf fs (blockIds i) block := by
  have hi : i < 20 := by
    have := (List.getElem?_eq_some.1 h).1
    rwa [layoutBlocks_length] at this
  interval_cases i <;> simp only [layoutBlocks, List.getElem?_cons_zero, List.getElem?_cons_succ,
    Option.some.injEq] at h <;> subst h
  · exact layoutFileIndexPath_frame fs config
  · exact layoutNames_frame fs config
  · exact layoutLaneDescriptions_frame fs config
  · exact layoutOriginalEdges_frame fs config
  · exact layoutNodeData_frame fs config
  · exact layoutHsgr_frame fs config
  · exact layoutSearchTree_frame fs config
  · exact layoutProperties_frame fs
  · exact layoutTimestamp_frame fs config
  · exact layoutCoreMarker_frame fs config
  · exact layoutTurnWeightPenalties_frame fs config
  · exact layoutTurnDurationPenalties_frame fs config
  · exact layoutCoordinates_frame fs config
  · exact layoutGeometries_frame fs config
  · exact layoutDatasourceNames_frame fs
  · exact layoutIntersectionClasses_frame fs config
  · exact layoutTurnLaneData_frame fs config
  · exact layoutPartition_frame fs config
  · exact layoutCells_frame fs config
  · exact layoutMultiLevelGraph_frame fs config

theorem runBlocks_cons (block : LayoutState → Option LayoutState)
    (rest : List (LayoutState → Option LayoutState)) (st st' : LayoutState) :
    runBlocks (block :: rest) st = some st' ↔
      ∃ st1, block st = some st1 ∧ runBlocks rest st1 = some st' := by
  show (match block st with
    | none => none
    | some st1 => runBlocks rest st1) = some st' ↔ _
  cases h : block st with
  | none => simp
  | some st1 => simp

/-- A completed run passes through the state before and after each of its blocks. -/
theorem runBlocks_split (l : List (LayoutState → Option LayoutState)) (k : Nat)
    (block : LayoutState → Option LayoutState) (hk : l[k]? = some block)
    (st st' : LayoutState) (h : runBlocks l st = some st') :
    ∃ st1 st2, runBlocks (l.take k) st = some st1 ∧ block st1 = some st2 ∧
      runBlocks (l.drop (k + 1)) st2 = some st' := by
  induction l generalizing k st with
  | nil => simp at hk
  | cons b rest ih =>
    obtain ⟨s1, hb, hrest⟩ := (runBlocks_cons b rest st st').1 h
    cases k with
    | zero =>
      simp only [List.getElem?_cons_zero, Option.some.injEq] at hk
      subst hk
      exact ⟨st, s1, rfl, hb, by simpa using hrest⟩
    | succ k =>
      simp only [List.getElem?_cons_succ] at hk
      obtain ⟨st1, st2, h1, h2, h3⟩ := ih k hk s1 hrest
      refine ⟨st1, st2, ?_, h2, by simpa using h3⟩
      rw [List.take_succ_cons]
      exact (runBlocks_cons b _ st st1).2 ⟨s1, hb, h1⟩

/-- Blocks framed by `ids` keep the files opened existing, and keep the number of entries of
a block id none of them sets. -/
theorem runBlocks_frame {Content Reader : Type} (fs : FileSystem Content Reader)
    (l : List (LayoutState → Option LayoutState)) (ids : Nat → List BlockID) (k : Nat)
    (hl : ∀ i block, l[i]? = some block → FrameOf fs (ids (k + i)) block)
    (st st' : LayoutState) (h : runBlocks l st = some st') :
    (AllExist fs st → AllExist fs st') ∧
      ∀ b : BlockID, (∀ i, i < l.length → b ∉ ids (k + i)) →
        st'.layout.num_entries b = st.layout.num_entries b := by
  induction l generalizing k st with
  | nil =>
    simp only [runBlocks, Option.some.injEq] at h
    subst h
    exact ⟨fun ha => ha, fun _ _ => rfl⟩
  | cons b rest ih =>
    obtain ⟨s1, hb, hrest⟩ := (runBlocks_cons b rest st st').1 h
    have hf := hl 0 b (by simp) st s1 hb
    have hr := ih (k + 1) (fun i block hi => by
      have := hl (i + 1) block (by simpa using hi)
      rwa [show k + (i + 1) = k + 1 + i by omega] at this) s1 hrest
    refine ⟨fun ha => hr.1 (hf.1 ha), fun c hc => ?_⟩
    rw [hr.2 c (fun i hi => by
      have := hc (i + 1) (by simpa using hi)
      rwa [show k + (i + 1) = k + 1 + i by omega] at this)]
    exact hf.2 c (by simpa using hc 0 (by simp))

theorem populateLayout_allExist {Content Reader : Type} (fs : FileSystem Content Reader)
    (config : StorageConfig) (layout : DataLayout) (st : LayoutState)
    (h : PopulateLayout fs config layout = some st) : AllExist fs st := by
  refine (runBlocks_frame fs (layoutBlocks fs config) blockIds 0 (fun i block hi => ?_)
    ⟨layout, []⟩ st h).1 (fun p hp => by simp at hp)
  rw [Nat.zero_add]
  exact layoutBlocks_frame fs config i block hi

/-- What the block number `k` of `PopulateLayout` sets stays as that block left it. -/
theorem populateLayout_after {Content Reader : Type} (fs : FileSystem Content Reader)
    (config : StorageConfig) (layout : DataLayout) (st : LayoutState)
    (h : PopulateLayout fs config layout = some st) (k : Nat)
    (block : LayoutState → Option LayoutState)
    (hk : (layoutBlocks fs config)[k]? = some block) (b : BlockID)
    (hb : ∀ i, i < 20 → k + 1 ≤ i → b ∉ blockIds i) :
    ∃ st1 st2, block st1 = some st2 ∧
      st.layout.num_entries b = st2.layout.num_entries b := by
  obtain ⟨st1, st2, _, h2, h3⟩ := runBlocks_split (layoutBlocks fs config) k block hk _ _ h
  refine ⟨st1, st2, h2, ?_⟩
  have hk20 : k < 20 := by
    have := (List.getElem?_eq_some.1 hk).1
    rwa [layoutBlocks_length] at this
  refine (runBlocks_frame fs ((layoutBlocks fs config).drop (k + 1)) blockIds (k + 1)
    (fun i blk hi => ?_) st2 st h3).2 b (fun i hi => ?_)
  · rw [List.getElem?_drop] at hi
    exact layoutBlocks_frame fs config _ blk hi
  · rw [List.length_drop, layoutBlocks_length] at hi
    exact hb (k + 1 + i) (by omega) (by omega)

/-- In a run of `Storage::PopulateLayout` that completes, a missing `.core` file leaves
the block of the core markers with zero entries, a missing `.hsgr` file leaves the checksum,
node and edge blocks of the contraction hierarchy with zero entries, and a missing
`.partition`, `.cells` or `.mldgr` file leaves each of the MLD blocks filled from it with zero
entries; in each case the missing file is not among the files opened. -/
theorem populateLayout_completed_run {Content Reader : Type}
    (fs : FileSystem Content Reader) (config : StorageConfig) (layout : DataLayout)
    (st : LayoutState) (h : PopulateLayout fs config layout = some st) :
    (fs.file_exists config.core_data_path = false →
      st.layout.num_entries BlockID.CH_CORE_MARKER = 0 ∧
      config.core_data_path ∉ st.opened) ∧
    (fs.file_exists config.hsgr_data_path = false →
      st.layout.num_entries BlockID.HSGR_CHECKSUM = 0 ∧
      st.layout.num_entries BlockID.CH_GRAPH_NODE_LIST = 0 ∧
      st.layout.num_entries BlockID.CH_GRAPH_EDGE_LIST = 0 ∧
      config.hsgr_data_path ∉ st.opened) ∧
    (fs.file_exists config.mld_partition_path = false →
      st.layout.num_entries BlockID.MLD_LEVEL_DATA = 0 ∧
      st.layout.num_entries BlockID.MLD_PARTITION = 0 ∧
      st.layout.num_entries BlockID.MLD_CELL_TO_CHILDREN = 0 ∧
      config.mld_partition_path ∉ st.opened) ∧
    (fs.file_exists config.mld_storage_path = false →
      st.layout.num_entries BlockID.MLD_CELL_WEIGHTS = 0 ∧
      st.layout.num_entries BlockID.MLD_CELL_DURATIONS = 0 ∧
      st.layout.num_entries BlockID.MLD_CELL_SOURCE_BOUNDARY = 0 ∧
      st.layout.num_entries BlockID.MLD_CELL_DESTINATION_BOUNDARY = 0 ∧
      st.layout.num_entries BlockID.MLD_CELLS = 0 ∧
      st.layout.num_entries BlockID.MLD_CELL_LEVEL_OFFSETS = 0 ∧
      config.mld_storage_path ∉ st.opened) ∧
    (fs.file_exists config.mld_graph_path = false →
      st.layout.num_entries BlockID.MLD_GRAPH_NODE_LIST = 0 ∧
      st.layout.num_entries BlockID.MLD_GRAPH_EDGE_LIST = 0 ∧
      st.layout.num_entries BlockID.MLD_GRAPH_NODE_TO_OFFSET = 0 ∧
      config.mld_graph_path ∉ st.opened) := by
  have hall := populateLayout_allExist fs config layout st h
  refine ⟨?_, ?_, ?_, ?_, ?_⟩
  · intro hmiss
    refine ⟨?_, ?_⟩
    · obtain ⟨st1, st2, h2, h3⟩ := populateLayout_after fs config layout st h 9
        (layoutCoreMarker fs config) rfl BlockID.CH_CORE_MARKER (by decide)
      rw [h3]
      simp only [layoutCoreMarker, hmiss, Bool.false_eq_true, if_false, Option.some.injEq] at h2
      subst h2
      simp [setBlock_num_entries]
    · intro hin
      have := hall _ hin
      rw [hmiss] at this
      exact Bool.noConfusion this
  · intro hmiss
    refine ⟨?_, ?_, ?_, ?_⟩
    · obtain ⟨st1, st2, h2, h3⟩ := populateLayout_after fs config layout st h 5
        (layoutHsgr fs config) rfl BlockID.HSGR_CHECKSUM (by decide)
      rw [h3]
      simp only [layoutHsgr, hmiss, Bool.false_eq_true, if_false, Option.some.injEq] at h2
      subst h2
      simp [setBlock_num_entries]
    · obtain ⟨st1, st2, h2, h3⟩ := populateLayout_after fs config layout st h 5
        (layoutHsgr fs config) rfl BlockID.CH_GRAPH_NODE_LIST (by decide)
      rw [h3]
      simp only [layoutHsgr, hmiss, Bool.false_eq_true, if_false, Option.some.injEq] at h2
      subst h2
      simp [setBlock_num_entries]
    · obtain ⟨st1, st2, h2, h3⟩ := populateLayout_after fs config layout st h 5
        (layoutHsgr fs config) rfl BlockID.CH_GRAPH_EDGE_LIST (by decide)
      rw [h3]
      simp only [layoutHsgr, hmiss, Bool.false_eq_true, if_false, Option.some.injEq] at h2
      subst h2
      simp [setBlock_num_entries]
    · intro hin
      have := hall _ hin
      rw [hmiss] at this
      exact Bool.noConfusion this
  · intro hmiss
    refine ⟨?_, ?_, ?_, ?_⟩
    · obtain ⟨st1, st2, h2, h3⟩ := populateLayout_after fs config layout st h 17
        (layoutPartition fs config) rfl BlockID.MLD_LEVEL_DATA (by decide)
      rw [h3]
      simp only [layoutPartition, hmiss, Bool.false_eq_true, if_false, Option.some.injEq] at h2
      subst h2
      simp [setBlock_num_entries]
    · obtain ⟨st1, st2, h2, h3⟩ := populateLayout_after fs config layout st h 17
        (layoutPartition fs config) rfl BlockID.MLD_PARTITION (by decide)
      rw [h3]
      simp only [layoutPartition, hmiss, Bool.false_eq_true, if_false, Option.some.injEq] at h2
      subst h2
      simp [setBlock_num_entries]
    · obtain ⟨st1, st2, h2, h3⟩ := populateLayout_after fs config layout st h 17
        (layoutPartition fs config) rfl BlockID.MLD_CELL_TO_CHILDREN (by decide)
      rw [h3]
      simp only [layoutPartition, hmiss, Bool.false_eq_true, if_false, Option.some.injEq] at h2
      subst h2
      simp [setBlock_num_entries]
    · intro hin
      have := hall _ hin
      rw [hmiss] at this
      exact Bool.noConfusion this
  · intro hmiss
    refine ⟨?_, ?_, ?_, ?_, ?_, ?_, ?_⟩
    · obtain ⟨st1, st2, h2, h3⟩ := populateLayout_after fs config layout st h 18
        (layoutCells fs config) rfl BlockID.MLD_CELL_WEIGHTS (by decide)
      rw [h3]
      simp only [layoutCells, hmiss, Bool.false_eq_true, if_false, Option.some.injEq] at h2
      subst h2
      simp [setBlock_num_entries]
    · obtain ⟨st1, st2, h2, h3⟩ := populateLayout_after fs config layout st h 18
        (layoutCells fs config) rfl BlockID.MLD_CELL_DURATIONS (by decide)
      rw [h3]
      simp only [layoutCells, hmiss, Bool.false_eq_true, if_false, Option.some.injEq] at h2
      subst h2
      simp [setBlock_num_entries]
    · obtain ⟨st1, st2, h2, h3⟩ := populateLayout_after fs config layout st h 18
        (layoutCells fs config) rfl BlockID.MLD_CELL_SOURCE_BOUNDARY (by decide)
      rw [h3]
      simp only [layoutCells, hmiss, Bool.false_eq_true, if_false, Option.some.injEq] at h2
      subst h2
      simp [setBlock_num_entries]
    · obtain ⟨st1, st2, h2, h3⟩ := populateLayout_after fs config layout st h 18
        (layoutCells fs config) rfl BlockID.MLD_CELL_DESTINATION_BOUNDARY (by decide)
      rw [h3]
      simp only [layoutCells, hmiss, Bool.false_eq_true, if_false, Option.some.injEq] at h2
      subst h2
      simp [setBlock_num_entries]
    · obtain ⟨st1, st2, h2, h3⟩ := populateLayout_after fs config layout st h 18
        (layoutCells fs config) rfl BlockID.MLD_CELLS (by decide)
      rw [h3]
      simp only [layoutCells, hmiss, Bool.false_eq_true, if_false, Option.some.injEq] at h2
      subst h2
      simp [setBlock_num_entries]
    · obtain ⟨st1, st2, h2, h3⟩ := populateLayout_after fs config layout st h 18
        (layoutCells fs config) rfl BlockID.MLD_CELL_LEVEL_OFFSETS (by decide)
      rw [h3]
      simp only [layoutCells, hmiss, Bool.false_eq_true, if_false, Option.some.injEq] at h2
      subst h2
      simp [setBlock_num_entries]
    · intro hin
      have := hall _ hin
      rw [hmiss] at this
      exact Bool.noConfusion this
  · intro hmiss
    refine ⟨?_, ?_, ?_, ?_⟩
    · obtain ⟨st1, st2, h2, h3⟩ := populateLayout_after fs config layout st h 19
        (layoutMultiLevelGraph fs config) rfl BlockID.MLD_GRAPH_NODE_LIST (by decide)
      rw [h3]
      simp only [layoutMultiLevelGraph, hmiss, Bool.false_eq_true, if_false, Option.some.injEq] at h2
      subst h2
      simp [setBlock_num_entries]
    · obtain ⟨st1, st2, h2, h3⟩ := populateLayout_after fs config layout st h 19
        (layoutMultiLevelGraph fs config) rfl BlockID.MLD_GRAPH_EDGE_LIST (by decide)
      rw [h3]
      simp only [layoutMultiLevelGraph, hmiss, Bool.false_eq_true, if_false, Option.some.injEq] at h2
      subst h2
      simp [setBlock_num_entries]
    · obtain ⟨st1, st2, h2, h3⟩ := populateLayout_after fs config layout st h 19
        (layoutMultiLevelGraph fs config) rfl BlockID.MLD_GRAPH_NODE_TO_OFFSET (by decide)
      rw [h3]
      simp only [layoutMultiLevelGraph, hmiss, Bool.false_eq_true, if_false, Option.some.injEq] at h2
      subst h2
      simp [setBlock_num_entries]
    · intro hin
      have := hall _ hin
      rw [hmiss] at this
      exact Bool.noConfusion this

end storage

namespace extractor

namespace serialization

theorem foldl_append_flatMap {α : Type} (g : α → List Nat) (l : List α) (w : List Nat) :
    l.foldl (fun writer x => writer ++ g x) w = w ++ l.flatMap g := by
  induction l generalizing w with
  | nil => simp
  | cons x rest ih => simp [List.foldl_cons, ih, List.flatMap_cons, List.append_assoc]

/-- What `write` appends to the stream. -/
theorem write_eq (f : FileFormat) (writer : List Nat) (r : TurnRestriction) :
    write f writer r =
      writer ++ (f.WriteOneId r.via ++ (f.WriteOneId r.from_way ++ (f.WriteOneId r.to_way ++
        (f.WriteOneBool r.flags.is_only ++ (f.WriteElementCount64 r.condition.length ++
          r.condition.flatMap (fun c =>
            f.WriteOneModifier c.modifier ++ (f.writeTimes c.times ++
              (f.writeWeekdays c.weekdays ++ f.writeMonthdays c.monthdays)))))))) := by
  unfold write
  simp only []
  have := foldl_append_flatMap (fun c : Condition =>
      f.WriteOneModifier c.modifier ++ (f.writeTimes c.times ++
        (f.writeWeekdays c.weekdays ++ f.writeMonthdays c.monthdays))) r.condition
      (writer ++ f.WriteOneId r.via ++ f.WriteOneId r.from_way ++ f.WriteOneId r.to_way ++
        f.WriteOneBool r.flags.is_only ++ f.WriteElementCount64 r.condition.length)
  simp only [List.append_assoc] at this ⊢
  exact this

theorem foldl_write (f : FileFormat) (rs : List TurnRestriction) (w : List Nat) :
    rs.foldl (write f) w = w ++ rs.flatMap (write f []) := by
  induction rs generalizing w with
  | nil => simp
  | cons r rest ih =>
    rw [List.foldl_cons, ih, List.flatMap_cons, write_eq f w r, write_eq f [] r]
    simp [List.append_assoc]

theorem readConditions_written (f : FileFormat) (hrt : RoundTrips f) (cs : List Condition) :
    ∀ (i : Nat) (pre junk : List Condition) (rest : List Nat),
      pre.length = i → junk.length = cs.length →
      readConditions f cs.length i (pre ++ junk)
          (cs.flatMap (fun c =>
            f.WriteOneModifier c.modifier ++ (f.writeTimes c.times ++
              (f.writeWeekdays c.weekdays ++ f.writeMonthdays c.monthdays))) ++ rest) =
        some (pre ++ cs, rest) := by
  induction cs with
  | nil =>
    intro i pre junk rest _ hj
    have : junk = [] := List.length_eq_zero.1 hj
    subst this
    simp [readConditions]
  | cons c cs ih =>
    intro i pre junk rest hi hj
    cases junk with
    | nil => simp at hj
    | cons j junk =>
      simp only [List.length_cons, Nat.add_right_cancel_iff] at hj
      simp only [List.length_cons, List.flatMap_cons, List.append_assoc, readConditions,
        hrt.modifier, hrt.times, hrt.weekdays, hrt.monthdays]
      have hset : (pre ++ j :: junk).set i c = (pre ++ [c]) ++ junk := by
        rw [← hi, List.set_append_right _ _ (le_refl _)]
        simp
      have hc : (⟨c.modifier, c.times, c.weekdays, c.monthdays⟩ : Condition) = c := rfl
      rw [hc, hset, ih (i + 1) (pre ++ [c]) junk rest (by simp [hi]) hj]
      simp

theorem resize_length (condition : List Condition) (n : Nat) :
    (resize condition n).length = n := by
  unfold resize
  simp only [List.length_append, List.length_take, List.length_replicate]
  omega

theorem readRestrictions_written (f : FileFormat) (hrt : RoundTrips f)
    (rs : List TurnRestriction) :
    ∀ (cur : TurnRestriction) (acc : List TurnRestriction) (rest : List Nat),
      (∀ r ∈ rs, r.condition.length < 2 ^ 64) →
      readRestrictions f rs.length cur acc (rs.flatMap (write f []) ++ rest) =
        some (acc ++ rs.map (fun r =>
          ⟨r.via, r.from_way, r.to_way, ⟨r.flags.is_only, cur.flags.other_bits⟩, r.condition⟩),
          rest) := by
  induction rs with
  | nil => intro cur acc rest _; simp [readRestrictions]
  | cons r rs ih =>
    intro cur acc rest hlen
    have hr := hlen r (List.mem_cons_self _ _)
    have hcond := readConditions_written f hrt r.condition 0 []
      (resize cur.condition r.condition.length)
      (rs.flatMap (write f []) ++ rest) rfl (resize_length _ _)
    simp only [List.nil_append] at hcond
    simp only [List.length_cons, List.flatMap_cons, write_eq f [] r, List.nil_append,
      List.append_assoc, readRestrictions, hrt.id, hrt.bool, hrt.count _ _ hr, hcond]
    rw [ih _ _ rest (fun x hx => hlen x (List.mem_cons_of_mem _ hx))]
    simp

/-- C16: for every list of turn restrictions, `read` run on an empty vector and on the stream
made of the element count followed by `write` of each restriction in order consumes the whole
stream and gives a list of the same length whose restriction number `i` has the via, from and
to ids, the `is_only` flag and the list of conditions (modifier, times, weekdays, monthdays)
of the restriction number `i` written. The primitive and vector readers and writers are
assumed to round-trip (`hrt`); the counts are 64-bit values. -/
theorem read_write_round_trip (f : FileFormat) (hrt : RoundTrips f)
    (restrictions : List TurnRestriction) (hlen : restrictions.length < 2 ^ 64)
    (hcond : ∀ r ∈ restrictions, r.condition.length < 2 ^ 64) :
    ∃ result : List TurnRestriction,
      read f (restrictions.foldl (write f) (f.WriteElementCount64 restrictions.length)) [] =
        some (result, []) ∧
      result.length = restrictions.length ∧
      ∀ (i : Nat) (r : TurnRestriction), restrictions[i]? = some r →
        ∃ r' : TurnRestriction, result[i]? = some r' ∧ r'.via = r.via ∧
          r'.from_way = r.from_way ∧ r'.to_way = r.to_way ∧
          r'.flags.is_only = r.flags.is_only ∧ r'.condition = r.condition := by
  refine ⟨restrictions.map (fun r =>
    ⟨r.via, r.from_way, r.to_way, ⟨r.flags.is_only, 0⟩, r.condition⟩), ?_, by simp, ?_⟩
  · unfold read
    rw [foldl_write, hrt.count _ _ hlen]
    have := readRestrictions_written f hrt restrictions ⟨0, 0, 0, ⟨false, 0⟩, []⟩ [] [] hcond
    simp only [List.append_nil, List.nil_append] at this
    exact this
  · intro i r hi
    exact ⟨⟨r.via, r.from_way, r.to_way, ⟨r.flags.is_only, 0⟩, r.condition⟩,
      by rw [List.getElem?_map, hi]; rfl, rfl, rfl, rfl, rfl, rfl⟩

theorem plainFormat_roundTrips : RoundTrips plainFormat := by
  constructor
  · intro x rest; rfl
  · intro x rest; cases x <;> rfl
  · intro n rest hn
    show some (n % 2 ^ 64, rest) = some (n, rest)
    rw [Nat.mod_eq_of_lt hn]
  · intro x rest; rfl
  · intro _ v rest
    show (if v.length ≤ (v ++ rest).length then
      some ((v ++ rest).take v.length, (v ++ rest).drop v.length) else none) = some (v, rest)
    simp
  · intro _ v rest
    show (if v.length ≤ (v ++ rest).length then
      some ((v ++ rest).take v.length, (v ++ rest).drop v.length) else none) = some (v, rest)
    simp
  · intro _ v rest
    show (if v.length ≤ (v ++ rest).length then
      some ((v ++ rest).take v.length, (v ++ rest).drop v.length) else none) = some (v, rest)
    simp

/-- Witness of C16: two restrictions, the first with a condition, written in `plainFormat`. -/
theorem read_write_round_trip_witness :
    (RoundTrips plainFormat ∧
      [(⟨1, 2, 3, ⟨true, 0⟩, [⟨4, [5, 6], [], [7]⟩]⟩ : TurnRestriction),
        ⟨8, 9, 10, ⟨false, 0⟩, []⟩].length < 2 ^ 64) ∧
    ∃ result : List TurnRestriction,
      read plainFormat
          ([(⟨1, 2, 3, ⟨true, 0⟩, [⟨4, [5, 6], [], [7]⟩]⟩ : TurnRestriction),
            ⟨8, 9, 10, ⟨false, 0⟩, []⟩].foldl (write plainFormat)
            (plainFormat.WriteElementCount64 2)) [] = some (result, []) ∧
      result.length = 2 :=
  ⟨⟨plainFormat_roundTrips, by decide⟩,
    (read_write_round_trip plainFormat plainFormat_roundTrips
      [⟨1, 2, 3, ⟨true, 0⟩, [⟨4, [5, 6], [], [7]⟩]⟩, ⟨8, 9, 10, ⟨false, 0⟩, []⟩]
      (by decide) (by decide)).imp (fun _ h => ⟨h.1, h.2.1⟩)⟩

end serialization

end extractor

namespace customize

theorem parseArguments_threads (store : List String → Option VariablesMap) (argv : List String)
    (config : CustomizationConfig) :
    (parseArguments store argv config).2.requested_num_threads =
      config.requested_num_threads := by
  unfold parseArguments
  cases store argv with
  | none => rfl
  | some vm =>
    simp only []
    split_ifs
    · rfl
    · rfl
    · cases vm.input <;> rfl

/-- C17, the behaviour of the code: `main` never calls `Customizer::Run`. The constructor of
the configuration requests 0 threads and no option is bound to that member, so whenever
`parseArguments` returns `ok` (in particular for one positional argument naming an existing
regular file) the test `1 > requested_num_threads` holds and `main` returns `EXIT_FAILURE`. -/
theorem main_never_runs_customizer (env : MainEnvironment) (argv : List String) :
    (main env argv).runs = [] ∧
      ((parseArguments env.store argv CustomizationConfig.new).1 = return_code.ok →
        (main env argv).exit_code = some EXIT_FAILURE) := by
  have ht := parseArguments_threads env.store argv CustomizationConfig.new
  have h0 : (parseArguments env.store argv
      CustomizationConfig.new).2.UseDefaults.requested_num_threads = 0 := ht
  unfold main
  simp only [h0]
  constructor
  · split_ifs <;> first | rfl | omega
  · intro hok
    rw [hok]
    simp

/-- The failing input of C17: the command line `osrm-customize map.osrm`, where `map.osrm` is
an existing regular file and the customizer would succeed, is parsed with the result `ok`,
and `main` returns `EXIT_FAILURE` without a call of `Customizer::Run`. -/
theorem main_never_runs_customizer_witness :
    (parseArguments mapEnvironment.store ["osrm-customize", "map.osrm"]
        CustomizationConfig.new).1 = return_code.ok ∧
      mapEnvironment.is_regular_file "map.osrm" = true ∧
      main mapEnvironment ["osrm-customize", "map.osrm"] = ⟨some 1, []⟩ ∧
      (main mapEnvironment ["osrm-customize", "map.osrm"]).exit_code = some EXIT_FAILURE :=
  ⟨by decide, by decide, by decide,
    (main_never_runs_customizer mapEnvironment ["osrm-customize", "map.osrm"]).2 (by decide)⟩

end customize

namespace CellCustomizer

theorem deleteMinNodes_succ (graph : Graph) (partition : MultiLevelPartition)
    (cells : CellStorage) (level fuel : Nat) (heap : Heap) (dset : List Nat) :
    deleteMinNodes graph partition cells level (fuel + 1) heap dset =
      if heap.Empty = false ∧ dset ≠ [] then
        heap.DeleteMin.1 ::
          deleteMinNodes graph partition cells level fuel
            (genStep (levelCliqueArcs partition cells level)
              (levelEdgeArcs graph partition level) heap)
            (dset.filter (fun d => d != heap.DeleteMin.1))
      else [] := by
  rw [← stepHeap_eq_genStep]
  conv_lhs => unfold deleteMinNodes
  unfold stepHeap
  by_cases h1 : heap.Empty = false
  · by_cases h2 : dset = []
    · simp [h1, h2]
    · have h3 : dset.isEmpty = false := by
        cases dset with
        | nil => exact absurd rfl h2
        | cons _ _ => rfl
      simp only [h1, h3, h2]
      by_cases hl : level = 1
      · subst hl; simp [h2]
      · have hl2 : (level == 1) = false := by simpa using hl
        simp [hl2, h2]
  · have h1b : heap.Empty = true := by simpa using h1
    simp [h1b]

/-- Iterations compose: running `a + b` iterations is running `b` more after `a`. -/
theorem searchLoop_add (graph : Graph) (partition : MultiLevelPartition) (cells : CellStorage)
    (level a b : Nat) (h : Heap) (d : List Nat) :
    searchLoop graph partition cells level (a + b) h d =
      searchLoop graph partition cells level b
        (searchLoop graph partition cells level a h d).1
        (searchLoop graph partition cells level a h d).2 := by
  induction a generalizing h d with
  | zero => simp [searchLoop_zero]
  | succ a ih =>
    rw [show a + 1 + b = (a + b) + 1 by omega, searchLoop_succ, searchLoop_succ]
    by_cases hc : h.Empty = false ∧ d ≠ []
    · rw [if_pos hc, if_pos hc, ih]
    · rw [if_neg hc, if_neg hc]
      cases b with
      | zero => rfl
      | succ b => rw [searchLoop_succ, if_neg hc]

/-- Once the condition of the loop fails, further iterations change nothing. -/
theorem searchLoop_stable (graph : Graph) (partition : MultiLevelPartition)
    (cells : CellStorage) (level fuel : Nat) (h : Heap) (d : List Nat)
    (hc : h.Empty = true ∨ d = []) :
    searchLoop graph partition cells level fuel h d = (h, d) := by
  cases fuel with
  | zero => rfl
  | succ fuel =>
    rw [searchLoop_succ, if_neg]
    rintro ⟨h1, h2⟩
    rcases hc with hc | hc
    · rw [hc] at h1; cases h1
    · exact h2 hc

/-- The settled nodes after some iterations are those settled before and the nodes dequeued,
and no node is dequeued twice. -/
theorem settled_iff_dequeued (graph : Graph) (partition : MultiLevelPartition)
    (cells : CellStorage) (level fuel : Nat) :
    ∀ (h : Heap) (d : List Nat), HeapOK h →
      (∀ n, Settled (searchLoop graph partition cells level fuel h d).1 n ↔
        Settled h n ∨ n ∈ deleteMinNodes graph partition cells level fuel h d) ∧
      (deleteMinNodes graph partition cells level fuel h d).Nodup ∧
      ∀ n ∈ deleteMinNodes graph partition cells level fuel h d, ¬Settled h n := by
  induction fuel with
  | zero =>
    intro h d _
    refine ⟨fun n => ?_, List.nodup_nil, fun n hn => ?_⟩
    · simp [searchLoop_zero, deleteMinNodes]
    · simp [deleteMinNodes] at hn
  | succ fuel ih =>
    intro h d hok
    rw [searchLoop_succ, deleteMinNodes_succ]
    by_cases hc : h.Empty = false ∧ d ≠ []
    · rw [if_pos hc, if_pos hc]
      have hok' := genStep_HeapOK (levelCliqueArcs partition cells level)
        (levelEdgeArcs graph partition level) h hok hc.1
      obtain ⟨i1, i2, i3⟩ := ih (genStep (levelCliqueArcs partition cells level)
        (levelEdgeArcs graph partition level) h)
        (d.filter (fun x => x != h.DeleteMin.1)) hok'
      have hs := genStep_settled (levelCliqueArcs partition cells level)
        (levelEdgeArcs graph partition level) h hok hc.1
      have hu : ¬Settled h h.DeleteMin.1 := fun hset =>
        hset.2 (DeleteMin_spec h hc.1).1
      refine ⟨fun n => ?_, ?_, fun n hn => ?_⟩
      · rw [i1 n, hs n, List.mem_cons]
        tauto
      · refine List.nodup_cons.2 ⟨fun hmem => ?_, i2⟩
        exact i3 _ hmem ((hs _).2 (Or.inr rfl))
      · rcases List.mem_cons.1 hn with hn | hn
        · rw [hn]; exact hu
        · exact fun hset => i3 n hn ((hs n).2 (Or.inl hset))
    · rw [if_neg hc, if_neg hc]
      refine ⟨fun n => by simp, List.nodup_nil, fun n hn => by cases hn⟩

/-- C21: for every graph, cell storage, level and source, with non-negative forward edge
weights and non-negative clique weights of the level below, the search loop of the customizer
terminates: after `searchFuel` iterations (the number of nodes the search can insert, plus
one) the condition of the loop is false, so the queue is empty or no destination boundary node
is awaited, and further iterations change nothing. No node is returned twice by `DeleteMin`,
the key of a node dequeued before is not changed by a later iteration, and at the exit the
queue is empty or every destination boundary node has been dequeued. -/
theorem search_loop_terminates (graph : Graph) (partition : MultiLevelPartition) (heap : Heap)
    (cells : CellStorage) (level source : Nat) (destinations : List Nat)
    (hE : ∀ es ∈ graph.adj, ∀ e ∈ es, e.forward = true → 0 ≤ e.weight)
    (hC : level ≠ 1 → ∀ i s, ∀ w ∈ (cells.GetCell (level - 1) i).GetOutWeight s, 0 ≤ w) :
    (∀ more : Nat,
      searchLoop graph partition cells level
          (searchFuel graph partition cells level source + more)
          (heap.Clear.Insert source 0 ⟨false, 0⟩) destinations =
        searchLoop graph partition cells level (searchFuel graph partition cells level source)
          (heap.Clear.Insert source 0 ⟨false, 0⟩) destinations) ∧
    ((searchLoop graph partition cells level (searchFuel graph partition cells level source)
          (heap.Clear.Insert source 0 ⟨false, 0⟩) destinations).1.Empty = true ∨
      (searchLoop graph partition cells level (searchFuel graph partition cells level source)
          (heap.Clear.Insert source 0 ⟨false, 0⟩) destinations).2 = []) ∧
    (∀ fuel : Nat,
      (deleteMinNodes graph partition cells level fuel
        (heap.Clear.Insert source 0 ⟨false, 0⟩) destinations).Nodup) ∧
    (∀ (fuel r : Nat),
      r ∈ deleteMinNodes graph partition cells level fuel
        (heap.Clear.Insert source 0 ⟨false, 0⟩) destinations →
      (searchLoop graph partition cells level (fuel + 1)
          (heap.Clear.Insert source 0 ⟨false, 0⟩) destinations).1.key r =
        (searchLoop graph partition cells level fuel
          (heap.Clear.Insert source 0 ⟨false, 0⟩) destinations).1.key r) ∧
    ((searchLoop graph partition cells level (searchFuel graph partition cells level source)
          (heap.Clear.Insert source 0 ⟨false, 0⟩) destinations).1.Empty = true ∨
      ∀ t ∈ destinations,
        t ∈ deleteMinNodes graph partition cells level
          (searchFuel graph partition cells level source)
          (heap.Clear.Insert source 0 ⟨false, 0⟩) destinations) := by
  have hN := levelArcsNonneg graph partition cells level hE hC
  have hU := searchUniverse_ok graph partition cells level source
  have hf := levelArcFlags graph partition cells level
  have h0 := init_BaseInv _ _ _ _ source heap hU
  have hex := searchLoop_exit_aux graph partition cells level _ _ source hU hf
    (searchFuel graph partition cells level source) _ destinations h0
    (by
      simp only [searchFuel, Heap.Clear, Heap.Insert, List.nil_append, List.length_singleton]
      omega)
  have hinv : ∀ fuel : Nat,
      BaseInv (levelCliqueArcs partition cells level) (levelEdgeArcs graph partition level)
          (searchBase graph source) (searchUniverse graph partition cells level source) source
          (searchLoop graph partition cells level fuel
            (heap.Clear.Insert source 0 ⟨false, 0⟩) destinations).1 ∧
        MonoInv source (searchLoop graph partition cells level fuel
            (heap.Clear.Insert source 0 ⟨false, 0⟩) destinations).1 := by
    intro fuel
    exact searchLoop_induct graph partition cells level
      (fun h _ => BaseInv (levelCliqueArcs partition cells level)
          (levelEdgeArcs graph partition level) (searchBase graph source)
          (searchUniverse graph partition cells level source) source h ∧ MonoInv source h)
      (fun h d inv hne _ =>
        ⟨genStep_BaseInv _ _ _ _ source h hU hf inv.1 hne,
          genStep_MonoInv _ _ source h hN inv.1.ok inv.1.source inv.2 hne⟩)
      fuel _ destinations ⟨h0, init_MonoInv source heap⟩
  have htrace := fun fuel => settled_iff_dequeued graph partition cells level fuel
    (heap.Clear.Insert source 0 ⟨false, 0⟩) destinations h0.ok
  have hnot : ∀ n, ¬Settled (heap.Clear.Insert source 0 ⟨false, 0⟩) n :=
    fun n => init_not_settled source heap n
  refine ⟨fun more => ?_, hex, fun fuel => (htrace fuel).2.1, fun fuel r hr => ?_, ?_⟩
  · rw [searchLoop_add]
    exact searchLoop_stable graph partition cells level more _ _ hex
  · have hset : Settled (searchLoop graph partition cells level fuel
        (heap.Clear.Insert source 0 ⟨false, 0⟩) destinations).1 r :=
      ((htrace fuel).1 r).2 (Or.inr hr)
    rw [searchLoop_add graph partition cells level fuel 1, searchLoop_succ]
    by_cases hc : (searchLoop graph partition cells level fuel
          (heap.Clear.Insert source 0 ⟨false, 0⟩) destinations).1.Empty = false ∧
        (searchLoop graph partition cells level fuel
          (heap.Clear.Insert source 0 ⟨false, 0⟩) destinations).2 ≠ []
    · rw [if_pos hc, searchLoop_zero]
      obtain ⟨hb, hm⟩ := hinv fuel
      exact genStep_key_fixed _ _ _ hN hc.1 r hset.1
        (hm.mono r hset _ (DeleteMin_spec _ hc.1).1)
    · rw [if_neg hc]
  · rcases hex with h1 | h1
    · exact Or.inl h1
    · right
      intro t ht
      have hd := searchLoop_dests graph partition cells level destinations
        (searchFuel graph partition cells level source) _ destinations h0.ok
        (fun t ht => Or.inl ht) t ht
      rcases hd with h2 | h2
      · rw [h1] at h2; cases h2
      · rcases ((htrace _).1 t).1 h2 with h3 | h3
        · exact absurd h3 (hnot t)
        · exact h3

/-- Witness of C21 on `lineGraph`: the search from node 0 dequeues the nodes 0 and 1. -/
theorem search_loop_terminates_witness :
    ((∀ es ∈ lineGraph.adj, ∀ e ∈ es, e.forward = true → 0 ≤ e.weight) ∧
      ((1 : Nat) ≠ 1 → ∀ i s, ∀ w ∈ (lineCells.GetCell (1 - 1) i).GetOutWeight s, 0 ≤ w)) ∧
    deleteMinNodes lineGraph oneCellPartition lineCells 1
        (searchFuel lineGraph oneCellPartition lineCells 1 0)
        (emptyHeap.Clear.Insert 0 0 ⟨false, 0⟩) [1] = [0, 1] ∧
    (deleteMinNodes lineGraph oneCellPartition lineCells 1
        (searchFuel lineGraph oneCellPartition lineCells 1 0)
        (emptyHeap.Clear.Insert 0 0 ⟨false, 0⟩) [1]).Nodup :=
  ⟨⟨by decide, fun h => absurd rfl h⟩, by decide,
    (search_loop_terminates lineGraph oneCellPartition emptyHeap lineCells 1 0 [1]
      (by decide) (fun h => absurd rfl h)).2.2.1 _⟩

end CellCustomizer

namespace engine

/-- The turn written on a path with a last step: the steps before it are untouched. -/
theorem setTurnOnBack_concat (facade : Facade) (turn_id : Nat) (l : List PathData)
    (back : PathData) :
    setTurnOnBack facade turn_id (l ++ [back]) =
      l ++ [⟨back.turn_via_node, back.name_id,
        back.weight_until_turn + facade.GetWeightPenaltyForEdgeID turn_id,
        back.duration_until_turn + facade.GetDurationPenaltyForEdgeID turn_id,
        facade.GetTurnInstructionForEdgeID turn_id,
        if facade.HasLaneData turn_id then facade.GetLaneData turn_id else back.lane_data,
        back.travel_mode, facade.GetEntryClass turn_id, back.datasource_id,
        facade.PreTurnBearing turn_id, facade.PostTurnBearing turn_id⟩] := by
  unfold setTurnOnBack
  simp

/-- The start index the program computes in the iteration number `i` of the loop. -/
theorem loop_start_index (facade : Facade) (pair : PhantomNodes)
    (nodes edges : List Nat) (i node edge : Nat)
    (hi : (List.zip nodes.dropLast edges)[i]? = some (node, edge))
    (hsize : (edgeWeightVector facade (nodes.headD 0)).length < 2 ^ 64)
    (hpos : pair.source_phantom.fwd_segment_position <
      (edgeWeightVector facade (nodes.headD 0)).length) :
    (if (pathAfterEdges facade pair nodes edges i).isEmpty then
        (if decide (pair.source_phantom.forward_segment_id ≠ nodes.headD 0) = true then
          subSize (subSize (edgeWeightVector facade node).length
            pair.source_phantom.fwd_segment_position) 1
        else pair.source_phantom.fwd_segment_position % 2 ^ 64)
      else 0) =
      (if i = 0 then
        (if pair.source_phantom.forward_segment_id ≠ nodes.headD 0 then
          (edgeWeightVector facade node).length -
            pair.source_phantom.fwd_segment_position - 1
        else pair.source_phantom.fwd_segment_position)
      else 0) := by
  have hilt : i < (List.zip nodes.dropLast edges).length := (List.getElem?_eq_some.1 hi).1
  by_cases h0 : i = 0
  · subst h0
    have hn : node = nodes.headD 0 := zip_dropLast_head nodes edges node edge hi
    have hnil : pathAfterEdges facade pair nodes edges 0 = [] := rfl
    rw [hnil, hn]
    simp only [List.isEmpty_nil, if_true]
    exact first_start_index facade pair nodes hsize hpos
  · have hne := pathAfterEdges_ne_nil facade pair nodes edges i
      (Nat.pos_of_ne_zero h0) hilt hsize hpos
    have hemp : (pathAfterEdges facade pair nodes edges i).isEmpty = false := by
      cases hp : pathAfterEdges facade pair nodes edges i with
      | nil => exact absurd hp hne
      | cons _ _ => rfl
    simp [hemp, h0]

/-- The turn of an iteration: in the loop of `annotatePath` over the edges of the unpacked path (started on an
empty path), among the steps the iteration for the edge number `i` appends, every step but the
last has the instruction `NO_TURN`, the entry class `EMPTY_ENTRY_CLASS`, both bearings 0 and
the weight and duration of its geometry segment; the last one has the turn instruction, the
entry class and the pre and post turn bearings of the turn id of the edge, and its weight and
duration are those of the last segment plus the weight and duration penalties of that turn.
Here `start` is the first segment of the edge as in C11, the source phantom lies on the
geometry of the first node (`hpos`), and a vector has fewer than `2 ^ 64` entries (`hsize`). -/
theorem pathAfterEdges_turn_on_last_step (facade : Facade) (phantom_node_pair : PhantomNodes)
    (unpacked_nodes unpacked_edges : List Nat) (i node edge : Nat)
    (hi : (List.zip unpacked_nodes.dropLast unpacked_edges)[i]? = some (node, edge))
    (hsize : (edgeWeightVector facade (unpacked_nodes.headD 0)).length < 2 ^ 64)
    (hpos : phantom_node_pair.source_phantom.fwd_segment_position <
      (edgeWeightVector facade (unpacked_nodes.headD 0)).length) :
    ∀ k : Nat,
      k < (edgeWeightVector facade node).length -
          (if i = 0 then
            (if phantom_node_pair.source_phantom.forward_segment_id ≠
                unpacked_nodes.headD 0 then
              (edgeWeightVector facade node).length -
                phantom_node_pair.source_phantom.fwd_segment_position - 1
            else phantom_node_pair.source_phantom.fwd_segment_position)
          else 0) →
      ∃ step : PathData,
        (pathAfterEdges facade phantom_node_pair unpacked_nodes unpacked_edges (i + 1))[
            (pathAfterEdges facade phantom_node_pair unpacked_nodes unpacked_edges i).length
              + k]? = some step ∧
        (k + 1 < (edgeWeightVector facade node).length -
            (if i = 0 then
              (if phantom_node_pair.source_phantom.forward_segment_id ≠
                  unpacked_nodes.headD 0 then
                (edgeWeightVector facade node).length -
                  phantom_node_pair.source_phantom.fwd_segment_position - 1
              else phantom_node_pair.source_phantom.fwd_segment_position)
            else 0) →
          step.turn_instruction = NO_TURN ∧ step.entry_class = EMPTY_ENTRY_CLASS ∧
          step.pre_turn_bearing = 0 ∧ step.post_turn_bearing = 0 ∧
          step.weight_until_turn =
            (edgeWeightVector facade node).getD
              ((if i = 0 then
                (if phantom_node_pair.source_phantom.forward_segment_id ≠
                    unpacked_nodes.headD 0 then
                  (edgeWeightVector facade node).length -
                    phantom_node_pair.source_phantom.fwd_segment_position - 1
                else phantom_node_pair.source_phantom.fwd_segment_position)
              else 0) + k) 0 ∧
          step.duration_until_turn =
            (edgeDurationVector facade node).getD
              ((if i = 0 then
                (if phantom_node_pair.source_phantom.forward_segment_id ≠
                    unpacked_nodes.headD 0 then
                  (edgeWeightVector facade node).length -
                    phantom_node_pair.source_phantom.fwd_segment_position - 1
                else phantom_node_pair.source_phantom.fwd_segment_position)
              else 0) + k) 0) ∧
        (k + 1 = (edgeWeightVector facade node).length -
            (if i = 0 then
              (if phantom_node_pair.source_phantom.forward_segment_id ≠
                  unpacked_nodes.headD 0 then
                (edgeWeightVector facade node).length -
                  phantom_node_pair.source_phantom.fwd_segment_position - 1
              else phantom_node_pair.source_phantom.fwd_segment_position)
            else 0) →
          step.turn_instruction =
            facade.GetTurnInstructionForEdgeID (facade.GetEdgeDataTurnId edge) ∧
          step.entry_class = facade.GetEntryClass (facade.GetEdgeDataTurnId edge) ∧
          step.pre_turn_bearing = facade.PreTurnBearing (facade.GetEdgeDataTurnId edge) ∧
          step.post_turn_bearing = facade.PostTurnBearing (facade.GetEdgeDataTurnId edge) ∧
          step.weight_until_turn =
            (edgeWeightVector facade node).getD
              ((if i = 0 then
                (if phantom_node_pair.source_phantom.forward_segment_id ≠
                    unpacked_nodes.headD 0 then
                  (edgeWeightVector facade node).length -
                    phantom_node_pair.source_phantom.fwd_segment_position - 1
                else phantom_node_pair.source_phantom.fwd_segment_position)
              else 0) + k) 0 +
              facade.GetWeightPenaltyForEdgeID (facade.GetEdgeDataTurnId edge) ∧
          step.duration_until_turn =
            (edgeDurationVector facade node).getD
              ((if i = 0 then
                (if phantom_node_pair.source_phantom.forward_segment_id ≠
                    unpacked_nodes.headD 0 then
                  (edgeWeightVector facade node).length -
                    phantom_node_pair.source_phantom.fwd_segment_position - 1
                else phantom_node_pair.source_phantom.fwd_segment_position)
              else 0) + k) 0 +
              facade.GetDurationPenaltyForEdgeID (facade.GetEdgeDataTurnId edge)) := by
  rw [pathAfterEdges_succ facade phantom_node_pair unpacked_nodes unpacked_edges i node edge hi,
    annotateEdge_eq,
    loop_start_index facade phantom_node_pair unpacked_nodes unpacked_edges i node edge hi
      hsize hpos]
  generalize (if i = 0 then
      (if phantom_node_pair.source_phantom.forward_segment_id ≠ unpacked_nodes.headD 0 then
        (edgeWeightVector facade node).length -
          phantom_node_pair.source_phantom.fwd_segment_position - 1
      else phantom_node_pair.source_phantom.fwd_segment_position)
    else 0) = start
  generalize pathAfterEdges facade phantom_node_pair unpacked_nodes unpacked_edges i = before
  intro k hk
  obtain ⟨m, hm⟩ : ∃ m, (edgeWeightVector facade node).length - start = m + 1 :=
    ⟨(edgeWeightVector facade node).length - start - 1, by omega⟩
  rw [hm] at hk ⊢
  rw [List.range'_concat, List.map_append, List.map_singleton, ← List.append_assoc,
    setTurnOnBack_concat]
  by_cases hlast : k = m
  · subst hlast
    have hget : ∀ (l : List PathData) (x : PathData), l.length = before.length + k →
        (l ++ [x])[before.length + k]? = some x := by
      intro l x hl
      rw [List.getElem?_append_right (by omega), hl]
      simp
    refine ⟨_, hget _ _ (by simp), ?_, ?_⟩
    · intro h
      exact absurd h (by omega)
    · intro _
      simp [segmentStep]
  · refine ⟨segmentStep (edgeIdVector facade node) (edgeWeightVector facade node)
        (edgeDurationVector facade node) (edgeDatasourceVector facade node)
        (facade.GetNameIndex node) (facade.GetTravelMode node)
        (start + k + 1) (start + k), ?_, ?_, ?_⟩
    · rw [List.getElem?_append_left (by simp; omega),
        List.getElem?_append_right (by omega)]
      simp only [Nat.add_sub_cancel_left, List.getElem?_map]
      rw [List.getElem?_range' _ _ (by omega)]
      simp
    · intro _
      simp [segmentStep]
    · intro h
      exact absurd h (by omega)

end engine

namespace Partitioner

/-- The mask for the lowest kept bit `b` has exactly the bits `b` to 31. -/
theorem levelMask_testBit (b : Nat) (hb : b < 33) (i : Nat) :
    (levelMask b).testBit i = decide (b ≤ i ∧ i < 32) := by
  by_cases hi : i < 32
  · have h : ∀ b, b < 33 → ∀ i, i < 32 → (levelMask b).testBit i = decide (b ≤ i) := by decide
    rw [h b hb i hi]
    simp [hi]
  · have hlt : levelMask b < 2 ^ i := by
      have h1 : levelMask b < 2 ^ 32 := Nat.mod_lt _ (by norm_num)
      exact lt_of_lt_of_le h1 (Nat.pow_le_pow_right (by norm_num) (by omega))
    rw [Nat.testBit_lt_two_pow hlt]
    simp [hi]

/-- Below the count of trailing zeros every bit is zero. -/
theorem ctzAux_low_bits (fuel : Nat) :
    ∀ (id i : Nat), i < ctzAux fuel id → id.testBit i = false := by
  induction fuel with
  | zero => intro id i h; simp [ctzAux] at h
  | succ fuel ih =>
    intro id i h
    unfold ctzAux at h
    by_cases hodd : id % 2 = 1
    · rw [if_pos hodd] at h; omega
    · rw [if_neg hodd] at h
      cases i with
      | zero => rw [Nat.testBit_zero]; simpa using hodd
      | succ j =>
        rw [Nat.testBit_succ]
        exact ih (id / 2) j (by omega)

/-- The bit at the count of trailing zeros of a non-zero value is set. -/
theorem ctzAux_bit (fuel : Nat) :
    ∀ id : Nat, id ≠ 0 → id < 2 ^ fuel →
      ctzAux fuel id < fuel ∧ id.testBit (ctzAux fuel id) = true := by
  induction fuel with
  | zero => intro id h0 h; simp at h; exact absurd h h0
  | succ fuel ih =>
    intro id h0 h
    unfold ctzAux
    by_cases hodd : id % 2 = 1
    · rw [if_pos hodd]
      refine ⟨by omega, ?_⟩
      rw [Nat.testBit_zero]; simpa using hodd
    · rw [if_neg hodd]
      have h2 : id / 2 ≠ 0 := by omega
      have h3 : id / 2 < 2 ^ fuel := by
        rw [pow_succ] at h; omega
      obtain ⟨i1, i2⟩ := ih (id / 2) h2 h3
      refine ⟨by omega, ?_⟩
      rw [show 1 + ctzAux fuel (id / 2) = (ctzAux fuel (id / 2)).succ by omega, Nat.testBit_succ]
      exact i2

/-- The fold of `firstNonzeroPosition`: the result is at most the start value and at most the
count of trailing zeros of every non-zero id, and it is one of these numbers. -/
theorem foldl_min_ctz (ids : List Nat) :
    ∀ init : Nat,
      ids.foldl (fun first_nonzero_position id =>
          if id = 0 then first_nonzero_position else min first_nonzero_position (ctz id)) init
        ≤ init ∧
      (∀ id ∈ ids, id ≠ 0 →
        ids.foldl (fun first_nonzero_position id =>
            if id = 0 then first_nonzero_position else min first_nonzero_position (ctz id)) init
          ≤ ctz id) ∧
      (ids.foldl (fun first_nonzero_position id =>
            if id = 0 then first_nonzero_position else min first_nonzero_position (ctz id)) init
          = init ∨
        ∃ id ∈ ids, id ≠ 0 ∧
          ids.foldl (fun first_nonzero_position id =>
            if id = 0 then first_nonzero_position else min first_nonzero_position (ctz id)) init
            = ctz id) := by
  induction ids with
  | nil =>
    intro init
    exact ⟨le_refl _, fun id h _ => absurd h (List.not_mem_nil _), Or.inl rfl⟩
  | cons x rest ih =>
    intro init
    rw [List.foldl_cons]
    by_cases hx : x = 0
    · rw [if_pos hx]
      obtain ⟨i1, i2, i3⟩ := ih init
      refine ⟨i1, ?_, ?_⟩
      · intro id hid h0
        rcases List.mem_cons.1 hid with h | h
        · exact absurd (h.trans hx) h0
        · exact i2 id h h0
      · rcases i3 with h | ⟨id, hid, h0, h⟩
        · exact Or.inl h
        · exact Or.inr ⟨id, List.mem_cons_of_mem _ hid, h0, h⟩
    · rw [if_neg hx]
      obtain ⟨i1, i2, i3⟩ := ih (min init (ctz x))
      refine ⟨le_trans i1 (Nat.min_le_left _ _), ?_, ?_⟩
      · intro id hid h0
        rcases List.mem_cons.1 hid with h | h
        · rw [h]
          exact le_trans i1 (Nat.min_le_right _ _)
        · exact i2 id h h0
      · rcases i3 with h | ⟨id, hid, h0, h⟩
        · rcases Nat.le_total init (ctz x) with hm | hm
          · exact Or.inl (h.trans (Nat.min_eq_left hm))
          · exact Or.inr ⟨x, List.mem_cons_self _ _, hx, h.trans (Nat.min_eq_right hm)⟩
        · exact Or.inr ⟨id, List.mem_cons_of_mem _ hid, h0, h⟩

/-- With a non-zero 32-bit id in the list, the first non-zero position is the position of
the lowest bit set in any id. -/
theorem firstNonzeroPosition_spec (ids : List Nat) (h32 : ∀ id ∈ ids, id < 2 ^ 32)
    (hne : ∃ id ∈ ids, id ≠ 0) :
    firstNonzeroPosition ids < 32 ∧
    (∃ id ∈ ids, id.testBit (firstNonzeroPosition ids) = true) ∧
    (∀ id ∈ ids, ∀ i, i < firstNonzeroPosition ids → id.testBit i = false) := by
  obtain ⟨i1, i2, i3⟩ := foldl_min_ctz ids 32
  obtain ⟨x, hx, hx0⟩ := hne
  have hcx := ctzAux_bit 32 x hx0 (h32 x hx)
  have hlt : firstNonzeroPosition ids < 32 := lt_of_le_of_lt (i2 x hx hx0) hcx.1
  refine ⟨hlt, ?_, ?_⟩
  · rcases i3 with h | ⟨id, hid, h0, h⟩
    · exact absurd h (Nat.ne_of_lt hlt)
    · refine ⟨id, hid, ?_⟩
      have := (ctzAux_bit 32 id h0 (h32 id hid)).2
      unfold firstNonzeroPosition
      rw [h]
      exact this
  · intro id hid i hi
    by_cases h0 : id = 0
    · rw [h0]; exact Nat.zero_testBit i
    · exact ctzAux_low_bits 32 id i (lt_of_lt_of_le hi (i2 id hid h0))

/-- The last mask the loop pushes keeps the bits from `first_nonzero_position` upwards. -/
theorem levelMasksLoop_getLast (fnp : Nat) (n : Nat) :
    ∀ (fuel : Nat) (mask_to mask_from : Int), mask_to > (fnp : Int) →
      mask_from - (fnp : Int) ≤ 3 * (n : Int) → n + 1 ≤ fuel →
      (levelMasksLoop fnp fuel mask_to mask_from).getLast? = some (levelMask fnp) := by
  induction n with
  | zero =>
    intro fuel mask_to mask_from hto hfrom hfuel
    obtain ⟨f, rfl⟩ : ∃ f, fuel = f + 1 := ⟨fuel - 1, by omega⟩
    unfold levelMasksLoop
    rw [if_pos hto]
    have hc : ¬ mask_from > (fnp : Int) := by omega
    have hrest : levelMasksLoop fnp f mask_from (mask_from - 3) = [] := by
      cases f <;> simp [levelMasksLoop, hc]
    rw [hrest]
    have hb : (max (fnp : Int) mask_from).toNat = fnp := by omega
    rw [hb]
    rfl
  | succ n ih =>
    intro fuel mask_to mask_from hto hfrom hfuel
    obtain ⟨f, rfl⟩ : ∃ f, fuel = f + 1 := ⟨fuel - 1, by omega⟩
    unfold levelMasksLoop
    rw [if_pos hto]
    by_cases hc : mask_from > (fnp : Int)
    · have hi := ih f mask_from (mask_from - 3) hc (by omega) (by omega)
      cases hr : levelMasksLoop fnp f mask_from (mask_from - 3) with
      | nil => rw [hr] at hi; simp at hi
      | cons a rest =>
        rw [hr] at hi
        rw [List.getLast?_cons_cons]
        exact hi
    · have hrest : levelMasksLoop fnp f mask_from (mask_from - 3) = [] := by
        cases f <;> simp [levelMasksLoop, hc]
      rw [hrest]
      have hb : (max (fnp : Int) mask_from).toNat = fnp := by omega
      rw [hb]
      rfl

/-- A value below `2 ^ 32` without bits below `b` is unchanged by the mask of `b`. -/
theorem land_levelMask (id b : Nat) (hb : b < 33) (hid : id < 2 ^ 32)
    (hlow : ∀ i, i < b → id.testBit i = false) : id &&& levelMask b = id := by
  apply Nat.eq_of_testBit_eq
  intro i
  rw [Nat.testBit_and, levelMask_testBit b hb]
  by_cases h1 : b ≤ i
  · by_cases h2 : i < 32
    · simp [h1, h2]
    · have : id.testBit i = false :=
        Nat.testBit_lt_two_pow
          (lt_of_lt_of_le hid (Nat.pow_le_pow_right (by norm_num) (by omega)))
      simp [this]
  · simp [hlow i (by omega)]

/-- C26: for every list of bisection ids below `2 ^ 32` with at least one non-zero id, the
last mask pushed by `Partitioner::Run`, the one used for level 0, keeps exactly the bits from
the first non-zero position up to bit 31, where the first non-zero position is the lowest bit
set in any id; so the level-0 cell id of every node is its bisection id, and two nodes have
the same level-0 cell id exactly when their bisection ids are equal. Shifts are taken modulo
`2 ^ 32` (`shl32`); when the first non-zero position is 0 the program shifts `1u` by 32. -/
theorem finest_mask_keeps_all_bits (ids : List Nat) (scc_depth : Nat)
    (h32 : ∀ id ∈ ids, id < 2 ^ 32) (hne : ∃ id ∈ ids, id ≠ 0) :
    (levelMasks (firstNonzeroPosition ids) scc_depth).getLast? =
        some (levelMask (firstNonzeroPosition ids)) ∧
    (levelMasks (firstNonzeroPosition ids) scc_depth).getD
        (numberOfLevels ids scc_depth - 1 - 0) 0 = levelMask (firstNonzeroPosition ids) ∧
    (∀ i : Nat, (levelMask (firstNonzeroPosition ids)).testBit i =
        decide (firstNonzeroPosition ids ≤ i ∧ i < 32)) ∧
    (∃ id ∈ ids, id.testBit (firstNonzeroPosition ids) = true) ∧
    (∀ id ∈ ids, ∀ i, i < firstNonzeroPosition ids → id.testBit i = false) ∧
    (∀ node : Nat, node < ids.length →
      cellId ids scc_depth 0 node = some (ids.getD node 0)) ∧
    (∀ u v : Nat, u < ids.length → v < ids.length →
      (cellId ids scc_depth 0 u = cellId ids scc_depth 0 v ↔ ids.getD u 0 = ids.getD v 0)) := by
  obtain ⟨hlt, hbit, hlow⟩ := firstNonzeroPosition_spec ids h32 hne
  have hlast : (levelMasks (firstNonzeroPosition ids) scc_depth).getLast? =
      some (levelMask (firstNonzeroPosition ids)) := by
    unfold levelMasks
    exact levelMasksLoop_getLast (firstNonzeroPosition ids) 11 33 32 (32 - (scc_depth : Int))
      (by omega) (by omega) (by omega)
  have hpos : 0 < numberOfLevels ids scc_depth := by
    unfold numberOfLevels
    cases hm : levelMasks (firstNonzeroPosition ids) scc_depth with
    | nil => rw [hm] at hlast; simp at hlast
    | cons _ _ => simp
  have hgetD : (levelMasks (firstNonzeroPosition ids) scc_depth).getD
      (numberOfLevels ids scc_depth - 1 - 0) 0 = levelMask (firstNonzeroPosition ids) := by
    rw [List.getLast?_eq_getElem?] at hlast
    unfold numberOfLevels
    rw [List.getD_eq_getElem?_getD, Nat.sub_zero, hlast]
    rfl
  have hcell : ∀ node : Nat, node < ids.length →
      cellId ids scc_depth 0 node = some (ids.getD node 0) := by
    intro node hn
    rw [cellId_eq ids scc_depth 0 node hpos hn, hgetD]
    have hmem : ids.getD node 0 ∈ ids := by
      rw [List.getD_eq_getElem?_getD, List.getElem?_eq_getElem hn]
      exact List.getElem_mem _
    rw [land_levelMask _ _ (by omega) (h32 _ hmem) (hlow _ hmem)]
  refine ⟨hlast, hgetD, fun i => levelMask_testBit _ (by omega) i, hbit, hlow, hcell, ?_⟩
  intro u v hu hv
  rw [hcell u hu, hcell v hv]
  exact ⟨fun h => Option.some.inj h, fun h => by rw [h]⟩

/-- Witness of C26 on the ids `0x80000000`, `0xC0000000`, `0`: the lowest set bit is bit 30
and the level-0 cell ids are the ids themselves. -/
theorem finest_mask_keeps_all_bits_witness :
    ((∀ id ∈ [2147483648, 3221225472, 0], id < 2 ^ 32) ∧
      ∃ id ∈ [2147483648, 3221225472, 0], id ≠ 0) ∧
    firstNonzeroPosition [2147483648, 3221225472, 0] = 30 ∧
    levelMasks (firstNonzeroPosition [2147483648, 3221225472, 0]) 1 =
      [2147483648, 3221225472] ∧
    cellId [2147483648, 3221225472, 0] 1 0 1 = some 3221225472 ∧
    ∀ node : Nat, node < [2147483648, 3221225472, 0].length →
      cellId [2147483648, 3221225472, 0] 1 0 node =
        some ([2147483648, 3221225472, 0].getD node 0) :=
  ⟨⟨by decide, ⟨2147483648, by decide, by decide⟩⟩, by decide, by decide, by decide,
    (finest_mask_keeps_all_bits [2147483648, 3221225472, 0] 1 (by decide)
      ⟨2147483648, by decide, by decide⟩).2.2.2.2.2.1⟩

end Partitioner

namespace engine

namespace plugins

theorem forEachPair_length (snapped : List PhantomNode) :
    (forEachPair snapped).length = snapped.length - 1 := by
  unfold forEachPair
  simp only [List.length_map, List.length_zip, List.length_tail]
  omega

/-- Which search `searchRoutes` runs, by the number of legs and the searches provided. -/
theorem searchRoutes_call (algorithms : RoutingAlgorithmsInterface)
    (route_parameters : RouteParameters) (start_end_nodes : List PhantomNodes) :
    ((searchRoutes algorithms route_parameters start_end_nodes).1 = Call.AlternativePathSearch ∧
        start_end_nodes.length = 1 ∧ algorithms.HasAlternativePathSearch = true ∧
        route_parameters.alternatives = true) ∨
    ((searchRoutes algorithms route_parameters start_end_nodes).1 =
          Call.DirectShortestPathSearch ∧
        start_end_nodes.length = 1 ∧ algorithms.HasDirectShortestPathSearch = true) ∨
    ((searchRoutes algorithms route_parameters start_end_nodes).1 = Call.ShortestPathSearch ∧
        (start_end_nodes.length ≠ 1 ∨ algorithms.HasDirectShortestPathSearch = false)) := by
  unfold searchRoutes
  match start_end_nodes with
  | [] => exact Or.inr (Or.inr ⟨rfl, Or.inl (by simp)⟩)
  | [front] =>
    simp only []
    by_cases h1 : (algorithms.HasAlternativePathSearch && route_parameters.alternatives) = true
    · rw [if_pos h1]
      simp only [Bool.and_eq_true] at h1
      exact Or.inl ⟨rfl, rfl, h1.1, h1.2⟩
    · rw [if_neg h1]
      by_cases h2 : algorithms.HasDirectShortestPathSearch = true
      · rw [if_pos h2]
        exact Or.inr (Or.inl ⟨rfl, rfl, h2⟩)
      · rw [if_neg h2]
        exact Or.inr (Or.inr ⟨rfl, Or.inr (by simpa using h2)⟩)
  | _ :: _ :: _ => exact Or.inr (Or.inr ⟨rfl, Or.inl (by simp)⟩)

/-- The calls of `HandleRequest`: nothing but the pre-checks, or the pre-checks followed by
the search of `searchRoutes` on the legs and possibly the response, in which case the first
two checks of the method have passed. -/
theorem handleRequest_calls (base : PluginBase) (max_locations_viaroute : Int)
    (algorithms : RoutingAlgorithmsInterface) (route_parameters : RouteParameters)
    (json_result : JsonResult) :
    (∀ c ∈ (HandleRequest base max_locations_viaroute algorithms route_parameters
          json_result).calls,
        c = Call.CheckAllCoordinates ∨ c = Call.GetPhantomNodes) ∨
      ((∀ c ∈ (HandleRequest base max_locations_viaroute algorithms route_parameters
            json_result).calls,
          c = Call.CheckAllCoordinates ∨ c = Call.GetPhantomNodes ∨
            c = Call.SnapPhantomNodes ∨ c = Call.MakeResponse ∨
            c = (searchRoutes algorithms route_parameters
              (forEachPair (base.SnapPhantomNodes
                (base.GetPhantomNodes route_parameters)))).1) ∧
        (searchRoutes algorithms route_parameters
            (forEachPair (base.SnapPhantomNodes (base.GetPhantomNodes route_parameters)))).1 ∈
          (HandleRequest base max_locations_viaroute algorithms route_parameters
            json_result).calls ∧
        ¬(algorithms.HasShortestPathSearch = false ∧
          2 < route_parameters.coordinates.length) ∧
        ¬(algorithms.HasDirectShortestPathSearch = false ∧
          algorithms.HasShortestPathSearch = false)) := by
  unfold HandleRequest
  by_cases h1 : (!algorithms.HasShortestPathSearch &&
      decide (route_parameters.coordinates.length > 2)) = true
  · rw [if_pos h1]
    exact Or.inl (fun c hc => by cases hc)
  rw [if_neg h1]
  by_cases h2 : (!algorithms.HasDirectShortestPathSearch &&
      !algorithms.HasShortestPathSearch) = true
  · rw [if_pos h2]
    exact Or.inl (fun c hc => by cases hc)
  rw [if_neg h2]
  have h1' : ¬(algorithms.HasShortestPathSearch = false ∧
      2 < route_parameters.coordinates.length) := by
    intro h
    apply h1
    simp [h.1, h.2]
  have h2' : ¬(algorithms.HasDirectShortestPathSearch = false ∧
      algorithms.HasShortestPathSearch = false) := by
    intro h
    apply h2
    simp [h.1, h.2]
  by_cases h3 : (decide (max_locations_viaroute > 0) &&
      decide (staticCastInt route_parameters.coordinates.length > max_locations_viaroute)) = true
  · rw [if_pos h3]
    exact Or.inl (fun c hc => by cases hc)
  rw [if_neg h3]
  by_cases h4 : (!base.CheckAllCoordinates route_parameters.coordinates) = true
  · rw [if_pos h4]
    exact Or.inl (fun c hc => Or.inl (List.mem_singleton.1 hc))
  rw [if_neg h4]
  dsimp only
  by_cases h5 : ((base.GetPhantomNodes route_parameters).length !=
      route_parameters.coordinates.length) = true
  · rw [if_pos h5]
    refine Or.inl (fun c hc => ?_)
    simp only [List.mem_cons, List.mem_singleton, List.not_mem_nil, or_false] at hc
    exact hc
  rw [if_neg h5]
  split_ifs
  · refine Or.inr ⟨fun c hc => ?_, by simp, h1', h2'⟩
    simp only [List.mem_cons, List.mem_singleton, List.not_mem_nil, or_false] at hc
    tauto
  · refine Or.inr ⟨fun c hc => ?_, by simp, h1', h2'⟩
    simp only [List.mem_cons, List.mem_singleton, List.not_mem_nil, or_false] at hc
    tauto
  · refine Or.inr ⟨fun c hc => ?_, by simp, h1', h2'⟩
    simp only [List.mem_cons, List.mem_singleton, List.not_mem_nil, or_false] at hc
    tauto

/-- C28: for a request with at least two coordinates for which the snapped phantom nodes are
one per coordinate, `HandleRequest` calls `AlternativePathSearch` only if the algorithm has it,
alternatives are requested and there is a single source-target pair; it calls
`DirectShortestPathSearch` only if the algorithm has it (and there is a single pair); and it
calls `ShortestPathSearch` only if the algorithm has it. When the phantom nodes are snapped,
one of the three searches is called. -/
theorem handleRequest_search_provided (base : PluginBase) (max_locations_viaroute : Int)
    (algorithms : RoutingAlgorithmsInterface) (route_parameters : RouteParameters)
    (json_result : JsonResult)
    (hcoords : 2 ≤ route_parameters.coordinates.length)
    (hphantoms : (base.SnapPhantomNodes (base.GetPhantomNodes route_parameters)).length =
      route_parameters.coordinates.length) :
    (Call.AlternativePathSearch ∈
        (HandleRequest base max_locations_viaroute algorithms route_parameters
          json_result).calls →
      algorithms.HasAlternativePathSearch = true ∧ route_parameters.alternatives = true ∧
        (forEachPair (base.SnapPhantomNodes (base.GetPhantomNodes route_parameters))).length
          = 1) ∧
    (Call.DirectShortestPathSearch ∈
        (HandleRequest base max_locations_viaroute algorithms route_parameters
          json_result).calls →
      algorithms.HasDirectShortestPathSearch = true ∧
        (forEachPair (base.SnapPhantomNodes (base.GetPhantomNodes route_parameters))).length
          = 1) ∧
    (Call.ShortestPathSearch ∈
        (HandleRequest base max_locations_viaroute algorithms route_parameters
          json_result).calls →
      algorithms.HasShortestPathSearch = true) ∧
    (Call.SnapPhantomNodes ∈
        (HandleRequest base max_locations_viaroute algorithms route_parameters
          json_result).calls →
      Call.AlternativePathSearch ∈
          (HandleRequest base max_locations_viaroute algorithms route_parameters
            json_result).calls ∨
        Call.DirectShortestPathSearch ∈
          (HandleRequest base max_locations_viaroute algorithms route_parameters
            json_result).calls ∨
        Call.ShortestPathSearch ∈
          (HandleRequest base max_locations_viaroute algorithms route_parameters
            json_result).calls) := by
  have hlen := forEachPair_length
    (base.SnapPhantomNodes (base.GetPhantomNodes route_parameters))
  rw [hphantoms] at hlen
  have hsearch := searchRoutes_call algorithms route_parameters
    (forEachPair (base.SnapPhantomNodes (base.GetPhantomNodes route_parameters)))
  rcases handleRequest_calls base max_locations_viaroute algorithms route_parameters
      json_result with hpre | ⟨hall, hmem, h1, h2⟩
  · refine ⟨fun h => ?_, fun h => ?_, fun h => ?_, fun h => ?_⟩ <;>
      rcases hpre _ h with h' | h' <;> cases h'
  · refine ⟨fun h => ?_, fun h => ?_, fun h => ?_, fun _ => ?_⟩
    · rcases hall _ h with h' | h' | h' | h' | h'
      · cases h'
      · cases h'
      · cases h'
      · cases h'
      · rcases hsearch with ⟨_, e2, e3, e4⟩ | ⟨e1, _⟩ | ⟨e1, _⟩
        · exact ⟨e3, e4, e2⟩
        · rw [e1] at h'; cases h'
        · rw [e1] at h'; cases h'
    · rcases hall _ h with h' | h' | h' | h' | h'
      · cases h'
      · cases h'
      · cases h'
      · cases h'
      · rcases hsearch with ⟨e1, _⟩ | ⟨_, e2, e3⟩ | ⟨e1, _⟩
        · rw [e1] at h'; cases h'
        · exact ⟨e3, e2⟩
        · rw [e1] at h'; cases h'
    · rcases hall _ h with h' | h' | h' | h' | h'
      · cases h'
      · cases h'
      · cases h'
      · cases h'
      · rcases hsearch with ⟨e1, _⟩ | ⟨e1, _⟩ | ⟨_, e2⟩
        · rw [e1] at h'; cases h'
        · rw [e1] at h'; cases h'
        · cases hs : algorithms.HasShortestPathSearch with
          | true => rfl
          | false =>
            rcases e2 with e2 | e2
            · exact absurd ⟨hs, by omega⟩ h1
            · exact absurd ⟨e2, hs⟩ h2
    · rcases hsearch with ⟨e1, _⟩ | ⟨e1, _⟩ | ⟨e1, _⟩
      · exact Or.inl (e1 ▸ hmem)
      · exact Or.inr (Or.inl (e1 ▸ hmem))
      · exact Or.inr (Or.inr (e1 ▸ hmem))

/-- Witness of C28: a request with two coordinates and alternatives on an algorithm with every
search runs the alternative path search. -/
theorem handleRequest_search_provided_witness :
    (2 ≤ (⟨[⟨0, 0⟩, ⟨1, 0⟩], true, none⟩ : RouteParameters).coordinates.length ∧
      (gridBase.SnapPhantomNodes
          (gridBase.GetPhantomNodes ⟨[⟨0, 0⟩, ⟨1, 0⟩], true, none⟩)).length =
        (⟨[⟨0, 0⟩, ⟨1, 0⟩], true, none⟩ : RouteParameters).coordinates.length) ∧
    (HandleRequest gridBase 0 (fullAlgorithms 5) ⟨[⟨0, 0⟩, ⟨1, 0⟩], true, none⟩
        ⟨"", ""⟩).calls =
      [Call.CheckAllCoordinates, Call.GetPhantomNodes, Call.SnapPhantomNodes,
        Call.AlternativePathSearch, Call.MakeResponse] ∧
    (Call.AlternativePathSearch ∈
        (HandleRequest gridBase 0 (fullAlgorithms 5) ⟨[⟨0, 0⟩, ⟨1, 0⟩], true, none⟩
          ⟨"", ""⟩).calls →
      (fullAlgorithms 5).HasAlternativePathSearch = true ∧
        (⟨[⟨0, 0⟩, ⟨1, 0⟩], true, none⟩ : RouteParameters).alternatives = true ∧
        (forEachPair (gridBase.SnapPhantomNodes
          (gridBase.GetPhantomNodes ⟨[⟨0, 0⟩, ⟨1, 0⟩], true, none⟩))).length = 1) :=
  ⟨⟨by decide, by decide⟩, by decide,
    (handleRequest_search_provided gridBase 0 (fullAlgorithms 5)
      ⟨[⟨0, 0⟩, ⟨1, 0⟩], true, none⟩ ⟨"", ""⟩ (by decide) (by decide)).1⟩

end plugins

end engine

namespace customize

theorem startsWithChars_eq (ext : List Char) :
    ∀ s : List Char, startsWithChars ext s = true → s = ext ++ s.drop ext.length := by
  induction ext with
  | nil => intro s _; rfl
  | cons e ext ih =>
    intro s h
    cases s with
    | nil => simp [startsWithChars] at h
    | cons c s =>
      simp only [startsWithChars, Bool.and_eq_true, beq_iff_eq] at h
      rw [h.1]
      simp only [List.length_cons, List.drop_succ_cons, List.cons_append, List.cons.injEq,
        true_and]
      exact ih s h.2

/-- The string after `find` and `replace`: the first occurrence of `ext`, at the position
`find` returns, is cut out; without an occurrence the string stays. -/
theorem removeFirst_eq (ext : List Char) (hext : ext ≠ []) :
    ∀ s : List Char,
      (findChars ext s = none → removeFirst ext s = s) ∧
      (∀ pos, findChars ext s = some pos →
        removeFirst ext s = s.take pos ++ s.drop (pos + ext.length) ∧
        s = s.take pos ++ ext ++ s.drop (pos + ext.length)) := by
  intro s
  induction s with
  | nil =>
    have he : ext.isEmpty = false := by
      cases ext with
      | nil => exact absurd rfl hext
      | cons _ _ => rfl
    refine ⟨fun _ => rfl, fun pos h => ?_⟩
    simp [findChars, he] at h
  | cons c s ih =>
    by_cases hs : startsWithChars ext (c :: s) = true
    · refine ⟨fun h => ?_, fun pos h => ?_⟩
      · simp [findChars, hs] at h
      · simp only [findChars, hs, if_true, Option.some.injEq] at h
        subst h
        simp only [removeFirst, hs, if_true, List.take_zero, List.nil_append, zero_add,
          true_and]
        exact startsWithChars_eq ext (c :: s) hs
    · refine ⟨fun h => ?_, fun pos h => ?_⟩
      · simp only [findChars, hs, if_false, Option.map_eq_none', Bool.false_eq_true] at h
        simp only [removeFirst, hs, Bool.false_eq_true, if_false]
        rw [ih.1 h]
      · simp only [findChars, hs, Bool.false_eq_true, if_false, Option.map_eq_some'] at h
        obtain ⟨p, hp, rfl⟩ := h
        obtain ⟨i1, i2⟩ := ih.2 p hp
        simp only [removeFirst, hs, Bool.false_eq_true, if_false, List.take_succ_cons,
          List.cons_append, List.cons.injEq, true_and]
        rw [show p + 1 + ext.length = (p + ext.length) + 1 by omega, List.drop_succ_cons]
        exact ⟨i1, i2⟩

/-- C24, failing input: the base path `a.osrm/b.osrm` ends in `.osrm`, and `UseDefaults` sets
the derived paths to `a/b.osrm` followed by `.osrm` and the artifact extension, not to the base
path followed by the extension: `find` returns the position of the first occurrence of
`.osrm`, here in the directory name, and that occurrence is removed instead of the ending. -/
theorem useDefaults_removes_first_occurrence :
    "a.osrm/b.osrm" = "a.osrm/b" ++ ".osrm" ∧
    findChars ".osrm".data "a.osrm/b.osrm".data = some 1 ∧
    (CustomizationConfig.UseDefaults ⟨"a.osrm/b.osrm", "", "", "", "", 0⟩) =
      ⟨"a.osrm/b.osrm", "a/b.osrm.osrm.ebg", "a/b.osrm.osrm.cnbg", "a/b.osrm.osrm.nbg_to_ebg",
        "a/b.osrm.osrm.partition", 0⟩ ∧
    (CustomizationConfig.UseDefaults ⟨"a.osrm/b.osrm", "", "", "", "", 0⟩).edge_based_graph_path
      ≠ "a.osrm/b.osrm" ++ ".ebg" ∧
    (CustomizationConfig.UseDefaults
        ⟨"a.osrm/b.osrm", "", "", "", "", 0⟩).compressed_node_based_graph_path
      ≠ "a.osrm/b.osrm" ++ ".cnbg" ∧
    (CustomizationConfig.UseDefaults ⟨"a.osrm/b.osrm", "", "", "", "", 0⟩).nbg_ebg_mapping_path
      ≠ "a.osrm/b.osrm" ++ ".nbg_to_ebg" ∧
    (CustomizationConfig.UseDefaults ⟨"a.osrm/b.osrm", "", "", "", "", 0⟩).partition_path
      ≠ "a.osrm/b.osrm" ++ ".partition" := by
  decide

/-- The paths `UseDefaults` derives: for every base path whose first occurrence of `.osrm` is
its ending (`find` returns the length of the path minus 5), each derived path is the base path
followed by the artifact extension `.ebg`, `.cnbg`, `.nbg_to_ebg`, `.partition`; for a base
path without an occurrence of `.osrm` (`find` returns `npos`) the paths are the base path
followed by `.osrm` and the extension. The base path and the thread count are not changed. -/
theorem useDefaults_derived_paths (config : CustomizationConfig) :
    (findChars ".osrm".data config.base_path.data =
        some (config.base_path.data.length - 5) →
      (∃ stem : String, config.base_path = stem ++ ".osrm") ∧
      config.UseDefaults.edge_based_graph_path = config.base_path ++ ".ebg" ∧
      config.UseDefaults.compressed_node_based_graph_path = config.base_path ++ ".cnbg" ∧
      config.UseDefaults.nbg_ebg_mapping_path = config.base_path ++ ".nbg_to_ebg" ∧
      config.UseDefaults.partition_path = config.base_path ++ ".partition") ∧
    (findChars ".osrm".data config.base_path.data = none →
      config.UseDefaults.edge_based_graph_path = config.base_path ++ ".osrm" ++ ".ebg" ∧
      config.UseDefaults.compressed_node_based_graph_path =
        config.base_path ++ ".osrm" ++ ".cnbg" ∧
      config.UseDefaults.nbg_ebg_mapping_path = config.base_path ++ ".osrm" ++ ".nbg_to_ebg" ∧
      config.UseDefaults.partition_path = config.base_path ++ ".osrm" ++ ".partition") ∧
    config.UseDefaults.base_path = config.base_path ∧
    config.UseDefaults.requested_num_threads = config.requested_num_threads := by
  have hext : ".osrm".data ≠ [] := by decide
  obtain ⟨hnone, hsome⟩ := removeFirst_eq ".osrm".data hext config.base_path.data
  refine ⟨fun h => ?_, fun h => ?_, rfl, rfl⟩
  · obtain ⟨h1, h2⟩ := hsome _ h
    have hlen5 : (".osrm".data).length = 5 := by decide
    have hlen := congrArg List.length h2
    simp only [List.length_append, List.length_take, List.length_drop, hlen5] at hlen
    have hdrop : config.base_path.data.drop (config.base_path.data.length - 5 +
        (".osrm".data).length) = [] := by
      apply List.drop_eq_nil_of_le
      rw [hlen5]; omega
    rw [hdrop, List.append_nil] at h1 h2
    have hbase : config.base_path =
        String.mk (removeFirst ".osrm".data config.base_path.data) ++ ".osrm" := by
      apply String.ext
      rw [String.data_append, h1]
      exact h2
    refine ⟨⟨_, hbase⟩, ?_, ?_, ?_, ?_⟩
    · show String.mk (removeFirst ".osrm".data config.base_path.data) ++ ".osrm.ebg" = _
      conv_rhs => rw [hbase]
      apply String.ext
      simp only [String.data_append, List.append_assoc]
      rfl
    · show String.mk (removeFirst ".osrm".data config.base_path.data) ++ ".osrm.cnbg" = _
      conv_rhs => rw [hbase]
      apply String.ext
      simp only [String.data_append, List.append_assoc]
      rfl
    · show String.mk (removeFirst ".osrm".data config.base_path.data) ++ ".osrm.nbg_to_ebg" = _
      conv_rhs => rw [hbase]
      apply String.ext
      simp only [String.data_append, List.append_assoc]
      rfl
    · show String.mk (removeFirst ".osrm".data config.base_path.data) ++ ".osrm.partition" = _
      conv_rhs => rw [hbase]
      apply String.ext
      simp only [String.data_append, List.append_assoc]
      rfl
  · have h1 := hnone h
    have hbase : String.mk (removeFirst ".osrm".data config.base_path.data) =
        config.base_path := by
      apply String.ext
      exact h1
    refine ⟨?_, ?_, ?_, ?_⟩
    · show String.mk (removeFirst ".osrm".data config.base_path.data) ++ ".osrm.ebg" = _
      rw [hbase]
      apply String.ext
      simp only [String.data_append, List.append_assoc]
      rfl
    · show String.mk (removeFirst ".osrm".data config.base_path.data) ++ ".osrm.cnbg" = _
      rw [hbase]
      apply String.ext
      simp only [String.data_append, List.append_assoc]
      rfl
    · show String.mk (removeFirst ".osrm".data config.base_path.data) ++ ".osrm.nbg_to_ebg" = _
      rw [hbase]
      apply String.ext
      simp only [String.data_append, List.append_assoc]
      rfl
    · show String.mk (removeFirst ".osrm".data config.base_path.data) ++ ".osrm.partition" = _
      rw [hbase]
      apply String.ext
      simp only [String.data_append, List.append_assoc]
      rfl

/-- The derived paths for the base paths `map.osrm` and `map`. -/
theorem useDefaults_derived_paths_witness :
    findChars ".osrm".data
        (⟨"map.osrm", "", "", "", "", 0⟩ : CustomizationConfig).base_path.data =
      some ((⟨"map.osrm", "", "", "", "", 0⟩ : CustomizationConfig).base_path.data.length - 5) ∧
    (CustomizationConfig.UseDefaults ⟨"map.osrm", "", "", "", "", 0⟩).partition_path =
      "map.osrm.partition" ∧
    (CustomizationConfig.UseDefaults ⟨"map", "", "", "", "", 0⟩).partition_path =
      "map.osrm.partition" ∧
    (CustomizationConfig.UseDefaults ⟨"map.osrm", "", "", "", "", 0⟩).edge_based_graph_path =
      (⟨"map.osrm", "", "", "", "", 0⟩ : CustomizationConfig).base_path ++ ".ebg" :=
  ⟨by decide, by decide, by decide,
    ((useDefaults_derived_paths ⟨"map.osrm", "", "", "", "", 0⟩).1 (by decide)).2.1⟩

end customize

namespace Partitioner

/-- A flag that a loop only ever clears is set at the end iff it was set at the start and no
iteration cleared it. -/
theorem foldl_and_flag {α : Type} (skip a b : α → Bool) (l : List α) :
    ∀ init : Bool,
      l.foldl (fun flag x => if !skip x then (flag && a x) && b x else flag) init =
        (init && l.all (fun x => skip x || (a x && b x))) := by
  induction l with
  | nil => intro init; simp
  | cons x rest ih =>
    intro init
    rw [List.foldl_cons, ih]
    cases hs : skip x <;> cases ha : a x <;> cases hb : b x <;> cases init <;>
      simp [hs, ha, hb]

theorem useV_eq (Lookup : Nat → NodeBasedNodes) (edge_based_graph : EdgeBasedGraph)
    (ids : List Nat) (node : Nat) :
    useV Lookup edge_based_graph ids node =
      (edge_based_graph.GetAdjacentEdgeRange node).all
        (fun edge =>
          ((Lookup node).u == (Lookup (edge_based_graph.GetTarget edge)).v &&
              (Lookup node).v == (Lookup (edge_based_graph.GetTarget edge)).u) ||
            (ids.getD (Lookup node).v 0 ==
                ids.getD (Lookup (edge_based_graph.GetTarget edge)).u 0 &&
              ids.getD (Lookup node).v 0 ==
                ids.getD (Lookup (edge_based_graph.GetTarget edge)).v 0)) := by
  have h := foldl_and_flag
    (fun edge =>
      ((Lookup node).u == (Lookup (edge_based_graph.GetTarget edge)).v &&
        (Lookup node).v == (Lookup (edge_based_graph.GetTarget edge)).u))
    (fun edge =>
      ids.getD (Lookup node).v 0 == ids.getD (Lookup (edge_based_graph.GetTarget edge)).u 0)
    (fun edge =>
      ids.getD (Lookup node).v 0 == ids.getD (Lookup (edge_based_graph.GetTarget edge)).v 0)
    (edge_based_graph.GetAdjacentEdgeRange node) true
  rw [Bool.true_and] at h
  exact h

/-- C30: when `Partitioner::Run` translates the node-based partition ids to the edge-based
node `node` with the node-based endpoints `(u, v)`, the id assigned is the id of `u` or the id
of `v`; it is their common id when they agree; and when they differ it is the id of `v` if and
only if every outgoing edge of `node` in the edge-based graph whose target does not have the
endpoints `(v, u)` leads to a node both of whose endpoints have the id of `v`, and it is the id
of `u` otherwise. -/
theorem edge_based_id_of_endpoints (Lookup : Nat → NodeBasedNodes)
    (edge_based_graph : EdgeBasedGraph) (node_based_partition_ids : List Nat) (node : Nat)
    (hnode : node < edge_based_graph.GetNumberOfNodes) :
    ∃ id : Nat,
      (edgeBasedPartitionIds Lookup edge_based_graph node_based_partition_ids)[node]? =
        some id ∧
      (id = node_based_partition_ids.getD (Lookup node).u 0 ∨
        id = node_based_partition_ids.getD (Lookup node).v 0) ∧
      (node_based_partition_ids.getD (Lookup node).u 0 =
          node_based_partition_ids.getD (Lookup node).v 0 →
        id = node_based_partition_ids.getD (Lookup node).u 0) ∧
      (node_based_partition_ids.getD (Lookup node).u 0 ≠
          node_based_partition_ids.getD (Lookup node).v 0 →
        (id = node_based_partition_ids.getD (Lookup node).v 0 ↔
          ∀ edge ∈ edge_based_graph.GetAdjacentEdgeRange node,
            ¬((Lookup (edge_based_graph.GetTarget edge)).u = (Lookup node).v ∧
              (Lookup (edge_based_graph.GetTarget edge)).v = (Lookup node).u) →
            node_based_partition_ids.getD (Lookup (edge_based_graph.GetTarget edge)).u 0 =
                node_based_partition_ids.getD (Lookup node).v 0 ∧
              node_based_partition_ids.getD (Lookup (edge_based_graph.GetTarget edge)).v 0 =
                node_based_partition_ids.getD (Lookup node).v 0) ∧
        (id ≠ node_based_partition_ids.getD (Lookup node).v 0 →
          id = node_based_partition_ids.getD (Lookup node).u 0)) := by
  refine ⟨edgeBasedPartitionId Lookup edge_based_graph node_based_partition_ids node, ?_, ?_⟩
  · unfold edgeBasedPartitionIds
    rw [List.getElem?_map, List.getElem?_range hnode]
    rfl
  have hall : useV Lookup edge_based_graph node_based_partition_ids node = true ↔
      ∀ edge ∈ edge_based_graph.GetAdjacentEdgeRange node,
        ¬((Lookup (edge_based_graph.GetTarget edge)).u = (Lookup node).v ∧
          (Lookup (edge_based_graph.GetTarget edge)).v = (Lookup node).u) →
        node_based_partition_ids.getD (Lookup (edge_based_graph.GetTarget edge)).u 0 =
            node_based_partition_ids.getD (Lookup node).v 0 ∧
          node_based_partition_ids.getD (Lookup (edge_based_graph.GetTarget edge)).v 0 =
            node_based_partition_ids.getD (Lookup node).v 0 := by
    rw [useV_eq, List.all_eq_true]
    refine forall_congr' (fun edge => forall_congr' (fun _ => ?_))
    simp only [Bool.or_eq_true, Bool.and_eq_true, beq_iff_eq]
    constructor
    · intro h hn
      rcases h with h | h
      · exact absurd ⟨h.2.symm, h.1.symm⟩ hn
      · exact ⟨h.1.symm, h.2.symm⟩
    · intro h
      by_cases hu : (Lookup (edge_based_graph.GetTarget edge)).u = (Lookup node).v ∧
          (Lookup (edge_based_graph.GetTarget edge)).v = (Lookup node).u
      · exact Or.inl ⟨hu.2.symm, hu.1.symm⟩
      · exact Or.inr ⟨(h hu).1.symm, (h hu).2.symm⟩
  unfold edgeBasedPartitionId
  dsimp only
  by_cases heq : node_based_partition_ids.getD (Lookup node).u 0 =
      node_based_partition_ids.getD (Lookup node).v 0
  · rw [if_pos (by simpa using heq)]
    exact ⟨Or.inl rfl, fun _ => rfl, fun hne => absurd heq hne⟩
  · rw [if_neg (by simpa using heq)]
    cases huse : useV Lookup edge_based_graph node_based_partition_ids node with
    | true =>
      rw [if_pos rfl]
      exact ⟨Or.inr rfl, fun h => absurd h heq,
        fun _ => ⟨⟨fun _ => hall.1 huse, fun _ => rfl⟩, fun h => absurd rfl h⟩⟩
    | false =>
      rw [if_neg Bool.false_ne_true]
      refine ⟨Or.inl rfl, fun h => absurd h heq, fun _ => ⟨?_, fun _ => rfl⟩⟩
      constructor
      · intro h
        exact absurd h heq
      · intro h
        have := hall.2 h
        rw [huse] at this
        cases this

/-- Witness of C30: with the ids 5, 7, 7 of the node-based nodes 0, 1, 2 the edge-based node
0 from 0 to 1 gets the id 7 of `v`, its only edge that is not a u-turn leading to the node from
1 to 2; with the ids 5, 7, 8 it gets the id 5 of `u`. -/
theorem edge_based_id_of_endpoints_witness :
    0 < turnGraph.GetNumberOfNodes ∧
    edgeBasedPartitionIds turnLookup turnGraph [5, 7, 7] = [7, 7, 5] ∧
    edgeBasedPartitionIds turnLookup turnGraph [5, 7, 8] = [5, 8, 5] ∧
    ∃ id : Nat,
      (edgeBasedPartitionIds turnLookup turnGraph [5, 7, 7])[0]? = some id ∧
      (id = [5, 7, 7].getD (turnLookup 0).u 0 ∨ id = [5, 7, 7].getD (turnLookup 0).v 0) :=
  ⟨by decide, by decide, by decide,
    (edge_based_id_of_endpoints turnLookup turnGraph [5, 7, 7] 0 (by decide)).imp
      (fun _ h => ⟨h.1, h.2.1⟩)⟩

end Partitioner

namespace extractor

namespace guidance

theorem set_same {α : Type} (l : List α) (i : Nat) (r : α) (h : l[i]? = some r) :
    l.set i r = l := by
  apply List.ext_getElem?
  intro j
  by_cases hj : i = j
  · subst hj
    have hlt : i < l.length := (List.getElem?_eq_some.1 h).1
    rw [List.getElem?_set_self hlt, h]
  · rw [List.getElem?_set_ne hj]

/-- A loop that rewrites the element at each of a list of distinct positions: the length
stays, the elements at the positions are rewritten, the others are kept. -/
theorem foldl_set_spec {α : Type} (f : Nat → α → α) (step : List α → Nat → List α)
    (hnone : ∀ l idx, l[idx]? = none → step l idx = l)
    (hsome : ∀ l idx r, l[idx]? = some r → step l idx = l.set idx (f l.length r))
    (idxs : List Nat) (hnd : idxs.Nodup) :
    ∀ l : List α,
      (idxs.foldl step l).length = l.length ∧
      ∀ j, (idxs.foldl step l)[j]? =
        if j ∈ idxs then (l[j]?).map (f l.length) else l[j]? := by
  induction idxs with
  | nil => intro l; exact ⟨rfl, fun j => by simp⟩
  | cons i rest ih =>
    intro l
    rw [List.nodup_cons] at hnd
    rw [List.foldl_cons]
    have hstep : (step l i).length = l.length ∧
        ∀ j, (step l i)[j]? = if j = i then (l[j]?).map (f l.length) else l[j]? := by
      cases hi : l[i]? with
      | none =>
        rw [hnone l i hi]
        refine ⟨rfl, fun j => ?_⟩
        by_cases hj : j = i
        · subst hj; simp [hi]
        · simp [hj]
      | some r =>
        rw [hsome l i r hi]
        refine ⟨by simp, fun j => ?_⟩
        by_cases hj : j = i
        · subst hj
          have hlt : j < l.length := (List.getElem?_eq_some.1 hi).1
          simp [hi, List.getElem?_set_self, hlt]
        · rw [List.getElem?_set_ne (fun h => hj h.symm)]
          simp [hj]
    obtain ⟨i1, i2⟩ := ih hnd.2 (step l i)
    refine ⟨i1.trans hstep.1, fun j => ?_⟩
    rw [i2 j, hstep.1, hstep.2 j]
    by_cases hji : j = i
    · subst hji
      simp [hnd.1]
    · simp [hji]

theorem mem_zip_range {α : Type} (l : List α) (i : Nat) (r : α)
    (h : (i, r) ∈ List.zip (List.range l.length) l) : l[i]? = some r := by
  obtain ⟨k, hk⟩ := List.mem_iff_getElem?.1 h
  rw [List.getElem?_zip_eq_some] at hk
  obtain ⟨h1, h2⟩ := hk
  have hlt : k < l.length := (List.getElem?_eq_some.1 h2).1
  rw [List.getElem?_range hlt] at h1
  simp only [Option.some.injEq] at h1
  rw [← h1]
  exact h2

/-- When the road 0 is no roundabout road, the range to invalidate is well formed and starts
behind the road 0. -/
theorem invalidateRange_bounds (node_based_graph : NodeBasedDynamicGraph)
    (intersection : List ConnectedRoad)
    (h0 : ∀ road, intersection[0]? = some road →
      (node_based_graph.GetEdgeData road.eid).roundabout = false ∧
        (node_based_graph.GetEdgeData road.eid).circular = false) :
    (invalidateRange node_based_graph intersection).2.1 ≤
        (invalidateRange node_based_graph intersection).2.2 ∧
      (invalidateRange node_based_graph intersection).2.2 ≤ intersection.length ∧
      (intersection.length = 0 ∨ 1 ≤ (invalidateRange node_based_graph intersection).2.1) := by
  unfold invalidateRange
  have key : ∀ (roads : List (Nat × ConnectedRoad)) (state : Bool × Nat × Nat),
      (∀ p ∈ roads, p.1 < intersection.length ∧
        (p.1 = 0 → (node_based_graph.GetEdgeData p.2.eid).roundabout = false ∧
          (node_based_graph.GetEdgeData p.2.eid).circular = false)) →
      (state.2.1 ≤ state.2.2 ∧ state.2.2 ≤ intersection.length ∧
        (intersection.length = 0 ∨ 1 ≤ state.2.1)) →
      ((roads.foldl
          (fun state road =>
            if ((node_based_graph.GetEdgeData road.2.eid).roundabout ||
                (node_based_graph.GetEdgeData road.2.eid).circular) = true then
              if (node_based_graph.GetEdgeData road.2.eid).reversed = true then
                if state.1 = true then (state.1, road.1 + 1, intersection.length)
                else (state.1, 0 + 1, road.1)
              else (true, state.2.1, state.2.2)
            else state) state).2.1 ≤
        (roads.foldl
          (fun state road =>
            if ((node_based_graph.GetEdgeData road.2.eid).roundabout ||
                (node_based_graph.GetEdgeData road.2.eid).circular) = true then
              if (node_based_graph.GetEdgeData road.2.eid).reversed = true then
                if state.1 = true then (state.1, road.1 + 1, intersection.length)
                else (state.1, 0 + 1, road.1)
              else (true, state.2.1, state.2.2)
            else state) state).2.2 ∧
        (roads.foldl
          (fun state road =>
            if ((node_based_graph.GetEdgeData road.2.eid).roundabout ||
                (node_based_graph.GetEdgeData road.2.eid).circular) = true then
              if (node_based_graph.GetEdgeData road.2.eid).reversed = true then
                if state.1 = true then (state.1, road.1 + 1, intersection.length)
                else (state.1, 0 + 1, road.1)
              else (true, state.2.1, state.2.2)
            else state) state).2.2 ≤ intersection.length ∧
        (intersection.length = 0 ∨ 1 ≤ (roads.foldl
          (fun state road =>
            if ((node_based_graph.GetEdgeData road.2.eid).roundabout ||
                (node_based_graph.GetEdgeData road.2.eid).circular) = true then
              if (node_based_graph.GetEdgeData road.2.eid).reversed = true then
                if state.1 = true then (state.1, road.1 + 1, intersection.length)
                else (state.1, 0 + 1, road.1)
              else (true, state.2.1, state.2.2)
            else state) state).2.1)) := by
    intro roads
    induction roads with
    | nil => intro state _ hs; exact hs
    | cons p rest ih =>
      intro state hall hs
      rw [List.foldl_cons]
      apply ih
      · exact fun q hq => hall q (List.mem_cons_of_mem _ hq)
      · obtain ⟨hlt, hzero⟩ := hall p (List.mem_cons_self _ _)
        by_cases hrc : ((node_based_graph.GetEdgeData p.2.eid).roundabout ||
            (node_based_graph.GetEdgeData p.2.eid).circular) = true
        · rw [if_pos hrc]
          have hp : p.1 ≠ 0 := by
            intro hp
            obtain ⟨h1, h2⟩ := hzero hp
            rw [h1, h2] at hrc
            cases hrc
          by_cases hrev : (node_based_graph.GetEdgeData p.2.eid).reversed = true
          · rw [if_pos hrev]
            by_cases hfirst : state.1 = true
            · rw [if_pos hfirst]
              refine ⟨?_, le_refl _, Or.inr ?_⟩
              · show p.1 + 1 ≤ intersection.length
                omega
              · show 1 ≤ p.1 + 1
                omega
            · rw [if_neg hfirst]
              refine ⟨?_, ?_, Or.inr ?_⟩
              · show 0 + 1 ≤ p.1
                omega
              · show p.1 ≤ intersection.length
                omega
              · show 1 ≤ 0 + 1
                omega
          · rw [if_neg hrev]
            exact hs
        · rw [if_neg hrc]
          exact hs
  refine key _ _ ?_ ⟨le_refl _, le_refl _, ?_⟩
  · intro p hp
    have hget := mem_zip_range intersection p.1 p.2 hp
    refine ⟨(List.getElem?_eq_some.1 hget).1, fun hz => ?_⟩
    rw [hz] at hget
    exact h0 p.2 hget
  · show intersection.length = 0 ∨ 1 ≤ intersection.length
    omega

/-- C29: in `invalidateExitAgainstDirection`, for every intersection whose road 0 is neither a
roundabout nor a circular edge, the range computed has `invalidate_from <= invalidate_to` and
ends within the intersection, so the assertion holds and the method returns; it leaves every
road as it was except that `entry_allowed` may be switched from true to false, and only on a
road other than road 0 that is neither roundabout nor circular and does not lead to
`from_nid`; and when the incoming edge is roundabout or circular the intersection is not
changed at all. -/
theorem invalidate_only_clears_entries (node_based_graph : NodeBasedDynamicGraph)
    (from_nid via_eid : Nat) (intersection : List ConnectedRoad)
    (h0 : ∀ road, intersection[0]? = some road →
      (node_based_graph.GetEdgeData road.eid).roundabout = false ∧
        (node_based_graph.GetEdgeData road.eid).circular = false) :
    ∃ result : List ConnectedRoad,
      invalidateExitAgainstDirection node_based_graph from_nid via_eid intersection =
        some result ∧
      (invalidateRange node_based_graph intersection).2.1 ≤
        (invalidateRange node_based_graph intersection).2.2 ∧
      (invalidateRange node_based_graph intersection).2.2 ≤ intersection.length ∧
      result.length = intersection.length ∧
      (∀ (j : Nat) (road : ConnectedRoad), intersection[j]? = some road →
        ∃ after : ConnectedRoad,
          result[j]? = some after ∧ after.eid = road.eid ∧ after.angle = road.angle ∧
          after.instruction = road.instruction ∧
          (after.entry_allowed = road.entry_allowed ∨
            (road.entry_allowed = true ∧ after.entry_allowed = false)) ∧
          (after.entry_allowed ≠ road.entry_allowed →
            j ≠ 0 ∧ (node_based_graph.GetEdgeData road.eid).roundabout = false ∧
              (node_based_graph.GetEdgeData road.eid).circular = false ∧
              node_based_graph.GetTarget road.eid ≠ from_nid)) ∧
      (((node_based_graph.GetEdgeData via_eid).roundabout = true ∨
          (node_based_graph.GetEdgeData via_eid).circular = true) →
        result = intersection) := by
  obtain ⟨hle, hto, hfrom⟩ := invalidateRange_bounds node_based_graph intersection h0
  unfold invalidateExitAgainstDirection
  dsimp only
  by_cases hin : ((node_based_graph.GetEdgeData via_eid).roundabout ||
      (node_based_graph.GetEdgeData via_eid).circular) = true
  · rw [if_pos hin]
    refine ⟨intersection, rfl, hle, hto, rfl, fun j road hj => ?_, fun _ => rfl⟩
    exact ⟨road, hj, rfl, rfl, rfl, Or.inl rfl, fun h => absurd rfl h⟩
  · rw [if_neg hin, if_neg (by simpa using hle)]
    refine ⟨_, rfl, hle, hto, ?_⟩
    obtain ⟨hlen, hget⟩ := foldl_set_spec
      (fun (_ : Nat) (road : ConnectedRoad) =>
        if (!(node_based_graph.GetEdgeData road.eid).roundabout &&
            !(node_based_graph.GetEdgeData road.eid).circular &&
            node_based_graph.GetTarget road.eid != from_nid) = true then
          (⟨road.eid, false, road.angle, road.instruction⟩ : ConnectedRoad)
        else road)
      (fun (intersection : List ConnectedRoad) (position : Nat) =>
        match intersection[position]? with
        | none => intersection
        | some road =>
          if (!(node_based_graph.GetEdgeData road.eid).roundabout &&
              !(node_based_graph.GetEdgeData road.eid).circular &&
              node_based_graph.GetTarget road.eid != from_nid) = true then
            intersection.set position ⟨road.eid, false, road.angle, road.instruction⟩
          else intersection)
      (fun l idx h => by simp only [h])
      (fun l idx r h => by
        simp only [h]
        split_ifs
        · rfl
        · exact (set_same l idx r h).symm)
      (List.range' (invalidateRange node_based_graph intersection).2.1
        ((invalidateRange node_based_graph intersection).2.2 -
          (invalidateRange node_based_graph intersection).2.1))
      (List.nodup_range' _ _) intersection
    refine ⟨hlen, fun j road hj => ?_, fun h => ?_⟩
    · have hg := hget j
      rw [hj] at hg
      by_cases hmem : j ∈ List.range' (invalidateRange node_based_graph intersection).2.1
          ((invalidateRange node_based_graph intersection).2.2 -
            (invalidateRange node_based_graph intersection).2.1)
      · rw [if_pos hmem] at hg
        have hj0 : j ≠ 0 := by
          rw [List.mem_range'_1] at hmem
          have hjl : j < intersection.length := (List.getElem?_eq_some.1 hj).1
          omega
        simp only [Option.map_some'] at hg
        by_cases hc : (!(node_based_graph.GetEdgeData road.eid).roundabout &&
            !(node_based_graph.GetEdgeData road.eid).circular &&
            node_based_graph.GetTarget road.eid != from_nid) = true
        · rw [if_pos hc] at hg
          simp only [Bool.and_eq_true, Bool.not_eq_true', bne_iff_ne, ne_eq] at hc
          refine ⟨_, hg, rfl, rfl, rfl, ?_, fun _ => ⟨hj0, hc.1.1, hc.1.2, hc.2⟩⟩
          cases he : road.entry_allowed with
          | true => exact Or.inr ⟨rfl, rfl⟩
          | false => exact Or.inl rfl
        · rw [if_neg hc] at hg
          exact ⟨road, hg, rfl, rfl, rfl, Or.inl rfl, fun h => absurd rfl h⟩
      · rw [if_neg hmem] at hg
        exact ⟨road, hg, rfl, rfl, rfl, Or.inl rfl, fun h => absurd rfl h⟩
    · exfalso
      apply hin
      rcases h with h | h <;> simp [h]

/-- Witness of C29 on `ringIntersection`, entered from the node 9 over an edge that is not on
the roundabout: the range is the road 1, whose entry is cleared. -/
theorem invalidate_only_clears_entries_witness :
    (∀ road, ringIntersection[0]? = some road →
      (ringGraph.GetEdgeData road.eid).roundabout = false ∧
        (ringGraph.GetEdgeData road.eid).circular = false) ∧
    invalidateRange ringGraph ringIntersection = (true, 1, 2) ∧
    invalidateExitAgainstDirection ringGraph 9 5 ringIntersection =
      some [⟨0, true, 0, ⟨0, 0⟩⟩, ⟨1, false, 90, ⟨0, 0⟩⟩, ⟨2, false, 180, ⟨0, 0⟩⟩,
        ⟨3, true, 270, ⟨0, 0⟩⟩] ∧
    ∃ result : List ConnectedRoad,
      invalidateExitAgainstDirection ringGraph 9 5 ringIntersection = some result ∧
      (invalidateRange ringGraph ringIntersection).2.1 ≤
        (invalidateRange ringGraph ringIntersection).2.2 :=
  ⟨by intro road h; cases h; exact ⟨rfl, rfl⟩, by decide, by decide,
    (invalidate_only_clears_entries ringGraph 9 5 ringIntersection
      (by intro road h; cases h; exact ⟨rfl, rfl⟩)).imp (fun _ h => ⟨h.1, h.2.1⟩)⟩

end guidance

end extractor

namespace extractor

namespace guidance

theorem roadIndices_nodup (lhs : Bool) (size : Nat) : (roadIndices lhs size).Nodup := by
  unfold roadIndices
  refine List.Nodup.map_on ?_ (List.nodup_range size)
  intro a ha b hb hab
  rw [List.mem_range] at ha hb
  cases lhs with
  | true =>
    simp only [if_true] at hab
    omega
  | false =>
    simpa using hab

theorem mem_roadIndices (lhs : Bool) (size j : Nat) (hj : j < size) :
    j ∈ roadIndices lhs size := by
  unfold roadIndices
  rw [List.mem_map]
  cases lhs with
  | true =>
    refine ⟨size - 1 - j, List.mem_range.2 (by omega), ?_⟩
    simp only [if_true]
    omega
  | false =>
    exact ⟨j, List.mem_range.2 hj, by simp⟩

/-- C22: in `handleRoundabouts` with `on_roundabout` true, every road of the intersection
keeps its edge, entry flag and angle and gets the instruction of `onRoundaboutInstruction`: a
road whose edge is neither roundabout nor circular gets `EXIT_ROUNDABOUT`; a road that stays on
the roundabout gets, when the directed out-degree of the centre node is not 1,
`REMAIN_ROUNDABOUT` if its own edge is of a low-priority road class or the centre node has an
adjacent edge that is not reversed, not roundabout, not circular and not low-priority, and a
`Suppressed` instruction otherwise; when the directed out-degree is 1 it gets `NO_TURN` if the
intersection has two roads and a `Suppressed` instruction otherwise. The direction modifier
is in every case but `NO_TURN` the one `getTurnDirection` gives for the angle of the road,
and the order of the loop (left-hand driving or not) makes no difference. -/
theorem handleRoundabouts_on_roundabout (node_based_graph : NodeBasedDynamicGraph)
    (instructions : TurnInstructions) (left_hand_driving : Bool)
    (roundabout_type : RoundaboutType) (via_eid : Nat) (can_exit_roundabout_separately : Bool)
    (intersection : List ConnectedRoad) (idx : Nat) (road : ConnectedRoad)
    (hroad : intersection[idx]? = some road) :
    ∃ turn : ConnectedRoad,
      (handleRoundabouts node_based_graph instructions left_hand_driving roundabout_type
        via_eid true can_exit_roundabout_separately intersection)[idx]? = some turn ∧
      turn.eid = road.eid ∧ turn.entry_allowed = road.entry_allowed ∧
      turn.angle = road.angle ∧
      (((node_based_graph.GetEdgeData road.eid).roundabout = false ∧
          (node_based_graph.GetEdgeData road.eid).circular = false) →
        turn.instruction =
          instructions.EXIT_ROUNDABOUT roundabout_type
            (instructions.getTurnDirection road.angle)) ∧
      (((node_based_graph.GetEdgeData road.eid).roundabout = true ∨
          (node_based_graph.GetEdgeData road.eid).circular = true) →
        (node_based_graph.GetDirectedOutDegree (node_based_graph.GetTarget via_eid) ≠ 1 →
          (((node_based_graph.GetEdgeData road.eid).is_low_priority_road_class = true ∨
              ∃ eid ∈ node_based_graph.GetAdjacentEdgeRange
                  (node_based_graph.GetTarget via_eid),
                (node_based_graph.GetEdgeData eid).reversed = false ∧
                (node_based_graph.GetEdgeData eid).roundabout = false ∧
                (node_based_graph.GetEdgeData eid).circular = false ∧
                (node_based_graph.GetEdgeData eid).is_low_priority_road_class = false) →
            turn.instruction =
              instructions.REMAIN_ROUNDABOUT roundabout_type
                (instructions.getTurnDirection road.angle)) ∧
          (¬((node_based_graph.GetEdgeData road.eid).is_low_priority_road_class = true ∨
              ∃ eid ∈ node_based_graph.GetAdjacentEdgeRange
                  (node_based_graph.GetTarget via_eid),
                (node_based_graph.GetEdgeData eid).reversed = false ∧
                (node_based_graph.GetEdgeData eid).roundabout = false ∧
                (node_based_graph.GetEdgeData eid).circular = false ∧
                (node_based_graph.GetEdgeData eid).is_low_priority_road_class = false) →
            turn.instruction =
              ⟨instructions.Suppressed, instructions.getTurnDirection road.angle⟩)) ∧
        (node_based_graph.GetDirectedOutDegree (node_based_graph.GetTarget via_eid) = 1 →
          (intersection.length = 2 → turn.instruction = instructions.NO_TURN) ∧
          (intersection.length ≠ 2 →
            turn.instruction =
              ⟨instructions.Suppressed, instructions.getTurnDirection road.angle⟩))) ∧
      (handleRoundabouts node_based_graph instructions left_hand_driving roundabout_type
        via_eid true can_exit_roundabout_separately intersection).length =
        intersection.length := by
  obtain ⟨hlen, hget⟩ := foldl_set_spec
    (fun (size : Nat) (road : ConnectedRoad) =>
      (⟨road.eid, road.entry_allowed, road.angle,
        onRoundaboutInstruction node_based_graph instructions roundabout_type
          (node_based_graph.GetTarget via_eid) size road⟩ : ConnectedRoad))
    (fun (intersection : List ConnectedRoad) (idx : Nat) =>
      match intersection[idx]? with
      | none => intersection
      | some road =>
        intersection.set idx
          ⟨road.eid, road.entry_allowed, road.angle,
            onRoundaboutInstruction node_based_graph instructions roundabout_type
              (node_based_graph.GetTarget via_eid) intersection.length road⟩)
    (fun l idx h => by simp only [h])
    (fun l idx r h => by simp only [h])
    (roadIndices left_hand_driving intersection.length)
    (roadIndices_nodup left_hand_driving intersection.length) intersection
  have hidx : idx < intersection.length := (List.getElem?_eq_some.1 hroad).1
  have hg := hget idx
  rw [if_pos (mem_roadIndices left_hand_driving intersection.length idx hidx), hroad,
    Option.map_some'] at hg
  refine ⟨_, hg, rfl, rfl, rfl, ?_, ?_, hlen⟩
  · rintro ⟨h1, h2⟩
    simp [onRoundaboutInstruction, h1, h2]
  · intro hrc
    have hrc' : ((node_based_graph.GetEdgeData road.eid).roundabout ||
        (node_based_graph.GetEdgeData road.eid).circular) = true := by
      rcases hrc with h | h <;> simp [h]
    have hany : ((node_based_graph.GetAdjacentEdgeRange
          (node_based_graph.GetTarget via_eid)).any
          (fun eid =>
            !(node_based_graph.GetEdgeData eid).reversed &&
              !(node_based_graph.GetEdgeData eid).roundabout &&
              !(node_based_graph.GetEdgeData eid).circular &&
              !(node_based_graph.GetEdgeData eid).is_low_priority_road_class)) = true ↔
        ∃ eid ∈ node_based_graph.GetAdjacentEdgeRange (node_based_graph.GetTarget via_eid),
          (node_based_graph.GetEdgeData eid).reversed = false ∧
          (node_based_graph.GetEdgeData eid).roundabout = false ∧
          (node_based_graph.GetEdgeData eid).circular = false ∧
          (node_based_graph.GetEdgeData eid).is_low_priority_road_class = false := by
      simp only [List.any_eq_true, Bool.and_eq_true, Bool.not_eq_true', and_assoc]
    refine ⟨fun hdeg => ⟨fun hex => ?_, fun hex => ?_⟩, fun hdeg => ⟨fun h2 => ?_, fun h2 => ?_⟩⟩
    · have hd : (1 == node_based_graph.GetDirectedOutDegree
          (node_based_graph.GetTarget via_eid)) = false := by
        simpa using fun h => hdeg h.symm
      have hcond : ((node_based_graph.GetEdgeData road.eid).is_low_priority_road_class ||
          (node_based_graph.GetAdjacentEdgeRange (node_based_graph.GetTarget via_eid)).any
            (fun eid =>
              !(node_based_graph.GetEdgeData eid).reversed &&
                !(node_based_graph.GetEdgeData eid).roundabout &&
                !(node_based_graph.GetEdgeData eid).circular &&
                !(node_based_graph.GetEdgeData eid).is_low_priority_road_class)) = true := by
        rw [Bool.or_eq_true, hany]
        exact hex
      show onRoundaboutInstruction node_based_graph instructions roundabout_type
          (node_based_graph.GetTarget via_eid) intersection.length road = _
      unfold onRoundaboutInstruction
      dsimp only
      rw [if_pos hrc', hd, if_neg Bool.false_ne_true, if_pos hcond]
    · have hd : (1 == node_based_graph.GetDirectedOutDegree
          (node_based_graph.GetTarget via_eid)) = false := by
        simpa using fun h => hdeg h.symm
      have hcond : ¬((node_based_graph.GetEdgeData road.eid).is_low_priority_road_class ||
          (node_based_graph.GetAdjacentEdgeRange (node_based_graph.GetTarget via_eid)).any
            (fun eid =>
              !(node_based_graph.GetEdgeData eid).reversed &&
                !(node_based_graph.GetEdgeData eid).roundabout &&
                !(node_based_graph.GetEdgeData eid).circular &&
                !(node_based_graph.GetEdgeData eid).is_low_priority_road_class)) = true := by
        rw [Bool.or_eq_true, hany]
        exact hex
      show onRoundaboutInstruction node_based_graph instructions roundabout_type
          (node_based_graph.GetTarget via_eid) intersection.length road = _
      unfold onRoundaboutInstruction
      dsimp only
      rw [if_pos hrc', hd, if_neg Bool.false_ne_true, if_neg hcond]
    · have hd : (1 == node_based_graph.GetDirectedOutDegree
          (node_based_graph.GetTarget via_eid)) = true := by
        simpa using hdeg.symm
      show onRoundaboutInstruction node_based_graph instructions roundabout_type
          (node_based_graph.GetTarget via_eid) intersection.length road = _
      unfold onRoundaboutInstruction
      dsimp only
      rw [if_pos hrc', if_pos hd, if_pos (by simpa using h2)]
    · have hd : (1 == node_based_graph.GetDirectedOutDegree
          (node_based_graph.GetTarget via_eid)) = true := by
        simpa using hdeg.symm
      show onRoundaboutInstruction node_based_graph instructions roundabout_type
          (node_based_graph.GetTarget via_eid) intersection.length road = _
      unfold onRoundaboutInstruction
      dsimp only
      rw [if_pos hrc', if_pos hd, if_neg (by simpa using h2)]

/-- Witness of C22 on `ringIntersection`, entered over the roundabout edge 4: the road 1
leaves the roundabout, the roads 2 and 3 stay on it, and the centre node 4 has the exit 0 that
is not of a low-priority class. -/
theorem handleRoundabouts_on_roundabout_witness :
    ringIntersection[1]? = some ⟨1, true, 90, ⟨0, 0⟩⟩ ∧
    handleRoundabouts ringGraph plainInstructions false RoundaboutType.Roundabout 4 true false
        ringIntersection =
      [⟨0, true, 0, ⟨5, 2⟩⟩, ⟨1, true, 90, ⟨5, 2⟩⟩, ⟨2, false, 180, ⟨1, 2⟩⟩,
        ⟨3, true, 270, ⟨1, 1⟩⟩] ∧
    handleRoundabouts ringGraph plainInstructions true RoundaboutType.Roundabout 4 true false
        ringIntersection =
      handleRoundabouts ringGraph plainInstructions false RoundaboutType.Roundabout 4 true
        false ringIntersection ∧
    ∃ turn : ConnectedRoad,
      (handleRoundabouts ringGraph plainInstructions false RoundaboutType.Roundabout 4 true
        false ringIntersection)[1]? = some turn ∧ turn.eid = 1 :=
  ⟨by decide, by decide, by decide,
    (handleRoundabouts_on_roundabout ringGraph plainInstructions false
      RoundaboutType.Roundabout 4 false ringIntersection 1 ⟨1, true, 90, ⟨0, 0⟩⟩
      (by decide)).imp (fun _ h => ⟨h.1, h.2.1⟩)⟩

end guidance

end extractor

namespace extractor

namespace guidance

theorem absDifference_eq (x : ℚ) : absDifference x = |x| := by
  unfold absDifference
  split_ifs with h
  · exact (abs_of_neg h).symm
  · exact (abs_of_nonneg (not_lt.1 h)).symm

theorem exitBearings_sorted (node_based_graph : NodeBasedDynamicGraph)
    (exit_bearing : Nat → Nat → ℚ) (roundabout_nodes : List Nat) :
    (exitBearings node_based_graph exit_bearing roundabout_nodes).Pairwise
      (fun a b => a ≤ b) := by
  unfold exitBearings
  exact List.sorted_insertionSort (fun a b : ℚ => a ≤ b) _

/-- What `qualifiesAsRoundaboutIntersection` guarantees when it returns true: the roundabout
has at most 4 nodes, none of them has an out-degree above 3, and the sorted exit bearings
differ pairwise, as numbers, by more than `NARROW_TURN_ANGLE`: the difference the program takes
is `b - a` for two bearings `a` before `b` in sorted order, also for the last and the first
bearing, not the angle between the two directions on the compass circle. With a single exit
bearing the function returns false for every threshold that is not negative. -/
theorem qualifies_only_if_numeric_gaps (node_based_graph : NodeBasedDynamicGraph)
    (exit_bearing : Nat → Nat → ℚ) (NARROW_TURN_ANGLE : ℚ) (roundabout_nodes : List Nat)
    (h : qualifiesAsRoundaboutIntersection node_based_graph exit_bearing NARROW_TURN_ANGLE
      roundabout_nodes = true) :
    roundabout_nodes.length ≤ 4 ∧
    (∀ node ∈ roundabout_nodes, node_based_graph.GetOutDegree node ≤ 3) ∧
    (∀ (i j : Nat) (a b : ℚ), i < j →
      (exitBearings node_based_graph exit_bearing roundabout_nodes)[i]? = some a →
      (exitBearings node_based_graph exit_bearing roundabout_nodes)[j]? = some b →
      a ≤ b ∧ NARROW_TURN_ANGLE < b - a) ∧
    ((exitBearings node_based_graph exit_bearing roundabout_nodes).length = 1 →
      NARROW_TURN_ANGLE < 0) := by
  unfold qualifiesAsRoundaboutIntersection at h
  dsimp only at h
  by_cases h1 : roundabout_nodes.length ≤ 4
  swap
  · simp [h1] at h
  by_cases h2 : (roundabout_nodes.find?
      (fun node => decide (node_based_graph.GetOutDegree node > 3))) = none
  swap
  · simp [h1, h2] at h
  simp only [h1, h2, decide_True, Bool.not_true, Bool.false_eq_true, if_false, beq_self_eq_true]
    at h
  unfold wellDistinctBearings at h
  rw [List.all_eq_true] at h
  have hgap : ∀ i, i < (exitBearings node_based_graph exit_bearing roundabout_nodes).length →
      NARROW_TURN_ANGLE <
        |(exitBearings node_based_graph exit_bearing roundabout_nodes).getD
            ((i + 1) % (exitBearings node_based_graph exit_bearing roundabout_nodes).length) 0 -
          (exitBearings node_based_graph exit_bearing roundabout_nodes).getD i 0| := by
    intro i hi
    have := h i (List.mem_range.2 hi)
    simp only [Bool.not_eq_true', decide_eq_false_iff_not, not_le] at this
    rw [absDifference_eq] at this
    exact this
  have hsorted := exitBearings_sorted node_based_graph exit_bearing roundabout_nodes
  refine ⟨h1, ?_, ?_, ?_⟩
  · intro node hnode
    have := List.find?_eq_none.1 h2 node hnode
    simpa using this
  · intro i j a b hij ha hb
    obtain ⟨hi, hia⟩ := List.getElem?_eq_some.1 ha
    obtain ⟨hj, hjb⟩ := List.getElem?_eq_some.1 hb
    have hab : a ≤ b := by
      rw [← hia, ← hjb]
      exact (List.pairwise_iff_getElem.1 hsorted) i j hi hj hij
    refine ⟨hab, ?_⟩
    have hi1 : i + 1 < (exitBearings node_based_graph exit_bearing roundabout_nodes).length := by
      omega
    have hg := hgap i hi
    rw [Nat.mod_eq_of_lt hi1, List.getD_eq_getElem?_getD, List.getD_eq_getElem?_getD,
      List.getElem?_eq_getElem hi1, List.getElem?_eq_getElem hi, Option.getD_some,
      Option.getD_some, hia] at hg
    have hnext : a ≤ (exitBearings node_based_graph exit_bearing roundabout_nodes)[i + 1] := by
      rw [← hia]
      exact (List.pairwise_iff_getElem.1 hsorted) i (i + 1) hi hi1 (by omega)
    rw [abs_of_nonneg (sub_nonneg.2 hnext)] at hg
    have hle : (exitBearings node_based_graph exit_bearing roundabout_nodes)[i + 1] ≤ b := by
      rw [← hjb]
      rcases Nat.lt_or_ge (i + 1) j with hlt | hge
      · exact (List.pairwise_iff_getElem.1 hsorted) (i + 1) j hi1 hj hlt
      · have : i + 1 = j := by omega
        subst this
        exact le_refl _
    linarith
  · intro hone
    have hg := hgap 0 (by omega)
    rw [hone] at hg
    simpa using hg

/-- C23, failing input: the two exits of `twoExitGraph` leave at the bearings 350 and 10,
which are 20 degrees apart on the compass circle, less than the threshold 40; the roundabout
has two nodes, each of out-degree 3 with two roundabout edges and one exit, as
`getRoundaboutType` collects them. The function returns true: the difference it compares for the
last and the first of the sorted bearings is `|10 - 350| = 340`. -/
theorem qualifies_accepts_close_bearings :
    qualifiesAsRoundaboutIntersection twoExitGraph twoExitBearing 40 [0, 1] = true ∧
    exitBearings twoExitGraph twoExitBearing [0, 1] = [10, 350] ∧
    absDifference (10 - 350) = 340 ∧
    min (absDifference (350 - 10)) (360 - absDifference (350 - 10)) = 20 ∧
    ((20 : ℚ) ≤ 40) ∧
    [0, 1].length ≤ 4 ∧
    (∀ node ∈ [0, 1], twoExitGraph.GetOutDegree node ≤ 3) ∧
    (∀ (i j : Nat) (a b : ℚ), i < j →
      (exitBearings twoExitGraph twoExitBearing [0, 1])[i]? = some a →
      (exitBearings twoExitGraph twoExitBearing [0, 1])[j]? = some b →
      a ≤ b ∧ (40 : ℚ) < b - a) := by
  have hb : exitBearings twoExitGraph twoExitBearing [0, 1] = [10, 350] := by decide
  have hq : qualifiesAsRoundaboutIntersection twoExitGraph twoExitBearing 40 [0, 1] = true := by
    unfold qualifiesAsRoundaboutIntersection
    rw [hb]
    simp [wellDistinctBearings, absDifference, twoExitGraph, List.range_succ]
    norm_num
  have ht := qualifies_only_if_numeric_gaps twoExitGraph twoExitBearing 40 [0, 1] hq
  refine ⟨hq, hb, ?_, ?_, by norm_num, ht.1, ht.2.1, ht.2.2.1⟩
  · unfold absDifference
    norm_num
  · unfold absDifference
    norm_num

end guidance

end extractor

namespace engine

/-- An iteration of the loop over the edges on a node with a segment to push: the steps of the
node are appended, the last one carrying the turn, and the path so far is kept. -/
theorem pathAfterEdges_append (facade : Facade) (pair : PhantomNodes)
    (nodes edges : List Nat) (i node edge : Nat)
    (hi : (List.zip nodes.dropLast edges)[i]? = some (node, edge))
    (hsize : (edgeWeightVector facade (nodes.headD 0)).length < 2 ^ 64)
    (hpos : pair.source_phantom.fwd_segment_position <
      (edgeWeightVector facade (nodes.headD 0)).length)
    (hgeom : 0 < (edgeWeightVector facade node).length) :
    ∃ new : List PathData,
      pathAfterEdges facade pair nodes edges (i + 1) =
        pathAfterEdges facade pair nodes edges i ++ new := by
  rw [pathAfterEdges_succ facade pair nodes edges i node edge hi, annotateEdge_eq,
    loop_start_index facade pair nodes edges i node edge hi hsize hpos]
  have hcount : 0 < (edgeWeightVector facade node).length -
      (if i = 0 then
        (if pair.source_phantom.forward_segment_id ≠ nodes.headD 0 then
          (edgeWeightVector facade node).length -
            pair.source_phantom.fwd_segment_position - 1
        else pair.source_phantom.fwd_segment_position)
      else 0) := by
    by_cases h0 : i = 0
    · subst h0
      have hn : node = nodes.headD 0 := zip_dropLast_head nodes edges node edge hi
      rw [← hn] at hpos
      rw [if_pos rfl]
      split_ifs <;> omega
    · rw [if_neg h0]
      omega
  refine ⟨_, setTurnOnBack_append facade _ _ _ ?_⟩
  intro hnil
  have := congrArg List.length hnil
  simp only [List.length_map, List.length_range', List.length_nil] at this
  omega

/-- The path after `i` iterations of the loop over the edges stays at the front of the path
after more iterations, when every node of the loop has a segment to push. -/
theorem pathAfterEdges_prefix (facade : Facade) (pair : PhantomNodes)
    (nodes edges : List Nat) (i : Nat)
    (hsize : (edgeWeightVector facade (nodes.headD 0)).length < 2 ^ 64)
    (hpos : pair.source_phantom.fwd_segment_position <
      (edgeWeightVector facade (nodes.headD 0)).length)
    (hgeom : ∀ p ∈ List.zip nodes.dropLast edges, 0 < (edgeWeightVector facade p.1).length) :
    ∀ j, i ≤ j → j ≤ (List.zip nodes.dropLast edges).length →
      ∃ rest : List PathData,
        pathAfterEdges facade pair nodes edges j =
          pathAfterEdges facade pair nodes edges i ++ rest := by
  intro j hij
  induction j, hij using Nat.le_induction with
  | base => intro _; exact ⟨[], (List.append_nil _).symm⟩
  | succ j _ ih =>
    intro hj
    obtain ⟨rest, hrest⟩ := ih (by omega)
    have hjlt : j < (List.zip nodes.dropLast edges).length := by omega
    have hget : (List.zip nodes.dropLast edges)[j]? =
        some ((List.zip nodes.dropLast edges)[j].1, (List.zip nodes.dropLast edges)[j].2) :=
      List.getElem?_eq_getElem hjlt
    obtain ⟨new, hnew⟩ := pathAfterEdges_append facade pair nodes edges j _ _ hget hsize hpos
      (hgeom _ (List.getElem_mem _))
    exact ⟨rest ++ new, by rw [hnew, hrest, List.append_assoc]⟩

/-- The path as the loops of `annotatePath` leave it begins with the path after any number of
iterations of the loop over the edges. -/
theorem annotatePathSteps_prefix (facade : Facade) (pair : PhantomNodes)
    (nodes edges : List Nat) (i : Nat)
    (hi : i ≤ (List.zip nodes.dropLast edges).length)
    (hsize : (edgeWeightVector facade (nodes.headD 0)).length < 2 ^ 64)
    (hpos : pair.source_phantom.fwd_segment_position <
      (edgeWeightVector facade (nodes.headD 0)).length)
    (hgeom : ∀ p ∈ List.zip nodes.dropLast edges, 0 < (edgeWeightVector facade p.1).length) :
    ∃ rest : List PathData,
      annotatePathSteps facade pair nodes edges [] =
        pathAfterEdges facade pair nodes edges i ++ rest := by
  obtain ⟨rest, hrest⟩ := pathAfterEdges_prefix facade pair nodes edges i hsize hpos hgeom
    (List.zip nodes.dropLast edges).length hi (le_refl _)
  rw [pathAfterEdges_all] at hrest
  unfold annotatePathSteps
  dsimp only
  rw [hrest, List.append_assoc]
  exact ⟨_, rfl⟩

theorem adjustFront_length (a b : Int) (l : List PathData) :
    (adjustFront a b l).length = l.length := by
  cases l <;> rfl

/-- The front adjustment changes the weight and the duration of the first step only. -/
theorem adjustFront_getElem? (a b : Int) (l : List PathData) (p : Nat) (x : PathData)
    (h : l[p]? = some x) :
    ∃ y, (adjustFront a b l)[p]? = some y ∧
      y.turn_via_node = x.turn_via_node ∧ y.name_id = x.name_id ∧
      y.turn_instruction = x.turn_instruction ∧ y.lane_data = x.lane_data ∧
      y.travel_mode = x.travel_mode ∧ y.entry_class = x.entry_class ∧
      y.datasource_id = x.datasource_id ∧ y.pre_turn_bearing = x.pre_turn_bearing ∧
      y.post_turn_bearing = x.post_turn_bearing ∧
      (p ≠ 0 → y = x) ∧
      (p = 0 → y.weight_until_turn = max (x.weight_until_turn - a) 0 ∧
        y.duration_until_turn = max (x.duration_until_turn - b) 0) := by
  cases l with
  | nil => simp at h
  | cons front rest =>
    cases p with
    | zero =>
      simp only [List.getElem?_cons_zero, Option.some.injEq] at h
      subst h
      exact ⟨⟨front.turn_via_node, front.name_id, max (front.weight_until_turn - a) 0,
          max (front.duration_until_turn - b) 0, front.turn_instruction, front.lane_data,
          front.travel_mode, front.entry_class, front.datasource_id, front.pre_turn_bearing,
          front.post_turn_bearing⟩,
        by simp [adjustFront], rfl, rfl, rfl, rfl, rfl, rfl, rfl, rfl, rfl,
        fun h => absurd rfl h,
        fun _ => ⟨rfl, rfl⟩⟩
    | succ q =>
      simp only [List.getElem?_cons_succ] at h
      refine ⟨x, ?_, rfl, rfl, rfl, rfl, rfl, rfl, rfl, rfl, rfl, fun _ => rfl,
        fun h0 => absurd h0 (by omega)⟩
      simp only [adjustFront, List.getElem?_cons_succ]
      exact h

/-- The final `pop_back` keeps the path or removes its last step, the latter only when the
last two steps have the same via node. -/
theorem popDuplicateBack_cases (l : List PathData) :
    popDuplicateBack l = l ∨
      (popDuplicateBack l = l.take (l.length - 1) ∧ 2 ≤ l.length ∧
        ∃ a b, l[l.length - 1]? = some a ∧ l[l.length - 2]? = some b ∧
          a.turn_via_node = b.turn_via_node) := by
  unfold popDuplicateBack
  cases hrev : l.reverse with
  | nil => exact Or.inl rfl
  | cons last t =>
    cases t with
    | nil => exact Or.inl rfl
    | cons second rest =>
      simp only []
      by_cases hv : last.turn_via_node = second.turn_via_node
      · rw [if_pos hv]
        right
        have hl : l = rest.reverse ++ [second, last] := by
          have := congrArg List.reverse hrev
          simpa using this
        have hlen : l.length = rest.reverse.length + 2 := by
          rw [hl]; simp
        refine ⟨List.dropLast_eq_take l, by omega, last, second, ?_, ?_, hv⟩
        · rw [show l.length - 1 = rest.reverse.length + 1 by omega]
          conv_lhs => rw [hl]
          rw [List.getElem?_append_right (by omega)]
          simp
        · rw [show l.length - 2 = rest.reverse.length + 0 by omega]
          conv_lhs => rw [hl]
          rw [List.getElem?_append_right (by omega)]
          simp
      · rw [if_neg hv]
        exact Or.inl rfl

/-- A step of the path as the loops leave it is in the path `annotatePath` returns, at the
same position and with the same members but for the weight and duration of the first step,
which the front adjustment reduces by the part of the source segment already traversed and
clamps at 0; or it is the last step, has the via node of the step before it, and the final
`pop_back` removes it. -/
theorem annotatePath_getElem? (facade : Facade) (pair : PhantomNodes)
    (nodes edges : List Nat) (p : Nat) (x : PathData)
    (h : (annotatePathSteps facade pair nodes edges [])[p]? = some x) :
    (∃ y, (annotatePath facade pair nodes edges [])[p]? = some y ∧
      y.turn_via_node = x.turn_via_node ∧ y.name_id = x.name_id ∧
      y.turn_instruction = x.turn_instruction ∧ y.lane_data = x.lane_data ∧
      y.travel_mode = x.travel_mode ∧ y.entry_class = x.entry_class ∧
      y.datasource_id = x.datasource_id ∧ y.pre_turn_bearing = x.pre_turn_bearing ∧
      y.post_turn_bearing = x.post_turn_bearing ∧
      (p ≠ 0 → y = x) ∧
      (p = 0 → y.weight_until_turn =
          max (x.weight_until_turn - sourceWeight pair nodes) 0 ∧
        y.duration_until_turn =
          max (x.duration_until_turn - sourceDuration pair nodes) 0)) ∨
    (p + 1 = (annotatePathSteps facade pair nodes edges []).length ∧ 1 ≤ p ∧
      (annotatePath facade pair nodes edges []).length = p ∧
      ∃ before, (annotatePathSteps facade pair nodes edges [])[p - 1]? = some before ∧
        before.turn_via_node = x.turn_via_node) := by
  have hp : p < (annotatePathSteps facade pair nodes edges []).length :=
    (List.getElem?_eq_some.1 h).1
  obtain ⟨y, hy, hrest⟩ := adjustFront_getElem? (sourceWeight pair nodes)
    (sourceDuration pair nodes) _ p x h
  have hlen := adjustFront_length (sourceWeight pair nodes) (sourceDuration pair nodes)
    (annotatePathSteps facade pair nodes edges [])
  unfold annotatePath
  rcases popDuplicateBack_cases (adjustFront (sourceWeight pair nodes)
      (sourceDuration pair nodes) (annotatePathSteps facade pair nodes edges []))
    with hkeep | ⟨hpop, h2, a, b, ha, hb, hab⟩
  · rw [hkeep]
    exact Or.inl ⟨y, hy, hrest⟩
  · rw [hlen] at h2 ha hb
    rw [hpop]
    by_cases hlast : p + 1 = (annotatePathSteps facade pair nodes edges []).length
    · right
      refine ⟨hlast, by omega, ?_, ?_⟩
      · rw [List.length_take, hlen]
        omega
      · have hpa : (annotatePathSteps facade pair nodes edges []).length - 1 = p := by omega
        rw [hpa, hy] at ha
        have hya : y = a := Option.some.inj ha
        have hb1 : (annotatePathSteps facade pair nodes edges []).length - 2 = p - 1 := by
          omega
        rw [hb1] at hb
        have hlt : p - 1 < (annotatePathSteps facade pair nodes edges []).length := by omega
        obtain ⟨z, hz, hzv, _⟩ := adjustFront_getElem? (sourceWeight pair nodes)
          (sourceDuration pair nodes) _ (p - 1) _ (List.getElem?_eq_getElem hlt)
        rw [hb] at hz
        have hbz : b = z := Option.some.inj hz
        refine ⟨_, List.getElem?_eq_getElem hlt, ?_⟩
        rw [← hzv, ← hbz, ← hab, ← hya]
        exact hrest.1
    · left
      refine ⟨y, ?_, hrest⟩
      rw [List.getElem?_take_of_lt (by rw [hlen]; omega)]
      exact hy

end engine

namespace engine

/-- C11: for the edge number `i` of the unpacked path, with source node `node`, `annotatePath`
(started on an empty path) appends exactly one step per geometry segment of `node` from the
segment `start` on, in segment order: `start` is 0 for every edge but the first and, for the
first edge, the segment position of the source phantom, or `size - position - 1` when the
source is traversed in reverse. The steps stand, in the path as the loops of `annotatePath`
leave it (`annotatePathSteps`), at the positions `offset + k` for `k < size - start`, where
`offset` counts the steps of the earlier edges, and the next edge continues at
`offset + (size - start)`. The step of the segment `start + k` carries the via node
`id_vector[start + k + 1]`, the data source `datasource_vector[start + k]`, the name of the
node and its travel mode (as the 4-bit field of the step holds it, the travel mode itself when
it is below 16); the vectors are the forward rows of the geometry of the node when its geometry
index has `forward` set and the reverse rows otherwise. In the path `annotatePath` returns the
step stands at the same position with the same via node, data source, name and travel mode,
unless it is the last step of the whole path and has the via node of the step before it: then
the final `pop_back` removes it. The source phantom lies on the geometry of the first node
(`hpos`), every node of the loop has a segment (`hgeom`; the program asserts both as
`start_index < end_index`), and a vector has fewer than `2 ^ 64` entries (`hsize`). -/
theorem annotatePath_edge_steps (facade : Facade) (phantom_node_pair : PhantomNodes)
    (unpacked_nodes unpacked_edges : List Nat) (i node edge start offset : Nat)
    (hi : (List.zip unpacked_nodes.dropLast unpacked_edges)[i]? = some (node, edge))
    (hsize : (edgeWeightVector facade (unpacked_nodes.headD 0)).length < 2 ^ 64)
    (hpos : phantom_node_pair.source_phantom.fwd_segment_position <
      (edgeWeightVector facade (unpacked_nodes.headD 0)).length)
    (hgeom : ∀ p ∈ List.zip unpacked_nodes.dropLast unpacked_edges,
      0 < (edgeWeightVector facade p.1).length)
    (hstart : start =
      if i = 0 then
        (if phantom_node_pair.source_phantom.forward_segment_id ≠ unpacked_nodes.headD 0 then
          (edgeWeightVector facade node).length -
            phantom_node_pair.source_phantom.fwd_segment_position - 1
        else phantom_node_pair.source_phantom.fwd_segment_position)
      else 0)
    (hoffset : offset =
      (pathAfterEdges facade phantom_node_pair unpacked_nodes unpacked_edges i).length) :
    (pathAfterEdges facade phantom_node_pair unpacked_nodes unpacked_edges (i + 1)).length =
        offset + ((edgeWeightVector facade node).length - start) ∧
    offset + ((edgeWeightVector facade node).length - start) ≤
        (annotatePathSteps facade phantom_node_pair unpacked_nodes unpacked_edges []).length ∧
    ∀ k : Nat, k < (edgeWeightVector facade node).length - start →
      ∃ step : PathData,
        (annotatePathSteps facade phantom_node_pair unpacked_nodes unpacked_edges [])[
            offset + k]? = some step ∧
        step.turn_via_node = (edgeIdVector facade node).getD (start + k + 1) 0 ∧
        step.datasource_id = (edgeDatasourceVector facade node).getD (start + k) 0 ∧
        step.name_id = facade.GetNameIndex node ∧
        step.travel_mode = facade.GetTravelMode node % 16 ∧
        (facade.GetTravelMode node < 16 → step.travel_mode = facade.GetTravelMode node) ∧
        ((∃ final : PathData,
            (annotatePath facade phantom_node_pair unpacked_nodes unpacked_edges [])[
              offset + k]? = some final ∧
            final.turn_via_node = (edgeIdVector facade node).getD (start + k + 1) 0 ∧
            final.datasource_id = (edgeDatasourceVector facade node).getD (start + k) 0 ∧
            final.name_id = facade.GetNameIndex node ∧
            final.travel_mode = facade.GetTravelMode node % 16) ∨
          (offset + k + 1 =
              (annotatePathSteps facade phantom_node_pair unpacked_nodes
                unpacked_edges []).length ∧
            1 ≤ offset + k ∧
            (annotatePath facade phantom_node_pair unpacked_nodes unpacked_edges []).length =
              offset + k ∧
            ∃ before : PathData,
              (annotatePathSteps facade phantom_node_pair unpacked_nodes unpacked_edges [])[
                offset + k - 1]? = some before ∧
              before.turn_via_node = step.turn_via_node)) := by
  subst hstart hoffset
  obtain ⟨hlen, hsteps⟩ := pathAfterEdges_edge_steps facade phantom_node_pair unpacked_nodes
    unpacked_edges i node edge hi hsize hpos
  have hilt : i + 1 ≤ (List.zip unpacked_nodes.dropLast unpacked_edges).length :=
    (List.getElem?_eq_some.1 hi).1
  obtain ⟨rest, hrest⟩ := annotatePathSteps_prefix facade phantom_node_pair unpacked_nodes
    unpacked_edges (i + 1) hilt hsize hpos hgeom
  refine ⟨hlen, ?_, fun k hk => ?_⟩
  · rw [hrest, List.length_append, hlen]
    omega
  · obtain ⟨step, hstep, h1, h2, h3, h4, h5, _⟩ := hsteps k hk
    have hget : (annotatePathSteps facade phantom_node_pair unpacked_nodes
        unpacked_edges [])[
          (pathAfterEdges facade phantom_node_pair unpacked_nodes unpacked_edges i).length
            + k]? = some step := by
      rw [hrest, List.getElem?_append_left (by rw [hlen]; omega)]
      exact hstep
    refine ⟨step, hget, h1, h2, h3, h4, h5, ?_⟩
    rcases annotatePath_getElem? facade phantom_node_pair unpacked_nodes unpacked_edges _ step
        hget with ⟨y, hy, e1, e2, _, _, e5, _, e7, _⟩ | hpop
    · exact Or.inl ⟨y, hy, e1.trans h1, e7.trans h2, e2.trans h3, e5.trans h4⟩
    · exact Or.inr hpop

/-- Witness of C11: on a path over the node 7 of `rowFacade` twice, the second edge appends the
three steps of the geometry row of the node at the positions 3 to 5, and the path returned
has the via nodes of both edges. -/
theorem annotatePath_edge_steps_witness :
    ((List.zip [7, 7, 9].dropLast [0, 0])[1]? = some (7, 0) ∧
      (edgeWeightVector rowFacade ([7, 7, 9].headD 0)).length < 2 ^ 64 ∧
      rowPhantoms.source_phantom.fwd_segment_position <
        (edgeWeightVector rowFacade ([7, 7, 9].headD 0)).length ∧
      (∀ p ∈ List.zip [7, 7, 9].dropLast [0, 0], 0 < (edgeWeightVector rowFacade p.1).length) ∧
      (0 : Nat) =
        (if (1 : Nat) = 0 then
          (if rowPhantoms.source_phantom.forward_segment_id ≠ [7, 7, 9].headD 0 then
            (edgeWeightVector rowFacade 7).length -
              rowPhantoms.source_phantom.fwd_segment_position - 1
          else rowPhantoms.source_phantom.fwd_segment_position)
        else 0) ∧
      3 = (pathAfterEdges rowFacade rowPhantoms [7, 7, 9] [0, 0] 1).length) ∧
    (annotatePath rowFacade rowPhantoms [7, 7, 9] [0, 0] []).map
        (fun step => step.turn_via_node) = [11, 12, 13, 11, 12, 13] ∧
    3 + ((edgeWeightVector rowFacade 7).length - 0) ≤
      (annotatePathSteps rowFacade rowPhantoms [7, 7, 9] [0, 0] []).length ∧
    ∃ step : PathData,
      (annotatePathSteps rowFacade rowPhantoms [7, 7, 9] [0, 0] [])[3 + 2]? = some step ∧
      step.turn_via_node = (edgeIdVector rowFacade 7).getD (0 + 2 + 1) 0 :=
  ⟨⟨by decide, by decide, by decide, by decide, by decide, by decide⟩, by decide,
    (annotatePath_edge_steps rowFacade rowPhantoms [7, 7, 9] [0, 0] 1 7 0 0 3 (by decide)
      (by decide) (by decide) (by decide) (by decide) (by decide)).2.1,
    ((annotatePath_edge_steps rowFacade rowPhantoms [7, 7, 9] [0, 0] 1 7 0 0 3 (by decide)
      (by decide) (by decide) (by decide) (by decide) (by decide)).2.2 2 (by decide)).imp
      (fun _ h => ⟨h.1, h.2.1⟩)⟩

/-- C25: among the steps `annotatePath` (started on an empty path) appends for the edge number
`i` of the unpacked path, which stand at the positions `offset + k`, `k < size - start`, of the
path as the loops leave it (`annotatePathSteps`), only the last one carries turn data: it has
the turn instruction, the entry class and the pre and post turn bearings of the turn id of the
edge, and its weight and duration are those of the last segment plus the weight and duration
penalties of that turn; every earlier step has the instruction `NO_TURN`, the entry class
`EMPTY_ENTRY_CLASS`, both bearings 0 and the weight and duration of its segment. In the path
`annotatePath` returns the step stands at the same position with the same instruction, entry
class and bearings, and with the same weight and duration unless it is the first step of the
path, whose weight and duration the front adjustment reduces by the part of the source segment
already traversed and clamps at 0; the last step of the whole path is removed by the final
`pop_back` when it has the via node of the step before it. `start` and `offset` and the
hypotheses are those of C11. -/
theorem annotatePath_turn_on_last_step (facade : Facade) (phantom_node_pair : PhantomNodes)
    (unpacked_nodes unpacked_edges : List Nat) (i node edge start offset : Nat)
    (hi : (List.zip unpacked_nodes.dropLast unpacked_edges)[i]? = some (node, edge))
    (hsize : (edgeWeightVector facade (unpacked_nodes.headD 0)).length < 2 ^ 64)
    (hpos : phantom_node_pair.source_phantom.fwd_segment_position <
      (edgeWeightVector facade (unpacked_nodes.headD 0)).length)
    (hgeom : ∀ p ∈ List.zip unpacked_nodes.dropLast unpacked_edges,
      0 < (edgeWeightVector facade p.1).length)
    (hstart : start =
      if i = 0 then
        (if phantom_node_pair.source_phantom.forward_segment_id ≠ unpacked_nodes.headD 0 then
          (edgeWeightVector facade node).length -
            phantom_node_pair.source_phantom.fwd_segment_position - 1
        else phantom_node_pair.source_phantom.fwd_segment_position)
      else 0)
    (hoffset : offset =
      (pathAfterEdges facade phantom_node_pair unpacked_nodes unpacked_edges i).length) :
    ∀ k : Nat, k < (edgeWeightVector facade node).length - start →
      ∃ step : PathData,
        (annotatePathSteps facade phantom_node_pair unpacked_nodes unpacked_edges [])[
            offset + k]? = some step ∧
        (k + 1 < (edgeWeightVector facade node).length - start →
          step.turn_instruction = NO_TURN ∧ step.entry_class = EMPTY_ENTRY_CLASS ∧
          step.pre_turn_bearing = 0 ∧ step.post_turn_bearing = 0 ∧
          step.weight_until_turn = (edgeWeightVector facade node).getD (start + k) 0 ∧
          step.duration_until_turn = (edgeDurationVector facade node).getD (start + k) 0) ∧
        (k + 1 = (edgeWeightVector facade node).length - start →
          step.turn_instruction =
            facade.GetTurnInstructionForEdgeID (facade.GetEdgeDataTurnId edge) ∧
          step.entry_class = facade.GetEntryClass (facade.GetEdgeDataTurnId edge) ∧
          step.pre_turn_bearing = facade.PreTurnBearing (facade.GetEdgeDataTurnId edge) ∧
          step.post_turn_bearing = facade.PostTurnBearing (facade.GetEdgeDataTurnId edge) ∧
          step.weight_until_turn =
            (edgeWeightVector facade node).getD (start + k) 0 +
              facade.GetWeightPenaltyForEdgeID (facade.GetEdgeDataTurnId edge) ∧
          step.duration_until_turn =
            (edgeDurationVector facade node).getD (start + k) 0 +
              facade.GetDurationPenaltyForEdgeID (facade.GetEdgeDataTurnId edge)) ∧
        ((∃ final : PathData,
            (annotatePath facade phantom_node_pair unpacked_nodes unpacked_edges [])[
              offset + k]? = some final ∧
            final.turn_instruction = step.turn_instruction ∧
            final.entry_class = step.entry_class ∧
            final.pre_turn_bearing = step.pre_turn_bearing ∧
            final.post_turn_bearing = step.post_turn_bearing ∧
            (offset + k ≠ 0 →
              final.weight_until_turn = step.weight_until_turn ∧
              final.duration_until_turn = step.duration_until_turn) ∧
            (offset + k = 0 →
              final.weight_until_turn =
                max (step.weight_until_turn -
                  sourceWeight phantom_node_pair unpacked_nodes) 0 ∧
              final.duration_until_turn =
                max (step.duration_until_turn -
                  sourceDuration phantom_node_pair unpacked_nodes) 0)) ∨
          (offset + k + 1 =
              (annotatePathSteps facade phantom_node_pair unpacked_nodes
                unpacked_edges []).length ∧
            1 ≤ offset + k ∧
            (annotatePath facade phantom_node_pair unpacked_nodes unpacked_edges []).length =
              offset + k ∧
            ∃ before : PathData,
              (annotatePathSteps facade phantom_node_pair unpacked_nodes unpacked_edges [])[
                offset + k - 1]? = some before ∧
              before.turn_via_node = step.turn_via_node)) := by
  subst hstart hoffset
  obtain ⟨hlen, _⟩ := pathAfterEdges_edge_steps facade phantom_node_pair unpacked_nodes
    unpacked_edges i node edge hi hsize hpos
  have hilt : i + 1 ≤ (List.zip unpacked_nodes.dropLast unpacked_edges).length :=
    (List.getElem?_eq_some.1 hi).1
  obtain ⟨rest, hrest⟩ := annotatePathSteps_prefix facade phantom_node_pair unpacked_nodes
    unpacked_edges (i + 1) hilt hsize hpos hgeom
  intro k hk
  obtain ⟨step, hstep, hplain, hturn⟩ := pathAfterEdges_turn_on_last_step facade
    phantom_node_pair unpacked_nodes unpacked_edges i node edge hi hsize hpos k hk
  have hget : (annotatePathSteps facade phantom_node_pair unpacked_nodes
      unpacked_edges [])[
        (pathAfterEdges facade phantom_node_pair unpacked_nodes unpacked_edges i).length
          + k]? = some step := by
    rw [hrest, List.getElem?_append_left (by rw [hlen]; omega)]
    exact hstep
  refine ⟨step, hget, hplain, hturn, ?_⟩
  rcases annotatePath_getElem? facade phantom_node_pair unpacked_nodes unpacked_edges _ step
      hget with ⟨y, hy, _, _, e3, _, _, e6, _, e8, e9, hne, h0⟩ | hpop
  · refine Or.inl ⟨y, hy, e3, e6, e8, e9, fun h => ?_, h0⟩
    rw [hne h]
    exact ⟨rfl, rfl⟩
  · exact Or.inr hpop

/-- Witness of C25: on a path over the node 7 of `turnFacade` twice, the second edge appends
three steps at the positions 3 to 5; the last of each edge carries the turn 1 of the edge 0 and
the penalties, and the first step of the path returned has its weight reduced by the weight 1
of the source phantom. -/
theorem annotatePath_turn_on_last_step_witness :
    ((List.zip [7, 7, 9].dropLast [0, 0])[1]? = some (7, 0) ∧
      (edgeWeightVector turnFacade ([7, 7, 9].headD 0)).length < 2 ^ 64 ∧
      rowPhantoms.source_phantom.fwd_segment_position <
        (edgeWeightVector turnFacade ([7, 7, 9].headD 0)).length ∧
      (∀ p ∈ List.zip [7, 7, 9].dropLast [0, 0], 0 < (edgeWeightVector turnFacade p.1).length) ∧
      (0 : Nat) =
        (if (1 : Nat) = 0 then
          (if rowPhantoms.source_phantom.forward_segment_id ≠ [7, 7, 9].headD 0 then
            (edgeWeightVector turnFacade 7).length -
              rowPhantoms.source_phantom.fwd_segment_position - 1
          else rowPhantoms.source_phantom.fwd_segment_position)
        else 0) ∧
      3 = (pathAfterEdges turnFacade rowPhantoms [7, 7, 9] [0, 0] 1).length) ∧
    (annotatePathSteps turnFacade rowPhantoms [7, 7, 9] [0, 0] []).map
        (fun step => (step.turn_instruction, step.weight_until_turn)) =
      [(NO_TURN, 4), (NO_TURN, 5), (6, 15), (NO_TURN, 4), (NO_TURN, 5), (6, 15)] ∧
    (annotatePath turnFacade rowPhantoms [7, 7, 9] [0, 0] []).map
        (fun step => (step.turn_instruction, step.weight_until_turn)) =
      [(NO_TURN, 3), (NO_TURN, 5), (6, 15), (NO_TURN, 4), (NO_TURN, 5), (6, 15)] ∧
    ∃ step : PathData,
      (annotatePathSteps turnFacade rowPhantoms [7, 7, 9] [0, 0] [])[3 + 2]? = some step ∧
      ((2 : Nat) + 1 = (edgeWeightVector turnFacade 7).length - 0 →
        step.turn_instruction =
          turnFacade.GetTurnInstructionForEdgeID (turnFacade.GetEdgeDataTurnId 0)) :=
  ⟨⟨by decide, by decide, by decide, by decide, by decide, by decide⟩, by decide, by decide,
    (annotatePath_turn_on_last_step turnFacade rowPhantoms [7, 7, 9] [0, 0] 1 7 0 0 3
      (by decide) (by decide) (by decide) (by decide) (by decide) (by decide) 2
      (by decide)).imp (fun _ h => ⟨h.1, fun h2 => (h.2.2.1 h2).1⟩)⟩

end engine

namespace storage

/-- A run of blocks each of which completes on every state completes. -/
theorem runBlocks_complete (blocks : List (LayoutState → Option LayoutState))
    (h : ∀ block ∈ blocks, ∀ st, (block st).isSome = true) :
    ∀ st, ∃ st', runBlocks blocks st = some st' := by
  induction blocks with
  | nil => intro st; exact ⟨st, rfl⟩
  | cons block rest ih =>
    intro st
    unfold runBlocks
    have hb := h block (List.mem_cons_self _ _) st
    cases hs : block st with
    | none => rw [hs] at hb; cases hb
    | some st1 =>
      exact ih (fun b hb st => h b (List.mem_cons_of_mem _ hb) st) st1

/-- C15: missing optional artifacts are skipped, not treated as errors. The blocks number 5,
9, 17, 18 and 19 of `Storage::PopulateLayout` are those of the `.hsgr`, `.core`, `.partition`,
`.cells` and `.mldgr` files. Whenever every other block, and every one of these five whose file
exists, completes (`hother`), the whole run completes, whichever of the five files are missing;
and in the layout it returns a missing `.core` file leaves the block of the core markers with
zero entries, a missing `.hsgr` file leaves the checksum, node and edge blocks of the
contraction hierarchy with zero entries, and a missing `.partition`, `.cells` or `.mldgr` file
leaves each of the MLD blocks filled from it with zero entries; in each case the missing file
is not among the files opened. -/
theorem populateLayout_missing_optional {Content Reader : Type}
    (fs : FileSystem Content Reader) (config : StorageConfig) (layout : DataLayout)
    (hother : ∀ (k : Nat) (block : LayoutState → Option LayoutState),
      (layoutBlocks fs config)[k]? = some block →
      (k = 5 → fs.file_exists config.hsgr_data_path = true) →
      (k = 9 → fs.file_exists config.core_data_path = true) →
      (k = 17 → fs.file_exists config.mld_partition_path = true) →
      (k = 18 → fs.file_exists config.mld_storage_path = true) →
      (k = 19 → fs.file_exists config.mld_graph_path = true) →
      ∀ st, (block st).isSome = true) :
    ∃ st : LayoutState,
      PopulateLayout fs config layout = some st ∧
      (fs.file_exists config.core_data_path = false →
        st.layout.num_entries BlockID.CH_CORE_MARKER = 0 ∧
        config.core_data_path ∉ st.opened) ∧
      (fs.file_exists config.hsgr_data_path = false →
        st.layout.num_entries BlockID.HSGR_CHECKSUM = 0 ∧
        st.layout.num_entries BlockID.CH_GRAPH_NODE_LIST = 0 ∧
        st.layout.num_entries BlockID.CH_GRAPH_EDGE_LIST = 0 ∧
        config.hsgr_data_path ∉ st.opened) ∧
      (fs.file_exists config.mld_partition_path = false →
        st.layout.num_entries BlockID.MLD_LEVEL_DATA = 0 ∧
        st.layout.num_entries BlockID.MLD_PARTITION = 0 ∧
        st.layout.num_entries BlockID.MLD_CELL_TO_CHILDREN = 0 ∧
        config.mld_partition_path ∉ st.opened) ∧
      (fs.file_exists config.mld_storage_path = false →
        st.layout.num_entries BlockID.MLD_CELL_WEIGHTS = 0 ∧
        st.layout.num_entries BlockID.MLD_CELL_DURATIONS = 0 ∧
        st.layout.num_entries BlockID.MLD_CELL_SOURCE_BOUNDARY = 0 ∧
        st.layout.num_entries BlockID.MLD_CELL_DESTINATION_BOUNDARY = 0 ∧
        st.layout.num_entries BlockID.MLD_CELLS = 0 ∧
        st.layout.num_entries BlockID.MLD_CELL_LEVEL_OFFSETS = 0 ∧
        config.mld_storage_path ∉ st.opened) ∧
      (fs.file_exists config.mld_graph_path = false →
        st.layout.num_entries BlockID.MLD_GRAPH_NODE_LIST = 0 ∧
        st.layout.num_entries BlockID.MLD_GRAPH_EDGE_LIST = 0 ∧
        st.layout.num_entries BlockID.MLD_GRAPH_NODE_TO_OFFSET = 0 ∧
        config.mld_graph_path ∉ st.opened) := by
  have hall : ∀ block ∈ layoutBlocks fs config, ∀ st, (block st).isSome = true := by
    intro block hmem
    obtain ⟨k, hk⟩ := List.mem_iff_getElem?.1 hmem
    by_cases h5 : k = 5 ∧ fs.file_exists config.hsgr_data_path = false
    · obtain ⟨rfl, hmiss⟩ := h5
      simp only [layoutBlocks, List.getElem?_cons_succ, List.getElem?_cons_zero,
        Option.some.injEq] at hk
      subst hk
      intro st
      simp [layoutHsgr, hmiss]
    by_cases h9 : k = 9 ∧ fs.file_exists config.core_data_path = false
    · obtain ⟨rfl, hmiss⟩ := h9
      simp only [layoutBlocks, List.getElem?_cons_succ, List.getElem?_cons_zero,
        Option.some.injEq] at hk
      subst hk
      intro st
      simp [layoutCoreMarker, hmiss]
    by_cases h17 : k = 17 ∧ fs.file_exists config.mld_partition_path = false
    · obtain ⟨rfl, hmiss⟩ := h17
      simp only [layoutBlocks, List.getElem?_cons_succ, List.getElem?_cons_zero,
        Option.some.injEq] at hk
      subst hk
      intro st
      simp [layoutPartition, hmiss]
    by_cases h18 : k = 18 ∧ fs.file_exists config.mld_storage_path = false
    · obtain ⟨rfl, hmiss⟩ := h18
      simp only [layoutBlocks, List.getElem?_cons_succ, List.getElem?_cons_zero,
        Option.some.injEq] at hk
      subst hk
      intro st
      simp [layoutCells, hmiss]
    by_cases h19 : k = 19 ∧ fs.file_exists config.mld_graph_path = false
    · obtain ⟨rfl, hmiss⟩ := h19
      simp only [layoutBlocks, List.getElem?_cons_succ, List.getElem?_cons_zero,
        Option.some.injEq] at hk
      subst hk
      intro st
      simp [layoutMultiLevelGraph, hmiss]
    refine hother k block hk (fun hk5 => ?_) (fun hk9 => ?_) (fun hk17 => ?_) (fun hk18 => ?_)
      (fun hk19 => ?_)
    · cases he : fs.file_exists config.hsgr_data_path with
      | true => rfl
      | false => exact absurd ⟨hk5, he⟩ h5
    · cases he : fs.file_exists config.core_data_path with
      | true => rfl
      | false => exact absurd ⟨hk9, he⟩ h9
    · cases he : fs.file_exists config.mld_partition_path with
      | true => rfl
      | false => exact absurd ⟨hk17, he⟩ h17
    · cases he : fs.file_exists config.mld_storage_path with
      | true => rfl
      | false => exact absurd ⟨hk18, he⟩ h18
    · cases he : fs.file_exists config.mld_graph_path with
      | true => rfl
      | false => exact absurd ⟨hk19, he⟩ h19
  obtain ⟨st, hst⟩ := runBlocks_complete (layoutBlocks fs config) hall ⟨layout, []⟩
  exact ⟨st, hst, populateLayout_completed_run fs config layout st hst⟩

/-- Witness of C15: on `plainFiles`, where the five optional files are missing and every other
block completes, the run completes, started on a layout with 7 entries in every block; the
block of the core markers has zero entries and the names have the 12 entries of their file. -/
theorem populateLayout_missing_optional_witness :
    (∀ (k : Nat) (block : LayoutState → Option LayoutState),
      (layoutBlocks plainFiles shortConfig)[k]? = some block →
      (k = 5 → plainFiles.file_exists shortConfig.hsgr_data_path = true) →
      (k = 9 → plainFiles.file_exists shortConfig.core_data_path = true) →
      (k = 17 → plainFiles.file_exists shortConfig.mld_partition_path = true) →
      (k = 18 → plainFiles.file_exists shortConfig.mld_storage_path = true) →
      (k = 19 → plainFiles.file_exists shortConfig.mld_graph_path = true) →
      ∀ st, (block st).isSome = true) ∧
    plainFiles.file_exists shortConfig.core_data_path = false ∧
    (PopulateLayout plainFiles shortConfig sevenLayout).map
        (fun st => (st.layout.num_entries BlockID.CH_CORE_MARKER,
          st.layout.num_entries BlockID.NAME_CHAR_DATA, st.opened)) =
      some (0, 12, ["names", "tld", "edges", "nodes", "ramIndex", "timestamp", "twp", "tdp",
        "nbg", "geometry", "icd", "tls"]) ∧
    ∃ st : LayoutState, PopulateLayout plainFiles shortConfig sevenLayout = some st ∧
      (plainFiles.file_exists shortConfig.core_data_path = false →
        st.layout.num_entries BlockID.CH_CORE_MARKER = 0 ∧
        shortConfig.core_data_path ∉ st.opened) := by
  have hother : ∀ (k : Nat) (block : LayoutState → Option LayoutState),
      (layoutBlocks plainFiles shortConfig)[k]? = some block →
      (k = 5 → plainFiles.file_exists shortConfig.hsgr_data_path = true) →
      (k = 9 → plainFiles.file_exists shortConfig.core_data_path = true) →
      (k = 17 → plainFiles.file_exists shortConfig.mld_partition_path = true) →
      (k = 18 → plainFiles.file_exists shortConfig.mld_storage_path = true) →
      (k = 19 → plainFiles.file_exists shortConfig.mld_graph_path = true) →
      ∀ st, (block st).isSome = true := by
    intro k block hk h5 h9 h17 h18 h19
    have hk20 : k < 20 := by
      have := (List.getElem?_eq_some.1 hk).1
      rwa [layoutBlocks_length] at this
    interval_cases k <;>
      simp only [layoutBlocks, List.getElem?_cons_succ, List.getElem?_cons_zero,
        Option.some.injEq] at hk <;>
      subst hk
    · intro st; rfl
    · intro st; rfl
    · intro st; rfl
    · intro st; rfl
    · intro st; rfl
    · exact absurd (h5 rfl) (by decide)
    · intro st; rfl
    · intro st; rfl
    · intro st; rfl
    · exact absurd (h9 rfl) (by decide)
    · intro st; rfl
    · intro st; rfl
    · intro st; rfl
    · intro st; rfl
    · intro st; rfl
    · intro st; rfl
    · intro st; rfl
    · exact absurd (h17 rfl) (by decide)
    · exact absurd (h18 rfl) (by decide)
    · exact absurd (h19 rfl) (by decide)
  exact ⟨hother, by decide, by decide,
    (populateLayout_missing_optional plainFiles shortConfig sevenLayout hother).imp
      (fun _ h => ⟨h.1, h.2.1⟩)⟩

end storage

end osrm
